import Mathlib

/-!
# Structured-grid halo exchange (struct_mv/struct_communication.c)

A shallow embedding of the entry computation (hypre_CommTypeSetEntry), of the
pack loop of hypre_InitializeCommunication and of the unpack loop of
hypre_FinalizeCommunication, with the properties of the specification proved
about them.

Conventions of the embedding.

* A C `int` is an `Int`; signed overflow is undefined behaviour in C and is
  outside the model.
* A C array of `int` or of `double` is a total map from subscripts to cells
  (`Int → Int`, `Int → α`); a pointer into it is a subscript. Only in-range
  subscripts mean anything for the C program.
* The type `α` of a `double` is kept abstract: it has a zero (the all-zero
  bit pattern written by `memset`) and an addition (the machine addition of
  `+=`), of which no law is assumed.
* A `for (c = 0; c < n; c++)` loop is `forLoop`; the `while` loop of the
  dimension collapse is `whileLoop` with a fuel that its variant never
  exhausts.
-/

namespace Hypre

/-! ## Loops and cells -/

/-- Runs `body 0`, `body 1`, ..., `body (n-1)` in this order:
`for (c = 0; c < n; c++) body(c)`. -/
def forLoop {σ : Type} (n : Nat) (body : Nat → σ → σ) (s : σ) : σ :=
  match n with
  | 0 => s
  | k + 1 => body k (forLoop k body s)

/-- Runs `while (cond) body` for at most `fuel` rounds. -/
def whileLoop {σ : Type} (fuel : Nat) (cond : σ → Bool) (body : σ → σ) (s : σ) : σ :=
  match fuel with
  | 0 => s
  | k + 1 => if cond s then whileLoop k cond body (body s) else s

/-- The array `a` after the assignment `a[i] = v`. -/
def setAt {β : Type} (a : Int → β) (i : Int) (v : β) : Int → β :=
  fun k => if k = i then v else a k

/-! ## Geometry primitives

The box macros live in a header that is not part of the sources at hand; they
are modelled from section 3 of the specification. -/

/-- A point, stride or size: `int[3]`. -/
structure hypre_Index where
  x : Int
  y : Int
  z : Int
deriving DecidableEq, Repr

/-- Component `d` of an index (`hypre_IndexD`), for `d` in 0..2. -/
def hypre_IndexD (index : hypre_Index) (d : Int) : Int :=
  if d = 0 then index.x else if d = 1 then index.y else index.z

/-- A box: the pair of its lower and upper corner. -/
structure hypre_Box where
  imin : hypre_Index
  imax : hypre_Index
deriving DecidableEq, Repr

/-- Modelled from the spec: the macro hypre_BoxSizeD is not in the sources;
`size_d = imax_d − imin_d + 1`. -/
def hypre_BoxSizeD (box : hypre_Box) (d : Int) : Int :=
  hypre_IndexD box.imax d - hypre_IndexD box.imin d + 1

/-- Modelled from the spec: the macro hypre_BoxVolume is not in the sources;
`volume = ∏ size_d`. -/
def hypre_BoxVolume (box : hypre_Box) : Int :=
  hypre_BoxSizeD box 0 * hypre_BoxSizeD box 1 * hypre_BoxSizeD box 2

/-- Modelled from the spec: the macro hypre_BoxIndexRank is not in the sources;
`(pz−iminz)·sizex·sizey + (py−iminy)·sizex + (px−iminx)`. -/
def hypre_BoxIndexRank (box : hypre_Box) (index : hypre_Index) : Int :=
  (index.z - box.imin.z) * hypre_BoxSizeD box 0 * hypre_BoxSizeD box 1
    + (index.y - box.imin.y) * hypre_BoxSizeD box 0
    + (index.x - box.imin.x)

/-- The ceiling of `a / b` for a positive `b`. -/
def ceilDiv (a b : Int) : Int := (a + b - 1) / b

/-- Modelled from the spec: the macro hypre_BoxGetStrideSize is not in the
sources; `stride_size_d(s) = ⌈size_d / s_d⌉`. -/
def hypre_BoxGetStrideSize (box : hypre_Box) (stride : hypre_Index) : hypre_Index :=
  { x := ceilDiv (hypre_BoxSizeD box 0) stride.x
    y := ceilDiv (hypre_BoxSizeD box 1) stride.y
    z := ceilDiv (hypre_BoxSizeD box 2) stride.z }

/-! ## Compiled entries -/

/-- The compiled descriptor of one sub-array move (hypre_CommEntryType). -/
structure hypre_CommEntryType where
  offset : Int
  dim : Int
  length_array : Int → Int
  stride_array : Int → Int
  order : List Int

/-- The cell `order[ll]` of an order array; the subscript is in range whenever
the array has `num_values` cells. -/
def orderAt (order : List Int) (ll : Nat) : Int := order.getD ll 0

/-- The locals `offset`, `length_array`, `stride_array` and `dim` of
hypre_CommTypeSetEntry, with the counter `i` of its collapse loop. -/
structure SetEntryState where
  offset : Int
  length_array : Int → Int
  stride_array : Int → Int
  dim : Int
  i : Int

/-- Round `i` of the first loop of hypre_CommTypeSetEntry:
`length_array[i] = size[i]; stride_array[i] = stride[i];` followed by
`for (j = 0; j < i; j++) stride_array[i] *= hypre_BoxSizeD(data_box, j);`. -/
def setEntryInitAxis (size stride : hypre_Index) (data_box : hypre_Box) (i : Nat)
    (s : SetEntryState) : SetEntryState :=
  let length_array := setAt s.length_array i (hypre_IndexD size i)
  let stride_array := setAt s.stride_array i (hypre_IndexD stride i)
  let stride_array :=
    forLoop i (fun j a => setAt a i (a i * hypre_BoxSizeD data_box j)) stride_array
  { s with length_array := length_array, stride_array := stride_array }

/-- The start of hypre_CommTypeSetEntry: the initial offset, the three rounds
of the first loop and `stride_array[3] = hypre_BoxVolume(data_box)`. -/
def setEntryInit (box : hypre_Box) (stride : hypre_Index) (data_box : hypre_Box)
    (data_box_offset : Int) (comm_entry : hypre_CommEntryType) : SetEntryState :=
  let s : SetEntryState :=
    { offset := data_box_offset + hypre_BoxIndexRank data_box box.imin
      length_array := comm_entry.length_array
      stride_array := comm_entry.stride_array
      dim := 3
      i := 0 }
  let s := forLoop 3 (setEntryInitAxis (hypre_BoxGetStrideSize box stride) stride data_box) s
  { s with stride_array := setAt s.stride_array 3 (hypre_BoxVolume data_box) }

/-- Round `i` of the adjustment for `dir`:
`if (dir[i] < 0) { offset += (length_array[i] - 1)*stride_array[i];
stride_array[i] = -stride_array[i]; }`. -/
def setEntryDirAxis (dir : hypre_Index) (i : Nat) (s : SetEntryState) : SetEntryState :=
  if hypre_IndexD dir i < 0 then
    { s with
      offset := s.offset + (s.length_array i - 1) * s.stride_array i
      stride_array := setAt s.stride_array i (-(s.stride_array i)) }
  else s

/-- The adjustment for `dir`. -/
def setEntryDir (dir : hypre_Index) (s : SetEntryState) : SetEntryState :=
  forLoop 3 (setEntryDirAxis dir) s

/-- The adjustment for `coord`: both arrays are saved in temporaries, then
`j = coord[i]; length_array[j] = tmp_length_array[i];
stride_array[j] = tmp_stride_array[i];` for `i` = 0, 1, 2. -/
def setEntryCoord (coord : hypre_Index) (s : SetEntryState) : SetEntryState :=
  let tmp_length_array := s.length_array
  let tmp_stride_array := s.stride_array
  forLoop 3
    (fun i t =>
      let j := hypre_IndexD coord i
      { t with
        length_array := setAt t.length_array j (tmp_length_array i)
        stride_array := setAt t.stride_array j (tmp_stride_array i) })
    s

/-- The body of the collapse loop: when `length_array[i] == 1` the higher
axes below `dim` move down one slot, slot `dim - 1` becomes length 1, stride 1
and `dim` decreases; otherwise `i` increases. -/
def collapseBody (s : SetEntryState) : SetEntryState :=
  if s.length_array s.i = 1 then
    let t :=
      forLoop (s.dim - 1 - s.i).toNat
        (fun c (t : SetEntryState) =>
          let j := s.i + c
          { t with
            length_array := setAt t.length_array j (t.length_array (j + 1))
            stride_array := setAt t.stride_array j (t.stride_array (j + 1)) })
        s
    { t with
      length_array := setAt t.length_array (s.dim - 1) 1
      stride_array := setAt t.stride_array (s.dim - 1) 1
      dim := s.dim - 1 }
  else
    { s with i := s.i + 1 }

/-- The collapse loop `dim = 3; i = 0; while (i < dim) ...`; every round
lowers `dim - i` by one, so three rounds of fuel are never exhausted. -/
def setEntryCollapse (s : SetEntryState) : SetEntryState :=
  whileLoop 3 (fun t => decide (t.i < t.dim)) collapseBody { s with dim := 3, i := 0 }

/-- The arrays of hypre_CommTypeSetEntry after the adjustments for `dir` and
`coord`, before the collapse loop. -/
def setEntryAdjusted (box : hypre_Box) (stride coord dir : hypre_Index)
    (data_box : hypre_Box) (data_box_offset : Int) (comm_entry : hypre_CommEntryType) :
    SetEntryState :=
  setEntryCoord coord (setEntryDir dir (setEntryInit box stride data_box data_box_offset comm_entry))

/-- The entry left in `comm_entry` by hypre_CommTypeSetEntry: the collapsed
arrays, `dim` (raised to 1 when every axis collapsed), the offset and the
order pointer. No other cell of `comm_entry` is written. -/
def hypre_CommTypeSetEntry (box : hypre_Box) (stride coord dir : hypre_Index)
    (order : List Int) (data_box : hypre_Box) (data_box_offset : Int)
    (comm_entry : hypre_CommEntryType) : hypre_CommEntryType :=
  let s := setEntryCollapse (setEntryAdjusted box stride coord dir data_box data_box_offset comm_entry)
  let dim := if s.dim = 0 then 1 else s.dim
  { offset := s.offset
    dim := dim
    length_array := s.length_array
    stride_array := s.stride_array
    order := order }

/-! ## Pack and unpack walks -/

/-- The running pointers of a pack or unpack walk: the array being written
(`mem`: the send buffer when packing, `recv_data` when unpacking), the buffer
position `dptr`, and the data position `ptr` (`jptr`, `kptr` or `lptr`,
according to the loop). -/
structure Cursor (α : Type) where
  mem : Int → α
  dptr : Int
  ptr : Int

/-- The array `dst` after `memcpy(dst + d, src + s, n*sizeof(double))`. A
negative `n` is undefined behaviour in C; the model copies nothing there. -/
def memcpy {α : Type} (dst : Int → α) (d : Int) (src : Int → α) (s : Int) (n : Int) : Int → α :=
  fun a => if d ≤ a ∧ a < d + n then src (s + (a - d)) else dst a

/-- The array `dst` after `memset(dst + d, 0, n*sizeof(double))`. A negative
`n` is undefined behaviour in C; the model writes nothing there. -/
def memsetZero {α : Type} [Zero α] (dst : Int → α) (d : Int) (n : Int) : Int → α :=
  fun a => if d ≤ a ∧ a < d + n then 0 else dst a

/-- The strided row loop of the pack:
`iptr = jptr; for (ii = 0; ii < length; ii++) { dptr[ii] = *iptr; iptr += stride; }`. -/
def packRowLoop {α : Type} (send_data : Int → α) (length stride : Int) (buf : Int → α)
    (dptr jptr : Int) : Int → α :=
  (forLoop length.toNat
    (fun ii (t : (Int → α) × Int) => (setAt t.1 (dptr + ii) (send_data t.2), t.2 + stride))
    (buf, jptr)).1

/-- The body of the `jj` loop of the pack (`ptr` is `jptr`): a `memcpy` of the
row when `stride_array[0] == 1`, the strided row loop otherwise; then
`dptr += length_array[0]; jptr += stride_array[1];`. -/
def packRow {α : Type} (send_data : Int → α) (length_array stride_array : Int → Int)
    (c : Cursor α) : Cursor α :=
  { mem :=
      if stride_array 0 = 1 then memcpy c.mem c.dptr send_data c.ptr (length_array 0)
      else packRowLoop send_data (length_array 0) (stride_array 0) c.mem c.dptr c.ptr
    dptr := c.dptr + length_array 0
    ptr := c.ptr + stride_array 1 }

/-- The body of the `kk` loop of the pack (`ptr` is `kptr`):
`jptr = kptr;` the `jj` loop; `kptr += stride_array[2];`. -/
def packPlane {α : Type} (send_data : Int → α) (length_array stride_array : Int → Int)
    (c : Cursor α) : Cursor α :=
  let r := forLoop (length_array 1).toNat
    (fun _ t => packRow send_data length_array stride_array t) c
  { mem := r.mem, dptr := r.dptr, ptr := c.ptr + stride_array 2 }

/-- The body of the `ll` loop of the pack (`ptr` is `lptr`): when
`order[ll] > -1`, `kptr = lptr + order[ll]*stride_array[3];` and the `kk`
loop; otherwise `size = length_array[0]*length_array[1]*length_array[2];`
zeros are written and `dptr += size;`. -/
def packValue {α : Type} [Zero α] (send_data : Int → α) (length_array stride_array : Int → Int)
    (order : List Int) (ll : Nat) (c : Cursor α) : Cursor α :=
  if orderAt order ll > -1 then
    let r := forLoop (length_array 2).toNat
      (fun _ t => packPlane send_data length_array stride_array t)
      { c with ptr := c.ptr + orderAt order ll * stride_array 3 }
    { mem := r.mem, dptr := r.dptr, ptr := c.ptr }
  else
    let size := length_array 0 * length_array 1 * length_array 2
    { mem := memsetZero c.mem c.dptr size, dptr := c.dptr + size, ptr := c.ptr }

/-- The body of the entry loop of the pack in hypre_InitializeCommunication:
`lptr = send_data + offset;` and the `ll` loop over `num_values`. The result
is the send buffer and `dptr` after the entry. -/
def packEntry {α : Type} [Zero α] (num_values : Int) (send_data : Int → α)
    (comm_entry : hypre_CommEntryType) (t : (Int → α) × Int) : (Int → α) × Int :=
  let r := forLoop num_values.toNat
    (packValue send_data comm_entry.length_array comm_entry.stride_array comm_entry.order)
    { mem := t.1, dptr := t.2, ptr := comm_entry.offset }
  (r.mem, r.dptr)

/-- The entry loop of the pack, `for (j = 0; j < num_entries; j++)`, over the
array `entries` of a CommType, from buffer position `dptr`. -/
def packEntries {α : Type} [Zero α] (num_values : Int) (send_data : Int → α)
    (num_entries : Int) (entries : Int → hypre_CommEntryType) (t : (Int → α) × Int) :
    (Int → α) × Int :=
  forLoop num_entries.toNat (fun j t => packEntry num_values send_data (entries j) t) t

/-- The adding row loop of the unpack:
`iptr = jptr; for (ii = 0; ii < length; ii++) { *iptr += dptr[ii]; iptr += stride; }`. -/
def unpackRowAdd {α : Type} [Add α] (buf : Int → α) (length stride : Int) (recv_data : Int → α)
    (dptr jptr : Int) : Int → α :=
  (forLoop length.toNat
    (fun ii (t : (Int → α) × Int) => (setAt t.1 t.2 (t.1 t.2 + buf (dptr + ii)), t.2 + stride))
    (recv_data, jptr)).1

/-- The copying strided row loop of the unpack:
`iptr = jptr; for (ii = 0; ii < length; ii++) { *iptr = dptr[ii]; iptr += stride; }`. -/
def unpackRowCopy {α : Type} (buf : Int → α) (length stride : Int) (recv_data : Int → α)
    (dptr jptr : Int) : Int → α :=
  (forLoop length.toNat
    (fun ii (t : (Int → α) × Int) => (setAt t.1 t.2 (buf (dptr + ii)), t.2 + stride))
    (recv_data, jptr)).1

/-- The body of the `jj` loop of the unpack (`ptr` is `jptr`, `mem` is
`recv_data`): the adding loop when `action > 0`; otherwise a `memcpy` when
`stride_array[0] == 1` and the copying loop when not; then
`dptr += length_array[0]; jptr += stride_array[1];`. -/
def unpackRow {α : Type} [Add α] (action : Int) (buf : Int → α)
    (length_array stride_array : Int → Int) (c : Cursor α) : Cursor α :=
  { mem :=
      if action > 0 then
        unpackRowAdd buf (length_array 0) (stride_array 0) c.mem c.dptr c.ptr
      else if stride_array 0 = 1 then memcpy c.mem c.ptr buf c.dptr (length_array 0)
      else unpackRowCopy buf (length_array 0) (stride_array 0) c.mem c.dptr c.ptr
    dptr := c.dptr + length_array 0
    ptr := c.ptr + stride_array 1 }

/-- The body of the `kk` loop of the unpack (`ptr` is `kptr`):
`jptr = kptr;` the `jj` loop; `kptr += stride_array[2];`. -/
def unpackPlane {α : Type} [Add α] (action : Int) (buf : Int → α)
    (length_array stride_array : Int → Int) (c : Cursor α) : Cursor α :=
  let r := forLoop (length_array 1).toNat
    (fun _ t => unpackRow action buf length_array stride_array t) c
  { mem := r.mem, dptr := r.dptr, ptr := c.ptr + stride_array 2 }

/-- The body of the `ll` loop of the unpack (`ptr` is `lptr`):
`kptr = lptr;` the `kk` loop; `lptr += stride_array[3];`. -/
def unpackValue {α : Type} [Add α] (action : Int) (buf : Int → α)
    (length_array stride_array : Int → Int) (c : Cursor α) : Cursor α :=
  let r := forLoop (length_array 2).toNat
    (fun _ t => unpackPlane action buf length_array stride_array t) c
  { mem := r.mem, dptr := r.dptr, ptr := c.ptr + stride_array 3 }

/-- The body of the entry loop of the unpack in hypre_FinalizeCommunication:
`lptr = recv_data + offset;` and the `ll` loop over `num_values`. The result
is `recv_data` and `dptr` after the entry. -/
def unpackEntry {α : Type} [Add α] (action : Int) (num_values : Int) (buf : Int → α)
    (comm_entry : hypre_CommEntryType) (t : (Int → α) × Int) : (Int → α) × Int :=
  let r := forLoop num_values.toNat
    (fun _ c => unpackValue action buf comm_entry.length_array comm_entry.stride_array c)
    { mem := t.1, dptr := t.2, ptr := comm_entry.offset }
  (r.mem, r.dptr)

/-- The entry loop of the unpack, `for (j = 0; j < num_entries; j++)`, over
the array `entries` of a CommType, from buffer position `dptr`. -/
def unpackEntries {α : Type} [Add α] (action : Int) (num_values : Int) (buf : Int → α)
    (num_entries : Int) (entries : Int → hypre_CommEntryType) (t : (Int → α) × Int) :
    (Int → α) × Int :=
  forLoop num_entries.toNat (fun j t => unpackEntry action num_values buf (entries j) t) t


/-! ## Sequences of writes

The walks are described by the list of the cells they visit, in the order of
the visit. -/

/-- Applies `w d b` for the items `b` of a list in turn, `d` counting the
buffer positions from `d`. -/
def seqWrite {β μ : Type} (w : Int → β → μ → μ) : List β → Int → μ → μ
  | [], _, m => m
  | b :: bs, d, m => seqWrite w bs (d + 1) (w d b m)

/-- The buffer after the values `vals` are written to the consecutive
positions `d`, `d + 1`, ... -/
def emit {α : Type} (vals : List α) (d : Int) (buf : Int → α) : Int → α :=
  seqWrite (fun p v b => setAt b p v) vals d buf

/-- The array after one unpack store into cell `a`: `*iptr += v` when
`action > 0`, `*iptr = v` otherwise. -/
def store {α : Type} [Add α] (action : Int) (mem : Int → α) (a : Int) (v : α) : Int → α :=
  setAt mem a (if action > 0 then mem a + v else v)

/-- The array after the consecutive buffer cells `buf[d]`, `buf[d + 1]`, ...
are stored, in turn, into the cells `addrs`. -/
def scatter {α : Type} [Add α] (action : Int) (buf : Int → α) (addrs : List Int) (d : Int)
    (mem : Int → α) : Int → α :=
  seqWrite (fun p a m => store action m a (buf p)) addrs d mem

/-- The cells `p + ii*stride_array[0]` of a row, `ii < length_array[0]`. -/
def rowAddrs (length_array stride_array : Int → Int) (p : Int) : List Int :=
  (List.range (length_array 0).toNat).map (fun (ii : Nat) => p + (ii : Int) * stride_array 0)

/-- The cells of the rows `jj < length_array[1]` of a plane, row `jj` starting
at `p + jj*stride_array[1]`. -/
def planeAddrs (length_array stride_array : Int → Int) (p : Int) : List Int :=
  (List.range (length_array 1).toNat).flatMap
    (fun (jj : Nat) => rowAddrs length_array stride_array (p + (jj : Int) * stride_array 1))

/-- The cells visited by the nested walk `kk < length_array[2]`,
`jj < length_array[1]`, `ii < length_array[0]` (`ii` fastest) from `p`:
`p + kk*stride_array[2] + jj*stride_array[1] + ii*stride_array[0]`. -/
def boxAddrs (length_array stride_array : Int → Int) (p : Int) : List Int :=
  (List.range (length_array 2).toNat).flatMap
    (fun (kk : Nat) => planeAddrs length_array stride_array (p + (kk : Int) * stride_array 2))

/-- The number of cells of one value component of an entry:
`length_array[0]*length_array[1]*length_array[2]`. -/
def entrySize (length_array : Int → Int) : Nat :=
  (length_array 2).toNat * ((length_array 1).toNat * (length_array 0).toNat)

/-- The doubles packed for value component `ll` of an entry: the cells of
`send_data` walked from `offset + order[ll]*stride_array[3]`, or zeros when
`order[ll]` is -1. -/
def valuePayload {α : Type} [Zero α] (send_data : Int → α) (comm_entry : hypre_CommEntryType)
    (ll : Nat) : List α :=
  if orderAt comm_entry.order ll > -1 then
    (boxAddrs comm_entry.length_array comm_entry.stride_array
      (comm_entry.offset + orderAt comm_entry.order ll * comm_entry.stride_array 3)).map send_data
  else List.replicate (entrySize comm_entry.length_array) 0

/-- The doubles packed for an entry, value component after value component. -/
def entryPayload {α : Type} [Zero α] (num_values : Int) (send_data : Int → α)
    (comm_entry : hypre_CommEntryType) : List α :=
  (List.range num_values.toNat).flatMap (valuePayload send_data comm_entry)

/-- The cells of `recv_data` visited by the unpack of an entry, in the order
of the visit: component `ll` is walked from `offset + ll*stride_array[3]`. -/
def entryAddrs (num_values : Int) (comm_entry : hypre_CommEntryType) : List Int :=
  (List.range num_values.toNat).flatMap
    (fun (ll : Nat) => boxAddrs comm_entry.length_array comm_entry.stride_array
      (comm_entry.offset + (ll : Int) * comm_entry.stride_array 3))

/-- The position of the double of `(ll, kk, jj, ii)` in the payload of an
entry with lengths `(lx, ly, lz)`: `((ll*lz + kk)*ly + jj)*lx + ii`. -/
def payloadPos (lx ly lz : Nat) (ll kk jj ii : Nat) : Nat :=
  ((ll * lz + kk) * ly + jj) * lx + ii

/-- The number of doubles of the payload of an entry:
`num_values*length_array[0]*length_array[1]*length_array[2]`. -/
def payloadSize (num_values : Int) (comm_entry : hypre_CommEntryType) : Int :=
  num_values * comm_entry.length_array 0 * comm_entry.length_array 1 * comm_entry.length_array 2

/-- The buffer position at which the payload of entry `j` of a CommType
starts when the payload of entry 0 starts at `dptr`: the payloads of the
entries before `j` lie in between. -/
def payloadStart (num_values : Int) (entries : Int → hypre_CommEntryType) (dptr : Int) :
    Nat → Int
  | 0 => dptr
  | j + 1 => payloadStart num_values entries dptr j + payloadSize num_values (entries j)

/-- The axes among 0, 1, 2 whose length is not 1, in increasing order. -/
def keptAxes (length_array : Int → Int) : List Nat :=
  (List.range 3).filter (fun i => decide (length_array (i : Int) ≠ 1))

/-- The stride in the flat buffer of one step along axis `i` of a data box
walked with `stride`: `stride[i]` times the sizes of the data box along the
axes below `i`. -/
def axisStride (stride : hypre_Index) (data_box : hypre_Box) (i : Int) : Int :=
  if i = 0 then stride.x
  else if i = 1 then stride.y * hypre_BoxSizeD data_box 0
  else stride.z * hypre_BoxSizeD data_box 0 * hypre_BoxSizeD data_box 1

/-- The components of `coord` are 0, 1 and 2 in some order. -/
def isPermutation (coord : hypre_Index) : Prop :=
  (coord.x = 0 ∨ coord.x = 1 ∨ coord.x = 2) ∧ (coord.y = 0 ∨ coord.y = 1 ∨ coord.y = 2)
    ∧ (coord.z = 0 ∨ coord.z = 1 ∨ coord.z = 2)
    ∧ coord.x ≠ coord.y ∧ coord.x ≠ coord.z ∧ coord.y ≠ coord.z

instance (coord : hypre_Index) : Decidable (isPermutation coord) := by
  unfold isPermutation
  infer_instance

/-- Modelled from the spec: the sizes of the C types are fixed by the
platform, not by the sources; `sizeof(int) = 4`. -/
def sizeof_int : Int := 4

/-- Modelled from the spec: `sizeof(hypre_Box) = 24`, six `int`s. -/
def sizeof_hypre_Box : Int := 24

/-- Modelled from the spec: `sizeof(double) = 8`. -/
def sizeof_double : Int := 8

/-- The size in doubles reserved for the message prefix of `ne` entries
(the macro hypre_CommPrefixSize), for `ne ≥ 0`:
`(((1+ne)*sizeof(int) + ne*sizeof(hypre_Box))/sizeof(double)) + 1`. -/
def hypre_CommPrefixSize (ne : Int) : Int :=
  (((1 + ne) * sizeof_int + ne * sizeof_hypre_Box) / sizeof_double) + 1

/-- The plan for one peer (hypre_CommType). -/
structure hypre_CommType where
  proc : Int
  bufsize : Int
  num_entries : Int
  entries : Int → hypre_CommEntryType
  rem_boxnums : Int → Int
  rem_boxes : Int → hypre_Box

/-- The unpack loop of hypre_FinalizeCommunication over the receive
CommTypes: for `i < num_recvs`, `dptr = recv_buffers[i]`, moved past the
prefix of `num_entries` entries when `first_comm` is set, then the entry loop.
`recv_buffers[i]` is the position of buffer `i` in the one block `buffer` of
receive buffers. The result is `recv_data` after the loop. -/
def unpackRecvTypes {α : Type} [Add α] (first_comm : Int) (action : Int) (num_values : Int)
    (num_recvs : Int) (recv_types : Int → hypre_CommType) (recv_buffers : Int → Int)
    (buffer : Int → α) (recv_data : Int → α) : Int → α :=
  forLoop num_recvs.toNat
    (fun i rd =>
      let comm_type := recv_types i
      let num_entries := comm_type.num_entries
      let dptr := recv_buffers i
      let dptr := if first_comm ≠ 0 then dptr + hypre_CommPrefixSize num_entries else dptr
      (unpackEntries action num_values buffer num_entries comm_type.entries (rd, dptr)).1)
    recv_data

/-- The entry that holds the arrays of hypre_CommTypeSetEntry as they are
after the adjustments for `dir` and `coord`, before the collapse loop. -/
def uncollapsedEntry (box : hypre_Box) (stride coord dir : hypre_Index) (order : List Int)
    (data_box : hypre_Box) (data_box_offset : Int) (comm_entry : hypre_CommEntryType) :
    hypre_CommEntryType :=
  { offset := (setEntryAdjusted box stride coord dir data_box data_box_offset comm_entry).offset
    dim := 3
    length_array :=
      (setEntryAdjusted box stride coord dir data_box data_box_offset comm_entry).length_array
    stride_array :=
      (setEntryAdjusted box stride coord dir data_box data_box_offset comm_entry).stride_array
    order := order }

/-- The identity order `0, 1, ..., num_values - 1` set up by
hypre_CommPkgCreate (`send_order[i] = i`). -/
def identityOrder (num_values : Int) : List Int :=
  (List.range num_values.toNat).map (fun (i : Nat) => (i : Int))

/-- The box has at least one point: `imin ≤ imax` componentwise. -/
def boxNonempty (box : hypre_Box) : Prop :=
  box.imin.x ≤ box.imax.x ∧ box.imin.y ≤ box.imax.y ∧ box.imin.z ≤ box.imax.z

instance (box : hypre_Box) : Decidable (boxNonempty box) := by
  unfold boxNonempty
  infer_instance

/-- The region `box` lies inside `data_box`. -/
def boxInside (box data_box : hypre_Box) : Prop :=
  data_box.imin.x ≤ box.imin.x ∧ box.imax.x ≤ data_box.imax.x
    ∧ data_box.imin.y ≤ box.imin.y ∧ box.imax.y ≤ data_box.imax.y
    ∧ data_box.imin.z ≤ box.imin.z ∧ box.imax.z ≤ data_box.imax.z

instance (box data_box : hypre_Box) : Decidable (boxInside box data_box) := by
  unfold boxInside
  infer_instance

/-- Every component of the stride is at least 1. -/
def stridePositive (stride : hypre_Index) : Prop :=
  1 ≤ stride.x ∧ 1 ≤ stride.y ∧ 1 ≤ stride.z

instance (stride : hypre_Index) : Decidable (stridePositive stride) := by
  unfold stridePositive
  infer_instance

/-- The cell of `data` that holds value component `v` of the grid point
`index` of a data box stored from `data_box_offset`: components are stored
one after another, each with the points of the box in index-rank order. -/
def cellOf (data_box : hypre_Box) (data_box_offset : Int) (v : Int) (index : hypre_Index) : Int :=
  data_box_offset + v * hypre_BoxVolume data_box + hypre_BoxIndexRank data_box index

/-- The strided grid point `(i, j, k)` of a region: `imin + (i, j, k)*stride`. -/
def stridedPoint (box : hypre_Box) (stride : hypre_Index) (i j k : Int) : hypre_Index :=
  { x := box.imin.x + i * stride.x
    y := box.imin.y + j * stride.y
    z := box.imin.z + k * stride.z }

/-- The index along one axis of the source point sent at loop index `i`:
`L - 1 - i` when the direction of the axis is negative, `i` otherwise. -/
def reflectIndex (d : Int) (L : Int) (i : Int) : Int :=
  if d < 0 then L - 1 - i else i

/-! ## Message prefix

A buffer of doubles is also read and written as an array of `int` through the
cast `(int *)`; the embedding keeps the two views of a block apart. An `int`
cell `q` lies in the double cell `q / 2`, and the program reads every cell
through the view it was written with. -/

/-- The number of `int` cells of a box in memory,
`sizeof(hypre_Box)/sizeof(int)`. -/
def intsPerBox : Int := sizeof_hypre_Box / sizeof_int

/-- The position as an `int` cell of the double cell `d` of a buffer: the
cast `(int *)` of a pointer to double. -/
def intIndex (d : Int) : Int := d * (sizeof_double / sizeof_int)

/-- Modelled from the spec: the layout of a box in memory is fixed by a header
that is not in the sources; `int` cell `c` of a box is imin x, y, z for `c` =
0, 1, 2 and imax x, y, z for `c` = 3, 4, 5. -/
def boxCell (box : hypre_Box) (c : Int) : Int :=
  if c = 0 then box.imin.x
  else if c = 1 then box.imin.y
  else if c = 2 then box.imin.z
  else if c = 3 then box.imax.x
  else if c = 4 then box.imax.y
  else box.imax.z

/-- An array of boxes read as an array of `int`: the source of
`memcpy(qptr, rem_boxes, num_entries*sizeof(hypre_Box))`. -/
def boxArrayInts (boxes : Int → hypre_Box) : Int → Int :=
  fun q => boxCell (boxes (q / intsPerBox)) (q % intsPerBox)

/-- The box that starts at `int` cell `q` of an array of `int`: the cast
`(hypre_Box *)` of a pointer to `int`. -/
def boxAtInts (ints : Int → Int) (q : Int) : hypre_Box :=
  { imin := { x := ints q, y := ints (q + 1), z := ints (q + 2) }
    imax := { x := ints (q + 3), y := ints (q + 4), z := ints (q + 5) } }

/-- The prefix written by hypre_InitializeCommunication at `int` cell `qptr`:
`*qptr = num_entries; qptr++;` then the `num_entries` remote box numbers,
`qptr += num_entries;` then the `num_entries` remote boxes. The result is the
`int` view of the buffer. -/
def writePrefix (ints : Int → Int) (qptr : Int) (num_entries : Int) (rem_boxnums : Int → Int)
    (rem_boxes : Int → hypre_Box) : Int → Int :=
  let ints := setAt ints qptr num_entries
  let qptr := qptr + 1
  let ints := memcpy ints qptr rem_boxnums 0 num_entries
  let qptr := qptr + num_entries
  memcpy ints qptr (boxArrayInts rem_boxes) 0 (num_entries * intsPerBox)

/-- The entry count read from a prefix by hypre_FinalizeCommunication:
`*qptr`. -/
def prefixNumEntries (ints : Int → Int) (qptr : Int) : Int := ints qptr

/-- The array `boxnums` of a prefix: `qptr++; boxnums = qptr;`. -/
def prefixBoxnums (ints : Int → Int) (qptr : Int) : Int → Int :=
  fun j => ints (qptr + 1 + j)

/-- The array `boxes` of a prefix: `qptr += num_entries;
boxes = (hypre_Box *) qptr;`. -/
def prefixBoxes (ints : Int → Int) (qptr : Int) : Int → hypre_Box :=
  fun j => boxAtInts ints (qptr + 1 + prefixNumEntries ints qptr + j * intsPerBox)

/-! ## Local copy -/

/-- The adding row loop of hypre_ExchangeLocalData:
`for (i0 = 0; i0 < length_array[0]; i0++) { to_dp[to_i] += from_dp[from_i];
from_i += from_stride_array[0]; to_i += to_stride_array[0]; }`.
Source and destination are cells of one memory `heap`. -/
def localRowAdd {α : Type} [Add α] (length from_stride to_stride : Int) (from_dp to_dp : Int)
    (from_i to_i : Int) (heap : Int → α) : Int → α :=
  (forLoop length.toNat
    (fun _ (t : (Int → α) × Int × Int) =>
      (setAt t.1 (to_dp + t.2.2) (t.1 (to_dp + t.2.2) + t.1 (from_dp + t.2.1)),
        t.2.1 + from_stride, t.2.2 + to_stride))
    (heap, from_i, to_i)).1

/-- The copying row loop of hypre_ExchangeLocalData:
`for (i0 = 0; i0 < length_array[0]; i0++) { to_dp[to_i] = from_dp[from_i];
from_i += from_stride_array[0]; to_i += to_stride_array[0]; }`. -/
def localRowCopy {α : Type} (length from_stride to_stride : Int) (from_dp to_dp : Int)
    (from_i to_i : Int) (heap : Int → α) : Int → α :=
  (forLoop length.toNat
    (fun _ (t : (Int → α) × Int × Int) =>
      (setAt t.1 (to_dp + t.2.2) (t.1 (from_dp + t.2.1)),
        t.2.1 + from_stride, t.2.2 + to_stride))
    (heap, from_i, to_i)).1

/-- The body of the entry loop of hypre_ExchangeLocalData for one pair of
entries: `from_dp = send_data + offset(from); to_dp = recv_data + offset(to);`
nothing is done when the two pointers are equal; otherwise, for every value
component `i3` with `order[i3] > -1` and every `i2`, `i1` (lengths and order
of the from-entry), `from_i` and `to_i` are computed and the row is added or
copied according to `action`. `send_data` and `recv_data` are addresses in
`heap`. -/
def exchangeLocalEntry {α : Type} [Add α] (num_values action : Int) (send_data recv_data : Int)
    (copy_from_entry copy_to_entry : hypre_CommEntryType) (heap : Int → α) : Int → α :=
  let from_dp := send_data + copy_from_entry.offset
  let to_dp := recv_data + copy_to_entry.offset
  if to_dp ≠ from_dp then
    let length_array := copy_from_entry.length_array
    let from_stride_array := copy_from_entry.stride_array
    let to_stride_array := copy_to_entry.stride_array
    let order := copy_from_entry.order
    forLoop num_values.toNat
      (fun i3 h =>
        if orderAt order i3 > -1 then
          forLoop (length_array 2).toNat
            (fun i2 h =>
              forLoop (length_array 1).toNat
                (fun i1 h =>
                  let from_i := orderAt order i3 * from_stride_array 3
                    + i2 * from_stride_array 2 + i1 * from_stride_array 1
                  let to_i := i3 * to_stride_array 3 + i2 * to_stride_array 2
                    + i1 * to_stride_array 1
                  if action > 0 then
                    localRowAdd (length_array 0) (from_stride_array 0) (to_stride_array 0)
                      from_dp to_dp from_i to_i h
                  else
                    localRowCopy (length_array 0) (from_stride_array 0) (to_stride_array 0)
                      from_dp to_dp from_i to_i h)
                h)
            h
        else h)
      heap
  else heap

/-- The assignments `heap[p.1] = heap[p.2]` (`+=` when `action > 0`) for the
pairs `p` of a list, in turn. -/
def copySeq {α : Type} [Add α] (action : Int) (pairs : List (Int × Int)) (heap : Int → α) :
    Int → α :=
  pairs.foldl
    (fun h p => setAt h p.1 (if action > 0 then h p.1 + h p.2 else h p.2)) heap

/-- The pairs (destination cell, source cell) of the local copy of one pair of
entries, in the order of the loops: for `i3 < num_values` with
`order[i3] > -1`, `i2 < length[2]`, `i1 < length[1]`, `i0 < length[0]`, the
cell `recv_data + to.offset + i3*to.stride[3] + i2*to.stride[2] +
i1*to.stride[1] + i0*to.stride[0]` and the cell `send_data + from.offset +
order[i3]*from.stride[3] + i2*from.stride[2] + i1*from.stride[1] +
i0*from.stride[0]`. -/
def localPairs (num_values : Int) (send_data recv_data : Int)
    (copy_from_entry copy_to_entry : hypre_CommEntryType) : List (Int × Int) :=
  (List.range num_values.toNat).flatMap (fun (i3 : Nat) =>
    if orderAt copy_from_entry.order i3 > -1 then
      (List.range (copy_from_entry.length_array 2).toNat).flatMap (fun (i2 : Nat) =>
        (List.range (copy_from_entry.length_array 1).toNat).flatMap (fun (i1 : Nat) =>
          (List.range (copy_from_entry.length_array 0).toNat).map (fun (i0 : Nat) =>
            (recv_data + copy_to_entry.offset
                + ((i3 : Int) * copy_to_entry.stride_array 3
                  + (i2 : Int) * copy_to_entry.stride_array 2
                  + (i1 : Int) * copy_to_entry.stride_array 1)
                + (i0 : Int) * copy_to_entry.stride_array 0,
              send_data + copy_from_entry.offset
                + (orderAt copy_from_entry.order i3 * copy_from_entry.stride_array 3
                  + (i2 : Int) * copy_from_entry.stride_array 2
                  + (i1 : Int) * copy_from_entry.stride_array 1)
                + (i0 : Int) * copy_from_entry.stride_array 0))))
    else [])

/-! ## Box arrays and the description of an exchange -/

/-- An array of boxes (hypre_BoxArray), read through hypre_BoxArraySize and
hypre_BoxArrayBox. -/
structure hypre_BoxArray where
  size : Int
  boxes : Int → hypre_Box

/-- An array of box arrays (hypre_BoxArrayArray), read through
hypre_BoxArrayArraySize and hypre_BoxArrayArrayBoxArray. -/
structure hypre_BoxArrayArray where
  size : Int
  box_arrays : Int → hypre_BoxArray

/-- The grid-based description of an exchange (hypre_CommInfo), with the fields
that hypre_CommPkgCreate reads through the hypre_CommInfo accessors. The
arrays `processes`, `rboxnums` and `transforms` are indexed `[i][j]` like the
boxes; a transforms array may be NULL (`none`). -/
structure hypre_CommInfo where
  boxes_match : Int
  send_boxes : hypre_BoxArrayArray
  recv_boxes : hypre_BoxArrayArray
  send_stride : hypre_Index
  recv_stride : hypre_Index
  send_processes : Int → Int → Int
  recv_processes : Int → Int → Int
  send_rboxnums : Int → Int → Int
  recv_rboxnums : Int → Int → Int
  send_rboxes : hypre_BoxArrayArray
  recv_rboxes : hypre_BoxArrayArray
  num_transforms : Int
  coords : Int → hypre_Index
  dirs : Int → hypre_Index
  send_transforms : Option (Int → Int → Int)
  recv_transforms : Option (Int → Int → Int)

/-- Modelled from the spec: hypre_BoxGetStrideVolume is not in the sources; the
number of points of the box met when stepping by `stride`, the product of the
stride sizes. -/
def hypre_BoxGetStrideVolume (box : hypre_Box) (stride : hypre_Index) : Int :=
  (hypre_BoxGetStrideSize box stride).x * (hypre_BoxGetStrideSize box stride).y
    * (hypre_BoxGetStrideSize box stride).z

/-- The loop nest `hypre_ForBoxArrayI(i, boxes) { box_array = boxes[i];
hypre_ForBoxI(j, box_array) { body } }`. -/
def forBoxes {σ : Type} (boxes : hypre_BoxArrayArray) (body : Int → Int → σ → σ) (s : σ) : σ :=
  forLoop boxes.size.toNat
    (fun i s => forLoop (boxes.box_arrays i).size.toNat (fun j s => body i j s) s) s

/-- The array `data_offsets` after the loop
`data_offset = 0; hypre_ForBoxI(i, data_space) { data_offsets[i] = data_offset;
data_offset += hypre_BoxVolume(data_box) * num_values; }`. -/
def setDataOffsets (data_space : hypre_BoxArray) (num_values : Int) (data_offsets : Int → Int) :
    Int → Int :=
  (forLoop data_space.size.toNat
    (fun i (t : (Int → Int) × Int) =>
      (setAt t.1 i t.2, t.2 + hypre_BoxVolume (data_space.boxes i) * num_values))
    (data_offsets, 0)).1

/-! ## Building the package -/

/-- A hypre_CommType while hypre_CommPkgCreate builds it. The pointers
`entries`, `rem_boxnums` and `rem_boxes` are positions in the flat blocks
`ct_entries`, `ct_rem_boxnums` and `ct_rem_boxes`; `none` is NULL. -/
structure CommTypeSlot where
  proc : Int
  bufsize : Int
  num_entries : Int
  entries : Option Int
  rem_boxnums : Option Int
  rem_boxes : Option Int

/-- A CommType as hypre_CTAlloc returns it: all fields zero. -/
def zeroSlot : CommTypeSlot := ⟨0, 0, 0, none, none, none⟩

/-- The variables of the counting passes of hypre_CommPkgCreate. -/
structure CountState where
  p_comm_types : Int → Int
  num_comms : Int
  num_entries : Int

/-- The body of the first loop nest over `send_boxes` for a box with process
`p`: `if (hypre_BoxVolume(box) != 0) { p_comm_types[p]--; num_entries++;
if ((p_comm_types[p] == -1) && (p != my_proc)) num_comms++; }`. -/
def sendCountBody (my_proc : Int) (box : hypre_Box) (p : Int) (s : CountState) : CountState :=
  if hypre_BoxVolume box ≠ 0 then
    { p_comm_types := setAt s.p_comm_types p (s.p_comm_types p - 1)
      num_comms :=
        if s.p_comm_types p - 1 = -1 ∧ p ≠ my_proc then s.num_comms + 1 else s.num_comms
      num_entries := s.num_entries + 1 }
  else s

/-- The body of the first loop nest over `recv_boxes`: as for the send boxes,
without the count of the entries. -/
def recvCountBody (my_proc : Int) (box : hypre_Box) (p : Int) (s : CountState) : CountState :=
  if hypre_BoxVolume box ≠ 0 then
    { p_comm_types := setAt s.p_comm_types p (s.p_comm_types p - 1)
      num_comms :=
        if s.p_comm_types p - 1 = -1 ∧ p ≠ my_proc then s.num_comms + 1 else s.num_comms
      num_entries := s.num_entries }
  else s

/-- The variables of the second loop nest over `send_boxes`: the array
`p_comm_types`, the array `comm_types`, the three flat blocks with the running
pointers `ct_entries`, `ct_rem_boxnums`, `ct_rem_boxes` into them, `m`,
`comm_bufsize`, and the current `send_coord`, `send_dir`, `send_order`. -/
structure SendState where
  p_comm_types : Int → Int
  comm_types : Int → CommTypeSlot
  entries : Int → hypre_CommEntryType
  rem_boxnums : Int → Int
  rem_boxes : Int → hypre_Box
  ct_entries : Int
  ct_rem_boxnums : Int
  ct_rem_boxes : Int
  m : Int
  comm_bufsize : Int
  send_coord : hypre_Index
  send_dir : hypre_Index
  send_order : List Int

/-- The block `if (p_comm_types[p] < 0) { ... }` of the second send loop nest:
CommType `m` is set up for process `p` with the prefix size of its
`k = -p_comm_types[p]` entries and the next `k` cells of the flat blocks. -/
def sendInitType (p : Int) (s : SendState) : SendState :=
  if s.p_comm_types p < 0 then
    { s with
      p_comm_types := setAt s.p_comm_types p s.m
      comm_types := setAt s.comm_types s.m
        { proc := p
          bufsize := hypre_CommPrefixSize (-s.p_comm_types p)
          num_entries := 0
          entries := some s.ct_entries
          rem_boxnums := some s.ct_rem_boxnums
          rem_boxes := some s.ct_rem_boxes }
      comm_bufsize := s.comm_bufsize + hypre_CommPrefixSize (-s.p_comm_types p)
      ct_entries := s.ct_entries + -s.p_comm_types p
      ct_rem_boxnums := s.ct_rem_boxnums + -s.p_comm_types p
      ct_rem_boxes := s.ct_rem_boxes + -s.p_comm_types p
      m := s.m + 1 }
  else s

/-- The assignments `if (send_transforms != NULL) { send_coord = coords[t];
send_dir = dirs[t]; if (orders != NULL) send_order = cp_orders[t]; }` with
`t = send_transforms[i][j]`; `cp_orders` is `none` when `orders` is NULL. -/
def sendResolve (coords dirs : Int → hypre_Index) (send_transforms : Option (Int → Int → Int))
    (cp_orders : Option (Int → List Int)) (i j : Int) (s : SendState) : SendState :=
  match send_transforms with
  | none => s
  | some tr =>
    { s with
      send_coord := coords (tr i j)
      send_dir := dirs (tr i j)
      send_order :=
        match cp_orders with
        | none => s.send_order
        | some cp => cp (tr i j) }

/-- The rest of the body of the second send loop nest for a box of process
`p`, after the CommType of `p` is set up: the payload size is added, the
entry `k = num_entries` of the CommType is built and `rem_boxnums[k]`,
`rem_boxes[k]` are recorded. -/
def sendAddEntry (num_values : Int) (send_stride : hypre_Index) (box data_box : hypre_Box)
    (data_offset : Int) (rboxnum : Int) (rbox : hypre_Box) (p : Int) (s : SendState) :
    SendState :=
  let c := s.p_comm_types p
  let comm_type := s.comm_types c
  let k := comm_type.num_entries
  let size := hypre_BoxGetStrideVolume box send_stride
  let e := comm_type.entries.getD 0 + k
  { s with
    comm_types := setAt s.comm_types c
      { comm_type with
        bufsize := comm_type.bufsize + size * num_values
        num_entries := k + 1 }
    comm_bufsize := s.comm_bufsize + size * num_values
    entries := setAt s.entries e
      (hypre_CommTypeSetEntry box send_stride s.send_coord s.send_dir s.send_order data_box
        data_offset (s.entries e))
    rem_boxnums := setAt s.rem_boxnums (comm_type.rem_boxnums.getD 0 + k) rboxnum
    rem_boxes := setAt s.rem_boxes (comm_type.rem_boxes.getD 0 + k) rbox }

/-- The body of the second loop nest over `send_boxes`, for box `(i, j)`. -/
def sendFillBody (num_values : Int) (send_stride : hypre_Index)
    (send_boxes : hypre_BoxArrayArray) (send_processes send_rboxnums : Int → Int → Int)
    (send_rboxes : hypre_BoxArrayArray) (coords dirs : Int → hypre_Index)
    (send_transforms : Option (Int → Int → Int)) (cp_orders : Option (Int → List Int))
    (send_data_space : hypre_BoxArray) (data_offsets : Int → Int) (i j : Int) (s : SendState) :
    SendState :=
  let box := (send_boxes.box_arrays i).boxes j
  if hypre_BoxVolume box ≠ 0 then
    let p := send_processes i j
    let s := sendInitType p s
    let s := sendResolve coords dirs send_transforms cp_orders i j s
    sendAddEntry num_values send_stride box (send_data_space.boxes i) (data_offsets i)
      (send_rboxnums i j) ((send_rboxes.box_arrays i).boxes j) p s
  else s
/-- The variables of the second loop nest over `recv_boxes`. -/
structure RecvState where
  p_comm_types : Int → Int
  comm_types : Int → CommTypeSlot
  m : Int
  comm_bufsize : Int

/-- The block `if (p_comm_types[p] < 0) { ... }` of the second recv loop nest;
the pointers of the CommType stay as hypre_CTAlloc left them. -/
def recvInitType (p : Int) (s : RecvState) : RecvState :=
  if s.p_comm_types p < 0 then
    { p_comm_types := setAt s.p_comm_types p s.m
      comm_types := setAt s.comm_types s.m
        { s.comm_types s.m with
          proc := p
          bufsize := hypre_CommPrefixSize (-s.p_comm_types p)
          num_entries := 0 }
      comm_bufsize := s.comm_bufsize + hypre_CommPrefixSize (-s.p_comm_types p)
      m := s.m + 1 }
  else s

/-- The body of the second loop nest over `recv_boxes`, for box `(i, j)`. -/
def recvFillBody (num_values : Int) (recv_stride : hypre_Index)
    (recv_boxes : hypre_BoxArrayArray) (recv_processes : Int → Int → Int) (i j : Int)
    (s : RecvState) : RecvState :=
  let box := (recv_boxes.box_arrays i).boxes j
  let p := recv_processes i j
  if hypre_BoxVolume box ≠ 0 then
    let s := recvInitType p s
    let c := s.p_comm_types p
    let comm_type := s.comm_types c
    let size := hypre_BoxGetStrideVolume box recv_stride
    { s with
      comm_types := setAt s.comm_types c
        { comm_type with
          bufsize := comm_type.bufsize + size * num_values
          num_entries := comm_type.num_entries + 1 }
      comm_bufsize := s.comm_bufsize + size * num_values }
  else s

/-- The body of the loop over the recv CommTypes that runs when the send and
recv boxes of the CommInfo do not match; `hypre_CommPkgRecvType(comm_pkg, i)`
is `comm_types[i + 1]` and the second component is the recv bufsize of the
package. -/
def maxBufsizeBody (i : Int) (t : (Int → CommTypeSlot) × Int) : (Int → CommTypeSlot) × Int :=
  let comm_type := t.1 (i + 1)
  let num_entries := comm_type.num_entries
  let bufsize := comm_type.bufsize - hypre_CommPrefixSize num_entries
  let num_entries := bufsize
  let size := hypre_CommPrefixSize num_entries
  let bufsize := bufsize + size
  (setAt t.1 (i + 1) { comm_type with bufsize := bufsize, num_entries := num_entries },
    t.2 + bufsize)

/-- The array `cp_orders` after the copy loops
`for (i < num_transforms) for (j < num_values) cp_orders[i][j] = orders[i][j];`
each row being an array of `num_values` ints. -/
def copyOrders (num_transforms num_values : Int) (orders : Int → Int → Int) : Int → List Int :=
  forLoop num_transforms.toNat
    (fun i cp =>
      setAt cp i ((List.range num_values.toNat).map (fun (j : Nat) => orders i j)))
    (fun _ => [])

/-- The array stored as `hypre_CommPkgOrders`: the copy `cp_orders` of
`orders` when `send_transforms` and `orders` are both not NULL, NULL
otherwise. -/
def storedOrders (send_transforms : Option (Int → Int → Int))
    (orders : Option (Int → Int → Int)) (num_transforms num_values : Int) :
    Option (Int → List Int) :=
  match send_transforms, orders with
  | some _, some o => some (copyOrders num_transforms num_values o)
  | _, _ => none

/-- The contents of the blocks that hypre_CommPkgCreate gets from hypre_TAlloc,
which does not initialise them. -/
structure CreateMemory where
  send_data_offsets : Int → Int
  recv_data_offsets : Int → Int
  ct_entries : Int → hypre_CommEntryType
  ct_rem_boxnums : Int → Int
  ct_rem_boxes : Int → hypre_Box

/-- The array seen through a pointer into a block; the NULL pointer shows the
array `null`. -/
def blockAt {β : Type} (null : Int → β) (block : Int → β) : Option Int → Int → β
  | none => null
  | some q => fun k => block (q + k)

/-- The entry with all fields zero. -/
def zeroEntry : hypre_CommEntryType := ⟨0, 0, fun _ => 0, fun _ => 0, []⟩

/-- The box with all fields zero. -/
def zeroBox : hypre_Box := ⟨⟨0, 0, 0⟩, ⟨0, 0, 0⟩⟩

/-- The CommType of a slot, its three arrays being read in the flat blocks. -/
def commTypeView (entries : Int → hypre_CommEntryType) (rem_boxnums : Int → Int)
    (rem_boxes : Int → hypre_Box) (c : CommTypeSlot) : hypre_CommType :=
  { proc := c.proc
    bufsize := c.bufsize
    num_entries := c.num_entries
    entries := blockAt (fun _ => zeroEntry) entries c.entries
    rem_boxnums := blockAt (fun _ => 0) rem_boxnums c.rem_boxnums
    rem_boxes := blockAt (fun _ => zeroBox) rem_boxes c.rem_boxes }

/-- The communication package (hypre_CommPkg), with the fields that the
routines of struct_communication.c reach through the hypre_CommPkg
accessors. A CommType holds its arrays as they are seen through its pointers;
`orders` is NULL (`none`) or the array `cp_orders`. -/
structure hypre_CommPkg where
  comm : Int
  first_comm : Int
  num_values : Int
  send_stride : hypre_Index
  recv_stride : hypre_Index
  send_bufsize : Int
  recv_bufsize : Int
  num_sends : Int
  num_recvs : Int
  send_types : Int → hypre_CommType
  recv_types : Int → hypre_CommType
  copy_from_type : hypre_CommType
  copy_to_type : hypre_CommType
  num_orders : Int
  orders : Option (Int → List Int)
  recv_data_offsets : Int → Int
  recv_data_space : hypre_BoxArray
  identity_coord : hypre_Index
  identity_dir : hypre_Index
  identity_order : List Int

/-- The variables of the second loop nest over `send_boxes` at its start,
after the local copy type `comm_types[0]` is set up: it gets the first
`k = -p_comm_types[my_proc]` cells of the flat blocks, and `send_coord`,
`send_dir`, `send_order` are the identity transform of the package. -/
def sendStart (p_comm_types : Int → Int) (num_values my_proc : Int) (mem : CreateMemory) :
    SendState :=
  let k := -p_comm_types my_proc
  { p_comm_types := setAt p_comm_types my_proc 0
    comm_types := setAt (fun _ => zeroSlot) 0
      { zeroSlot with
        proc := my_proc
        num_entries := 0
        entries := some 0
        rem_boxnums := some 0
        rem_boxes := some 0 }
    entries := mem.ct_entries
    rem_boxnums := mem.ct_rem_boxnums
    rem_boxes := mem.ct_rem_boxes
    ct_entries := 0 + k
    ct_rem_boxnums := 0 + k
    ct_rem_boxes := 0 + k
    m := 1
    comm_bufsize := 0
    send_coord := ⟨0, 1, 2⟩
    send_dir := ⟨1, 1, 1⟩
    send_order := identityOrder num_values }

/-- The state of the send side of hypre_CommPkgCreate after its two loop
nests: the counts of the first and the variables of the second. -/
def sendSide (send_boxes : hypre_BoxArrayArray) (send_stride : hypre_Index)
    (send_processes send_rboxnums : Int → Int → Int) (send_rboxes : hypre_BoxArrayArray)
    (send_transforms : Option (Int → Int → Int)) (coords dirs : Int → hypre_Index)
    (cp_orders : Option (Int → List Int)) (send_data_space : hypre_BoxArray)
    (num_values : Int) (my_proc : Int) (mem : CreateMemory) : CountState × SendState :=
  let data_offsets := setDataOffsets send_data_space num_values mem.send_data_offsets
  let count := forBoxes send_boxes
    (fun i j s =>
      sendCountBody my_proc ((send_boxes.box_arrays i).boxes j) (send_processes i j) s)
    { p_comm_types := fun _ => 0, num_comms := 0, num_entries := 0 }
  let fill := forBoxes send_boxes
    (sendFillBody num_values send_stride send_boxes send_processes send_rboxnums send_rboxes
      coords dirs send_transforms cp_orders send_data_space data_offsets)
    (sendStart count.p_comm_types num_values my_proc mem)
  (count, fill)

/-- The variables of the second loop nest over `recv_boxes` at its start, after
the local copy type `comm_types[0]` is set up. -/
def recvStart (p_comm_types : Int → Int) (my_proc : Int) : RecvState :=
  { p_comm_types := setAt p_comm_types my_proc 0
    comm_types := setAt (fun _ => zeroSlot) 0 { zeroSlot with proc := my_proc, num_entries := 0 }
    m := 1
    comm_bufsize := 0 }

/-- The state of the recv side of hypre_CommPkgCreate after its two loop
nests, from the array `p_comm_types` and the count `num_entries` that the
send side left. -/
def recvSide (recv_boxes : hypre_BoxArrayArray) (recv_stride : hypre_Index)
    (recv_processes : Int → Int → Int) (num_values : Int) (my_proc : Int)
    (p_comm_types : Int → Int) (num_entries : Int) : CountState × RecvState :=
  let count := forBoxes recv_boxes
    (fun i j s =>
      recvCountBody my_proc ((recv_boxes.box_arrays i).boxes j) (recv_processes i j) s)
    { p_comm_types := p_comm_types, num_comms := 0, num_entries := num_entries }
  let fill := forBoxes recv_boxes
    (recvFillBody num_values recv_stride recv_boxes recv_processes)
    (recvStart count.p_comm_types my_proc)
  (count, fill)

/-- The body of hypre_CommPkgCreate after the send and recv roles are chosen,
`my_proc` being the rank that `MPI_Comm_rank` returns; `num_transforms`,
`coords`, `dirs` and `boxes_match` are read in the CommInfo. -/
def commPkgBuild (send_boxes recv_boxes : hypre_BoxArrayArray)
    (send_stride recv_stride : hypre_Index) (send_processes recv_processes : Int → Int → Int)
    (send_rboxnums : Int → Int → Int) (send_rboxes : hypre_BoxArrayArray)
    (send_transforms : Option (Int → Int → Int)) (num_transforms : Int)
    (coords dirs : Int → hypre_Index) (boxes_match : Int)
    (send_data_space recv_data_space : hypre_BoxArray) (num_values : Int)
    (orders : Option (Int → Int → Int)) (comm my_proc : Int) (mem : CreateMemory) :
    hypre_CommPkg :=
  let cp_orders := storedOrders send_transforms orders num_transforms num_values
  let send := sendSide send_boxes send_stride send_processes send_rboxnums send_rboxes
    send_transforms coords dirs cp_orders send_data_space num_values my_proc mem
  let view := commTypeView send.2.entries send.2.rem_boxnums send.2.rem_boxes
  let p_comm_types := forLoop (send.1.num_comms + 1).toNat
    (fun m pct => setAt pct (send.2.comm_types m).proc 0) send.2.p_comm_types
  let recv := recvSide recv_boxes recv_stride recv_processes num_values my_proc p_comm_types
    send.1.num_entries
  let num_recvs := recv.1.num_comms
  let sized :=
    if boxes_match = 0 then
      forLoop num_recvs.toNat (fun i t => maxBufsizeBody i t) (recv.2.comm_types, 0)
    else (recv.2.comm_types, recv.2.comm_bufsize)
  let rview := commTypeView (fun _ => zeroEntry) (fun _ => 0) (fun _ => zeroBox)
  { comm := comm
    first_comm := 1
    num_values := num_values
    send_stride := send_stride
    recv_stride := recv_stride
    send_bufsize := send.2.comm_bufsize
    recv_bufsize := sized.2
    num_sends := send.1.num_comms
    num_recvs := num_recvs
    send_types := fun i => view (send.2.comm_types (i + 1))
    recv_types := fun i => rview (sized.1 (i + 1))
    copy_from_type := view (send.2.comm_types 0)
    copy_to_type := rview (sized.1 0)
    num_orders :=
      match cp_orders with
      | some _ => num_transforms
      | none => 0
    orders := cp_orders
    recv_data_offsets := setDataOffsets recv_data_space num_values mem.recv_data_offsets
    recv_data_space := recv_data_space
    identity_coord := ⟨0, 1, 2⟩
    identity_dir := ⟨1, 1, 1⟩
    identity_order := identityOrder num_values }

/-- The routine hypre_CommPkgCreate: when `reverse > 0` the send and recv
fields of the CommInfo and the two data spaces trade places. -/
def hypre_CommPkgCreate (comm_info : hypre_CommInfo)
    (send_data_space recv_data_space : hypre_BoxArray) (num_values : Int)
    (orders : Option (Int → Int → Int)) (reverse : Int) (comm my_proc : Int)
    (mem : CreateMemory) : hypre_CommPkg :=
  if reverse > 0 then
    commPkgBuild comm_info.recv_boxes comm_info.send_boxes comm_info.recv_stride
      comm_info.send_stride comm_info.recv_processes comm_info.send_processes
      comm_info.recv_rboxnums comm_info.recv_rboxes comm_info.recv_transforms
      comm_info.num_transforms comm_info.coords comm_info.dirs comm_info.boxes_match
      recv_data_space send_data_space num_values orders comm my_proc mem
  else
    commPkgBuild comm_info.send_boxes comm_info.recv_boxes comm_info.send_stride
      comm_info.recv_stride comm_info.send_processes comm_info.recv_processes
      comm_info.send_rboxnums comm_info.send_rboxes comm_info.send_transforms
      comm_info.num_transforms comm_info.coords comm_info.dirs comm_info.boxes_match
      send_data_space recv_data_space num_values orders comm my_proc mem
/-! ## The exchange routines -/

/-- The routine hypre_CommTypeSetEntries: entry `j < num_entries` of the
CommType is built for box `boxes[j]` in data box `boxnums[j]`. The CommType
enters by its fields `num_entries` and `entries`, the latter as a position in
the block `block` that holds the entries; the result is the block. -/
def hypre_CommTypeSetEntries (num_entries : Int) (entries : Int) (boxnums : Int → Int)
    (boxes : Int → hypre_Box) (stride coord dir : hypre_Index) (order : List Int)
    (data_space : hypre_BoxArray) (data_offsets : Int → Int)
    (block : Int → hypre_CommEntryType) : Int → hypre_CommEntryType :=
  forLoop num_entries.toNat
    (fun j block =>
      let i := boxnums j
      setAt block (entries + j)
        (hypre_CommTypeSetEntry (boxes j) stride coord dir order (data_space.boxes i)
          (data_offsets i) (block (entries + j))))
    block

/-- The routine hypre_ExchangeLocalData: the entries of `copy_from_type` are
copied to the entries of `copy_to_type` in the memory `heap`, in which
`send_data` and `recv_data` point. -/
def hypre_ExchangeLocalData {α : Type} [Add α] (comm_pkg : hypre_CommPkg)
    (send_data recv_data : Int) (action : Int) (heap : Int → α) : Int → α :=
  forLoop comm_pkg.copy_from_type.num_entries.toNat
    (fun i heap =>
      exchangeLocalEntry comm_pkg.num_values action send_data recv_data
        (comm_pkg.copy_from_type.entries i) (comm_pkg.copy_to_type.entries i) heap)
    heap

/-- A call of the transport, `MPI_Irecv` or `MPI_Isend`, with its arguments:
the buffer (a position in the block of receive or send buffers), the count in
bytes, the peer, the tag and the communicator. -/
structure MPI_Request where
  is_send : Bool
  buf : Int
  count : Int
  proc : Int
  tag : Int
  comm : Int
deriving DecidableEq

/-- The handle of an exchange under way (hypre_CommHandle). `requests` lists
the calls of the transport in the order in which they were posted. -/
structure hypre_CommHandle where
  comm_pkg : hypre_CommPkg
  send_data : Int
  recv_data : Int
  num_requests : Int
  requests : List MPI_Request
  send_buffers : Int → Int
  recv_buffers : Int → Int
  action : Int

/-- The array of buffer pointers after
`if (num > 0) { buffers[0] = hypre_SharedTAlloc(double, size); for (i = 1;
i < num; i++) buffers[i] = buffers[i-1] + bufsize of type i-1; }`, the new
block starting at position 0. -/
def setBuffers (num : Int) (types : Int → hypre_CommType) (buffers : Int → Int) : Int → Int :=
  if num > 0 then
    forLoop (num - 1).toNat
      (fun n b => setAt b ((n : Int) + 1) (b n + (types n).bufsize))
      (setAt buffers 0 0)
  else buffers

/-- The variables of the pack loop of hypre_InitializeCommunication: the send
CommTypes and the block of send buffers, read as doubles and as ints. -/
structure PackState (α : Type) where
  send_types : Int → hypre_CommType
  send_buffer : Int → α
  send_ints : Int → Int

/-- The body of the pack loop for send CommType `i`: on the first
communication the prefix is written through `qptr`, the CommType gives up
`rem_boxnums` and `rem_boxes` and `dptr` moves past the prefix; then the
entries are packed. -/
def packSendType {α : Type} [Zero α] (first_comm num_values : Int) (send_data : Int → α)
    (send_buffers : Int → Int) (i : Int) (s : PackState α) : PackState α :=
  let comm_type := s.send_types i
  let num_entries := comm_type.num_entries
  let dptr := send_buffers i
  if first_comm ≠ 0 then
    { send_types := setAt s.send_types i
        { comm_type with rem_boxnums := fun _ => 0, rem_boxes := fun _ => zeroBox }
      send_ints := writePrefix s.send_ints (intIndex (send_buffers i)) num_entries
        comm_type.rem_boxnums comm_type.rem_boxes
      send_buffer := (packEntries num_values send_data num_entries comm_type.entries
        (s.send_buffer, dptr + hypre_CommPrefixSize num_entries)).1 }
  else
    { s with
      send_buffer := (packEntries num_values send_data num_entries comm_type.entries
        (s.send_buffer, dptr)).1 }

/-- The variables of a posting loop: the CommTypes, the bufsize of the package
for this direction and the calls posted so far. -/
structure PostState where
  types : Int → hypre_CommType
  bufsize : Int
  requests : List MPI_Request

/-- The body of the loops that post the receives (`is_send` false) and the
sends (`is_send` true): the call gets `bufsize*sizeof(double)` bytes of the
CommType; on the first communication the prefix size is then taken off the
bufsize of the CommType and of the package. -/
def postBody (is_send : Bool) (first_comm tag comm : Int) (buffers : Int → Int) (i : Int)
    (s : PostState) : PostState :=
  let comm_type := s.types i
  let request : MPI_Request :=
    ⟨is_send, buffers i, comm_type.bufsize * sizeof_double, comm_type.proc, tag, comm⟩
  if first_comm ≠ 0 then
    { types := setAt s.types i
        { comm_type with
          bufsize := comm_type.bufsize - hypre_CommPrefixSize comm_type.num_entries }
      bufsize := s.bufsize - hypre_CommPrefixSize comm_type.num_entries
      requests := s.requests ++ [request] }
  else { s with requests := s.requests ++ [request] }

/-- The contents of the blocks that hypre_InitializeCommunication allocates
without initialising them: the two arrays of buffer pointers, the block of
send buffers (read as doubles and as ints) and the entries of `copy_to_type`. -/
structure InitializeMemory (α : Type) where
  send_buffers : Int → Int
  recv_buffers : Int → Int
  send_buffer : Int → α
  send_ints : Int → Int
  to_entries : Int → hypre_CommEntryType

/-- What hypre_InitializeCommunication leaves: the handle with the package,
the block of send buffers (read as doubles and as ints) and the memory of the
data after the local copy. -/
structure InitializeResult (α : Type) where
  comm_handle : hypre_CommHandle
  send_buffer : Int → α
  send_ints : Int → Int
  heap : Int → α

/-- The routine hypre_InitializeCommunication. `send_data` and `recv_data` are
positions in the memory `heap`. -/
def hypre_InitializeCommunication {α : Type} [Zero α] [Add α] (comm_pkg : hypre_CommPkg)
    (send_data recv_data : Int) (action tag : Int) (mem : InitializeMemory α)
    (heap : Int → α) : InitializeResult α :=
  let num_values := comm_pkg.num_values
  let num_sends := comm_pkg.num_sends
  let num_recvs := comm_pkg.num_recvs
  let send_buffers := setBuffers num_sends comm_pkg.send_types mem.send_buffers
  let recv_buffers := setBuffers num_recvs comm_pkg.recv_types mem.recv_buffers
  let packed := forLoop num_sends.toNat
    (fun i s =>
      packSendType comm_pkg.first_comm num_values (fun a => heap (send_data + a)) send_buffers
        i s)
    { send_types := comm_pkg.send_types
      send_buffer := mem.send_buffer
      send_ints := mem.send_ints }
  let recvs := forLoop num_recvs.toNat
    (fun i s => postBody false comm_pkg.first_comm tag comm_pkg.comm recv_buffers i s)
    { types := comm_pkg.recv_types, bufsize := comm_pkg.recv_bufsize, requests := [] }
  let sends := forLoop num_sends.toNat
    (fun i s => postBody true comm_pkg.first_comm tag comm_pkg.comm send_buffers i s)
    { types := packed.send_types, bufsize := comm_pkg.send_bufsize, requests := recvs.requests }
  let to_type :=
    if comm_pkg.first_comm ≠ 0 then
      { comm_pkg.copy_to_type with
        num_entries := comm_pkg.copy_from_type.num_entries
        entries := hypre_CommTypeSetEntries comm_pkg.copy_from_type.num_entries 0
          comm_pkg.copy_from_type.rem_boxnums comm_pkg.copy_from_type.rem_boxes
          comm_pkg.recv_stride comm_pkg.identity_coord comm_pkg.identity_dir
          comm_pkg.identity_order comm_pkg.recv_data_space comm_pkg.recv_data_offsets
          mem.to_entries }
    else comm_pkg.copy_to_type
  let pkg : hypre_CommPkg :=
    { comm_pkg with
      send_types := sends.types
      recv_types := recvs.types
      send_bufsize := sends.bufsize
      recv_bufsize := recvs.bufsize
      copy_to_type := to_type }
  { comm_handle :=
      { comm_pkg := pkg
        send_data := send_data
        recv_data := recv_data
        num_requests := num_sends + num_recvs
        requests := sends.requests
        send_buffers := send_buffers
        recv_buffers := recv_buffers
        action := action }
    send_buffer := packed.send_buffer
    send_ints := packed.send_ints
    heap := hypre_ExchangeLocalData pkg send_data recv_data action heap }

/-- The variables of the loop of hypre_FinalizeCommunication that reads the
prefixes: the block `ct_entries` with the running pointer into it, and the
position given to `hypre_CommTypeEntries` of each recv CommType. -/
structure ParseState where
  entries : Int → hypre_CommEntryType
  ct_entries : Int
  first : Int → Int

/-- The body of that loop for recv CommType `i`: the CommType gets the next
`num_entries` cells of the block, and its entries are built from the box
numbers and boxes of the prefix of its buffer. -/
def parseBody (comm_pkg : hypre_CommPkg) (types : Int → hypre_CommType)
    (recv_buffers : Int → Int) (recv_ints : Int → Int) (i : Int) (s : ParseState) : ParseState :=
  let comm_type := types i
  let qptr := intIndex (recv_buffers i)
  { first := setAt s.first i s.ct_entries
    ct_entries := s.ct_entries + comm_type.num_entries
    entries := hypre_CommTypeSetEntries comm_type.num_entries s.ct_entries
      (prefixBoxnums recv_ints qptr) (prefixBoxes recv_ints qptr) comm_pkg.recv_stride
      comm_pkg.identity_coord comm_pkg.identity_dir comm_pkg.identity_order
      comm_pkg.recv_data_space comm_pkg.recv_data_offsets s.entries }

/-- The recv CommTypes after the first-communication block of
hypre_FinalizeCommunication: `num_entries` of each is read at the start of its
buffer, then the entries are built in one block `ct_entries`, whose contents
before are `block`. -/
def parsePrefixes (comm_pkg : hypre_CommPkg) (recv_buffers : Int → Int) (recv_ints : Int → Int)
    (block : Int → hypre_CommEntryType) : Int → hypre_CommType :=
  let types := forLoop comm_pkg.num_recvs.toNat
    (fun i types =>
      setAt types i
        { types i with num_entries := prefixNumEntries recv_ints (intIndex (recv_buffers i)) })
    comm_pkg.recv_types
  let parsed := forLoop comm_pkg.num_recvs.toNat
    (fun i s => parseBody comm_pkg types recv_buffers recv_ints i s)
    { entries := block, ct_entries := 0, first := fun _ => 0 }
  forLoop comm_pkg.num_recvs.toNat
    (fun i types =>
      setAt types i { types i with entries := fun k => parsed.entries (parsed.first i + k) })
    types

/-- The routine hypre_FinalizeCommunication, after the wait: `recv_buffer` and
`recv_ints` are the block of receive buffers, read as doubles and as ints,
as the transport filled it; `block` is the content of the block allocated for
the entries on the first communication. The result is the package and the
memory of the data. -/
def hypre_FinalizeCommunication {α : Type} [Add α] (comm_handle : hypre_CommHandle)
    (recv_buffer : Int → α) (recv_ints : Int → Int) (block : Int → hypre_CommEntryType)
    (heap : Int → α) : hypre_CommPkg × (Int → α) :=
  let comm_pkg := comm_handle.comm_pkg
  let recv_types :=
    if comm_pkg.first_comm ≠ 0 then
      parsePrefixes comm_pkg comm_handle.recv_buffers recv_ints block
    else comm_pkg.recv_types
  let recv_data := unpackRecvTypes comm_pkg.first_comm comm_handle.action comm_pkg.num_values
    comm_pkg.num_recvs recv_types comm_handle.recv_buffers recv_buffer
    (fun a => heap (comm_handle.recv_data + a))
  ({ comm_pkg with recv_types := recv_types, first_comm := 0 },
    fun x => recv_data (x - comm_handle.recv_data))

/-- An operation on a package between its creation and its destruction. -/
inductive CommOp (α : Type) where
  | initComm (send_data recv_data action tag : Int) (mem : InitializeMemory α)
      (heap : Int → α)
  | finalComm (handle : hypre_CommHandle) (recv_buffer : Int → α) (recv_ints : Int → Int)
      (block : Int → hypre_CommEntryType) (heap : Int → α)
  | localCopy (send_data recv_data action : Int) (heap : Int → α)

/-- The package after an operation; the handle of a finalize is taken to
refer to the package at hand. -/
def applyOp {α : Type} [Zero α] [Add α] (op : CommOp α) (comm_pkg : hypre_CommPkg) :
    hypre_CommPkg :=
  match op with
  | .initComm send_data recv_data action tag mem heap =>
    (hypre_InitializeCommunication comm_pkg send_data recv_data action tag mem
      heap).comm_handle.comm_pkg
  | .finalComm handle recv_buffer recv_ints block heap =>
    (hypre_FinalizeCommunication { handle with comm_pkg := comm_pkg } recv_buffer recv_ints
      block heap).1
  | .localCopy _ _ _ _ => comm_pkg

/-- The package after a sequence of operations. -/
def runOps {α : Type} [Zero α] [Add α] (ops : List (CommOp α)) (comm_pkg : hypre_CommPkg) :
    hypre_CommPkg :=
  ops.foldl (fun pkg op => applyOp op pkg) comm_pkg
/-! ## Changes of a CommInfo and lists that describe a package -/

/-- The CommInfo with its send and recv boxes, strides, processes, rboxnums,
rboxes and transforms swapped. -/
def swapCommInfo (I : hypre_CommInfo) : hypre_CommInfo :=
  { I with
    send_boxes := I.recv_boxes
    recv_boxes := I.send_boxes
    send_stride := I.recv_stride
    recv_stride := I.send_stride
    send_processes := I.recv_processes
    recv_processes := I.send_processes
    send_rboxnums := I.recv_rboxnums
    recv_rboxnums := I.send_rboxnums
    send_rboxes := I.recv_rboxes
    recv_rboxes := I.send_rboxes
    send_transforms := I.recv_transforms
    recv_transforms := I.send_transforms }

/-- The array `f` with `v` inserted at position `j`: the cells from `j` on
move up by one. -/
def insertAt {β : Type} (f : Int → β) (j : Int) (v : β) : Int → β :=
  fun k => if k < j then f k else if k = j then v else f (k - 1)

/-- The array of box arrays with `b` inserted at position `j` of array `i`. -/
def insertBox (boxes : hypre_BoxArrayArray) (i j : Int) (b : hypre_Box) : hypre_BoxArrayArray :=
  { boxes with
    box_arrays := setAt boxes.box_arrays i
      { size := (boxes.box_arrays i).size + 1
        boxes := insertAt (boxes.box_arrays i).boxes j b } }

/-- The array `f[i][j]` of ints with `v` inserted at position `j` of row `i`. -/
def insertRow (f : Int → Int → Int) (i j : Int) (v : Int) : Int → Int → Int :=
  setAt f i (insertAt (f i) j v)

/-- The CommInfo with the box `b` inserted at position `(i, j)` of
`send_boxes`, and `p`, `rboxnum`, `rbox`, `t` at the same position of the send
processes, rboxnums, rboxes and transforms. -/
def insertSend (I : hypre_CommInfo) (i j : Int) (b : hypre_Box) (p rboxnum : Int)
    (rbox : hypre_Box) (t : Int) : hypre_CommInfo :=
  { I with
    send_boxes := insertBox I.send_boxes i j b
    send_processes := insertRow I.send_processes i j p
    send_rboxnums := insertRow I.send_rboxnums i j rboxnum
    send_rboxes := insertBox I.send_rboxes i j rbox
    send_transforms := I.send_transforms.map (fun tr => insertRow tr i j t) }

/-- The CommInfo with the box `b` inserted at position `(i, j)` of
`recv_boxes`, and `p`, `rboxnum`, `rbox`, `t` at the same position of the recv
processes, rboxnums, rboxes and transforms. -/
def insertRecv (I : hypre_CommInfo) (i j : Int) (b : hypre_Box) (p rboxnum : Int)
    (rbox : hypre_Box) (t : Int) : hypre_CommInfo :=
  { I with
    recv_boxes := insertBox I.recv_boxes i j b
    recv_processes := insertRow I.recv_processes i j p
    recv_rboxnums := insertRow I.recv_rboxnums i j rboxnum
    recv_rboxes := insertBox I.recv_rboxes i j rbox
    recv_transforms := I.recv_transforms.map (fun tr => insertRow tr i j t) }

/-- The box `[a, b]` on the x axis. -/
def sampleBox (a b : Int) : hypre_Box := ⟨⟨a, 0, 0⟩, ⟨b, 0, 0⟩⟩

/-- One array of four boxes: two points, one point, no point, three points. -/
def sampleBoxes : hypre_BoxArrayArray :=
  ⟨1, fun _ =>
    ⟨4, fun j =>
      if j = 0 then sampleBox 0 1 else if j = 1 then sampleBox 2 2
      else if j = 2 then sampleBox 5 4 else sampleBox 3 5⟩⟩

/-- A CommInfo on process 0: the send boxes go to the processes 1, 0, 1, 2
and the recv boxes come from the processes 1, 0, 1, 1. -/
def sampleInfo : hypre_CommInfo :=
  { boxes_match := 1
    send_boxes := sampleBoxes
    recv_boxes := sampleBoxes
    send_stride := ⟨1, 1, 1⟩
    recv_stride := ⟨1, 1, 1⟩
    send_processes := fun _ j => if j = 1 then 0 else if j = 3 then 2 else 1
    recv_processes := fun _ j => if j = 1 then 0 else 1
    send_rboxnums := fun _ _ => 0
    recv_rboxnums := fun _ _ => 0
    send_rboxes := sampleBoxes
    recv_rboxes := sampleBoxes
    num_transforms := 0
    coords := fun _ => ⟨0, 1, 2⟩
    dirs := fun _ => ⟨1, 1, 1⟩
    send_transforms := none
    recv_transforms := none }

/-- A data space of one box of ten points. -/
def sampleSpace : hypre_BoxArray := ⟨1, fun _ => sampleBox 0 9⟩

/-- Blocks of zeros. -/
def sampleMemory : CreateMemory :=
  ⟨fun _ => 0, fun _ => 0, fun _ => zeroEntry, fun _ => 0, fun _ => zeroBox⟩

/-- The package of `sampleInfo` for one value per point, on process 0. -/
def samplePkg : hypre_CommPkg :=
  hypre_CommPkgCreate sampleInfo sampleSpace sampleSpace 1 none 0 0 0 sampleMemory

/-- The positions `(i, j)` of the boxes of an array of box arrays, in the
order of the loop nest (`i` outer, `j` inner). -/
def boxIndices (boxes : hypre_BoxArrayArray) : List (Int × Int) :=
  (List.range boxes.size.toNat).flatMap
    (fun (i : Nat) =>
      (List.range (boxes.box_arrays i).size.toNat).map (fun (j : Nat) => ((i : Int), (j : Int))))

/-- The positions of the boxes whose volume is not 0, in the same order. -/
def nonemptyBoxes (boxes : hypre_BoxArrayArray) : List (Int × Int) :=
  (boxIndices boxes).filter
    (fun e => decide (hypre_BoxVolume ((boxes.box_arrays e.1).boxes e.2) ≠ 0))

/-- The list of peers with `p` added at the end, unless `p` is the local
process or is in the list. -/
def addPeer (my_proc : Int) (peers : List Int) (p : Int) : List Int :=
  if p = my_proc ∨ p ∈ peers then peers else peers ++ [p]

/-- The processes other than `my_proc` of a list, each once, in the order in
which they first occur. -/
def peersOf (my_proc : Int) (procs : List Int) : List Int :=
  procs.foldl (addPeer my_proc) []

/-- The processes other than `my_proc` that own a box with points, in the
order in which they first occur in the traversal of the boxes. -/
def peerList (my_proc : Int) (boxes : hypre_BoxArrayArray) (processes : Int → Int → Int) :
    List Int :=
  peersOf my_proc ((nonemptyBoxes boxes).map (fun e => processes e.1 e.2))

/-- The positions of the boxes with points of process `p`. -/
def peerBoxes (boxes : hypre_BoxArrayArray) (processes : Int → Int → Int) (p : Int) :
    List (Int × Int) :=
  (nonemptyBoxes boxes).filter (fun e => decide (processes e.1 e.2 = p))

/-- The payload of process `p` in doubles: `num_values` times the sum of the
stride volumes of its boxes with points. -/
def peerPayload (num_values : Int) (stride : hypre_Index) (boxes : hypre_BoxArrayArray)
    (processes : Int → Int → Int) (p : Int) : Int :=
  num_values * ((peerBoxes boxes processes p).map
    (fun e => hypre_BoxGetStrideVolume ((boxes.box_arrays e.1).boxes e.2) stride)).sum

/-- The sum of the bufsize of the CommTypes `0 .. n - 1` of an array. -/
def sumBufsize (comm_types : Int → CommTypeSlot) (n : Nat) : Int :=
  ((List.range n).map (fun (k : Nat) => (comm_types k).bufsize)).sum

/-- The sum of the bufsize of the send CommTypes of a package. -/
def sendTypesBufsize (comm_pkg : hypre_CommPkg) : Int :=
  ((List.range comm_pkg.num_sends.toNat).map
    (fun (i : Nat) => (comm_pkg.send_types i).bufsize)).sum

/-- The number of the events of process `p` in a list. -/
def cntOf (proc : Int × Int → Int) (done : List (Int × Int)) (p : Int) : Nat :=
  (done.filter (fun e => decide (proc e = p))).length

/-- The sum of the sizes of the events of process `p` in a list. -/
def volOf (proc size : Int × Int → Int) (done : List (Int × Int)) (p : Int) : Int :=
  ((done.filter (fun e => decide (proc e = p))).map size).sum

/-- The state of the second send loop nest when the boxes `done` have been
handled and `peers` are the processes that have a CommType: CommType `n + 1`
belongs to `peers[n]` and holds the prefix size for the `-pct0[p]` entries
counted by the first loop nest plus the sizes of the boxes handled, CommType 0
is the local one, and `comm_bufsize` is the sum over the `m` CommTypes. -/
def SendInv (my_proc : Int) (pct0 : Int → Int) (proc size : Int × Int → Int)
    (peers : List Int) (done : List (Int × Int)) (s : SendState) : Prop :=
  s.m = 1 + (peers.length : Int)
  ∧ (∀ (n : Nat) (p : Int), peers[n]? = some p →
      s.p_comm_types p = (n : Int) + 1 ∧ (s.comm_types ((n : Int) + 1)).proc = p
      ∧ (s.comm_types ((n : Int) + 1)).bufsize
          = hypre_CommPrefixSize (-pct0 p) + volOf proc size done p
      ∧ (s.comm_types ((n : Int) + 1)).num_entries = cntOf proc done p)
  ∧ (∀ p : Int, p ∉ peers → s.p_comm_types p = pct0 p)
  ∧ ((s.comm_types 0).proc = my_proc ∧ (s.comm_types 0).bufsize = volOf proc size done my_proc
      ∧ (s.comm_types 0).num_entries = cntOf proc done my_proc)
  ∧ s.comm_bufsize = sumBufsize s.comm_types (1 + peers.length)

/-- The boxes that hypre_CommPkgCreate takes as send boxes: the recv boxes of
the CommInfo when `reverse > 0`. -/
def sendBoxesOf (I : hypre_CommInfo) (reverse : Int) : hypre_BoxArrayArray :=
  if reverse > 0 then I.recv_boxes else I.send_boxes

/-- The processes of the boxes that hypre_CommPkgCreate takes as send boxes. -/
def sendProcessesOf (I : hypre_CommInfo) (reverse : Int) : Int → Int → Int :=
  if reverse > 0 then I.recv_processes else I.send_processes

/-- The stride that hypre_CommPkgCreate takes as send stride. -/
def sendStrideOf (I : hypre_CommInfo) (reverse : Int) : hypre_Index :=
  if reverse > 0 then I.recv_stride else I.send_stride

/-- Blocks of zeros for an exchange of integers. -/
def sampleInitMemory : InitializeMemory Int :=
  ⟨fun _ => 0, fun _ => 0, fun _ => 0, fun _ => 0, fun _ => zeroEntry⟩

/-- The number of doubles that the unpack loop reads for the entries
`0 .. n - 1`: `num_values` times the product of the lengths of each. -/
def entriesPayload (num_values : Int) (entries : Int → hypre_CommEntryType) (n : Nat) : Nat :=
  ((List.range n).map
    (fun (j : Nat) => num_values.toNat * entrySize (entries j).length_array)).sum

/-- The number of doubles of the payload of a CommType. -/
def typePayload (num_values : Int) (comm_type : hypre_CommType) : Nat :=
  entriesPayload num_values comm_type.entries comm_type.num_entries.toNat
/-- A handle on the sample package, with `recv_data` and the receive buffer at
position 0 of their blocks. -/
def sampleHandle : hypre_CommHandle :=
  { comm_pkg := samplePkg
    send_data := 0
    recv_data := 0
    num_requests := 3
    requests := []
    send_buffers := fun _ => 0
    recv_buffers := fun _ => 0
    action := 0 }

/-- The `int` view of a receive buffer whose prefix announces one box, the
points 3 to 5 of data box 0. -/
def sampleRecvInts : Int → Int :=
  fun q => if q = 0 then 1 else if q = 2 then 3 else if q = 5 then 5 else 0

/-- The doubles of a receive buffer: cell `a` holds `100 + a`. -/
def sampleRecvBuffer : Int → Int := fun a => 100 + a

/-! ## Return values -/

/-- The value of the global `hypre_error_flag` after the two posting loops of
hypre_InitializeCommunication, which is what the routine returns. `irecv i`
and `isend i` are the codes that `MPI_Irecv` and `MPI_Isend` return for
CommType `i`; the calls are expression statements, so each code is dropped.
The allocations of the routine are taken to succeed. -/
def initializeReturn (num_recvs num_sends : Int) (irecv isend : Int → Int)
    (hypre_error_flag : Int) : Int :=
  let flag := forLoop num_recvs.toNat
    (fun i flag => (fun (_code : Int) => flag) (irecv i)) hypre_error_flag
  forLoop num_sends.toNat (fun i flag => (fun (_code : Int) => flag) (isend i)) flag

/-- The value of the global `hypre_error_flag` after
`if (num_requests) MPI_Waitall(...)`, which is what
hypre_FinalizeCommunication returns; `waitall` is the code that `MPI_Waitall`
returns, dropped like the others. -/
def finalizeReturn (num_requests : Int) (waitall : Int) (hypre_error_flag : Int) : Int :=
  if num_requests ≠ 0 then (fun (_code : Int) => hypre_error_flag) waitall
  else hypre_error_flag

/-- The addresses `O + index_rank(D, p)` for `p` running over the strided
points `R.imin + (i*s_x, j*s_y, k*s_z)` of the region `R`, `i` fastest. -/
def stridedAddrs (D : hypre_Box) (O : Int) (R : hypre_Box) (s : hypre_Index) : List Int :=
  (List.range (hypre_BoxGetStrideSize R s).z.toNat).flatMap
    (fun (k : Nat) =>
      (List.range (hypre_BoxGetStrideSize R s).y.toNat).flatMap
        (fun (j : Nat) =>
          (List.range (hypre_BoxGetStrideSize R s).x.toNat).map
            (fun (i : Nat) => O + hypre_BoxIndexRank D (stridedPoint R s i j k))))

/-- A package whose local copy has one entry of three cells, from offset 4 to
offset 4. -/
def sampleLocalPkg : hypre_CommPkg :=
  { samplePkg with
    num_values := 1
    copy_from_type :=
      { samplePkg.copy_from_type with
        num_entries := 1
        entries := fun _ =>
          ⟨4, 1, fun d => if d = 0 then 3 else 1, fun d => if d = 3 then 10 else 1, [0]⟩ }
    copy_to_type :=
      { samplePkg.copy_to_type with
        num_entries := 1
        entries := fun _ =>
          ⟨4, 1, fun d => if d = 0 then 3 else 1, fun d => if d = 3 then 10 else 1, [0]⟩ } }

/-- The boxes that hypre_CommPkgCreate takes as recv boxes. -/
def recvBoxesOf (I : hypre_CommInfo) (reverse : Int) : hypre_BoxArrayArray :=
  if reverse > 0 then I.send_boxes else I.recv_boxes

/-- The processes of the boxes that hypre_CommPkgCreate takes as recv boxes. -/
def recvProcessesOf (I : hypre_CommInfo) (reverse : Int) : Int → Int → Int :=
  if reverse > 0 then I.send_processes else I.recv_processes

/-- The stride that hypre_CommPkgCreate takes as recv stride. -/
def recvStrideOf (I : hypre_CommInfo) (reverse : Int) : hypre_Index :=
  if reverse > 0 then I.send_stride else I.recv_stride

/-- The remote box numbers that hypre_CommPkgCreate takes as `send_rboxnums`. -/
def sendRBoxnumsOf (I : hypre_CommInfo) (reverse : Int) : Int → Int → Int :=
  if reverse > 0 then I.recv_rboxnums else I.send_rboxnums

/-- The remote boxes that hypre_CommPkgCreate takes as `send_rboxes`. -/
def sendRBoxesOf (I : hypre_CommInfo) (reverse : Int) : hypre_BoxArrayArray :=
  if reverse > 0 then I.recv_rboxes else I.send_rboxes

/-- The transforms that hypre_CommPkgCreate takes as `send_transforms`. -/
def sendTransformsOf (I : hypre_CommInfo) (reverse : Int) : Option (Int → Int → Int) :=
  if reverse > 0 then I.recv_transforms else I.send_transforms

/-- The data space that hypre_CommPkgCreate takes as send data space. -/
def sendSpaceOf (S R : hypre_BoxArray) (reverse : Int) : hypre_BoxArray :=
  if reverse > 0 then R else S

/-- The data space that hypre_CommPkgCreate takes as recv data space. -/
def recvSpaceOf (S R : hypre_BoxArray) (reverse : Int) : hypre_BoxArray :=
  if reverse > 0 then S else R

/-! ## The slices of the flat blocks -/

/-- The process of CommType `c` of the send side: the local process for
`c = 0`, peer `c - 1` otherwise. -/
def slotProc (my_proc : Int) (P : List Int) : Nat → Option Int
  | 0 => some my_proc
  | n + 1 => P[n]?

/-- The number of cells of the flat blocks given to CommType `c`, `K p` being
the number of boxes with points of process `p`. -/
def slotCount (K : Int → Int) (my_proc : Int) (P : List Int) (c : Nat) : Int :=
  match slotProc my_proc P c with
  | some p => K p
  | none => 0

/-- The position in the flat blocks at which the slice of CommType `c`
starts: the slices follow one another from position 0. -/
def slotStart (K : Int → Int) (my_proc : Int) (P : List Int) : Nat → Int
  | 0 => 0
  | c + 1 => slotStart K my_proc P c + slotCount K my_proc P c

/-- A flat block when the boxes `done` have been handled: cell `k` of the
slice of a process holds the value written for the `k`-th box of the process,
computed from the cell as it was at the start, and the other cells are as at
the start. -/
def BlockInv {β : Type} (K : Int → Int) (my_proc : Int) (P : List Int)
    (proc : Int × Int → Int) (val : Int × Int → β → β) (blk0 : Int → β)
    (done : List (Int × Int)) (blk : Int → β) : Prop :=
  (∀ (c : Nat) (p : Int) (k : Nat) (e : Int × Int), slotProc my_proc P c = some p →
      (done.filter (fun e => decide (proc e = p)))[k]? = some e →
      blk (slotStart K my_proc P c + k) = val e (blk0 (slotStart K my_proc P c + k)))
  ∧ ∀ x : Int,
      (∀ (c : Nat) (p : Int) (k : Nat), slotProc my_proc P c = some p →
        k < cntOf proc done p → x ≠ slotStart K my_proc P c + k) →
      blk x = blk0 x
/-- The coord that the second send loop nest passes to
hypre_CommTypeSetEntry for box `e = (i, j)`. -/
def resolvedCoord (coords : Int → hypre_Index) (T : Option (Int → Int → Int))
    (e : Int × Int) : hypre_Index :=
  match T with
  | none => ⟨0, 1, 2⟩
  | some tr => coords (tr e.1 e.2)

/-- The dir that the second send loop nest passes to hypre_CommTypeSetEntry
for box `e = (i, j)`. -/
def resolvedDir (dirs : Int → hypre_Index) (T : Option (Int → Int → Int))
    (e : Int × Int) : hypre_Index :=
  match T with
  | none => ⟨1, 1, 1⟩
  | some tr => dirs (tr e.1 e.2)

/-- The order that the second send loop nest passes to
hypre_CommTypeSetEntry for box `e = (i, j)`; `cp` is the stored copy of
`orders`, or `none`. -/
def resolvedOrder (num_values : Int) (T : Option (Int → Int → Int))
    (cp : Option (Int → List Int)) (e : Int × Int) : List Int :=
  match T, cp with
  | some tr, some c => c (tr e.1 e.2)
  | _, _ => identityOrder num_values

/-- The pointers of the second send loop nest when `peers` have a CommType:
the running pointers stand at the end of the slices given out, and each
CommType set up points at the start of its slice. -/
def SendPtrInv (K : Int → Int) (my_proc : Int) (P peers : List Int) (s : SendState) : Prop :=
  s.ct_entries = slotStart K my_proc P (peers.length + 1)
  ∧ s.ct_rem_boxnums = slotStart K my_proc P (peers.length + 1)
  ∧ s.ct_rem_boxes = slotStart K my_proc P (peers.length + 1)
  ∧ ∀ c : Nat, c ≤ peers.length →
      (s.comm_types c).entries = some (slotStart K my_proc P c)
      ∧ (s.comm_types c).rem_boxnums = some (slotStart K my_proc P c)
      ∧ (s.comm_types c).rem_boxes = some (slotStart K my_proc P c)

/-- The variables `send_coord`, `send_dir`, `send_order` between two rounds of
the second send loop nest: they are the identity transform unless a round
assigns them. -/
def SendXfInv (num_values : Int) (T : Option (Int → Int → Int))
    (cp : Option (Int → List Int)) (s : SendState) : Prop :=
  (T = none → s.send_coord = ⟨0, 1, 2⟩ ∧ s.send_dir = ⟨1, 1, 1⟩)
  ∧ ((T = none ∨ cp = none) → s.send_order = identityOrder num_values)

/-- The entry that the second send loop nest builds for box `e = (i, j)`,
from the cell `prior` it is written to. -/
def sendEntryOf (num_values : Int) (stride : hypre_Index) (boxes : hypre_BoxArrayArray)
    (coords dirs : Int → hypre_Index) (T : Option (Int → Int → Int))
    (cp : Option (Int → List Int)) (ds : hypre_BoxArray) (offs : Int → Int) (e : Int × Int)
    (prior : hypre_CommEntryType) : hypre_CommEntryType :=
  hypre_CommTypeSetEntry ((boxes.box_arrays e.1).boxes e.2) stride (resolvedCoord coords T e)
    (resolvedDir dirs T e) (resolvedOrder num_values T cp e) (ds.boxes e.1) (offs e.1) prior

/-- The number of boxes with points of each process, as the first loop nest
over the boxes counts them in `-p_comm_types[p]`. -/
def boxCounts (boxes : hypre_BoxArrayArray) (processes : Int → Int → Int) (p : Int) : Int :=
  ((cntOf (fun e => processes e.1 e.2) (nonemptyBoxes boxes) p : Nat) : Int)

/-- The CommTypes of the send side of a package in the order of the array
`comm_types` of hypre_CommPkgCreate: `copy_from_type` is CommType 0 and
`send_types[n]` is CommType `n + 1`. -/
def sendTypeAt (comm_pkg : hypre_CommPkg) : Nat → hypre_CommType
  | 0 => comm_pkg.copy_from_type
  | n + 1 => comm_pkg.send_types n

/-- The variables of the send side of hypre_CommPkgCreate after its two loop
nests, for the arguments of the routine. -/
def createSendSide (I : hypre_CommInfo) (S : hypre_BoxArray) (R : hypre_BoxArray)
    (num_values : Int) (orders : Option (Int → Int → Int)) (reverse my_proc : Int)
    (mem : CreateMemory) : CountState × SendState :=
  sendSide (sendBoxesOf I reverse) (sendStrideOf I reverse) (sendProcessesOf I reverse)
    (sendRBoxnumsOf I reverse) (sendRBoxesOf I reverse) (sendTransformsOf I reverse) I.coords
    I.dirs (storedOrders (sendTransformsOf I reverse) orders I.num_transforms num_values)
    (sendSpaceOf S R reverse) num_values my_proc mem

/-- The sample CommInfo with two transforms: the first send box is sent with
transform 1, which swaps the first two axes and reverses the first, the
others with transform 0, the identity. -/
def sampleXfInfo : hypre_CommInfo :=
  { sampleInfo with
    num_transforms := 2
    coords := fun t => if t = 1 then ⟨1, 0, 2⟩ else ⟨0, 1, 2⟩
    dirs := fun t => if t = 1 then ⟨-1, 1, 1⟩ else ⟨1, 1, 1⟩
    send_transforms := some (fun _ j => if j = 0 then 1 else 0) }

/-- Orders for two values per point: transform 1 swaps the two values. -/
def sampleOrders : Int → Int → Int := fun t j => if t = 1 then 1 - j else j

/-- The variables that the second recv loop nest shares with the second send
loop nest; the pointers of the recv CommTypes are NULL. -/
def toRecv (s : SendState) : RecvState :=
  { p_comm_types := s.p_comm_types
    comm_types := fun c =>
      { s.comm_types c with entries := none, rem_boxnums := none, rem_boxes := none }
    m := s.m
    comm_bufsize := s.comm_bufsize }

/-- The array `p_comm_types` of hypre_CommPkgCreate after the loop that
resets it before the recv side. -/
def createReset (I : hypre_CommInfo) (S : hypre_BoxArray) (R : hypre_BoxArray)
    (num_values : Int) (orders : Option (Int → Int → Int)) (reverse my_proc : Int)
    (mem : CreateMemory) : Int → Int :=
  forLoop ((createSendSide I S R num_values orders reverse my_proc mem).1.num_comms + 1).toNat
    (fun m pct =>
      setAt pct ((createSendSide I S R num_values orders reverse my_proc mem).2.comm_types m).proc
        0)
    (createSendSide I S R num_values orders reverse my_proc mem).2.p_comm_types

/-- The variables of the recv side of hypre_CommPkgCreate after its two loop
nests, for the arguments of the routine. -/
def createRecvSide (I : hypre_CommInfo) (S : hypre_BoxArray) (R : hypre_BoxArray)
    (num_values : Int) (orders : Option (Int → Int → Int)) (reverse my_proc : Int)
    (mem : CreateMemory) : CountState × RecvState :=
  recvSide (recvBoxesOf I reverse) (recvStrideOf I reverse) (recvProcessesOf I reverse)
    num_values my_proc (createReset I S R num_values orders reverse my_proc mem)
    (createSendSide I S R num_values orders reverse my_proc mem).1.num_entries

/-- The payload of a recv CommType before the rewrite for boxes that do not
match: its bufsize without the prefix size of its entries. -/
def slotPayload (c : CommTypeSlot) : Int :=
  c.bufsize - hypre_CommPrefixSize c.num_entries

/-- The sample CommInfo with send and recv boxes that do not match. -/
def sampleMismatchInfo : hypre_CommInfo := { sampleInfo with boxes_match := 0 }

/-- The sample package after its first exchange is over: the flag
`first_comm` is 0. -/
def sampleLaterPkg : hypre_CommPkg := { samplePkg with first_comm := 0 }

/-- A from-entry of one cell per value component whose two components both
read component 1 (`order = [1, 1]`, `stride_array[3] = 10`). -/
def sampleFromEntry : hypre_CommEntryType :=
  ⟨0, 1, fun _ => 1, fun d => if d = 3 then 10 else 1, [1, 1]⟩

/-- A to-entry of one cell per value component, the components 20 cells
apart. -/
def sampleToEntry : hypre_CommEntryType :=
  ⟨0, 1, fun _ => 1, fun d => if d = 3 then 20 else 1, [0, 1]⟩

/-! ## Basic facts about the loops -/

theorem forLoop_zero {σ : Type} (body : Nat → σ → σ) (s : σ) : forLoop 0 body s = s := rfl

theorem forLoop_succ {σ : Type} (n : Nat) (body : Nat → σ → σ) (s : σ) :
    forLoop (n + 1) body s = body n (forLoop n body s) := rfl

theorem forLoop_one {σ : Type} (body : Nat → σ → σ) (s : σ) : forLoop 1 body s = body 0 s := rfl

theorem forLoop_two {σ : Type} (body : Nat → σ → σ) (s : σ) :
    forLoop 2 body s = body 1 (body 0 s) := rfl

theorem forLoop_three {σ : Type} (body : Nat → σ → σ) (s : σ) :
    forLoop 3 body s = body 2 (body 1 (body 0 s)) := rfl

theorem seqWrite_append {β μ : Type} (w : Int → β → μ → μ) (xs ys : List β) (d : Int) (m : μ) :
    seqWrite w (xs ++ ys) d m = seqWrite w ys (d + xs.length) (seqWrite w xs d m) := by
  induction xs generalizing d m with
  | nil => simp [seqWrite]
  | cons b bs ih =>
    have h : d + 1 + (bs.length : Int) = d + ((b :: bs).length : Int) := by
      simp only [List.length_cons, Nat.cast_add, Nat.cast_one]; ring
    show seqWrite w (bs ++ ys) (d + 1) (w d b m) = _
    rw [ih, h]
    rfl

theorem length_flatMap_range {β : Type} (f : Nat → List β) (w n : Nat)
    (hlen : ∀ i, i < n → (f i).length = w) :
    ((List.range n).flatMap f).length = n * w := by
  induction n with
  | zero => simp
  | succ k ih =>
    rw [List.range_succ, List.flatMap_append, List.length_append, ih (fun i hi => hlen i (by omega))]
    simp [hlen k (by omega)]
    ring

theorem getElem?_flatMap_range {β : Type} (f : Nat → List β) (w n : Nat)
    (hlen : ∀ i, i < n → (f i).length = w) (i q : Nat) (hi : i < n) (hq : q < w) :
    ((List.range n).flatMap f)[i * w + q]? = (f i)[q]? := by
  induction n with
  | zero => omega
  | succ k ih =>
    have hk : ((List.range k).flatMap f).length = k * w :=
      length_flatMap_range f w k (fun j hj => hlen j (by omega))
    rw [List.range_succ, List.flatMap_append]
    by_cases hik : i < k
    · have hlt : i * w + q < ((List.range k).flatMap f).length := by
        rw [hk]
        calc i * w + q < i * w + w := by omega
          _ = (i + 1) * w := by ring
          _ ≤ k * w := Nat.mul_le_mul_right w hik
      rw [List.getElem?_append_left hlt]
      exact ih (fun j hj => hlen j (by omega)) hik
    · have hik2 : i = k := by omega
      subst hik2
      rw [List.getElem?_append_right (by rw [hk]; omega), hk]
      simp

theorem seqWrite_nil {β μ : Type} (w : Int → β → μ → μ) (d : Int) (m : μ) :
    seqWrite w [] d m = m := rfl

theorem seqWrite_singleton {β μ : Type} (w : Int → β → μ → μ) (b : β) (d : Int) (m : μ) :
    seqWrite w [b] d m = w d b m := rfl

/-- A loop whose round `i` performs the writes of a list `items i p` of fixed
length, `p` being the data pointer at the start of the round, and then moves
the buffer position by that length and the data pointer by `step`, performs
the writes of the concatenated lists. -/
theorem forLoop_cursor {α β : Type} (w : Int → β → (Int → α) → (Int → α))
    (body : Nat → Cursor α → Cursor α) (items : Nat → Int → List β) (width : Nat) (step : Int)
    (hbody : ∀ i c, body i c =
      { mem := seqWrite w (items i c.ptr) c.dptr c.mem, dptr := c.dptr + width, ptr := c.ptr + step })
    (hlen : ∀ i p, (items i p).length = width) (n : Nat) (c : Cursor α) :
    forLoop n body c =
      { mem := seqWrite w ((List.range n).flatMap (fun i => items i (c.ptr + i * step))) c.dptr c.mem
        dptr := c.dptr + n * width
        ptr := c.ptr + n * step } := by
  induction n with
  | zero => simp [forLoop, seqWrite]
  | succ k ih =>
    rw [forLoop_succ, ih, hbody, List.range_succ, List.flatMap_append, seqWrite_append,
      length_flatMap_range _ width k (fun i _ => hlen i _)]
    simp only [List.flatMap_singleton, Nat.cast_mul, Nat.cast_add, Nat.cast_one]
    congr 1 <;> ring

theorem emit_append {α : Type} (xs ys : List α) (d : Int) (buf : Int → α) :
    emit (xs ++ ys) d buf = emit ys (d + xs.length) (emit xs d buf) :=
  seqWrite_append _ xs ys d buf

theorem emit_outside {α : Type} (vals : List α) (d : Int) (buf : Int → α) (a : Int)
    (h : a < d ∨ d + vals.length ≤ a) : emit vals d buf a = buf a := by
  induction vals generalizing d buf with
  | nil => rfl
  | cons v vs ih =>
    show emit vs (d + 1) (setAt buf d v) a = buf a
    simp only [List.length_cons, Nat.cast_add, Nat.cast_one] at h
    rw [ih (d + 1) _ (by omega)]
    simp only [setAt]
    rw [if_neg (by omega)]

theorem emit_getElem? {α : Type} (vals : List α) (d : Int) (buf : Int → α) (n : Nat) (v : α)
    (h : vals[n]? = some v) : emit vals d buf (d + n) = v := by
  induction vals generalizing d buf n with
  | nil => simp at h
  | cons x xs ih =>
    show emit xs (d + 1) (setAt buf d x) (d + n) = v
    cases n with
    | zero =>
      simp only [List.getElem?_cons_zero, Option.some.injEq] at h
      rw [emit_outside _ _ _ _ (by left; simp)]
      simp [setAt, h]
    | succ k =>
      simp only [List.getElem?_cons_succ] at h
      have := ih (d + 1) (setAt buf d x) k h
      rw [← this]
      congr 1
      push_cast
      ring

theorem scatter_append {α : Type} [Add α] (action : Int) (buf : Int → α) (xs ys : List Int)
    (d : Int) (mem : Int → α) :
    scatter action buf (xs ++ ys) d mem
      = scatter action buf ys (d + xs.length) (scatter action buf xs d mem) :=
  seqWrite_append _ xs ys d mem

theorem scatter_outside {α : Type} [Add α] (action : Int) (buf : Int → α) (addrs : List Int)
    (d : Int) (mem : Int → α) (a : Int) (h : a ∉ addrs) :
    scatter action buf addrs d mem a = mem a := by
  induction addrs generalizing d mem with
  | nil => rfl
  | cons x xs ih =>
    show scatter action buf xs (d + 1) (store action mem x (buf d)) a = mem a
    simp only [List.mem_cons, not_or] at h
    rw [ih _ _ h.2]
    simp [store, setAt, h.1]

theorem scatter_getElem? {α : Type} [Add α] (action : Int) (buf : Int → α) (addrs : List Int)
    (d : Int) (mem : Int → α) (hnd : addrs.Nodup) (n : Nat) (a : Int) (h : addrs[n]? = some a) :
    scatter action buf addrs d mem a
      = if action > 0 then mem a + buf (d + n) else buf (d + n) := by
  induction addrs generalizing d mem n with
  | nil => simp at h
  | cons x xs ih =>
    show scatter action buf xs (d + 1) (store action mem x (buf d)) a = _
    rw [List.nodup_cons] at hnd
    cases n with
    | zero =>
      simp only [List.getElem?_cons_zero, Option.some.injEq] at h
      subst h
      rw [scatter_outside _ _ _ _ _ _ hnd.1]
      simp [store, setAt]
    | succ k =>
      simp only [List.getElem?_cons_succ] at h
      have hne : a ≠ x := by
        rintro rfl
        exact hnd.1 (List.getElem?_mem h)
      rw [ih (d + 1) _ hnd.2 k h]
      have e : d + 1 + (k : Int) = d + ((k + 1 : Nat) : Int) := by push_cast; ring
      simp [store, setAt, hne, e]

theorem length_rowAddrs (la sa : Int → Int) (p : Int) :
    (rowAddrs la sa p).length = (la 0).toNat := by
  simp [rowAddrs]

theorem length_planeAddrs (la sa : Int → Int) (p : Int) :
    (planeAddrs la sa p).length = (la 1).toNat * (la 0).toNat :=
  length_flatMap_range _ _ _ (fun _ _ => length_rowAddrs la sa _)

theorem length_boxAddrs (la sa : Int → Int) (p : Int) :
    (boxAddrs la sa p).length = entrySize la :=
  length_flatMap_range _ _ _ (fun _ _ => length_planeAddrs la sa _)

theorem packRowLoop_eq {α : Type} (send_data : Int → α) (length stride : Int) (buf : Int → α)
    (dptr jptr : Int) :
    packRowLoop send_data length stride buf dptr jptr
      = emit ((List.range length.toNat).map (fun (ii : Nat) => send_data (jptr + (ii : Int) * stride))) dptr buf := by
  unfold packRowLoop
  suffices h : ∀ n : Nat,
      forLoop n
        (fun ii (t : (Int → α) × Int) => (setAt t.1 (dptr + ii) (send_data t.2), t.2 + stride))
        (buf, jptr)
      = (emit ((List.range n).map (fun (ii : Nat) => send_data (jptr + (ii : Int) * stride))) dptr buf,
          jptr + n * stride) by
    rw [h]
  intro n
  induction n with
  | zero => simp [forLoop, emit, seqWrite]
  | succ k ih =>
    rw [forLoop_succ, ih, List.range_succ, List.map_append, emit_append]
    simp only [List.length_map, List.length_range, List.map_cons, List.map_nil, emit,
      seqWrite, Nat.cast_add, Nat.cast_one]
    congr 1
    ring

theorem memcpy_eq_emit {α : Type} (dst : Int → α) (d : Int) (src : Int → α) (s : Int) (n : Nat) :
    memcpy dst d src s n = emit ((List.range n).map (fun (ii : Nat) => src (s + (ii : Int) * 1))) d dst := by
  induction n with
  | zero =>
    funext a
    simp only [memcpy, CharP.cast_eq_zero, add_zero, List.range_zero, List.map_nil, emit, seqWrite]
    rw [if_neg (by omega)]
  | succ k ih =>
    rw [List.range_succ, List.map_append, emit_append, ← ih]
    funext a
    simp only [memcpy, List.length_map, List.length_range, List.map_cons, List.map_nil, emit,
      seqWrite, setAt, Nat.cast_add, Nat.cast_one, mul_one]
    by_cases h1 : a = d + k
    · subst h1
      rw [if_pos (by omega), if_pos rfl]
      congr 1
      ring
    · rw [if_neg h1]
      by_cases h2 : d ≤ a ∧ a < d + k
      · rw [if_pos h2, if_pos (by omega)]
      · rw [if_neg h2, if_neg (by omega)]

theorem memcpy_neg {α : Type} (dst : Int → α) (d : Int) (src : Int → α) (s : Int) (n : Int)
    (h : n ≤ 0) : memcpy dst d src s n = dst := by
  funext a
  simp only [memcpy]
  rw [if_neg (by omega)]

theorem packRow_eq {α : Type} (send_data : Int → α) (la sa : Int → Int) (c : Cursor α) :
    packRow send_data la sa c =
      { mem := seqWrite (fun p v b => setAt b p v) ((rowAddrs la sa c.ptr).map send_data) c.dptr c.mem
        dptr := c.dptr + la 0
        ptr := c.ptr + sa 1 } := by
  unfold packRow
  congr 1
  show _ = emit ((rowAddrs la sa c.ptr).map send_data) c.dptr c.mem
  unfold rowAddrs
  rw [List.map_map]
  by_cases h : sa 0 = 1
  · rw [if_pos h, h]
    by_cases hl : 0 ≤ la 0
    · have e := memcpy_eq_emit c.mem c.dptr send_data c.ptr (la 0).toNat
      rw [Int.toNat_of_nonneg hl] at e
      rw [e]
      rfl
    · rw [memcpy_neg _ _ _ _ _ (by omega)]
      have : (la 0).toNat = 0 := by omega
      simp [this, emit, seqWrite]
  · rw [if_neg h, packRowLoop_eq]
    rfl

theorem packPlane_eq {α : Type} (send_data : Int → α) (la sa : Int → Int) (h0 : 0 ≤ la 0)
    (c : Cursor α) :
    packPlane send_data la sa c =
      { mem := seqWrite (fun p v b => setAt b p v) ((planeAddrs la sa c.ptr).map send_data)
          c.dptr c.mem
        dptr := c.dptr + ((la 1).toNat * (la 0).toNat : Nat)
        ptr := c.ptr + sa 2 } := by
  unfold packPlane
  rw [forLoop_cursor (fun p v b => setAt b p v) _
    (fun _ p => (rowAddrs la sa p).map send_data) (la 0).toNat (sa 1)
    (fun _ c => by rw [packRow_eq, Int.toNat_of_nonneg h0])
    (fun _ p => by rw [List.length_map, length_rowAddrs])]
  simp only [planeAddrs, List.map_flatMap, Nat.cast_mul]

theorem packValue_eq {α : Type} [Zero α] (send_data : Int → α) (e : hypre_CommEntryType)
    (h0 : 0 ≤ e.length_array 0) (h1 : 0 ≤ e.length_array 1) (h2 : 0 ≤ e.length_array 2)
    (ll : Nat) (c : Cursor α) :
    packValue send_data e.length_array e.stride_array e.order ll c =
      { mem := seqWrite (fun p v b => setAt b p v)
          (valuePayload send_data { e with offset := c.ptr } ll) c.dptr c.mem
        dptr := c.dptr + (entrySize e.length_array : Nat)
        ptr := c.ptr + 0 } := by
  unfold packValue valuePayload
  by_cases h : orderAt e.order ll > -1
  · simp only [if_pos h]
    rw [forLoop_cursor (fun p v b => setAt b p v) _
      (fun _ p => (planeAddrs e.length_array e.stride_array p).map send_data)
      ((e.length_array 1).toNat * (e.length_array 0).toNat) (e.stride_array 2)
      (fun _ c => packPlane_eq send_data _ _ h0 c)
      (fun _ p => by rw [List.length_map, length_planeAddrs])]
    simp only [boxAddrs, List.map_flatMap, entrySize, Nat.cast_mul, add_zero]
  · simp only [if_neg h, add_zero]
    congr 1
    · show _ = emit _ _ _
      funext a
      have hsz : e.length_array 0 * e.length_array 1 * e.length_array 2
          = (entrySize e.length_array : Nat) := by
        simp only [entrySize, Nat.cast_mul, Int.toNat_of_nonneg h0, Int.toNat_of_nonneg h1,
          Int.toNat_of_nonneg h2]
        ring
      simp only [memsetZero, hsz]
      by_cases hin : c.dptr ≤ a ∧ a < c.dptr + (entrySize e.length_array : Nat)
      · rw [if_pos hin]
        obtain ⟨n, hn⟩ : ∃ n : Nat, a = c.dptr + n := ⟨(a - c.dptr).toNat, by omega⟩
        subst hn
        symm
        apply emit_getElem?
        rw [List.getElem?_replicate, if_pos (by omega)]
      · rw [if_neg hin, emit_outside _ _ _ _ (by rw [List.length_replicate]; omega)]
    · simp only [entrySize, Nat.cast_mul, Int.toNat_of_nonneg h0, Int.toNat_of_nonneg h1,
        Int.toNat_of_nonneg h2]
      ring

theorem length_valuePayload {α : Type} [Zero α] (send_data : Int → α) (e : hypre_CommEntryType)
    (ll : Nat) : (valuePayload send_data e ll).length = entrySize e.length_array := by
  unfold valuePayload
  split
  · rw [List.length_map, length_boxAddrs]
  · rw [List.length_replicate]

theorem length_entryPayload {α : Type} [Zero α] (num_values : Int) (send_data : Int → α)
    (e : hypre_CommEntryType) :
    (entryPayload num_values send_data e).length = num_values.toNat * entrySize e.length_array :=
  length_flatMap_range _ _ _ (fun _ _ => length_valuePayload send_data e _)

theorem length_entryAddrs (num_values : Int) (e : hypre_CommEntryType) :
    (entryAddrs num_values e).length = num_values.toNat * entrySize e.length_array :=
  length_flatMap_range _ _ _ (fun _ _ => length_boxAddrs _ _ _)

/-- The pack of one entry writes the payload of the entry at `dptr` and moves
`dptr` past it. -/
theorem packEntry_eq {α : Type} [Zero α] (num_values : Int) (send_data : Int → α)
    (e : hypre_CommEntryType)
    (h0 : 0 ≤ e.length_array 0) (h1 : 0 ≤ e.length_array 1) (h2 : 0 ≤ e.length_array 2)
    (t : (Int → α) × Int) :
    packEntry num_values send_data e t =
      (emit (entryPayload num_values send_data e) t.2 t.1,
        t.2 + (num_values.toNat * entrySize e.length_array : Nat)) := by
  unfold packEntry
  rw [forLoop_cursor (fun p v b => setAt b p v) _
    (fun ll p => valuePayload send_data { e with offset := p } ll)
    (entrySize e.length_array) 0
    (fun ll c => by rw [packValue_eq send_data e h0 h1 h2])
    (fun ll p => length_valuePayload send_data _ ll)]
  simp only [mul_zero, add_zero, Nat.cast_mul]
  rfl

theorem unpackRowAdd_eq {α : Type} [Add α] (action : Int) (ha : action > 0) (buf : Int → α)
    (length stride : Int) (recv_data : Int → α) (dptr jptr : Int) :
    unpackRowAdd buf length stride recv_data dptr jptr
      = scatter action buf
          ((List.range length.toNat).map (fun (ii : Nat) => jptr + (ii : Int) * stride))
          dptr recv_data := by
  unfold unpackRowAdd
  suffices h : ∀ n : Nat,
      forLoop n
        (fun ii (t : (Int → α) × Int) =>
          (setAt t.1 t.2 (t.1 t.2 + buf (dptr + ii)), t.2 + stride))
        (recv_data, jptr)
      = (scatter action buf ((List.range n).map (fun (ii : Nat) => jptr + (ii : Int) * stride))
            dptr recv_data,
          jptr + n * stride) by
    rw [h]
  intro n
  induction n with
  | zero => simp [forLoop, scatter, seqWrite]
  | succ k ih =>
    rw [forLoop_succ, ih, List.range_succ, List.map_append, scatter_append]
    simp only [List.length_map, List.length_range, List.map_cons, List.map_nil, scatter,
      seqWrite, store, if_pos ha, Nat.cast_add, Nat.cast_one]
    congr 1
    ring

theorem unpackRowCopy_eq {α : Type} [Add α] (action : Int) (ha : ¬ action > 0) (buf : Int → α)
    (length stride : Int) (recv_data : Int → α) (dptr jptr : Int) :
    unpackRowCopy buf length stride recv_data dptr jptr
      = scatter action buf
          ((List.range length.toNat).map (fun (ii : Nat) => jptr + (ii : Int) * stride))
          dptr recv_data := by
  unfold unpackRowCopy
  suffices h : ∀ n : Nat,
      forLoop n
        (fun ii (t : (Int → α) × Int) => (setAt t.1 t.2 (buf (dptr + ii)), t.2 + stride))
        (recv_data, jptr)
      = (scatter action buf ((List.range n).map (fun (ii : Nat) => jptr + (ii : Int) * stride))
            dptr recv_data,
          jptr + n * stride) by
    rw [h]
  intro n
  induction n with
  | zero => simp [forLoop, scatter, seqWrite]
  | succ k ih =>
    rw [forLoop_succ, ih, List.range_succ, List.map_append, scatter_append]
    simp only [List.length_map, List.length_range, List.map_cons, List.map_nil, scatter,
      seqWrite, store, if_neg ha, Nat.cast_add, Nat.cast_one]
    congr 1
    ring

theorem memcpy_eq_scatter {α : Type} [Add α] (action : Int) (ha : ¬ action > 0)
    (recv_data : Int → α) (jptr : Int) (buf : Int → α) (dptr : Int) (n : Nat) :
    memcpy recv_data jptr buf dptr n
      = scatter action buf ((List.range n).map (fun (ii : Nat) => jptr + (ii : Int) * 1))
          dptr recv_data := by
  induction n with
  | zero =>
    funext a
    simp only [memcpy, CharP.cast_eq_zero, add_zero, List.range_zero, List.map_nil, scatter,
      seqWrite]
    rw [if_neg (by omega)]
  | succ k ih =>
    rw [List.range_succ, List.map_append, scatter_append, ← ih]
    funext a
    simp only [memcpy, List.length_map, List.length_range, List.map_cons, List.map_nil, scatter,
      seqWrite, store, if_neg ha, setAt, Nat.cast_add, Nat.cast_one, mul_one]
    by_cases h1 : a = jptr + k
    · subst h1
      rw [if_pos (by omega), if_pos rfl]
      congr 1
      ring
    · rw [if_neg h1]
      by_cases h2 : jptr ≤ a ∧ a < jptr + k
      · rw [if_pos h2, if_pos (by omega)]
      · rw [if_neg h2, if_neg (by omega)]

theorem unpackRow_eq {α : Type} [Add α] (action : Int) (buf : Int → α) (la sa : Int → Int)
    (c : Cursor α) :
    unpackRow action buf la sa c =
      { mem := seqWrite (fun p a m => store action m a (buf p)) (rowAddrs la sa c.ptr) c.dptr c.mem
        dptr := c.dptr + la 0
        ptr := c.ptr + sa 1 } := by
  unfold unpackRow
  congr 1
  show _ = scatter action buf (rowAddrs la sa c.ptr) c.dptr c.mem
  unfold rowAddrs
  by_cases ha : action > 0
  · rw [if_pos ha, unpackRowAdd_eq action ha]
  · rw [if_neg ha]
    by_cases h : sa 0 = 1
    · rw [if_pos h, h]
      by_cases hl : 0 ≤ la 0
      · have e := memcpy_eq_scatter action ha c.mem c.ptr buf c.dptr (la 0).toNat
        rw [Int.toNat_of_nonneg hl] at e
        rw [e]
      · rw [memcpy_neg _ _ _ _ _ (by omega)]
        have : (la 0).toNat = 0 := by omega
        simp [this, scatter, seqWrite]
    · rw [if_neg h, unpackRowCopy_eq action ha]

theorem unpackPlane_eq {α : Type} [Add α] (action : Int) (buf : Int → α) (la sa : Int → Int)
    (h0 : 0 ≤ la 0) (c : Cursor α) :
    unpackPlane action buf la sa c =
      { mem := seqWrite (fun p a m => store action m a (buf p)) (planeAddrs la sa c.ptr)
          c.dptr c.mem
        dptr := c.dptr + ((la 1).toNat * (la 0).toNat : Nat)
        ptr := c.ptr + sa 2 } := by
  unfold unpackPlane
  rw [forLoop_cursor (fun p a m => store action m a (buf p)) _
    (fun _ p => rowAddrs la sa p) (la 0).toNat (sa 1)
    (fun _ c => by rw [unpackRow_eq, Int.toNat_of_nonneg h0])
    (fun _ p => length_rowAddrs la sa p)]
  simp only [planeAddrs, Nat.cast_mul]

theorem unpackValue_eq {α : Type} [Add α] (action : Int) (buf : Int → α) (la sa : Int → Int)
    (h0 : 0 ≤ la 0) (c : Cursor α) :
    unpackValue action buf la sa c =
      { mem := seqWrite (fun p a m => store action m a (buf p)) (boxAddrs la sa c.ptr)
          c.dptr c.mem
        dptr := c.dptr + (entrySize la : Nat)
        ptr := c.ptr + sa 3 } := by
  unfold unpackValue
  rw [forLoop_cursor (fun p a m => store action m a (buf p)) _
    (fun _ p => planeAddrs la sa p) ((la 1).toNat * (la 0).toNat) (sa 2)
    (fun _ c => unpackPlane_eq action buf la sa h0 c)
    (fun _ p => length_planeAddrs la sa p)]
  simp only [boxAddrs, entrySize, Nat.cast_mul]

/-- The unpack of one entry stores the consecutive buffer cells from `dptr`
into the cells visited by the walk of the entry, and moves `dptr` past them. -/
theorem unpackEntry_eq {α : Type} [Add α] (action : Int) (num_values : Int) (buf : Int → α)
    (e : hypre_CommEntryType) (h0 : 0 ≤ e.length_array 0) (t : (Int → α) × Int) :
    unpackEntry action num_values buf e t =
      (scatter action buf (entryAddrs num_values e) t.2 t.1,
        t.2 + (num_values.toNat * entrySize e.length_array : Nat)) := by
  unfold unpackEntry
  rw [forLoop_cursor (fun p a m => store action m a (buf p)) _
    (fun _ p => boxAddrs e.length_array e.stride_array p)
    (entrySize e.length_array) (e.stride_array 3)
    (fun _ c => unpackValue_eq action buf _ _ h0 c)
    (fun _ p => length_boxAddrs _ _ p)]
  simp only [Nat.cast_mul]
  rfl

theorem rowAddrs_getElem? (la sa : Int → Int) (p : Int) (ii : Nat) (hi : ii < (la 0).toNat) :
    (rowAddrs la sa p)[ii]? = some (p + ii * sa 0) := by
  simp [rowAddrs, List.getElem?_range hi]

theorem planeAddrs_getElem? (la sa : Int → Int) (p : Int) (jj ii : Nat)
    (hj : jj < (la 1).toNat) (hi : ii < (la 0).toNat) :
    (planeAddrs la sa p)[jj * (la 0).toNat + ii]? = some (p + jj * sa 1 + ii * sa 0) := by
  unfold planeAddrs
  rw [getElem?_flatMap_range _ (la 0).toNat _ (fun _ _ => length_rowAddrs la sa _) jj ii hj hi,
    rowAddrs_getElem? la sa _ ii hi]

theorem boxAddrs_getElem? (la sa : Int → Int) (p : Int) (kk jj ii : Nat)
    (hk : kk < (la 2).toNat) (hj : jj < (la 1).toNat) (hi : ii < (la 0).toNat) :
    (boxAddrs la sa p)[(kk * (la 1).toNat + jj) * (la 0).toNat + ii]?
      = some (p + kk * sa 2 + jj * sa 1 + ii * sa 0) := by
  have hq : jj * (la 0).toNat + ii < (la 1).toNat * (la 0).toNat := by
    calc jj * (la 0).toNat + ii < jj * (la 0).toNat + (la 0).toNat := by omega
      _ = (jj + 1) * (la 0).toNat := by ring
      _ ≤ (la 1).toNat * (la 0).toNat := Nat.mul_le_mul_right _ hj
  have hpos : (kk * (la 1).toNat + jj) * (la 0).toNat + ii
      = kk * ((la 1).toNat * (la 0).toNat) + (jj * (la 0).toNat + ii) := by ring
  unfold boxAddrs
  rw [hpos, getElem?_flatMap_range _ ((la 1).toNat * (la 0).toNat) _
    (fun _ _ => length_planeAddrs la sa _) kk _ hk hq, planeAddrs_getElem? la sa _ jj ii hj hi]

theorem boxPos_lt (la : Int → Int) (kk jj ii : Nat)
    (hk : kk < (la 2).toNat) (hj : jj < (la 1).toNat) (hi : ii < (la 0).toNat) :
    (kk * (la 1).toNat + jj) * (la 0).toNat + ii < entrySize la := by
  unfold entrySize
  calc (kk * (la 1).toNat + jj) * (la 0).toNat + ii
      < (kk * (la 1).toNat + jj) * (la 0).toNat + (la 0).toNat := by omega
    _ = (kk * (la 1).toNat + (jj + 1)) * (la 0).toNat := by ring
    _ ≤ (kk * (la 1).toNat + (la 1).toNat) * (la 0).toNat :=
        Nat.mul_le_mul_right _ (by omega)
    _ = (kk + 1) * ((la 1).toNat * (la 0).toNat) := by ring
    _ ≤ (la 2).toNat * ((la 1).toNat * (la 0).toNat) := Nat.mul_le_mul_right _ hk

theorem payloadPos_eq (la : Int → Int) (ll kk jj ii : Nat) :
    payloadPos (la 0).toNat (la 1).toNat (la 2).toNat ll kk jj ii
      = ll * entrySize la + ((kk * (la 1).toNat + jj) * (la 0).toNat + ii) := by
  unfold payloadPos entrySize
  ring

theorem entryAddrs_getElem? (num_values : Int) (e : hypre_CommEntryType) (ll kk jj ii : Nat)
    (hl : ll < num_values.toNat) (hk : kk < (e.length_array 2).toNat)
    (hj : jj < (e.length_array 1).toNat) (hi : ii < (e.length_array 0).toNat) :
    (entryAddrs num_values e)[payloadPos (e.length_array 0).toNat (e.length_array 1).toNat
        (e.length_array 2).toNat ll kk jj ii]?
      = some (e.offset + ll * e.stride_array 3 + kk * e.stride_array 2 + jj * e.stride_array 1
          + ii * e.stride_array 0) := by
  unfold entryAddrs
  rw [payloadPos_eq, getElem?_flatMap_range _ (entrySize e.length_array) _
    (fun _ _ => length_boxAddrs _ _ _) ll _ hl (boxPos_lt _ kk jj ii hk hj hi),
    boxAddrs_getElem? _ _ _ kk jj ii hk hj hi]

theorem entryPayload_getElem? {α : Type} [Zero α] (num_values : Int) (send_data : Int → α)
    (e : hypre_CommEntryType) (ll kk jj ii : Nat)
    (hl : ll < num_values.toNat) (hk : kk < (e.length_array 2).toNat)
    (hj : jj < (e.length_array 1).toNat) (hi : ii < (e.length_array 0).toNat) :
    (entryPayload num_values send_data e)[payloadPos (e.length_array 0).toNat
        (e.length_array 1).toNat (e.length_array 2).toNat ll kk jj ii]?
      = some (if orderAt e.order ll > -1 then
          send_data (e.offset + orderAt e.order ll * e.stride_array 3 + kk * e.stride_array 2
            + jj * e.stride_array 1 + ii * e.stride_array 0)
        else 0) := by
  unfold entryPayload
  rw [payloadPos_eq, getElem?_flatMap_range _ (entrySize e.length_array) _
    (fun _ _ => length_valuePayload send_data e _) ll _ hl (boxPos_lt _ kk jj ii hk hj hi)]
  unfold valuePayload
  by_cases h : orderAt e.order ll > -1
  · rw [if_pos h, if_pos h, List.getElem?_map, boxAddrs_getElem? _ _ _ kk jj ii hk hj hi]
    rfl
  · rw [if_neg h, if_neg h, List.getElem?_replicate, if_pos (boxPos_lt _ kk jj ii hk hj hi)]

theorem payloadSize_eq (num_values : Int) (e : hypre_CommEntryType) (hnv : 0 ≤ num_values)
    (h0 : 0 ≤ e.length_array 0) (h1 : 0 ≤ e.length_array 1) (h2 : 0 ≤ e.length_array 2) :
    payloadSize num_values e = (num_values.toNat * entrySize e.length_array : Nat) := by
  simp only [payloadSize, entrySize, Nat.cast_mul, Int.toNat_of_nonneg hnv,
    Int.toNat_of_nonneg h0, Int.toNat_of_nonneg h1, Int.toNat_of_nonneg h2]
  ring

theorem payloadStart_mono (num_values : Int) (entries : Int → hypre_CommEntryType) (dptr : Int)
    (hnv : 0 ≤ num_values) (n : Nat)
    (hlen : ∀ j : Nat, j < n → 0 ≤ (entries j).length_array 0 ∧ 0 ≤ (entries j).length_array 1
      ∧ 0 ≤ (entries j).length_array 2)
    (j : Nat) (hj : j ≤ n) :
    payloadStart num_values entries dptr j ≤ payloadStart num_values entries dptr n := by
  induction n with
  | zero =>
    have : j = 0 := by omega
    subst this
    exact le_refl _
  | succ k ih =>
    by_cases hjk : j = k + 1
    · subst hjk
      exact le_refl _
    · have h1 := ih (fun t ht => hlen t (by omega)) (by omega)
      obtain ⟨a0, a1, a2⟩ := hlen k (by omega)
      have h2 := payloadSize_eq num_values (entries k) hnv a0 a1 a2
      show _ ≤ payloadStart num_values entries dptr k + payloadSize num_values (entries k)
      omega

/-- The state of the pack after `n` entries: `dptr` is at the start of entry
`n`, the payload of every earlier entry is in place, and the buffer is as
before outside the positions written. -/
theorem packEntries_spec {α : Type} [Zero α] (num_values : Int) (send_data : Int → α)
    (entries : Int → hypre_CommEntryType) (buf : Int → α) (dptr : Int) (hnv : 0 ≤ num_values)
    (n : Nat)
    (hlen : ∀ j : Nat, j < n → 0 ≤ (entries j).length_array 0 ∧ 0 ≤ (entries j).length_array 1
      ∧ 0 ≤ (entries j).length_array 2) :
    (forLoop n (fun j t => packEntry num_values send_data (entries j) t) (buf, dptr)).2
        = payloadStart num_values entries dptr n
    ∧ (∀ a, a < dptr ∨ payloadStart num_values entries dptr n ≤ a →
        (forLoop n (fun j t => packEntry num_values send_data (entries j) t) (buf, dptr)).1 a
          = buf a)
    ∧ ∀ j : Nat, j < n → ∀ (q : Nat) (v : α),
        (entryPayload num_values send_data (entries j))[q]? = some v →
        (forLoop n (fun j t => packEntry num_values send_data (entries j) t) (buf, dptr)).1
          (payloadStart num_values entries dptr j + q) = v := by
  induction n with
  | zero =>
    refine ⟨rfl, fun _ _ => rfl, fun j hj => by omega⟩
  | succ k ih =>
    obtain ⟨ihd, ihf, ihp⟩ := ih (fun t ht => hlen t (by omega))
    obtain ⟨a0, a1, a2⟩ := hlen k (by omega)
    have hsz := payloadSize_eq num_values (entries k) hnv a0 a1 a2
    have hmono := payloadStart_mono num_values entries dptr hnv k
      (fun t ht => hlen t (by omega))
    rw [forLoop_succ, packEntry_eq num_values send_data (entries k) a0 a1 a2, ihd]
    have hstep : payloadStart num_values entries dptr (k + 1)
        = payloadStart num_values entries dptr k
          + (num_values.toNat * entrySize (entries k).length_array : Nat) := by
      rw [← hsz]; rfl
    refine ⟨hstep.symm, ?_, ?_⟩
    · intro a ha
      have h0 := hmono 0 (by omega)
      have h0' : payloadStart num_values entries dptr 0 = dptr := rfl
      rw [hstep] at ha
      show emit _ _ _ a = buf a
      rw [emit_outside _ _ _ _ (by rw [length_entryPayload]; omega)]
      exact ihf a (by omega)
    · intro j hj q v hq
      show emit _ _ _ _ = v
      by_cases hjk : j = k
      · subst hjk
        exact emit_getElem? _ _ _ q v hq
      · have hq' : q < (entryPayload num_values send_data (entries j)).length := by
          by_contra hcon
          rw [List.getElem?_eq_none (by omega)] at hq
          exact Option.noConfusion hq
        rw [length_entryPayload] at hq'
        obtain ⟨b0, b1, b2⟩ := hlen j (by omega)
        have hszj := payloadSize_eq num_values (entries j) hnv b0 b1 b2
        have hm := hmono (j + 1) (by omega)
        have hsj : payloadStart num_values entries dptr (j + 1)
            = payloadStart num_values entries dptr j + payloadSize num_values (entries j) := rfl
        rw [emit_outside _ _ _ _ (by left; omega)]
        exact ihp j (by omega) q v hq

/-! ## Pack loop: payload layout -/

/-- C2: the pack loop of hypre_InitializeCommunication over the entries of a
CommType, started at buffer position `dptr`, lays the payloads of the entries
one after another in compiled order (`payloadStart`), leaves the buffer
unchanged outside the positions from `dptr` to the final `dptr`, and writes
for entry `j` exactly `num_values*lx*ly*lz` doubles: the double at position
`((ll*lz + kk)*ly + jj)*lx + ii` of its payload is
`send_data[off + ord[ll]*s3 + kk*s2 + jj*s1 + ii*s0]` when `ord[ll] > -1` and
zero otherwise. -/
theorem pack_payload_layout {α : Type} [Zero α] (num_values : Int) (send_data : Int → α)
    (num_entries : Int) (entries : Int → hypre_CommEntryType) (buf : Int → α) (dptr : Int)
    (hnv : 0 ≤ num_values)
    (hlen : ∀ j : Nat, (j : Int) < num_entries →
      0 ≤ (entries j).length_array 0 ∧ 0 ≤ (entries j).length_array 1
        ∧ 0 ≤ (entries j).length_array 2) :
    (packEntries num_values send_data num_entries entries (buf, dptr)).2
        = payloadStart num_values entries dptr num_entries.toNat
    ∧ (∀ a, a < dptr ∨ (packEntries num_values send_data num_entries entries (buf, dptr)).2 ≤ a →
        (packEntries num_values send_data num_entries entries (buf, dptr)).1 a = buf a)
    ∧ ∀ j : Nat, (j : Int) < num_entries →
        payloadStart num_values entries dptr (j + 1)
          = payloadStart num_values entries dptr j
            + num_values * (entries j).length_array 0 * (entries j).length_array 1
              * (entries j).length_array 2
        ∧ ∀ ll kk jj ii : Nat, (ll : Int) < num_values →
            (kk : Int) < (entries j).length_array 2 → (jj : Int) < (entries j).length_array 1 →
            (ii : Int) < (entries j).length_array 0 →
            (packEntries num_values send_data num_entries entries (buf, dptr)).1
                (payloadStart num_values entries dptr j
                  + (((ll * (entries j).length_array 2 + kk) * (entries j).length_array 1 + jj)
                      * (entries j).length_array 0 + ii))
              = if orderAt (entries j).order ll > -1 then
                  send_data ((entries j).offset
                    + orderAt (entries j).order ll * (entries j).stride_array 3
                    + kk * (entries j).stride_array 2 + jj * (entries j).stride_array 1
                    + ii * (entries j).stride_array 0)
                else 0 := by
  have hlen' : ∀ j : Nat, j < num_entries.toNat →
      0 ≤ (entries j).length_array 0 ∧ 0 ≤ (entries j).length_array 1
        ∧ 0 ≤ (entries j).length_array 2 := fun j hj => hlen j (by omega)
  obtain ⟨hd, hf, hp⟩ :=
    packEntries_spec num_values send_data entries buf dptr hnv num_entries.toNat hlen'
  refine ⟨hd, ?_, ?_⟩
  · intro a ha
    apply hf a
    unfold packEntries at ha
    rw [hd] at ha
    exact ha
  · intro j hj
    refine ⟨rfl, ?_⟩
    intro ll kk jj ii hl hk hjj hi
    obtain ⟨a0, a1, a2⟩ := hlen j hj
    have hget := entryPayload_getElem? num_values send_data (entries j) ll kk jj ii
      (by omega) (by omega) (by omega) (by omega)
    have := hp j (by omega) _ _ hget
    rw [← this]
    unfold packEntries
    simp only [payloadPos, Nat.cast_add, Nat.cast_mul, Int.toNat_of_nonneg a0,
      Int.toNat_of_nonneg a1, Int.toNat_of_nonneg a2]

/-- C2 at a concrete input: two value components, component 1 skipped, and
two entries of three and two cells packed from position 5. -/
theorem pack_payload_layout_witness :
    (packEntries 2 (fun a => 100 + a) 2
        (fun j => if j = 0 then ⟨10, 1, fun d => if d = 0 then 3 else 1, fun d => if d = 0 then 2 else 1, [0, -1]⟩
          else ⟨40, 1, fun d => if d = 0 then 2 else 1, fun _ => 1, [0, -1]⟩)
        (fun _ => (7 : Int), 5)).2 = 15
    ∧ (packEntries 2 (fun a => 100 + a) 2
        (fun j => if j = 0 then ⟨10, 1, fun d => if d = 0 then 3 else 1, fun d => if d = 0 then 2 else 1, [0, -1]⟩
          else ⟨40, 1, fun d => if d = 0 then 2 else 1, fun _ => 1, [0, -1]⟩)
        (fun _ => (7 : Int), 5)).1 (5 + 2) = 114 := by
  have h := pack_payload_layout (2 : Int) (fun a => (100 + a : Int)) 2
    (fun j => if j = 0 then ⟨10, 1, fun d => if d = 0 then 3 else 1, fun d => if d = 0 then 2 else 1, [0, -1]⟩
      else ⟨40, 1, fun d => if d = 0 then 2 else 1, fun _ => 1, [0, -1]⟩)
    (fun _ => (7 : Int)) 5 (by decide)
    (fun j _ => by by_cases h : (j : Int) = 0 <;> simp [h])
  refine ⟨h.1.trans (by decide), ?_⟩
  have h2 := (h.2.2 0 (by decide)).2 0 0 0 2 (by decide) (by decide) (by decide) (by decide)
  simpa [orderAt] using h2

/-! ## The dimension collapse -/

/-- The axes (slots 0..2) of length other than 1, in increasing order. -/
theorem keptAxes_cases (la : Int → Int) :
    keptAxes la =
      (if la 0 = 1 then [] else [0]) ++ (if la 1 = 1 then [] else [1])
        ++ (if la 2 = 1 then [] else [2]) := by
  unfold keptAxes
  by_cases h0 : la 0 = 1 <;> by_cases h1 : la 1 = 1 <;> by_cases h2 : la 2 = 1 <;>
    simp [List.range_succ, List.filter, h0, h1, h2]

/-- The result of the collapse loop: the axes of length other than 1 are
moved, in order, to the first slots; the other slots below 3 hold length 1
and stride 1; `dim` counts the axes kept and `i` ends equal to `dim`; the
offset and the cells of the arrays outside 0..2 are as before. -/
theorem setEntryCollapse_spec (s : SetEntryState) :
    (∀ (t : Nat) (k : Nat), (keptAxes s.length_array)[t]? = some k →
        (setEntryCollapse s).length_array t = s.length_array k
        ∧ (setEntryCollapse s).stride_array t = s.stride_array k)
    ∧ (∀ t : Nat, (keptAxes s.length_array).length ≤ t → t < 3 →
        (setEntryCollapse s).length_array t = 1 ∧ (setEntryCollapse s).stride_array t = 1)
    ∧ (setEntryCollapse s).dim = (keptAxes s.length_array).length
    ∧ (setEntryCollapse s).i = (setEntryCollapse s).dim
    ∧ (setEntryCollapse s).offset = s.offset
    ∧ ∀ k : Int, (k < 0 ∨ 3 ≤ k) →
        (setEntryCollapse s).length_array k = s.length_array k
        ∧ (setEntryCollapse s).stride_array k = s.stride_array k := by
  rw [keptAxes_cases]
  by_cases h0 : s.length_array 0 = 1 <;> by_cases h1 : s.length_array 1 = 1 <;>
    by_cases h2 : s.length_array 2 = 1 <;>
  · simp only [h0, h1, h2, if_true, if_false, List.nil_append, List.append_nil,
      List.singleton_append, List.cons_append, List.length_cons, List.length_nil]
    refine ⟨?_, ?_, ?_, ?_, ?_, ?_⟩
    · intro t k hk
      rcases t with _ | _ | _ | t <;> simp at hk <;> subst hk <;>
        simp [setEntryCollapse, whileLoop, collapseBody, forLoop_two, forLoop_one, forLoop_zero,
          setAt, h0, h1, h2]
    · intro t ht1 ht2
      rcases t with _ | _ | _ | t <;> first | omega | skip
      all_goals
        simp [setEntryCollapse, whileLoop, collapseBody, forLoop_two, forLoop_one, forLoop_zero,
          setAt, h0, h1, h2]
    · simp [setEntryCollapse, whileLoop, collapseBody, forLoop_two, forLoop_one, forLoop_zero,
          setAt, h0, h1, h2]
    · simp [setEntryCollapse, whileLoop, collapseBody, forLoop_two, forLoop_one, forLoop_zero,
          setAt, h0, h1, h2]
    · simp [setEntryCollapse, whileLoop, collapseBody, forLoop_two, forLoop_one, forLoop_zero,
          setAt, h0, h1, h2]
    · intro k hk
      have e0 : k ≠ 0 := by omega
      have e1 : k ≠ 1 := by omega
      have e2 : k ≠ 2 := by omega
      simp [setEntryCollapse, whileLoop, collapseBody, forLoop_two, forLoop_one, forLoop_zero,
          setAt, h0, h1, h2, e0, e1, e2]

/-! ## The arrays before the collapse -/

theorem setAt_apply {β : Type} (a : Int → β) (i : Int) (v : β) (k : Int) :
    setAt a i v k = if k = i then v else a k := rfl

theorem whileLoop_stable {σ : Type} (cond : σ → Bool) (body : σ → σ) (n : Nat) (s : σ)
    (h : cond (whileLoop n cond body s) = false) (k : Nat) :
    whileLoop (n + k) cond body s = whileLoop n cond body s := by
  induction n generalizing s with
  | zero =>
    have hs : cond s = false := h
    cases k with
    | zero => rfl
    | succ j =>
      show whileLoop (0 + j + 1) cond body s = s
      simp [whileLoop, hs]
  | succ m ih =>
    have e : m + 1 + k = (m + k) + 1 := by omega
    rw [e]
    by_cases hc : cond s = true
    · simp only [whileLoop, hc, if_true] at h ⊢
      exact ih (body s) h
    · simp only [whileLoop, hc, if_false] at h ⊢
      trivial

theorem setEntryInit_length (box : hypre_Box) (stride : hypre_Index) (data_box : hypre_Box)
    (off : Int) (e : hypre_CommEntryType) (k : Int) :
    (setEntryInit box stride data_box off e).length_array k
      = if k = 0 then (hypre_BoxGetStrideSize box stride).x
        else if k = 1 then (hypre_BoxGetStrideSize box stride).y
        else if k = 2 then (hypre_BoxGetStrideSize box stride).z
        else e.length_array k := by
  simp [setEntryInit, setEntryInitAxis, forLoop_three, forLoop_two, forLoop_one,
    forLoop_zero, setAt_apply, hypre_IndexD]
  split_ifs <;> first | rfl | omega

theorem setEntryInit_stride (box : hypre_Box) (stride : hypre_Index) (data_box : hypre_Box)
    (off : Int) (e : hypre_CommEntryType) (k : Int) :
    (setEntryInit box stride data_box off e).stride_array k
      = if 0 ≤ k ∧ k < 3 then axisStride stride data_box k
        else if k = 3 then hypre_BoxVolume data_box
        else e.stride_array k := by
  simp [setEntryInit, setEntryInitAxis, forLoop_three, forLoop_two, forLoop_one,
    forLoop_zero, setAt_apply, hypre_IndexD, axisStride]
  split_ifs <;> first | rfl | omega

theorem setEntryInit_offset (box : hypre_Box) (stride : hypre_Index) (data_box : hypre_Box)
    (off : Int) (e : hypre_CommEntryType) :
    (setEntryInit box stride data_box off e).offset
      = off + hypre_BoxIndexRank data_box box.imin := by
  simp only [setEntryInit, setEntryInitAxis, forLoop_three]

theorem setEntryDir_length (dir : hypre_Index) (s : SetEntryState) :
    (setEntryDir dir s).length_array = s.length_array := by
  by_cases hx : dir.x < 0 <;> by_cases hy : dir.y < 0 <;> by_cases hz : dir.z < 0 <;>
    simp [setEntryDir, setEntryDirAxis, forLoop_three, hypre_IndexD, hx, hy, hz]

theorem setEntryDir_stride (dir : hypre_Index) (s : SetEntryState) (k : Int) :
    (setEntryDir dir s).stride_array k
      = if 0 ≤ k ∧ k < 3 ∧ hypre_IndexD dir k < 0 then -(s.stride_array k)
        else s.stride_array k := by
  by_cases hx : dir.x < 0 <;> by_cases hy : dir.y < 0 <;> by_cases hz : dir.z < 0 <;>
    simp [setEntryDir, setEntryDirAxis, forLoop_three, hypre_IndexD, hx, hy, hz, setAt_apply] <;>
    split_ifs <;> first | rfl | omega | simp_all

theorem setEntryDir_offset (dir : hypre_Index) (s : SetEntryState) :
    (setEntryDir dir s).offset
      = s.offset + (if dir.x < 0 then (s.length_array 0 - 1) * s.stride_array 0 else 0)
        + (if dir.y < 0 then (s.length_array 1 - 1) * s.stride_array 1 else 0)
        + (if dir.z < 0 then (s.length_array 2 - 1) * s.stride_array 2 else 0) := by
  by_cases hx : dir.x < 0 <;> by_cases hy : dir.y < 0 <;> by_cases hz : dir.z < 0 <;>
    simp [setEntryDir, setEntryDirAxis, forLoop_three, hypre_IndexD, hx, hy, hz, setAt_apply]

theorem setEntryCoord_offset (coord : hypre_Index) (s : SetEntryState) :
    (setEntryCoord coord s).offset = s.offset := by
  simp only [setEntryCoord, forLoop_three]

theorem setEntryCoord_perm (coord : hypre_Index) (s : SetEntryState) (h : isPermutation coord)
    (i : Int) (h0 : 0 ≤ i) (h3 : i < 3) :
    (setEntryCoord coord s).length_array (hypre_IndexD coord i) = s.length_array i
    ∧ (setEntryCoord coord s).stride_array (hypre_IndexD coord i) = s.stride_array i := by
  obtain ⟨hx, hy, hz, hxy, hxz, hyz⟩ := h
  have hi : i = 0 ∨ i = 1 ∨ i = 2 := by omega
  rcases hi with rfl | rfl | rfl <;>
    simp [setEntryCoord, forLoop_three, hypre_IndexD, setAt_apply] <;>
    constructor <;> intros <;> simp_all

theorem setEntryCoord_other (coord : hypre_Index) (s : SetEntryState) (h : isPermutation coord)
    (k : Int) (hk : k < 0 ∨ 3 ≤ k) :
    (setEntryCoord coord s).length_array k = s.length_array k
    ∧ (setEntryCoord coord s).stride_array k = s.stride_array k := by
  obtain ⟨hx, hy, hz, -, -, -⟩ := h
  have e0 : k ≠ coord.x := by omega
  have e1 : k ≠ coord.y := by omega
  have e2 : k ≠ coord.z := by omega
  simp [setEntryCoord, forLoop_three, hypre_IndexD, setAt_apply, e0, e1, e2]

theorem keptAxes_length_le (la : Int → Int) : (keptAxes la).length ≤ 3 := by
  rw [keptAxes_cases]
  by_cases h0 : la 0 = 1 <;> by_cases h1 : la 1 = 1 <;> by_cases h2 : la 2 = 1 <;>
    simp [h0, h1, h2]

theorem setEntryCollapse_noop (s : SetEntryState) (h0 : s.length_array 0 ≠ 1)
    (h1 : s.length_array 1 ≠ 1) (h2 : s.length_array 2 ≠ 1) (k : Int) :
    (setEntryCollapse s).length_array k = s.length_array k
    ∧ (setEntryCollapse s).stride_array k = s.stride_array k := by
  obtain ⟨hk, -, -, -, -, ho⟩ := setEntryCollapse_spec s
  have hkept : keptAxes s.length_array = [0, 1, 2] := by
    rw [keptAxes_cases]; simp [h0, h1, h2]
  rw [hkept] at hk
  by_cases hr : k < 0 ∨ 3 ≤ k
  · exact ho k hr
  · have hc : k = 0 ∨ k = 1 ∨ k = 2 := by omega
    rcases hc with rfl | rfl | rfl
    · exact hk 0 0 rfl
    · exact hk 1 1 rfl
    · exact hk 2 2 rfl

/-! ## Entry computation: permutation, collapse, order -/

/-- C8: for a region whose stride-sizes are all at least 2, a permutation
`coord` and `dir = (1,1,1)`, hypre_CommTypeSetEntry leaves in slot `coord[i]`
of `length_array` and `stride_array` the stride-size and the stride of source
axis `i`; with `coord = (1,0,2)` the lengths are `(ly, lx, lz)` and the
strides are `(s_y*sizeX(D), s_x, s_z*sizeX(D)*sizeY(D))`. -/
theorem setEntry_coord_permutation (box : hypre_Box) (stride coord : hypre_Index)
    (order : List Int) (data_box : hypre_Box) (data_box_offset : Int)
    (comm_entry : hypre_CommEntryType)
    (hx : 2 ≤ (hypre_BoxGetStrideSize box stride).x)
    (hy : 2 ≤ (hypre_BoxGetStrideSize box stride).y)
    (hz : 2 ≤ (hypre_BoxGetStrideSize box stride).z)
    (hperm : isPermutation coord) :
    (∀ i : Int, 0 ≤ i → i < 3 →
      (hypre_CommTypeSetEntry box stride coord ⟨1, 1, 1⟩ order data_box data_box_offset
          comm_entry).length_array (hypre_IndexD coord i)
        = hypre_IndexD (hypre_BoxGetStrideSize box stride) i
      ∧ (hypre_CommTypeSetEntry box stride coord ⟨1, 1, 1⟩ order data_box data_box_offset
          comm_entry).stride_array (hypre_IndexD coord i)
        = axisStride stride data_box i)
    ∧ (coord = ⟨1, 0, 2⟩ →
      (hypre_CommTypeSetEntry box stride coord ⟨1, 1, 1⟩ order data_box data_box_offset
          comm_entry).length_array 0 = (hypre_BoxGetStrideSize box stride).y
      ∧ (hypre_CommTypeSetEntry box stride coord ⟨1, 1, 1⟩ order data_box data_box_offset
          comm_entry).length_array 1 = (hypre_BoxGetStrideSize box stride).x
      ∧ (hypre_CommTypeSetEntry box stride coord ⟨1, 1, 1⟩ order data_box data_box_offset
          comm_entry).length_array 2 = (hypre_BoxGetStrideSize box stride).z
      ∧ (hypre_CommTypeSetEntry box stride coord ⟨1, 1, 1⟩ order data_box data_box_offset
          comm_entry).stride_array 0 = stride.y * hypre_BoxSizeD data_box 0
      ∧ (hypre_CommTypeSetEntry box stride coord ⟨1, 1, 1⟩ order data_box data_box_offset
          comm_entry).stride_array 1 = stride.x
      ∧ (hypre_CommTypeSetEntry box stride coord ⟨1, 1, 1⟩ order data_box data_box_offset
          comm_entry).stride_array 2
        = stride.z * hypre_BoxSizeD data_box 0 * hypre_BoxSizeD data_box 1) := by
  -- the arrays before the collapse, slot by slot
  have hadj : ∀ i : Int, 0 ≤ i → i < 3 →
      (setEntryAdjusted box stride coord ⟨1, 1, 1⟩ data_box data_box_offset
          comm_entry).length_array (hypre_IndexD coord i)
        = hypre_IndexD (hypre_BoxGetStrideSize box stride) i
      ∧ (setEntryAdjusted box stride coord ⟨1, 1, 1⟩ data_box data_box_offset
          comm_entry).stride_array (hypre_IndexD coord i)
        = axisStride stride data_box i := by
    intro i h0 h3
    obtain ⟨hl, hs⟩ := setEntryCoord_perm coord
      (setEntryDir ⟨1, 1, 1⟩ (setEntryInit box stride data_box data_box_offset comm_entry))
      hperm i h0 h3
    unfold setEntryAdjusted
    rw [hl, hs, setEntryDir_length, setEntryDir_stride, setEntryInit_length,
      setEntryInit_stride]
    have hi : i = 0 ∨ i = 1 ∨ i = 2 := by omega
    rcases hi with rfl | rfl | rfl <;> simp [hypre_IndexD]
  -- no slot has length 1, so the collapse changes nothing
  have hslots : ∀ k : Int, 0 ≤ k → k < 3 → ∃ i : Int, 0 ≤ i ∧ i < 3 ∧ hypre_IndexD coord i = k := by
    intro k h0 h3
    obtain ⟨px, py, pz, nxy, nxz, nyz⟩ := hperm
    by_cases ex : coord.x = k
    · exact ⟨0, by omega, by omega, by simp [hypre_IndexD, ex]⟩
    · by_cases ey : coord.y = k
      · exact ⟨1, by omega, by omega, by simp [hypre_IndexD, ey]⟩
      · exact ⟨2, by omega, by omega, by simp [hypre_IndexD]; omega⟩
  have hne : ∀ k : Int, 0 ≤ k → k < 3 →
      (setEntryAdjusted box stride coord ⟨1, 1, 1⟩ data_box data_box_offset
          comm_entry).length_array k ≠ 1 := by
    intro k h0 h3
    obtain ⟨i, i0, i3, rfl⟩ := hslots k h0 h3
    rw [(hadj i i0 i3).1]
    have hi : i = 0 ∨ i = 1 ∨ i = 2 := by omega
    rcases hi with rfl | rfl | rfl <;> simp [hypre_IndexD] <;> omega
  have hfin : ∀ k : Int,
      (hypre_CommTypeSetEntry box stride coord ⟨1, 1, 1⟩ order data_box data_box_offset
          comm_entry).length_array k
        = (setEntryAdjusted box stride coord ⟨1, 1, 1⟩ data_box data_box_offset
          comm_entry).length_array k
      ∧ (hypre_CommTypeSetEntry box stride coord ⟨1, 1, 1⟩ order data_box data_box_offset
          comm_entry).stride_array k
        = (setEntryAdjusted box stride coord ⟨1, 1, 1⟩ data_box data_box_offset
          comm_entry).stride_array k :=
    fun k => setEntryCollapse_noop _ (hne 0 (by omega) (by omega))
      (hne 1 (by omega) (by omega)) (hne 2 (by omega) (by omega)) k
  have hgen : ∀ i : Int, 0 ≤ i → i < 3 →
      (hypre_CommTypeSetEntry box stride coord ⟨1, 1, 1⟩ order data_box data_box_offset
          comm_entry).length_array (hypre_IndexD coord i)
        = hypre_IndexD (hypre_BoxGetStrideSize box stride) i
      ∧ (hypre_CommTypeSetEntry box stride coord ⟨1, 1, 1⟩ order data_box data_box_offset
          comm_entry).stride_array (hypre_IndexD coord i)
        = axisStride stride data_box i := by
    intro i h0 h3
    rw [(hfin _).1, (hfin _).2]
    exact hadj i h0 h3
  refine ⟨hgen, ?_⟩
  intro hc
  subst hc
  have g0 := hgen 0 (by omega) (by omega)
  have g1 := hgen 1 (by omega) (by omega)
  have g2 := hgen 2 (by omega) (by omega)
  simp [hypre_IndexD, axisStride] at g0 g1 g2
  exact ⟨g1.1, g0.1, g2.1, g1.2, g0.2, g2.2⟩

/-- C8 at a concrete input: a region of 4 x 3 x 2 points of a 12 x 7 x 5 data
box, `coord = (1,0,2)`. -/
theorem setEntry_coord_permutation_witness :
    (hypre_CommTypeSetEntry ⟨⟨0, 0, 0⟩, ⟨3, 2, 1⟩⟩ ⟨1, 1, 1⟩ ⟨1, 0, 2⟩ ⟨1, 1, 1⟩ [0]
        ⟨⟨-1, -1, -1⟩, ⟨10, 5, 3⟩⟩ 100 ⟨0, 0, fun _ => 0, fun _ => 0, []⟩).length_array 0 = 3
    ∧ (hypre_CommTypeSetEntry ⟨⟨0, 0, 0⟩, ⟨3, 2, 1⟩⟩ ⟨1, 1, 1⟩ ⟨1, 0, 2⟩ ⟨1, 1, 1⟩ [0]
        ⟨⟨-1, -1, -1⟩, ⟨10, 5, 3⟩⟩ 100 ⟨0, 0, fun _ => 0, fun _ => 0, []⟩).stride_array 0 = 12 := by
  have h := (setEntry_coord_permutation ⟨⟨0, 0, 0⟩, ⟨3, 2, 1⟩⟩ ⟨1, 1, 1⟩ ⟨1, 0, 2⟩ [0]
    ⟨⟨-1, -1, -1⟩, ⟨10, 5, 3⟩⟩ 100 ⟨0, 0, fun _ => 0, fun _ => 0, []⟩
    (by decide) (by decide) (by decide) (by decide)).2 rfl
  exact ⟨h.1.trans (by decide), h.2.2.2.1.trans (by decide)⟩

/-- C9: the postcondition of the dimension collapse of hypre_CommTypeSetEntry.
With `m` the number of axes whose length, after the adjustments for `dir`
and `coord`, is not 1: slots `0..m-1` of `length_array` and `stride_array`
hold the pairs of those axes in their original order, slots `m..2` hold
length 1 and stride 1, `dim = max(1, m)` is 1, 2 or 3, and the collapse loop
has ended within its three rounds (more fuel gives the same arrays). -/
theorem setEntry_dimension_collapse (box : hypre_Box) (stride coord dir : hypre_Index)
    (order : List Int) (data_box : hypre_Box) (data_box_offset : Int)
    (comm_entry : hypre_CommEntryType) :
    (∀ t k : Nat,
      (keptAxes (setEntryAdjusted box stride coord dir data_box data_box_offset
        comm_entry).length_array)[t]? = some k →
      (hypre_CommTypeSetEntry box stride coord dir order data_box data_box_offset
          comm_entry).length_array t
        = (setEntryAdjusted box stride coord dir data_box data_box_offset
          comm_entry).length_array k
      ∧ (hypre_CommTypeSetEntry box stride coord dir order data_box data_box_offset
          comm_entry).stride_array t
        = (setEntryAdjusted box stride coord dir data_box data_box_offset
          comm_entry).stride_array k)
    ∧ (∀ t : Nat,
      (keptAxes (setEntryAdjusted box stride coord dir data_box data_box_offset
        comm_entry).length_array).length ≤ t → t < 3 →
      (hypre_CommTypeSetEntry box stride coord dir order data_box data_box_offset
          comm_entry).length_array t = 1
      ∧ (hypre_CommTypeSetEntry box stride coord dir order data_box data_box_offset
          comm_entry).stride_array t = 1)
    ∧ (hypre_CommTypeSetEntry box stride coord dir order data_box data_box_offset
          comm_entry).dim
        = max 1 ((keptAxes (setEntryAdjusted box stride coord dir data_box data_box_offset
            comm_entry).length_array).length : Int)
    ∧ ((hypre_CommTypeSetEntry box stride coord dir order data_box data_box_offset
          comm_entry).dim = 1
      ∨ (hypre_CommTypeSetEntry box stride coord dir order data_box data_box_offset
          comm_entry).dim = 2
      ∨ (hypre_CommTypeSetEntry box stride coord dir order data_box data_box_offset
          comm_entry).dim = 3)
    ∧ ∀ fuel : Nat,
        whileLoop (3 + fuel) (fun t => decide (t.i < t.dim)) collapseBody
            { setEntryAdjusted box stride coord dir data_box data_box_offset comm_entry with
              dim := 3, i := 0 }
          = setEntryCollapse
              (setEntryAdjusted box stride coord dir data_box data_box_offset comm_entry) := by
  obtain ⟨hk, h1, hd, hi, -, -⟩ := setEntryCollapse_spec
    (setEntryAdjusted box stride coord dir data_box data_box_offset comm_entry)
  have hle := keptAxes_length_le
    (setEntryAdjusted box stride coord dir data_box data_box_offset comm_entry).length_array
  have hdim : (hypre_CommTypeSetEntry box stride coord dir order data_box data_box_offset
      comm_entry).dim
        = max 1 ((keptAxes (setEntryAdjusted box stride coord dir data_box data_box_offset
            comm_entry).length_array).length : Int) := by
    simp only [hypre_CommTypeSetEntry, hd]
    split_ifs with h0
    · rw [h0]; rfl
    · have : (1 : Int) ≤ ((keptAxes (setEntryAdjusted box stride coord dir data_box
          data_box_offset comm_entry).length_array).length : Int) := by omega
      rw [max_eq_right this]
  refine ⟨hk, h1, hdim, ?_, ?_⟩
  · rw [hdim]
    omega
  · intro fuel
    apply whileLoop_stable
    show decide ((setEntryCollapse _).i < (setEntryCollapse _).dim) = false
    rw [hi]
    simp

/-- C9 at the input of the specification: a region of shape (7,1,1) with unit
stride gives `dim = 1` and lengths (7,1,1). -/
theorem setEntry_dimension_collapse_witness :
    (hypre_CommTypeSetEntry ⟨⟨0, 0, 0⟩, ⟨6, 0, 0⟩⟩ ⟨1, 1, 1⟩ ⟨0, 1, 2⟩ ⟨1, 1, 1⟩ [0]
        ⟨⟨-1, -1, -1⟩, ⟨10, 5, 3⟩⟩ 0 ⟨0, 0, fun _ => 0, fun _ => 0, []⟩).dim = 1
    ∧ (hypre_CommTypeSetEntry ⟨⟨0, 0, 0⟩, ⟨6, 0, 0⟩⟩ ⟨1, 1, 1⟩ ⟨0, 1, 2⟩ ⟨1, 1, 1⟩ [0]
        ⟨⟨-1, -1, -1⟩, ⟨10, 5, 3⟩⟩ 0 ⟨0, 0, fun _ => 0, fun _ => 0, []⟩).length_array 0 = 7
    ∧ (hypre_CommTypeSetEntry ⟨⟨0, 0, 0⟩, ⟨6, 0, 0⟩⟩ ⟨1, 1, 1⟩ ⟨0, 1, 2⟩ ⟨1, 1, 1⟩ [0]
        ⟨⟨-1, -1, -1⟩, ⟨10, 5, 3⟩⟩ 0 ⟨0, 0, fun _ => 0, fun _ => 0, []⟩).length_array 1 = 1
    ∧ (hypre_CommTypeSetEntry ⟨⟨0, 0, 0⟩, ⟨6, 0, 0⟩⟩ ⟨1, 1, 1⟩ ⟨0, 1, 2⟩ ⟨1, 1, 1⟩ [0]
        ⟨⟨-1, -1, -1⟩, ⟨10, 5, 3⟩⟩ 0 ⟨0, 0, fun _ => 0, fun _ => 0, []⟩).length_array 2 = 1 := by
  have h := setEntry_dimension_collapse ⟨⟨0, 0, 0⟩, ⟨6, 0, 0⟩⟩ ⟨1, 1, 1⟩ ⟨0, 1, 2⟩ ⟨1, 1, 1⟩ [0]
    ⟨⟨-1, -1, -1⟩, ⟨10, 5, 3⟩⟩ 0 ⟨0, 0, fun _ => 0, fun _ => 0, []⟩
  refine ⟨h.2.2.1.trans (by decide), (h.1 0 0 (by decide)).1.trans (by decide),
    (h.2.1 1 (by decide) (by decide)).1, (h.2.1 2 (by decide) (by decide)).1⟩

/-- C10, as the code has it: hypre_CommTypeSetEntry stores the order array it
is given, sets `stride_array[3]` to the volume of the data box, and does not
write `length_array[3]` (it is not given `num_values`): that cell keeps the
value it had before the call. -/
theorem setEntry_order_and_length3 (box : hypre_Box) (stride coord dir : hypre_Index)
    (order : List Int) (data_box : hypre_Box) (data_box_offset : Int)
    (comm_entry : hypre_CommEntryType) (hperm : isPermutation coord) :
    (hypre_CommTypeSetEntry box stride coord dir order data_box data_box_offset
        comm_entry).order = order
    ∧ (hypre_CommTypeSetEntry box stride coord dir order data_box data_box_offset
        comm_entry).length_array 3 = comm_entry.length_array 3
    ∧ (hypre_CommTypeSetEntry box stride coord dir order data_box data_box_offset
        comm_entry).stride_array 3 = hypre_BoxVolume data_box := by
  obtain ⟨-, -, -, -, -, ho⟩ := setEntryCollapse_spec
    (setEntryAdjusted box stride coord dir data_box data_box_offset comm_entry)
  obtain ⟨hl, hs⟩ := ho 3 (by omega)
  obtain ⟨cl, cs⟩ := setEntryCoord_other coord
    (setEntryDir dir (setEntryInit box stride data_box data_box_offset comm_entry)) hperm 3
    (by omega)
  refine ⟨rfl, ?_, ?_⟩
  · show (setEntryCollapse _).length_array 3 = _
    rw [hl]
    unfold setEntryAdjusted
    rw [cl, setEntryDir_length, setEntryInit_length]
    simp
  · show (setEntryCollapse _).stride_array 3 = _
    rw [hs]
    unfold setEntryAdjusted
    rw [cs, setEntryDir_stride, setEntryInit_stride]
    simp

/-- C10 at a concrete input: the amended statement for a region of shape
(7,1,1) and an entry whose `length_array[3]` held 5 before the call. -/
theorem setEntry_order_and_length3_witness :
    isPermutation ⟨0, 1, 2⟩
    ∧ (hypre_CommTypeSetEntry ⟨⟨0, 0, 0⟩, ⟨6, 0, 0⟩⟩ ⟨1, 1, 1⟩ ⟨0, 1, 2⟩ ⟨1, 1, 1⟩ [0, 1]
        ⟨⟨-1, -1, -1⟩, ⟨10, 5, 3⟩⟩ 0 ⟨0, 0, fun _ => 5, fun _ => 0, []⟩).length_array 3 = 5 :=
  ⟨by decide,
    (setEntry_order_and_length3 ⟨⟨0, 0, 0⟩, ⟨6, 0, 0⟩⟩ ⟨1, 1, 1⟩ ⟨0, 1, 2⟩ ⟨1, 1, 1⟩ [0, 1]
      ⟨⟨-1, -1, -1⟩, ⟨10, 5, 3⟩⟩ 0 ⟨0, 0, fun _ => 5, fun _ => 0, []⟩ (by decide)).2.1⟩

/-- C10 fails as stated: with two value components (`order = [0, 1]`) and an
entry whose cells were all zero before the call, `length_array[3]` is 0 after
hypre_CommTypeSetEntry, not `num_values = 2`. -/
theorem setEntry_length3_counterexample :
    (hypre_CommTypeSetEntry ⟨⟨0, 0, 0⟩, ⟨6, 0, 0⟩⟩ ⟨1, 1, 1⟩ ⟨0, 1, 2⟩ ⟨1, 1, 1⟩ [0, 1]
        ⟨⟨-1, -1, -1⟩, ⟨10, 5, 3⟩⟩ 0 ⟨0, 0, fun _ => 0, fun _ => 0, []⟩).order.length = 2
    ∧ (hypre_CommTypeSetEntry ⟨⟨0, 0, 0⟩, ⟨6, 0, 0⟩⟩ ⟨1, 1, 1⟩ ⟨0, 1, 2⟩ ⟨1, 1, 1⟩ [0, 1]
        ⟨⟨-1, -1, -1⟩, ⟨10, 5, 3⟩⟩ 0 ⟨0, 0, fun _ => 0, fun _ => 0, []⟩).length_array 3 = 0
    ∧ (hypre_CommTypeSetEntry ⟨⟨0, 0, 0⟩, ⟨6, 0, 0⟩⟩ ⟨1, 1, 1⟩ ⟨0, 1, 2⟩ ⟨1, 1, 1⟩ [0, 1]
        ⟨⟨-1, -1, -1⟩, ⟨10, 5, 3⟩⟩ 0 ⟨0, 0, fun _ => 0, fun _ => 0, []⟩).length_array 3 ≠ 2 := by
  decide

theorem flatMap_singleton_map {β γ : Type} (l : List β) (f : β → γ) :
    l.flatMap (fun x => [f x]) = l.map f := by
  induction l with
  | nil => rfl
  | cons x xs ih => simp [List.flatMap_cons, ih]

theorem range_one_eq : List.range 1 = [0] := rfl

/-- The walk depends on the six cells `length_array[0..2]`, `stride_array[0..2]` only. -/
theorem boxAddrs_congr (la sa la' sa' : Int → Int) (p : Int)
    (h0 : la 0 = la' 0) (h1 : la 1 = la' 1) (h2 : la 2 = la' 2)
    (g0 : sa 0 = sa' 0) (g1 : sa 1 = sa' 1) (g2 : sa 2 = sa' 2) :
    boxAddrs la sa p = boxAddrs la' sa' p := by
  simp only [boxAddrs, planeAddrs, rowAddrs, h0, h1, h2, g0, g1, g2]

/-- The dimension collapse preserves the walk: the collapsed arrays visit the
same cells in the same order as the arrays before the collapse. -/
theorem boxAddrs_collapse (s : SetEntryState) (p : Int) :
    boxAddrs (setEntryCollapse s).length_array (setEntryCollapse s).stride_array p
      = boxAddrs s.length_array s.stride_array p := by
  obtain ⟨hk, h1, -, -, -, -⟩ := setEntryCollapse_spec s
  rw [keptAxes_cases] at hk h1
  by_cases e0 : s.length_array 0 = 1 <;> by_cases e1 : s.length_array 1 = 1 <;>
    by_cases e2 : s.length_array 2 = 1 <;>
  · simp only [e0, e1, e2, if_true, if_false, List.nil_append, List.append_nil,
      List.singleton_append, List.cons_append, List.length_cons, List.length_nil] at hk h1
    have a0 := hk 0
    have a1 := hk 1
    have a2 := hk 2
    have b0 := h1 0
    have b1 := h1 1
    have b2 := h1 2
    simp at a0 a1 a2 b0 b1 b2
    simp [boxAddrs, planeAddrs, rowAddrs, a0, a1, a2, b0, b1, b2, e0, e1, e2,
      flatMap_singleton_map, range_one_eq]

/-! ## Positions and distinct cells -/

theorem payloadPos_decomp (lx ly lz nv n : Nat) (h : n < nv * (lz * (ly * lx))) :
    ∃ ll kk jj ii : Nat, ll < nv ∧ kk < lz ∧ jj < ly ∧ ii < lx
      ∧ n = payloadPos lx ly lz ll kk jj ii := by
  have hx : 0 < lx := by
    rcases Nat.eq_zero_or_pos lx with h0 | h0
    · subst h0; simp at h
    · exact h0
  have hy : 0 < ly := by
    rcases Nat.eq_zero_or_pos ly with h0 | h0
    · subst h0; simp at h
    · exact h0
  have hz : 0 < lz := by
    rcases Nat.eq_zero_or_pos lz with h0 | h0
    · subst h0; simp at h
    · exact h0
  refine ⟨n / lx / ly / lz, n / lx / ly % lz, n / lx % ly, n % lx, ?_, Nat.mod_lt _ hz,
    Nat.mod_lt _ hy, Nat.mod_lt _ hx, ?_⟩
  · rw [Nat.div_div_eq_div_mul, Nat.div_div_eq_div_mul, Nat.div_lt_iff_lt_mul (by positivity)]
    calc n < nv * (lz * (ly * lx)) := h
      _ = _ := by ring
  · unfold payloadPos
    have e1 := Nat.div_add_mod n lx
    have e2 := Nat.div_add_mod (n / lx) ly
    have e3 := Nat.div_add_mod (n / lx / ly) lz
    calc n = lx * (n / lx) + n % lx := e1.symm
      _ = lx * (ly * (n / lx / ly) + n / lx % ly) + n % lx := by rw [e2]
      _ = lx * (ly * (lz * (n / lx / ly / lz) + n / lx / ly % lz) + n / lx % ly) + n % lx := by
          rw [e3]
      _ = ((n / lx / ly / lz * lz + n / lx / ly % lz) * ly + n / lx % ly) * lx + n % lx := by
          ring

/-- The cells visited by the unpack of an entry are pairwise distinct when
the address map of the walk is injective on the index range. -/
theorem entryAddrs_nodup (num_values : Int) (e : hypre_CommEntryType)
    (hinj : ∀ ll kk jj ii ll' kk' jj' ii' : Nat,
      ll < num_values.toNat → kk < (e.length_array 2).toNat → jj < (e.length_array 1).toNat →
      ii < (e.length_array 0).toNat →
      ll' < num_values.toNat → kk' < (e.length_array 2).toNat → jj' < (e.length_array 1).toNat →
      ii' < (e.length_array 0).toNat →
      e.offset + ll * e.stride_array 3 + kk * e.stride_array 2 + jj * e.stride_array 1
          + ii * e.stride_array 0
        = e.offset + ll' * e.stride_array 3 + kk' * e.stride_array 2 + jj' * e.stride_array 1
          + ii' * e.stride_array 0 →
      ll = ll' ∧ kk = kk' ∧ jj = jj' ∧ ii = ii') :
    (entryAddrs num_values e).Nodup := by
  rw [List.nodup_iff_getElem?_ne_getElem?]
  intro n m hnm hm heq
  rw [length_entryAddrs] at hm
  unfold entrySize at hm
  obtain ⟨l1, k1, j1, i1, a1, a2, a3, a4, rfl⟩ :=
    payloadPos_decomp (e.length_array 0).toNat (e.length_array 1).toNat (e.length_array 2).toNat
      num_values.toNat n (by omega)
  obtain ⟨l2, k2, j2, i2, b1, b2, b3, b4, rfl⟩ :=
    payloadPos_decomp (e.length_array 0).toNat (e.length_array 1).toNat (e.length_array 2).toNat
      num_values.toNat m hm
  rw [entryAddrs_getElem? _ _ _ _ _ _ a1 a2 a3 a4,
    entryAddrs_getElem? _ _ _ _ _ _ b1 b2 b3 b4, Option.some.injEq] at heq
  obtain ⟨rfl, rfl, rfl, rfl⟩ := hinj _ _ _ _ _ _ _ _ a1 a2 a3 a4 b1 b2 b3 b4 heq
  exact absurd hnm (lt_irrefl _)

theorem digit_unique (B q q' X X' : Int) (hX : 0 ≤ X) (hXB : X < B) (hX' : 0 ≤ X')
    (hX'B : X' < B) (h : q * B + X = q' * B + X') : q = q' ∧ X = X' := by
  have hq : q = q' := by
    rcases lt_trichotomy q q' with hlt | heq | hgt
    · exfalso
      have : (q' - q) * B ≥ 1 * B := by
        apply mul_le_mul_of_nonneg_right <;> omega
      nlinarith
    · exact heq
    · exfalso
      have : (q - q') * B ≥ 1 * B := by
        apply mul_le_mul_of_nonneg_right <;> omega
      nlinarith
  subst hq
  exact ⟨rfl, by omega⟩

/-- The unpack, through entry `re`, of the payload packed from entry `se` at
the same buffer position: the cell visited at position `n` of the walk of
`re` receives the double at position `n` of the payload of `se`. -/
theorem exchange_cell {α : Type} [Zero α] [Add α] (action num_values : Int)
    (send_data recv_data buf : Int → α) (d : Int) (se re : hypre_CommEntryType)
    (hs0 : 0 ≤ se.length_array 0) (hs1 : 0 ≤ se.length_array 1) (hs2 : 0 ≤ se.length_array 2)
    (hr0 : 0 ≤ re.length_array 0) (hnd : (entryAddrs num_values re).Nodup)
    (n : Nat) (a : Int) (v : α) (ha : (entryAddrs num_values re)[n]? = some a)
    (hv : (entryPayload num_values send_data se)[n]? = some v) :
    (unpackEntry action num_values (packEntry num_values send_data se (buf, d)).1 re
        (recv_data, d)).1 a
      = if action > 0 then recv_data a + v else v := by
  rw [unpackEntry_eq action num_values _ re hr0, packEntry_eq num_values send_data se hs0 hs1 hs2]
  show scatter action _ _ d recv_data a = _
  rw [scatter_getElem? action _ _ d recv_data hnd n a ha]
  have hb : emit (entryPayload num_values send_data se) d buf (d + n) = v :=
    emit_getElem? _ d buf n v hv
  simp only [hb]

/-- Two exchanges in a row with `action > 0`, with the same send data: the
cell visited at position `n` holds `old + v` after the first and
`(old + v) + v` after the second, `v` being the double at position `n` of
the payload and `+` the machine addition. -/
theorem exchange_twice_cell {α : Type} [Zero α] [Add α] (action num_values : Int)
    (ha : action > 0) (send_data recv_data buf buf2 : Int → α) (d d2 : Int)
    (se re : hypre_CommEntryType)
    (hs0 : 0 ≤ se.length_array 0) (hs1 : 0 ≤ se.length_array 1) (hs2 : 0 ≤ se.length_array 2)
    (hr0 : 0 ≤ re.length_array 0) (hnd : (entryAddrs num_values re).Nodup)
    (n : Nat) (a : Int) (v : α) (hcell : (entryAddrs num_values re)[n]? = some a)
    (hv : (entryPayload num_values send_data se)[n]? = some v) :
    (unpackEntry action num_values (packEntry num_values send_data se (buf, d)).1 re
        (recv_data, d)).1 a = recv_data a + v
    ∧ (unpackEntry action num_values (packEntry num_values send_data se (buf2, d2)).1 re
        ((unpackEntry action num_values (packEntry num_values send_data se (buf, d)).1 re
          (recv_data, d)).1, d2)).1 a = (recv_data a + v) + v := by
  have h1 := exchange_cell action num_values send_data recv_data buf d se re hs0 hs1 hs2 hr0
    hnd n a v hcell hv
  have h2 := exchange_cell action num_values send_data
    (unpackEntry action num_values (packEntry num_values send_data se (buf, d)).1 re
      (recv_data, d)).1 buf2 d2 se re hs0 hs1 hs2 hr0 hnd n a v hcell hv
  rw [if_pos ha] at h1 h2
  exact ⟨h1, by rw [h2, h1]⟩

/-! ## Unpack loop: accumulation and frame -/

/-- C4: for a receive entry whose visited cells are pairwise distinct, the
unpack of the entry in hypre_FinalizeCommunication leaves in the cell visited
at `(ll, kk, jj, ii)` its previous value plus the buffer double at position
`((ll*lz + kk)*ly + jj)*lx + ii` past `dptr` when `action > 0`, and that
buffer double alone otherwise. -/
theorem unpack_add_accumulate {α : Type} [Add α] (action num_values : Int)
    (buf recv_data : Int → α) (dptr : Int) (e : hypre_CommEntryType)
    (h0 : 0 ≤ e.length_array 0) (h1 : 0 ≤ e.length_array 1) (h2 : 0 ≤ e.length_array 2)
    (hnd : (entryAddrs num_values e).Nodup)
    (ll kk jj ii : Nat) (hl : (ll : Int) < num_values) (hk : (kk : Int) < e.length_array 2)
    (hj : (jj : Int) < e.length_array 1) (hi : (ii : Int) < e.length_array 0) :
    (unpackEntry action num_values buf e (recv_data, dptr)).1
        (e.offset + ll * e.stride_array 3 + kk * e.stride_array 2 + jj * e.stride_array 1
          + ii * e.stride_array 0)
      = if action > 0 then
          recv_data (e.offset + ll * e.stride_array 3 + kk * e.stride_array 2
              + jj * e.stride_array 1 + ii * e.stride_array 0)
            + buf (dptr + (((ll * e.length_array 2 + kk) * e.length_array 1 + jj)
                * e.length_array 0 + ii))
        else
          buf (dptr + (((ll * e.length_array 2 + kk) * e.length_array 1 + jj)
              * e.length_array 0 + ii)) := by
  have hget := entryAddrs_getElem? num_values e ll kk jj ii (by omega) (by omega) (by omega)
    (by omega)
  have hpos : ((payloadPos (e.length_array 0).toNat (e.length_array 1).toNat
      (e.length_array 2).toNat ll kk jj ii : Nat) : Int)
      = ((ll * e.length_array 2 + kk) * e.length_array 1 + jj) * e.length_array 0 + ii := by
    simp only [payloadPos, Nat.cast_add, Nat.cast_mul, Int.toNat_of_nonneg h0,
      Int.toNat_of_nonneg h1, Int.toNat_of_nonneg h2]
  rw [unpackEntry_eq action num_values buf e h0]
  show scatter action buf _ dptr recv_data _ = _
  rw [scatter_getElem? action buf _ dptr recv_data hnd _ _ hget, hpos]

/-- C4 at the input of scenario C: one cell preloaded with 10, one buffer
double 5, `action = 1`: the cell ends as 10 + 5. -/
theorem unpack_add_accumulate_witness :
    (unpackEntry 1 1 (fun _ => (5 : Int))
        ⟨3, 1, fun _ => 1, fun _ => 1, [0]⟩ (fun _ => 10, 0)).1 3 = 10 + 5 := by
  have h := unpack_add_accumulate (1 : Int) 1 (fun _ => (5 : Int)) (fun _ => 10) 0
    ⟨3, 1, fun _ => 1, fun _ => 1, [0]⟩ (by decide) (by decide) (by decide) (by decide)
    0 0 0 0 (by decide) (by decide) (by decide) (by decide)
  simpa using h

/-- A loop over cursors whose round leaves the array unchanged outside a set
of cells fixed by the data pointer of the round, leaves it unchanged outside
the union of these sets. -/
theorem forLoop_frame {α : Type} (body : Nat → Cursor α → Cursor α) (S : Int → Int → Prop)
    (step : Int) (hptr : ∀ i c, (body i c).ptr = c.ptr + step)
    (hmem : ∀ i c a, ¬ S c.ptr a → (body i c).mem a = c.mem a) (n : Nat) (c : Cursor α) :
    (forLoop n body c).ptr = c.ptr + n * step
    ∧ ∀ a, (∀ i : Nat, i < n → ¬ S (c.ptr + i * step) a) →
        (forLoop n body c).mem a = c.mem a := by
  induction n with
  | zero => exact ⟨by simp [forLoop], fun _ _ => rfl⟩
  | succ k ih =>
    obtain ⟨ihp, ihm⟩ := ih
    rw [forLoop_succ]
    refine ⟨?_, ?_⟩
    · rw [hptr, ihp]; push_cast; ring
    · intro a ha
      rw [hmem _ _ _ (by rw [ihp]; exact ha k (by omega))]
      exact ihm a (fun i hi => ha i (by omega))

theorem mem_planeAddrs (la sa : Int → Int) (p a : Int) :
    a ∈ planeAddrs la sa p
      ↔ ∃ jj : Nat, jj < (la 1).toNat ∧ a ∈ rowAddrs la sa (p + jj * sa 1) := by
  simp [planeAddrs, List.mem_flatMap, List.mem_range]

theorem mem_boxAddrs (la sa : Int → Int) (p a : Int) :
    a ∈ boxAddrs la sa p
      ↔ ∃ kk : Nat, kk < (la 2).toNat ∧ a ∈ planeAddrs la sa (p + kk * sa 2) := by
  simp [boxAddrs, List.mem_flatMap, List.mem_range]

theorem mem_entryAddrs (num_values : Int) (e : hypre_CommEntryType) (a : Int) :
    a ∈ entryAddrs num_values e
      ↔ ∃ ll : Nat, ll < num_values.toNat
          ∧ a ∈ boxAddrs e.length_array e.stride_array (e.offset + ll * e.stride_array 3) := by
  simp [entryAddrs, List.mem_flatMap, List.mem_range]

/-- The cells of the walk of an entry are the cells
`offset + ll*stride[3] + kk*stride[2] + jj*stride[1] + ii*stride[0]`. -/
theorem mem_entryAddrs_iff (num_values : Int) (e : hypre_CommEntryType) (a : Int) :
    a ∈ entryAddrs num_values e
      ↔ ∃ ll kk jj ii : Nat, (ll : Int) < num_values ∧ (kk : Int) < e.length_array 2
          ∧ (jj : Int) < e.length_array 1 ∧ (ii : Int) < e.length_array 0
          ∧ a = e.offset + ll * e.stride_array 3 + kk * e.stride_array 2
              + jj * e.stride_array 1 + ii * e.stride_array 0 := by
  simp only [mem_entryAddrs, mem_boxAddrs, mem_planeAddrs, rowAddrs, List.mem_map,
    List.mem_range]
  constructor
  · rintro ⟨ll, hl, kk, hk, jj, hj, ii, hi, rfl⟩
    exact ⟨ll, kk, jj, ii, by omega, by omega, by omega, by omega, rfl⟩
  · rintro ⟨ll, kk, jj, ii, hl, hk, hj, hi, rfl⟩
    exact ⟨ll, by omega, kk, by omega, jj, by omega, ii, by omega, rfl⟩

theorem unpackRow_frame {α : Type} [Add α] (action : Int) (buf : Int → α) (la sa : Int → Int)
    (c : Cursor α) (a : Int) (h : a ∉ rowAddrs la sa c.ptr) :
    (unpackRow action buf la sa c).mem a = c.mem a := by
  rw [unpackRow_eq]
  exact scatter_outside action buf _ _ _ a h

theorem unpackPlane_frame {α : Type} [Add α] (action : Int) (buf : Int → α) (la sa : Int → Int)
    (c : Cursor α) (a : Int) (h : a ∉ planeAddrs la sa c.ptr) :
    (unpackPlane action buf la sa c).mem a = c.mem a := by
  rw [mem_planeAddrs] at h
  exact (forLoop_frame (fun _ t => unpackRow action buf la sa t)
    (fun p a => a ∈ rowAddrs la sa p) (sa 1) (fun _ _ => rfl)
    (fun _ c a ha => unpackRow_frame action buf la sa c a ha) (la 1).toNat c).2 a
    (fun i hi hmem => h ⟨i, hi, hmem⟩)

theorem unpackValue_frame {α : Type} [Add α] (action : Int) (buf : Int → α) (la sa : Int → Int)
    (c : Cursor α) (a : Int) (h : a ∉ boxAddrs la sa c.ptr) :
    (unpackValue action buf la sa c).mem a = c.mem a := by
  rw [mem_boxAddrs] at h
  exact (forLoop_frame (fun _ t => unpackPlane action buf la sa t)
    (fun p a => a ∈ planeAddrs la sa p) (sa 2) (fun _ _ => rfl)
    (fun _ c a ha => unpackPlane_frame action buf la sa c a ha) (la 2).toNat c).2 a
    (fun i hi hmem => h ⟨i, hi, hmem⟩)

theorem unpackEntry_frame {α : Type} [Add α] (action num_values : Int) (buf : Int → α)
    (e : hypre_CommEntryType) (t : (Int → α) × Int) (a : Int)
    (h : a ∉ entryAddrs num_values e) :
    (unpackEntry action num_values buf e t).1 a = t.1 a := by
  rw [mem_entryAddrs] at h
  exact (forLoop_frame (fun _ c => unpackValue action buf e.length_array e.stride_array c)
    (fun p a => a ∈ boxAddrs e.length_array e.stride_array p) (e.stride_array 3)
    (fun _ _ => rfl)
    (fun _ c a ha => unpackValue_frame action buf _ _ c a ha) num_values.toNat
    { mem := t.1, dptr := t.2, ptr := e.offset }).2 a
    (fun i hi hmem => h ⟨i, hi, hmem⟩)

theorem unpackEntries_frame {α : Type} [Add α] (action num_values : Int) (buf : Int → α)
    (entries : Int → hypre_CommEntryType) (a : Int) (n : Nat)
    (h : ∀ j : Nat, j < n → a ∉ entryAddrs num_values (entries j)) (t : (Int → α) × Int) :
    (forLoop n (fun j t => unpackEntry action num_values buf (entries j) t) t).1 a = t.1 a := by
  induction n with
  | zero => rfl
  | succ k ih =>
    rw [forLoop_succ, unpackEntry_frame _ _ _ _ _ _ (h k (by omega))]
    exact ih (fun j hj => h j (by omega))

/-- C5: the unpack loop of hypre_FinalizeCommunication changes `recv_data`
only at cells `offset + ll*stride[3] + kk*stride[2] + jj*stride[1] +
ii*stride[0]` (`ll < num_values`, `kk < length[2]`, `jj < length[1]`,
`ii < length[0]`) of some entry of some receive CommType: a cell that is of
this form for no entry is unchanged, whatever the action, the buffer contents
and `first_comm`. -/
theorem finalize_unpack_frame {α : Type} [Add α] (first_comm action num_values num_recvs : Int)
    (recv_types : Int → hypre_CommType) (recv_buffers : Int → Int)
    (buffer recv_data : Int → α) (a : Int)
    (h : ¬ ∃ i j ll kk jj ii : Nat, (i : Int) < num_recvs
      ∧ (j : Int) < (recv_types i).num_entries ∧ (ll : Int) < num_values
      ∧ (kk : Int) < ((recv_types i).entries j).length_array 2
      ∧ (jj : Int) < ((recv_types i).entries j).length_array 1
      ∧ (ii : Int) < ((recv_types i).entries j).length_array 0
      ∧ a = ((recv_types i).entries j).offset + ll * ((recv_types i).entries j).stride_array 3
          + kk * ((recv_types i).entries j).stride_array 2
          + jj * ((recv_types i).entries j).stride_array 1
          + ii * ((recv_types i).entries j).stride_array 0) :
    unpackRecvTypes first_comm action num_values num_recvs recv_types recv_buffers buffer
      recv_data a = recv_data a := by
  unfold unpackRecvTypes
  have hn : ∀ i : Nat, i < num_recvs.toNat → ∀ j : Nat, j < (recv_types i).num_entries.toNat →
      a ∉ entryAddrs num_values ((recv_types i).entries j) := by
    intro i hi j hj hmem
    rw [mem_entryAddrs_iff] at hmem
    obtain ⟨ll, kk, jj, ii, hl, hk, hjj, hii, ha⟩ := hmem
    exact h ⟨i, j, ll, kk, jj, ii, by omega, by omega, hl, hk, hjj, hii, ha⟩
  generalize num_recvs.toNat = n at hn
  induction n with
  | zero => rfl
  | succ k ih =>
    rw [forLoop_succ]
    simp only
    unfold unpackEntries
    rw [unpackEntries_frame action num_values buffer _ a _ (hn k (by omega))]
    exact ih (fun i hi => hn i (by omega))

/-- C5 at a concrete input: one receive CommType with one entry of four cells
10, 12, 14, 16; the cell 11 is unchanged. -/
theorem finalize_unpack_frame_witness :
    unpackRecvTypes 0 1 1 1
      (fun _ => ⟨1, 4, 1, fun _ => ⟨10, 1, fun d => if d = 0 then 4 else 1,
        fun d => if d = 0 then 2 else 1, [0]⟩, fun _ => 0, fun _ => ⟨⟨0, 0, 0⟩, ⟨0, 0, 0⟩⟩⟩)
      (fun _ => 0) (fun _ => (5 : Int)) (fun _ => 7) 11 = 7 := by
  apply finalize_unpack_frame
  rintro ⟨i, j, ll, kk, jj, ii, h1, h2, h3, h4, h5, h6, h7⟩
  simp at h1 h2 h3 h4 h5 h6 h7
  omega

/-! ## Entries built for a region inside its data box -/

theorem ceilDiv_mul_le (a b i : Int) (hb : 1 ≤ b) (hi : i < ceilDiv a b) : i * b ≤ a - 1 := by
  unfold ceilDiv at hi
  have h1 : (a + b - 1) / b * b ≤ a + b - 1 := Int.ediv_mul_le _ (by omega)
  have h2 : i * b ≤ ((a + b - 1) / b - 1) * b :=
    mul_le_mul_of_nonneg_right (by omega) (by omega)
  have h3 : ((a + b - 1) / b - 1) * b = (a + b - 1) / b * b - b := by ring
  omega

theorem ceilDiv_pos (a b : Int) (ha : 1 ≤ a) (hb : 1 ≤ b) : 1 ≤ ceilDiv a b := by
  unfold ceilDiv
  rw [Int.le_ediv_iff_mul_le (by omega)]
  omega

theorem orderAt_identityOrder (num_values : Int) (ll : Nat) (h : (ll : Int) < num_values) :
    orderAt (identityOrder num_values) ll = ll := by
  unfold orderAt identityOrder
  rw [List.getD_eq_getElem?_getD, List.getElem?_map, List.getElem?_range (by omega)]
  rfl

/-- The arrays before the collapse for the identity `coord`: the lengths are
the stride-sizes, the strides are the axis strides with the sign of `dir`,
and the offset is advanced to the last point along each reversed axis. -/
theorem setEntryAdjusted_identity (box : hypre_Box) (stride dir : hypre_Index)
    (data_box : hypre_Box) (off : Int) (e : hypre_CommEntryType) :
    (setEntryAdjusted box stride ⟨0, 1, 2⟩ dir data_box off e).length_array 0
        = (hypre_BoxGetStrideSize box stride).x
    ∧ (setEntryAdjusted box stride ⟨0, 1, 2⟩ dir data_box off e).length_array 1
        = (hypre_BoxGetStrideSize box stride).y
    ∧ (setEntryAdjusted box stride ⟨0, 1, 2⟩ dir data_box off e).length_array 2
        = (hypre_BoxGetStrideSize box stride).z
    ∧ (setEntryAdjusted box stride ⟨0, 1, 2⟩ dir data_box off e).stride_array 0
        = (if dir.x < 0 then -stride.x else stride.x)
    ∧ (setEntryAdjusted box stride ⟨0, 1, 2⟩ dir data_box off e).stride_array 1
        = (if dir.y < 0 then -(stride.y * hypre_BoxSizeD data_box 0)
            else stride.y * hypre_BoxSizeD data_box 0)
    ∧ (setEntryAdjusted box stride ⟨0, 1, 2⟩ dir data_box off e).stride_array 2
        = (if dir.z < 0 then -(stride.z * hypre_BoxSizeD data_box 0 * hypre_BoxSizeD data_box 1)
            else stride.z * hypre_BoxSizeD data_box 0 * hypre_BoxSizeD data_box 1)
    ∧ (setEntryAdjusted box stride ⟨0, 1, 2⟩ dir data_box off e).stride_array 3
        = hypre_BoxVolume data_box
    ∧ (setEntryAdjusted box stride ⟨0, 1, 2⟩ dir data_box off e).offset
        = off + hypre_BoxIndexRank data_box box.imin
          + (if dir.x < 0 then ((hypre_BoxGetStrideSize box stride).x - 1) * stride.x else 0)
          + (if dir.y < 0 then ((hypre_BoxGetStrideSize box stride).y - 1)
              * (stride.y * hypre_BoxSizeD data_box 0) else 0)
          + (if dir.z < 0 then ((hypre_BoxGetStrideSize box stride).z - 1)
              * (stride.z * hypre_BoxSizeD data_box 0 * hypre_BoxSizeD data_box 1) else 0) := by
  have hperm : isPermutation ⟨0, 1, 2⟩ := by decide
  have c0 := setEntryCoord_perm ⟨0, 1, 2⟩
    (setEntryDir dir (setEntryInit box stride data_box off e)) hperm 0 (by omega) (by omega)
  have c1 := setEntryCoord_perm ⟨0, 1, 2⟩
    (setEntryDir dir (setEntryInit box stride data_box off e)) hperm 1 (by omega) (by omega)
  have c2 := setEntryCoord_perm ⟨0, 1, 2⟩
    (setEntryDir dir (setEntryInit box stride data_box off e)) hperm 2 (by omega) (by omega)
  have c3 := setEntryCoord_other ⟨0, 1, 2⟩
    (setEntryDir dir (setEntryInit box stride data_box off e)) hperm 3 (by omega)
  simp only [hypre_IndexD] at c0 c1 c2
  simp at c0 c1 c2
  unfold setEntryAdjusted
  rw [c0.1, c0.2, c1.1, c1.2, c2.1, c2.2, c3.2, setEntryCoord_offset, setEntryDir_offset,
    setEntryDir_length, setEntryInit_offset]
  simp only [setEntryDir_stride, setEntryInit_length, setEntryInit_stride]
  simp [hypre_IndexD, axisStride]

theorem entryAddrs_setEntry (num_values : Int) (box : hypre_Box) (stride coord dir : hypre_Index)
    (order : List Int) (data_box : hypre_Box) (off : Int) (e : hypre_CommEntryType) :
    entryAddrs num_values (hypre_CommTypeSetEntry box stride coord dir order data_box off e)
      = entryAddrs num_values (uncollapsedEntry box stride coord dir order data_box off e) := by
  obtain ⟨-, -, -, -, ho, hs⟩ := setEntryCollapse_spec
    (setEntryAdjusted box stride coord dir data_box off e)
  unfold entryAddrs
  simp only [hypre_CommTypeSetEntry, uncollapsedEntry, boxAddrs_collapse, ho, (hs 3 (by omega)).2]

theorem entrySize_setEntry (box : hypre_Box) (stride coord dir : hypre_Index)
    (order : List Int) (data_box : hypre_Box) (off : Int) (e : hypre_CommEntryType) :
    entrySize (hypre_CommTypeSetEntry box stride coord dir order data_box off e).length_array
      = entrySize (uncollapsedEntry box stride coord dir order data_box off e).length_array := by
  rw [← length_boxAddrs _ (hypre_CommTypeSetEntry box stride coord dir order data_box off
      e).stride_array 0,
    ← length_boxAddrs _ (uncollapsedEntry box stride coord dir order data_box off
      e).stride_array 0]
  simp only [hypre_CommTypeSetEntry, uncollapsedEntry, boxAddrs_collapse]

theorem entryPayload_setEntry {α : Type} [Zero α] (num_values : Int) (send_data : Int → α)
    (box : hypre_Box) (stride coord dir : hypre_Index)
    (order : List Int) (data_box : hypre_Box) (off : Int) (e : hypre_CommEntryType) :
    entryPayload num_values send_data
        (hypre_CommTypeSetEntry box stride coord dir order data_box off e)
      = entryPayload num_values send_data
        (uncollapsedEntry box stride coord dir order data_box off e) := by
  obtain ⟨-, -, -, -, ho, hs⟩ := setEntryCollapse_spec
    (setEntryAdjusted box stride coord dir data_box off e)
  have hsz := entrySize_setEntry box stride coord dir order data_box off e
  unfold entryPayload valuePayload
  rw [hsz]
  simp only [hypre_CommTypeSetEntry, uncollapsedEntry, boxAddrs_collapse, ho,
    (hs 3 (by omega)).2]

/-- The lengths left by the collapse are lengths of the arrays before it, or 1. -/
theorem setEntryCollapse_nonneg (s : SetEntryState) (h0 : 0 ≤ s.length_array 0)
    (h1 : 0 ≤ s.length_array 1) (h2 : 0 ≤ s.length_array 2) :
    0 ≤ (setEntryCollapse s).length_array 0 ∧ 0 ≤ (setEntryCollapse s).length_array 1
      ∧ 0 ≤ (setEntryCollapse s).length_array 2 := by
  obtain ⟨hk, hl, -, -, -, -⟩ := setEntryCollapse_spec s
  have key : ∀ t : Nat, t < 3 → 0 ≤ (setEntryCollapse s).length_array t := by
    intro t ht
    by_cases hlt : t < (keptAxes s.length_array).length
    · obtain ⟨k, hget⟩ : ∃ k, (keptAxes s.length_array)[t]? = some k :=
        ⟨_, List.getElem?_eq_getElem hlt⟩
      have hmem : k ∈ keptAxes s.length_array := List.getElem?_mem hget
      rw [(hk t k hget).1]
      unfold keptAxes at hmem
      rw [List.mem_filter, List.mem_range] at hmem
      obtain ⟨hk3, -⟩ := hmem
      have : k = 0 ∨ k = 1 ∨ k = 2 := by omega
      rcases this with rfl | rfl | rfl <;> simpa
    · rw [(hl t (by omega) ht).1]
      omega
  exact ⟨key 0 (by omega), key 1 (by omega), key 2 (by omega)⟩

/-- A strided point of a region inside a data box has, along each axis, a
coordinate relative to the data box that is at least 0 and below the size of
the data box. -/
theorem strided_coord_bounds (lo hi dlo dhi s : Int) (i : Nat) (hs : 1 ≤ s) (h1 : dlo ≤ lo)
    (h2 : hi ≤ dhi) (hi' : (i : Int) < ceilDiv (hi - lo + 1) s) :
    0 ≤ lo + i * s - dlo ∧ lo + i * s - dlo < dhi - dlo + 1 := by
  have h3 := ceilDiv_mul_le (hi - lo + 1) s i hs hi'
  have h4 : (0 : Int) ≤ i * s := mul_nonneg (by omega) (by omega)
  constructor <;> omega

theorem mul_right_cancel_pos (a b s : Int) (hs : 1 ≤ s) (h : a * s = b * s) : a = b := by
  have hs0 : s ≠ 0 := by omega
  exact mul_right_cancel₀ hs0 h

/-- Distinct value components or distinct strided points of a region inside
its data box are stored in distinct cells. -/
theorem cellOf_injective (R D : hypre_Box) (stride : hypre_Index) (off : Int)
    (hin : boxInside R D) (hs : stridePositive stride)
    (v v' : Int) (i j k i' j' k' : Nat)
    (hi : (i : Int) < (hypre_BoxGetStrideSize R stride).x)
    (hj : (j : Int) < (hypre_BoxGetStrideSize R stride).y)
    (hk : (k : Int) < (hypre_BoxGetStrideSize R stride).z)
    (hi' : (i' : Int) < (hypre_BoxGetStrideSize R stride).x)
    (hj' : (j' : Int) < (hypre_BoxGetStrideSize R stride).y)
    (hk' : (k' : Int) < (hypre_BoxGetStrideSize R stride).z)
    (h : cellOf D off v (stridedPoint R stride i j k)
      = cellOf D off v' (stridedPoint R stride i' j' k')) :
    v = v' ∧ i = i' ∧ j = j' ∧ k = k' := by
  obtain ⟨x1, x2, y1, y2, z1, z2⟩ := hin
  obtain ⟨sx, sy, sz⟩ := hs
  simp only [hypre_BoxGetStrideSize, hypre_BoxSizeD, hypre_IndexD] at hi hj hk hi' hj' hk'
  simp at hi hj hk hi' hj' hk'
  have ax1 := strided_coord_bounds R.imin.x R.imax.x D.imin.x D.imax.x stride.x i sx x1 x2 hi
  have ay1 := strided_coord_bounds R.imin.y R.imax.y D.imin.y D.imax.y stride.y j sy y1 y2 hj
  have az1 := strided_coord_bounds R.imin.z R.imax.z D.imin.z D.imax.z stride.z k sz z1 z2 hk
  have ax2 := strided_coord_bounds R.imin.x R.imax.x D.imin.x D.imax.x stride.x i' sx x1 x2 hi'
  have ay2 := strided_coord_bounds R.imin.y R.imax.y D.imin.y D.imax.y stride.y j' sy y1 y2 hj'
  have az2 := strided_coord_bounds R.imin.z R.imax.z D.imin.z D.imax.z stride.z k' sz z1 z2 hk'
  simp only [cellOf, hypre_BoxVolume, hypre_BoxIndexRank, hypre_BoxSizeD, hypre_IndexD,
    stridedPoint] at h
  simp at h
  have e1 := digit_unique (D.imax.x - D.imin.x + 1)
    ((v * (D.imax.z - D.imin.z + 1) + (R.imin.z + k * stride.z - D.imin.z))
        * (D.imax.y - D.imin.y + 1) + (R.imin.y + j * stride.y - D.imin.y))
    ((v' * (D.imax.z - D.imin.z + 1) + (R.imin.z + k' * stride.z - D.imin.z))
        * (D.imax.y - D.imin.y + 1) + (R.imin.y + j' * stride.y - D.imin.y))
    (R.imin.x + i * stride.x - D.imin.x) (R.imin.x + i' * stride.x - D.imin.x)
    ax1.1 ax1.2 ax2.1 ax2.2 (by linear_combination h)
  have e2 := digit_unique (D.imax.y - D.imin.y + 1)
    (v * (D.imax.z - D.imin.z + 1) + (R.imin.z + k * stride.z - D.imin.z))
    (v' * (D.imax.z - D.imin.z + 1) + (R.imin.z + k' * stride.z - D.imin.z))
    (R.imin.y + j * stride.y - D.imin.y) (R.imin.y + j' * stride.y - D.imin.y)
    ay1.1 ay1.2 ay2.1 ay2.2 e1.1
  have e3 := digit_unique (D.imax.z - D.imin.z + 1) v v'
    (R.imin.z + k * stride.z - D.imin.z) (R.imin.z + k' * stride.z - D.imin.z)
    az1.1 az1.2 az2.1 az2.2 e2.1
  have ci := mul_right_cancel_pos i i' stride.x sx (by linarith [e1.2])
  have cj := mul_right_cancel_pos j j' stride.y sy (by linarith [e2.2])
  have ck := mul_right_cancel_pos k k' stride.z sz (by linarith [e3.2])
  exact ⟨e3.1, by exact_mod_cast ci, by exact_mod_cast cj, by exact_mod_cast ck⟩

theorem strideSize_pos (R : hypre_Box) (stride : hypre_Index) (hR : boxNonempty R)
    (hs : stridePositive stride) :
    1 ≤ (hypre_BoxGetStrideSize R stride).x ∧ 1 ≤ (hypre_BoxGetStrideSize R stride).y
      ∧ 1 ≤ (hypre_BoxGetStrideSize R stride).z := by
  obtain ⟨rx, ry, rz⟩ := hR
  obtain ⟨sx, sy, sz⟩ := hs
  simp only [hypre_BoxGetStrideSize, hypre_BoxSizeD, hypre_IndexD]
  refine ⟨ceilDiv_pos _ _ ?_ sx, ceilDiv_pos _ _ ?_ sy, ceilDiv_pos _ _ ?_ sz⟩ <;> simp <;> omega

/-- The lengths of an entry built with the identity `coord` are at least 0
when the stride-sizes are. -/
theorem setEntry_identity_nonneg (box : hypre_Box) (stride dir : hypre_Index)
    (order : List Int) (data_box : hypre_Box) (off : Int) (e : hypre_CommEntryType)
    (hx : 0 ≤ (hypre_BoxGetStrideSize box stride).x)
    (hy : 0 ≤ (hypre_BoxGetStrideSize box stride).y)
    (hz : 0 ≤ (hypre_BoxGetStrideSize box stride).z) :
    0 ≤ (hypre_CommTypeSetEntry box stride ⟨0, 1, 2⟩ dir order data_box off e).length_array 0
    ∧ 0 ≤ (hypre_CommTypeSetEntry box stride ⟨0, 1, 2⟩ dir order data_box off e).length_array 1
    ∧ 0 ≤ (hypre_CommTypeSetEntry box stride ⟨0, 1, 2⟩ dir order data_box off e).length_array 2 := by
  obtain ⟨l0, l1, l2, -⟩ := setEntryAdjusted_identity box stride dir data_box off e
  exact setEntryCollapse_nonneg _ (by rw [l0]; exact hx) (by rw [l1]; exact hy)
    (by rw [l2]; exact hz)

/-- The cell visited at `(v, k, j, i)` by the walk of the arrays, before the
collapse, of an entry built with the identity `coord`: the cell of component
`v` of the strided point `(i, j, k)`, each index reflected where `dir` is
negative. -/
theorem uncollapsed_identity_cell (box : hypre_Box) (stride dir : hypre_Index)
    (order : List Int) (data_box : hypre_Box) (off : Int) (e : hypre_CommEntryType)
    (v i j k : Int) :
    (uncollapsedEntry box stride ⟨0, 1, 2⟩ dir order data_box off e).offset
        + v * (uncollapsedEntry box stride ⟨0, 1, 2⟩ dir order data_box off e).stride_array 3
        + k * (uncollapsedEntry box stride ⟨0, 1, 2⟩ dir order data_box off e).stride_array 2
        + j * (uncollapsedEntry box stride ⟨0, 1, 2⟩ dir order data_box off e).stride_array 1
        + i * (uncollapsedEntry box stride ⟨0, 1, 2⟩ dir order data_box off e).stride_array 0
      = cellOf data_box off v
          (stridedPoint box stride
            (reflectIndex dir.x (hypre_BoxGetStrideSize box stride).x i)
            (reflectIndex dir.y (hypre_BoxGetStrideSize box stride).y j)
            (reflectIndex dir.z (hypre_BoxGetStrideSize box stride).z k)) := by
  obtain ⟨-, -, -, s0, s1, s2, s3, ho⟩ := setEntryAdjusted_identity box stride dir data_box off e
  simp only [uncollapsedEntry, s0, s1, s2, s3, ho, cellOf, stridedPoint, reflectIndex,
    hypre_BoxIndexRank, hypre_BoxVolume]
  by_cases hx : dir.x < 0 <;> by_cases hy : dir.y < 0 <;> by_cases hz : dir.z < 0 <;>
    simp only [hx, hy, hz, if_true, if_false] <;> ring

/-- The walk of a receive entry (identity transform) of a non-empty region
inside its data box: the lengths are at least 0, the cells visited are
pairwise distinct, and the cell visited at position
`((v*lz + k)*ly + j)*lx + i` is the cell of component `v` of the strided
point `(i, j, k)`. -/
theorem recvEntry_walk (num_values : Int) (R D : hypre_Box) (stride : hypre_Index)
    (order : List Int) (off : Int) (e : hypre_CommEntryType)
    (hR : boxNonempty R) (hin : boxInside R D) (hs : stridePositive stride) :
    0 ≤ (hypre_CommTypeSetEntry R stride ⟨0, 1, 2⟩ ⟨1, 1, 1⟩ order D off e).length_array 0
    ∧ (entryAddrs num_values
        (hypre_CommTypeSetEntry R stride ⟨0, 1, 2⟩ ⟨1, 1, 1⟩ order D off e)).Nodup
    ∧ ∀ v i j k : Nat, (v : Int) < num_values →
        (i : Int) < (hypre_BoxGetStrideSize R stride).x →
        (j : Int) < (hypre_BoxGetStrideSize R stride).y →
        (k : Int) < (hypre_BoxGetStrideSize R stride).z →
        (entryAddrs num_values
          (hypre_CommTypeSetEntry R stride ⟨0, 1, 2⟩ ⟨1, 1, 1⟩ order D off e))[
            payloadPos (hypre_BoxGetStrideSize R stride).x.toNat
              (hypre_BoxGetStrideSize R stride).y.toNat
              (hypre_BoxGetStrideSize R stride).z.toNat v k j i]?
          = some (cellOf D off v (stridedPoint R stride i j k)) := by
  obtain ⟨px, py, pz⟩ := strideSize_pos R stride hR hs
  obtain ⟨l0, l1, l2, -⟩ := setEntryAdjusted_identity R stride ⟨1, 1, 1⟩ D off e
  have hcell : ∀ v i j k : Nat,
      (uncollapsedEntry R stride ⟨0, 1, 2⟩ ⟨1, 1, 1⟩ order D off e).offset
        + v * (uncollapsedEntry R stride ⟨0, 1, 2⟩ ⟨1, 1, 1⟩ order D off e).stride_array 3
        + k * (uncollapsedEntry R stride ⟨0, 1, 2⟩ ⟨1, 1, 1⟩ order D off e).stride_array 2
        + j * (uncollapsedEntry R stride ⟨0, 1, 2⟩ ⟨1, 1, 1⟩ order D off e).stride_array 1
        + i * (uncollapsedEntry R stride ⟨0, 1, 2⟩ ⟨1, 1, 1⟩ order D off e).stride_array 0
      = cellOf D off v (stridedPoint R stride i j k) := by
    intro v i j k
    rw [uncollapsed_identity_cell]
    simp [reflectIndex]
  have hla0 : (uncollapsedEntry R stride ⟨0, 1, 2⟩ ⟨1, 1, 1⟩ order D off e).length_array 0
      = (hypre_BoxGetStrideSize R stride).x := l0
  have hla1 : (uncollapsedEntry R stride ⟨0, 1, 2⟩ ⟨1, 1, 1⟩ order D off e).length_array 1
      = (hypre_BoxGetStrideSize R stride).y := l1
  have hla2 : (uncollapsedEntry R stride ⟨0, 1, 2⟩ ⟨1, 1, 1⟩ order D off e).length_array 2
      = (hypre_BoxGetStrideSize R stride).z := l2
  refine ⟨(setEntry_identity_nonneg R stride ⟨1, 1, 1⟩ order D off e (by omega) (by omega)
    (by omega)).1, ?_, ?_⟩
  · rw [entryAddrs_setEntry]
    apply entryAddrs_nodup
    intro ll kk jj ii ll' kk' jj' ii' a1 a2 a3 a4 b1 b2 b3 b4 heq
    rw [hla2] at a2 b2
    rw [hla1] at a3 b3
    rw [hla0] at a4 b4
    rw [hcell, hcell] at heq
    obtain ⟨c1, c2, c3, c4⟩ := cellOf_injective R D stride off hin hs ll ll' ii jj kk ii' jj' kk'
      (by omega) (by omega) (by omega) (by omega) (by omega) (by omega) heq
    exact ⟨by exact_mod_cast c1, c4, c3, c2⟩
  · intro v i j k hv hi hj hk
    rw [entryAddrs_setEntry, ← hla0, ← hla1, ← hla2,
      entryAddrs_getElem? num_values _ v k j i (by omega) (by rw [hla2]; omega)
        (by rw [hla1]; omega) (by rw [hla0]; omega), hcell]

/-- The payload of a send entry built with the identity `coord`: the double
at position `((v*lz + k)*ly + j)*lx + i` is the value of component
`order[v]` at the strided point `(i, j, k)`, each index reflected where `dir`
is negative, or zero when `order[v]` is negative. -/
theorem sendEntry_payload {α : Type} [Zero α] (num_values : Int) (send_data : Int → α)
    (R D : hypre_Box) (stride dir : hypre_Index) (order : List Int) (off : Int)
    (e : hypre_CommEntryType) (v i j k : Nat) (hv : (v : Int) < num_values)
    (hi : (i : Int) < (hypre_BoxGetStrideSize R stride).x)
    (hj : (j : Int) < (hypre_BoxGetStrideSize R stride).y)
    (hk : (k : Int) < (hypre_BoxGetStrideSize R stride).z) :
    (entryPayload num_values send_data
        (hypre_CommTypeSetEntry R stride ⟨0, 1, 2⟩ dir order D off e))[
          payloadPos (hypre_BoxGetStrideSize R stride).x.toNat
            (hypre_BoxGetStrideSize R stride).y.toNat
            (hypre_BoxGetStrideSize R stride).z.toNat v k j i]?
      = some (if orderAt order v > -1 then
          send_data (cellOf D off (orderAt order v)
            (stridedPoint R stride
              (reflectIndex dir.x (hypre_BoxGetStrideSize R stride).x i)
              (reflectIndex dir.y (hypre_BoxGetStrideSize R stride).y j)
              (reflectIndex dir.z (hypre_BoxGetStrideSize R stride).z k)))
        else 0) := by
  obtain ⟨l0, l1, l2, -⟩ := setEntryAdjusted_identity R stride dir D off e
  have hla0 : (uncollapsedEntry R stride ⟨0, 1, 2⟩ dir order D off e).length_array 0
      = (hypre_BoxGetStrideSize R stride).x := l0
  have hla1 : (uncollapsedEntry R stride ⟨0, 1, 2⟩ dir order D off e).length_array 1
      = (hypre_BoxGetStrideSize R stride).y := l1
  have hla2 : (uncollapsedEntry R stride ⟨0, 1, 2⟩ dir order D off e).length_array 2
      = (hypre_BoxGetStrideSize R stride).z := l2
  have key := entryPayload_getElem? num_values send_data
    (uncollapsedEntry R stride ⟨0, 1, 2⟩ dir order D off e) v k j i (by omega)
    (by rw [hla2]; omega) (by rw [hla1]; omega) (by rw [hla0]; omega)
  rw [hla0, hla1, hla2, uncollapsed_identity_cell] at key
  rw [entryPayload_setEntry, key]
  rfl

theorem payloadPos_cast (lx ly lz : Int) (hx : 0 ≤ lx) (hy : 0 ≤ ly) (hz : 0 ≤ lz)
    (v k j i : Nat) :
    ((payloadPos lx.toNat ly.toNat lz.toNat v k j i : Nat) : Int)
      = ((v * lz + k) * ly + j) * lx + i := by
  simp only [payloadPos, Nat.cast_add, Nat.cast_mul, Int.toNat_of_nonneg hx,
    Int.toNat_of_nonneg hy, Int.toNat_of_nonneg hz]

/-- The payload of a skipped value component is zero. -/
theorem entryPayload_skipped {α : Type} [Zero α] (num_values : Int) (send_data : Int → α)
    (e : hypre_CommEntryType) (v q : Nat) (hv : v < num_values.toNat)
    (hq : q < entrySize e.length_array) (ho : ¬ orderAt e.order v > -1) :
    (entryPayload num_values send_data e)[v * entrySize e.length_array + q]? = some 0 := by
  unfold entryPayload
  rw [getElem?_flatMap_range _ (entrySize e.length_array) _
    (fun _ _ => length_valuePayload send_data e _) v q hv hq]
  unfold valuePayload
  rw [if_neg ho, List.getElem?_replicate, if_pos hq]

/-! ## Pack followed by unpack -/

/-- C1: round trip with the identity transform and `action = 0`. The send
entry is built by hypre_CommTypeSetEntry for region `R` of data box `Ds`, the
receive entry for the non-empty region `R'` inside data box `Dr`, both with
identity `coord`, `dir` and order, and the two regions have the same
stride-sizes. After the pack of the send entry and the unpack of that payload
through the receive entry, the cell of `recv_data` of value component `v` at
the strided point `(i, j, k)` of `R'` holds the value of `send_data` of
component `v` at the strided point `(i, j, k)` of `R`. (The equality does
not need `R` to lie inside `Ds`.) -/
theorem exchange_round_trip {α : Type} [Zero α] [Add α] (num_values : Int)
    (send_data recv_data buf : Int → α) (dptr : Int) (R Ds R' Dr : hypre_Box)
    (send_stride recv_stride : hypre_Index) (Os Or : Int) (es er : hypre_CommEntryType)
    (hR' : boxNonempty R') (hin' : boxInside R' Dr) (hrs : stridePositive recv_stride)
    (hsize : hypre_BoxGetStrideSize R send_stride = hypre_BoxGetStrideSize R' recv_stride)
    (v i j k : Nat) (hv : (v : Int) < num_values)
    (hi : (i : Int) < (hypre_BoxGetStrideSize R' recv_stride).x)
    (hj : (j : Int) < (hypre_BoxGetStrideSize R' recv_stride).y)
    (hk : (k : Int) < (hypre_BoxGetStrideSize R' recv_stride).z) :
    (unpackEntry 0 num_values
        (packEntry num_values send_data
          (hypre_CommTypeSetEntry R send_stride ⟨0, 1, 2⟩ ⟨1, 1, 1⟩ (identityOrder num_values)
            Ds Os es) (buf, dptr)).1
        (hypre_CommTypeSetEntry R' recv_stride ⟨0, 1, 2⟩ ⟨1, 1, 1⟩ (identityOrder num_values)
          Dr Or er) (recv_data, dptr)).1
        (cellOf Dr Or v (stridedPoint R' recv_stride i j k))
      = send_data (cellOf Ds Os v (stridedPoint R send_stride i j k)) := by
  obtain ⟨hr0, hnd, hwalk⟩ := recvEntry_walk num_values R' Dr recv_stride
    (identityOrder num_values) Or er hR' hin' hrs
  obtain ⟨s0, s1, s2⟩ := setEntry_identity_nonneg R send_stride ⟨1, 1, 1⟩
    (identityOrder num_values) Ds Os es (by rw [hsize]; omega) (by rw [hsize]; omega)
    (by rw [hsize]; omega)
  have hpay := sendEntry_payload num_values send_data R Ds send_stride ⟨1, 1, 1⟩
    (identityOrder num_values) Os es v i j k hv (by rw [hsize]; exact hi)
    (by rw [hsize]; exact hj) (by rw [hsize]; exact hk)
  rw [hsize] at hpay
  rw [exchange_cell 0 num_values send_data recv_data buf dptr _ _ s0 s1 s2 hr0 hnd _ _ _
    (hwalk v i j k hv hi hj hk) hpay]
  have hov : orderAt (identityOrder num_values) v = v := orderAt_identityOrder num_values v hv
  have hgt : (v : Int) > -1 := by omega
  simp [hov, hgt, reflectIndex]

/-- C1 at the input of scenario A: the data box is `[-1..10]`, one value
component; the cell 9 of the sender arrives in the ghost cell -1. -/
theorem exchange_round_trip_witness :
    (unpackEntry 0 1
        (packEntry 1 (fun a => if a = 10 then (5 : Int) else 0)
          (hypre_CommTypeSetEntry ⟨⟨9, 0, 0⟩, ⟨9, 0, 0⟩⟩ ⟨1, 1, 1⟩ ⟨0, 1, 2⟩ ⟨1, 1, 1⟩
            (identityOrder 1) ⟨⟨-1, 0, 0⟩, ⟨10, 0, 0⟩⟩ 0 ⟨0, 0, fun _ => 0, fun _ => 0, []⟩)
          (fun _ => 0, 3)).1
        (hypre_CommTypeSetEntry ⟨⟨-1, 0, 0⟩, ⟨-1, 0, 0⟩⟩ ⟨1, 1, 1⟩ ⟨0, 1, 2⟩ ⟨1, 1, 1⟩
          (identityOrder 1) ⟨⟨-1, 0, 0⟩, ⟨10, 0, 0⟩⟩ 0 ⟨0, 0, fun _ => 0, fun _ => 0, []⟩)
        (fun _ => 7, 3)).1 0 = 5 := by
  have h := exchange_round_trip (1 : Int) (fun a => if a = 10 then (5 : Int) else 0)
    (fun _ => 7) (fun _ => 0) 3 ⟨⟨9, 0, 0⟩, ⟨9, 0, 0⟩⟩ ⟨⟨-1, 0, 0⟩, ⟨10, 0, 0⟩⟩
    ⟨⟨-1, 0, 0⟩, ⟨-1, 0, 0⟩⟩ ⟨⟨-1, 0, 0⟩, ⟨10, 0, 0⟩⟩ ⟨1, 1, 1⟩ ⟨1, 1, 1⟩ 0 0
    ⟨0, 0, fun _ => 0, fun _ => 0, []⟩ ⟨0, 0, fun _ => 0, fun _ => 0, []⟩
    (by decide) (by decide) (by decide) (by decide) 0 0 0 0
    (by decide) (by decide) (by decide) (by decide)
  exact h

/-- C3: a skipped value component, end to end. For any send entry whose
order array has a negative `order[v]` and the identity receive entry with the
same lengths (built for a non-empty region `R'` inside data box `Dr`), after
the pack and the unpack with `action = 0` the cell of `recv_data` of
component `v` at every strided point `(i, j, k)` of the receive region is
zero, whatever `send_data` and `recv_data` held. -/
theorem exchange_skipped_value {α : Type} [Zero α] [Add α] (num_values : Int)
    (send_data recv_data buf : Int → α) (dptr : Int) (se : hypre_CommEntryType)
    (R' Dr : hypre_Box) (recv_stride : hypre_Index) (recv_order : List Int) (Or : Int)
    (er : hypre_CommEntryType)
    (hR' : boxNonempty R') (hin' : boxInside R' Dr) (hrs : stridePositive recv_stride)
    (hl0 : se.length_array 0
      = (hypre_CommTypeSetEntry R' recv_stride ⟨0, 1, 2⟩ ⟨1, 1, 1⟩ recv_order Dr Or
          er).length_array 0)
    (hl1 : se.length_array 1
      = (hypre_CommTypeSetEntry R' recv_stride ⟨0, 1, 2⟩ ⟨1, 1, 1⟩ recv_order Dr Or
          er).length_array 1)
    (hl2 : se.length_array 2
      = (hypre_CommTypeSetEntry R' recv_stride ⟨0, 1, 2⟩ ⟨1, 1, 1⟩ recv_order Dr Or
          er).length_array 2)
    (v i j k : Nat) (hv : (v : Int) < num_values) (hskip : orderAt se.order v = -1)
    (hi : (i : Int) < (hypre_BoxGetStrideSize R' recv_stride).x)
    (hj : (j : Int) < (hypre_BoxGetStrideSize R' recv_stride).y)
    (hk : (k : Int) < (hypre_BoxGetStrideSize R' recv_stride).z) :
    (unpackEntry 0 num_values (packEntry num_values send_data se (buf, dptr)).1
        (hypre_CommTypeSetEntry R' recv_stride ⟨0, 1, 2⟩ ⟨1, 1, 1⟩ recv_order Dr Or er)
        (recv_data, dptr)).1
        (cellOf Dr Or v (stridedPoint R' recv_stride i j k)) = 0 := by
  obtain ⟨hr0, hnd, hwalk⟩ := recvEntry_walk num_values R' Dr recv_stride recv_order Or er
    hR' hin' hrs
  obtain ⟨r0, r1, r2⟩ := setEntry_identity_nonneg R' recv_stride ⟨1, 1, 1⟩ recv_order Dr Or er
    (by omega) (by omega) (by omega)
  obtain ⟨l0, l1, l2, -⟩ := setEntryAdjusted_identity R' recv_stride ⟨1, 1, 1⟩ Dr Or er
  -- the position of the cell lies in the block of component `v` of the payload
  have hsz : entrySize se.length_array
      = (hypre_BoxGetStrideSize R' recv_stride).z.toNat
        * ((hypre_BoxGetStrideSize R' recv_stride).y.toNat
          * (hypre_BoxGetStrideSize R' recv_stride).x.toNat) := by
    have h1 : entrySize se.length_array
        = entrySize (hypre_CommTypeSetEntry R' recv_stride ⟨0, 1, 2⟩ ⟨1, 1, 1⟩ recv_order Dr Or
          er).length_array := by
      simp only [entrySize, hl0, hl1, hl2]
    rw [h1, entrySize_setEntry]
    simp only [entrySize, uncollapsedEntry, l0, l1, l2]
  have hpos : payloadPos (hypre_BoxGetStrideSize R' recv_stride).x.toNat
      (hypre_BoxGetStrideSize R' recv_stride).y.toNat
      (hypre_BoxGetStrideSize R' recv_stride).z.toNat v k j i
      = v * entrySize se.length_array
        + ((k * (hypre_BoxGetStrideSize R' recv_stride).y.toNat + j)
          * (hypre_BoxGetStrideSize R' recv_stride).x.toNat + i) := by
    rw [hsz]
    unfold payloadPos
    ring
  have hq : (k * (hypre_BoxGetStrideSize R' recv_stride).y.toNat + j)
      * (hypre_BoxGetStrideSize R' recv_stride).x.toNat + i < entrySize se.length_array := by
    rw [hsz]
    exact boxPos_lt
      (fun d => if d = 0 then (hypre_BoxGetStrideSize R' recv_stride).x
        else if d = 1 then (hypre_BoxGetStrideSize R' recv_stride).y
        else (hypre_BoxGetStrideSize R' recv_stride).z) k j i
      (by simp; omega) (by simp; omega) (by simp; omega)
  have hpay := entryPayload_skipped num_values send_data se v _ (by omega) hq
    (by rw [hskip]; decide)
  rw [← hpos] at hpay
  rw [exchange_cell 0 num_values send_data recv_data buf dptr se _ (by rw [hl0]; exact r0)
    (by rw [hl1]; exact r1) (by rw [hl2]; exact r2) hr0 hnd _ _ _
    (hwalk v i j k hv hi hj hk) hpay]
  simp

/-- C3 at the input of scenario E: `num_values = 3`, `order = [0, -1, 2]`, a
region of 2 x 2 points; the middle component of the receive region is zero
while `send_data` holds 9 and `recv_data` held 7 everywhere. -/
theorem exchange_skipped_value_witness :
    (unpackEntry 0 3
        (packEntry 3 (fun _ => (9 : Int))
          (hypre_CommTypeSetEntry ⟨⟨0, 0, 0⟩, ⟨1, 1, 0⟩⟩ ⟨1, 1, 1⟩ ⟨0, 1, 2⟩ ⟨1, 1, 1⟩
            [0, -1, 2] ⟨⟨0, 0, 0⟩, ⟨3, 3, 0⟩⟩ 0 ⟨0, 0, fun _ => 0, fun _ => 0, []⟩)
          (fun _ => 0, 0)).1
        (hypre_CommTypeSetEntry ⟨⟨2, 2, 0⟩, ⟨3, 3, 0⟩⟩ ⟨1, 1, 1⟩ ⟨0, 1, 2⟩ ⟨1, 1, 1⟩
          [0, 1, 2] ⟨⟨0, 0, 0⟩, ⟨3, 3, 0⟩⟩ 0 ⟨0, 0, fun _ => 0, fun _ => 0, []⟩)
        (fun _ => 7, 0)).1
        (cellOf ⟨⟨0, 0, 0⟩, ⟨3, 3, 0⟩⟩ 0 1 (stridedPoint ⟨⟨2, 2, 0⟩, ⟨3, 3, 0⟩⟩ ⟨1, 1, 1⟩ 1 1 0))
      = 0 :=
  exchange_skipped_value (3 : Int) (fun _ => (9 : Int)) (fun _ => 7) (fun _ => 0) 0
    (hypre_CommTypeSetEntry ⟨⟨0, 0, 0⟩, ⟨1, 1, 0⟩⟩ ⟨1, 1, 1⟩ ⟨0, 1, 2⟩ ⟨1, 1, 1⟩
      [0, -1, 2] ⟨⟨0, 0, 0⟩, ⟨3, 3, 0⟩⟩ 0 ⟨0, 0, fun _ => 0, fun _ => 0, []⟩)
    ⟨⟨2, 2, 0⟩, ⟨3, 3, 0⟩⟩ ⟨⟨0, 0, 0⟩, ⟨3, 3, 0⟩⟩ ⟨1, 1, 1⟩ [0, 1, 2] 0
    ⟨0, 0, fun _ => 0, fun _ => 0, []⟩ (by decide) (by decide) (by decide)
    (by decide) (by decide) (by decide) 1 1 1 0 (by decide) (by decide) (by decide)
    (by decide) (by decide)

/-- C7: reflection. For a send entry built by hypre_CommTypeSetEntry with the
identity `coord` and order and any `dir`, the payload holds at position
`((v*lz + k)*ly + j)*lx + i` the value of `send_data` at the strided point
whose index along every axis with negative `dir` is reflected (`L - 1 - i`
for loop index `i`, `L` the stride-size along the axis; see `reflectIndex`)
and along the other axes is the loop index. Therefore the identity receive
entry of a non-empty region `R'` inside `Dr` with the same stride-sizes
stores the region reversed along the axes with negative `dir`. -/
theorem pack_reflection {α : Type} [Zero α] [Add α] (num_values : Int)
    (send_data recv_data buf : Int → α) (dptr : Int) (R Ds R' Dr : hypre_Box)
    (send_stride recv_stride dir : hypre_Index) (Os Or : Int) (es er : hypre_CommEntryType)
    (v i j k : Nat) (hv : (v : Int) < num_values)
    (hi : (i : Int) < (hypre_BoxGetStrideSize R send_stride).x)
    (hj : (j : Int) < (hypre_BoxGetStrideSize R send_stride).y)
    (hk : (k : Int) < (hypre_BoxGetStrideSize R send_stride).z) :
    (packEntry num_values send_data
        (hypre_CommTypeSetEntry R send_stride ⟨0, 1, 2⟩ dir (identityOrder num_values)
          Ds Os es) (buf, dptr)).1
        (dptr + (((v * (hypre_BoxGetStrideSize R send_stride).z + k)
            * (hypre_BoxGetStrideSize R send_stride).y + j)
          * (hypre_BoxGetStrideSize R send_stride).x + i))
      = send_data (cellOf Ds Os v
          (stridedPoint R send_stride
            (reflectIndex dir.x (hypre_BoxGetStrideSize R send_stride).x i)
            (reflectIndex dir.y (hypre_BoxGetStrideSize R send_stride).y j)
            (reflectIndex dir.z (hypre_BoxGetStrideSize R send_stride).z k)))
    ∧ (boxNonempty R' → boxInside R' Dr → stridePositive recv_stride →
        hypre_BoxGetStrideSize R send_stride = hypre_BoxGetStrideSize R' recv_stride →
        (unpackEntry 0 num_values
          (packEntry num_values send_data
            (hypre_CommTypeSetEntry R send_stride ⟨0, 1, 2⟩ dir (identityOrder num_values)
              Ds Os es) (buf, dptr)).1
          (hypre_CommTypeSetEntry R' recv_stride ⟨0, 1, 2⟩ ⟨1, 1, 1⟩
            (identityOrder num_values) Dr Or er) (recv_data, dptr)).1
          (cellOf Dr Or v (stridedPoint R' recv_stride i j k))
        = send_data (cellOf Ds Os v
            (stridedPoint R send_stride
              (reflectIndex dir.x (hypre_BoxGetStrideSize R send_stride).x i)
              (reflectIndex dir.y (hypre_BoxGetStrideSize R send_stride).y j)
              (reflectIndex dir.z (hypre_BoxGetStrideSize R send_stride).z k)))) := by
  obtain ⟨s0, s1, s2⟩ := setEntry_identity_nonneg R send_stride dir
    (identityOrder num_values) Ds Os es (by omega) (by omega) (by omega)
  have hpay := sendEntry_payload num_values send_data R Ds send_stride dir
    (identityOrder num_values) Os es v i j k hv hi hj hk
  have hov : orderAt (identityOrder num_values) v = v := orderAt_identityOrder num_values v hv
  have hgt : (v : Int) > -1 := by omega
  rw [hov, if_pos hgt] at hpay
  refine ⟨?_, ?_⟩
  · rw [packEntry_eq num_values send_data _ s0 s1 s2,
      ← payloadPos_cast _ _ _ (by omega) (by omega) (by omega)]
    exact emit_getElem? _ _ _ _ _ hpay
  · intro hR' hin' hrs hsize
    obtain ⟨hr0, hnd, hwalk⟩ := recvEntry_walk num_values R' Dr recv_stride
      (identityOrder num_values) Or er hR' hin' hrs
    have hw := hwalk v i j k hv (by rw [← hsize]; exact hi) (by rw [← hsize]; exact hj)
      (by rw [← hsize]; exact hk)
    rw [← hsize] at hw
    rw [exchange_cell 0 num_values send_data recv_data buf dptr _ _ s0 s1 s2 hr0 hnd _ _ _
      hw hpay]
    simp

/-- C7 at the input of scenario D: a region of shape (4,1,1) sent with
`dir = (-1,1,1)`; the first packed double and the first received cell hold
the last cell of the source region. -/
theorem pack_reflection_witness :
    (packEntry 1 (fun a => (100 + a : Int))
        (hypre_CommTypeSetEntry ⟨⟨0, 0, 0⟩, ⟨3, 0, 0⟩⟩ ⟨1, 1, 1⟩ ⟨0, 1, 2⟩ ⟨-1, 1, 1⟩
          (identityOrder 1) ⟨⟨0, 0, 0⟩, ⟨9, 0, 0⟩⟩ 0 ⟨0, 0, fun _ => 0, fun _ => 0, []⟩)
        (fun _ => 0, 0)).1 0 = 103
    ∧ (unpackEntry 0 1
        (packEntry 1 (fun a => (100 + a : Int))
          (hypre_CommTypeSetEntry ⟨⟨0, 0, 0⟩, ⟨3, 0, 0⟩⟩ ⟨1, 1, 1⟩ ⟨0, 1, 2⟩ ⟨-1, 1, 1⟩
            (identityOrder 1) ⟨⟨0, 0, 0⟩, ⟨9, 0, 0⟩⟩ 0 ⟨0, 0, fun _ => 0, fun _ => 0, []⟩)
          (fun _ => 0, 0)).1
        (hypre_CommTypeSetEntry ⟨⟨5, 0, 0⟩, ⟨8, 0, 0⟩⟩ ⟨1, 1, 1⟩ ⟨0, 1, 2⟩ ⟨1, 1, 1⟩
          (identityOrder 1) ⟨⟨0, 0, 0⟩, ⟨9, 0, 0⟩⟩ 0 ⟨0, 0, fun _ => 0, fun _ => 0, []⟩)
        (fun _ => 7, 0)).1 5 = 103 := by
  have h := pack_reflection (1 : Int) (fun a => (100 + a : Int)) (fun _ => 7) (fun _ => 0) 0
    ⟨⟨0, 0, 0⟩, ⟨3, 0, 0⟩⟩ ⟨⟨0, 0, 0⟩, ⟨9, 0, 0⟩⟩ ⟨⟨5, 0, 0⟩, ⟨8, 0, 0⟩⟩ ⟨⟨0, 0, 0⟩, ⟨9, 0, 0⟩⟩
    ⟨1, 1, 1⟩ ⟨1, 1, 1⟩ ⟨-1, 1, 1⟩ 0 0 ⟨0, 0, fun _ => 0, fun _ => 0, []⟩
    ⟨0, 0, fun _ => 0, fun _ => 0, []⟩ 0 0 0 0 (by decide) (by decide) (by decide) (by decide)
  exact ⟨h.1, h.2 (by decide) (by decide) (by decide) (by decide)⟩

/-! ## The message prefix: size and round trip -/

theorem intsPerBox_eq : intsPerBox = 6 := by decide

theorem intIndex_eq (d : Int) : intIndex d = d * 2 := by
  unfold intIndex
  have : sizeof_double / sizeof_int = 2 := by decide
  rw [this]

theorem hypre_CommPrefixSize_eq (n : Int) : hypre_CommPrefixSize n = (4 + 28 * n) / 8 + 1 := by
  unfold hypre_CommPrefixSize sizeof_int sizeof_hypre_Box sizeof_double
  congr 2
  ring

/-- C17, as the code has it: for `n ≥ 0` the macro hypre_CommPrefixSize divides
with the integer division of C and adds 1. Its value is therefore the ceiling
of `((1+n)*sizeof(int) + n*sizeof(hypre_Box)) / sizeof(double)` when `n` is
even (the quotient is not whole) and the ceiling plus 1 when `n` is odd; in
both cases it is at least the ceiling, `(7n+1)/2 + 1` rounded down. -/
theorem prefixSize_formula (n : Int) (_hn : 0 ≤ n) :
    (n % 2 = 0 →
      hypre_CommPrefixSize n
        = ceilDiv ((1 + n) * sizeof_int + n * sizeof_hypre_Box) sizeof_double)
    ∧ (n % 2 = 1 →
      hypre_CommPrefixSize n
        = ceilDiv ((1 + n) * sizeof_int + n * sizeof_hypre_Box) sizeof_double + 1)
    ∧ ceilDiv ((1 + n) * sizeof_int + n * sizeof_hypre_Box) sizeof_double
        ≤ hypre_CommPrefixSize n
    ∧ hypre_CommPrefixSize n = (7 * n + 1) / 2 + 1 := by
  have hc : ceilDiv ((1 + n) * sizeof_int + n * sizeof_hypre_Box) sizeof_double
      = (4 + 28 * n + 8 - 1) / 8 := by
    unfold ceilDiv sizeof_int sizeof_hypre_Box sizeof_double
    congr 1
    ring
  rw [hc, hypre_CommPrefixSize_eq]
  refine ⟨?_, ?_, ?_, ?_⟩ <;> omega

/-- C17 at concrete inputs: two entries (even) and three entries (odd). -/
theorem prefixSize_formula_witness :
    hypre_CommPrefixSize 2 = 8 ∧ hypre_CommPrefixSize 3 = 12 := by
  have h2 := prefixSize_formula 2 (by decide)
  have h3 := prefixSize_formula 3 (by decide)
  exact ⟨h2.2.2.2.trans (by decide), h3.2.2.2.trans (by decide)⟩

/-- C17 fails as stated: for no entry the macro gives 1, the formula of the
claim, ceiling plus 1, gives 2. -/
theorem prefixSize_formula_counterexample :
    hypre_CommPrefixSize 0 = 1
    ∧ ceilDiv ((1 + 0) * sizeof_int + 0 * sizeof_hypre_Box) sizeof_double + 1 = 2
    ∧ hypre_CommPrefixSize 0
        ≠ ceilDiv ((1 + 0) * sizeof_int + 0 * sizeof_hypre_Box) sizeof_double + 1 := by
  decide

/-- The `int` view after the prefix is written, cell by cell. -/
theorem writePrefix_apply (ints : Int → Int) (qptr n : Int) (rem_boxnums : Int → Int)
    (rem_boxes : Int → hypre_Box) (q : Int) :
    writePrefix ints qptr n rem_boxnums rem_boxes q
      = if q = qptr then n
        else if qptr + 1 ≤ q ∧ q < qptr + 1 + n then rem_boxnums (q - (qptr + 1))
        else if qptr + 1 + n ≤ q ∧ q < qptr + 1 + n + n * 6 then
          boxCell (rem_boxes ((q - (qptr + 1 + n)) / 6)) ((q - (qptr + 1 + n)) % 6)
        else ints q := by
  simp only [writePrefix, memcpy, setAt_apply, boxArrayInts, intsPerBox_eq, zero_add]
  split_ifs <;> first | rfl | omega

/-- C18: the prefix size is large enough. For `n ≥ 0`,
`hypre_CommPrefixSize(n)*sizeof(double)` is at least
`(1+n)*sizeof(int) + n*sizeof(hypre_Box)`, and every `int` cell changed by the
prefix written at the start of the double cell `d` of a buffer lies in the
double cells `d` to `d + hypre_CommPrefixSize(n) - 1`, before the first
payload double. -/
theorem prefixSize_large_enough (n : Int) (hn : 0 ≤ n) :
    hypre_CommPrefixSize n * sizeof_double ≥ (1 + n) * sizeof_int + n * sizeof_hypre_Box
    ∧ ∀ (ints : Int → Int) (d : Int) (rem_boxnums : Int → Int) (rem_boxes : Int → hypre_Box)
        (q : Int),
        writePrefix ints (intIndex d) n rem_boxnums rem_boxes q ≠ ints q →
        intIndex d ≤ q ∧ q < intIndex (d + hypre_CommPrefixSize n) := by
  refine ⟨?_, ?_⟩
  · rw [hypre_CommPrefixSize_eq]
    unfold sizeof_int sizeof_hypre_Box sizeof_double
    omega
  · intro ints d rem_boxnums rem_boxes q hq
    rw [writePrefix_apply] at hq
    rw [intIndex_eq, intIndex_eq, hypre_CommPrefixSize_eq]
    rw [intIndex_eq] at hq
    split_ifs at hq with h1 h2 h3
    · omega
    · omega
    · omega
    · exact absurd rfl hq

/-- C18 at a concrete input: a prefix of one entry written at double cell 3
changes the `int` cell 6 and leaves the `int` cell 16, the start of the payload, alone. -/
theorem prefixSize_large_enough_witness :
    hypre_CommPrefixSize 1 * sizeof_double ≥ (1 + 1) * sizeof_int + 1 * sizeof_hypre_Box
    ∧ writePrefix (fun _ => 0) (intIndex 3) 1 (fun _ => 7)
        (fun _ => ⟨⟨1, 2, 3⟩, ⟨4, 5, 6⟩⟩) 16 = 0 := by
  have h := prefixSize_large_enough 1 (by decide)
  refine ⟨h.1, ?_⟩
  by_contra hne
  have := h.2 (fun _ => 0) 3 (fun _ => 7) (fun _ => ⟨⟨1, 2, 3⟩, ⟨4, 5, 6⟩⟩) 16 hne
  revert this
  decide

/-- C19: prefix round trip. The prefix written by
hypre_InitializeCommunication for `n ≥ 0` entries (the count, the `n` remote
box numbers, the `n` remote boxes as imin x, y, z and imax x, y, z), once
copied by the transport to the `int` cell `qptr'` of the receive buffer, is
parsed by hypre_FinalizeCommunication into the same count, the same box
numbers and the same boxes, in the same order. -/
theorem prefix_round_trip (n : Int) (hn : 0 ≤ n) (ints : Int → Int) (qptr : Int)
    (rem_boxnums : Int → Int) (rem_boxes : Int → hypre_Box) (ints' : Int → Int) (qptr' : Int)
    (hcopy : ∀ t : Int, 0 ≤ t → t < 1 + n + n * intsPerBox →
      ints' (qptr' + t) = writePrefix ints qptr n rem_boxnums rem_boxes (qptr + t)) :
    prefixNumEntries ints' qptr' = n
    ∧ ∀ j : Int, 0 ≤ j → j < n →
        prefixBoxnums ints' qptr' j = rem_boxnums j
        ∧ prefixBoxes ints' qptr' j = rem_boxes j := by
  rw [intsPerBox_eq] at hcopy
  have hread : ∀ t : Int, 0 ≤ t → t < 1 + n + n * 6 →
      ints' (qptr' + t)
        = if t = 0 then n
          else if t < 1 + n then rem_boxnums (t - 1)
          else boxCell (rem_boxes ((t - (1 + n)) / 6)) ((t - (1 + n)) % 6) := by
    intro t h0 h1
    rw [hcopy t h0 h1, writePrefix_apply]
    split_ifs <;> first | rfl | omega | (congr 2 <;> omega) | (congr 1; omega)
  have hcount : prefixNumEntries ints' qptr' = n := by
    have := hread 0 (by omega) (by omega)
    simpa [prefixNumEntries] using this
  refine ⟨hcount, ?_⟩
  intro j hj0 hjn
  constructor
  · have := hread (1 + j) (by omega) (by omega)
    rw [if_neg (by omega), if_pos (by omega)] at this
    simp only [prefixBoxnums]
    rw [show qptr' + 1 + j = qptr' + (1 + j) by ring, this]
    congr 1
    omega
  · have hcell : ∀ c : Int, 0 ≤ c → c < 6 →
        ints' (qptr' + 1 + n + j * 6 + c) = boxCell (rem_boxes j) c := by
      intro c hc0 hc6
      have := hread (1 + n + j * 6 + c) (by omega) (by omega)
      rw [if_neg (by omega), if_neg (by omega)] at this
      rw [show qptr' + 1 + n + j * 6 + c = qptr' + (1 + n + j * 6 + c) by ring, this]
      congr 2 <;> omega
    simp only [prefixBoxes, boxAtInts, hcount, intsPerBox_eq]
    have c0 := hcell 0 (by omega) (by omega)
    have c1 := hcell 1 (by omega) (by omega)
    have c2 := hcell 2 (by omega) (by omega)
    have c3 := hcell 3 (by omega) (by omega)
    have c4 := hcell 4 (by omega) (by omega)
    have c5 := hcell 5 (by omega) (by omega)
    simp only [add_zero] at c0
    rw [c0, c1, c2, c3, c4, c5]
    simp [boxCell]

/-- C19 at a concrete input: two entries written at `int` cell 4 and read back
at `int` cell 10 of a copy. -/
theorem prefix_round_trip_witness :
    prefixNumEntries
        (fun q => writePrefix (fun _ => 0) 4 2 (fun j => 10 + j)
          (fun j => ⟨⟨j, 2, 3⟩, ⟨4, 5, 6 + j⟩⟩) (q - 6)) 10 = 2
    ∧ prefixBoxes
        (fun q => writePrefix (fun _ => 0) 4 2 (fun j => 10 + j)
          (fun j => ⟨⟨j, 2, 3⟩, ⟨4, 5, 6 + j⟩⟩) (q - 6)) 10 1 = ⟨⟨1, 2, 3⟩, ⟨4, 5, 7⟩⟩ := by
  have h := prefix_round_trip 2 (by decide) (fun _ => 0) 4 (fun j => 10 + j)
    (fun j => ⟨⟨j, 2, 3⟩, ⟨4, 5, 6 + j⟩⟩)
    (fun q => writePrefix (fun _ => 0) 4 2 (fun j => 10 + j)
      (fun j => ⟨⟨j, 2, 3⟩, ⟨4, 5, 6 + j⟩⟩) (q - 6)) 10
    (fun t _ _ => by
      show writePrefix _ _ _ _ _ (10 + t - 6) = writePrefix _ _ _ _ _ (4 + t)
      congr 1
      omega)
  exact ⟨h.1, (h.2 1 (by decide) (by decide)).2⟩

/-! ## The local copy kernel -/

theorem forLoop_eq_foldl {σ : Type} (n : Nat) (body : Nat → σ → σ) (s : σ) :
    forLoop n body s = (List.range n).foldl (fun s i => body i s) s := by
  induction n with
  | zero => rfl
  | succ k ih => rw [forLoop_succ, ih, List.range_succ, List.foldl_append]; rfl

theorem copySeq_append {α : Type} [Add α] (action : Int) (xs ys : List (Int × Int))
    (h : Int → α) : copySeq action (xs ++ ys) h = copySeq action ys (copySeq action xs h) := by
  simp only [copySeq, List.foldl_append]

theorem copySeq_cons {α : Type} [Add α] (action : Int) (p : Int × Int) (ps : List (Int × Int))
    (h : Int → α) :
    copySeq action (p :: ps) h
      = copySeq action ps (setAt h p.1 (if action > 0 then h p.1 + h p.2 else h p.2)) := rfl

/-- A loop whose round `i` performs the assignments of a list performs the
assignments of the concatenated lists. -/
theorem forLoop_copySeq {α : Type} [Add α] (action : Int) (body : Nat → (Int → α) → (Int → α))
    (items : Nat → List (Int × Int)) (hbody : ∀ i h, body i h = copySeq action (items i) h)
    (n : Nat) (h : Int → α) :
    forLoop n body h = copySeq action ((List.range n).flatMap items) h := by
  induction n with
  | zero => rfl
  | succ k ih =>
    rw [forLoop_succ, ih, hbody, List.range_succ, List.flatMap_append, copySeq_append]
    simp

theorem localRowAdd_eq {α : Type} [Add α] (action : Int) (ha : action > 0)
    (length fs ts from_dp to_dp from_i to_i : Int) (heap : Int → α) :
    localRowAdd length fs ts from_dp to_dp from_i to_i heap
      = copySeq action
          ((List.range length.toNat).map (fun (i0 : Nat) =>
            (to_dp + to_i + (i0 : Int) * ts, from_dp + from_i + (i0 : Int) * fs))) heap := by
  unfold localRowAdd
  suffices h : ∀ n : Nat,
      forLoop n
        (fun _ (t : (Int → α) × Int × Int) =>
          (setAt t.1 (to_dp + t.2.2) (t.1 (to_dp + t.2.2) + t.1 (from_dp + t.2.1)),
            t.2.1 + fs, t.2.2 + ts))
        (heap, from_i, to_i)
      = (copySeq action
          ((List.range n).map (fun (i0 : Nat) =>
            (to_dp + to_i + (i0 : Int) * ts, from_dp + from_i + (i0 : Int) * fs))) heap,
          from_i + n * fs, to_i + n * ts) by
    rw [h]
  intro n
  induction n with
  | zero => simp [forLoop, copySeq]
  | succ k ih =>
    rw [forLoop_succ, ih, List.range_succ, List.map_append, copySeq_append]
    simp only [List.map_cons, List.map_nil, copySeq, List.foldl_cons, List.foldl_nil, if_pos ha,
      Nat.cast_add, Nat.cast_one]
    have e1 : to_dp + (to_i + (k : Int) * ts) = to_dp + to_i + (k : Int) * ts := by ring
    have e2 : from_dp + (from_i + (k : Int) * fs) = from_dp + from_i + (k : Int) * fs := by ring
    rw [e1, e2]
    congr 2 <;> ring

theorem localRowCopy_eq {α : Type} [Add α] (action : Int) (ha : ¬ action > 0)
    (length fs ts from_dp to_dp from_i to_i : Int) (heap : Int → α) :
    localRowCopy length fs ts from_dp to_dp from_i to_i heap
      = copySeq action
          ((List.range length.toNat).map (fun (i0 : Nat) =>
            (to_dp + to_i + (i0 : Int) * ts, from_dp + from_i + (i0 : Int) * fs))) heap := by
  unfold localRowCopy
  suffices h : ∀ n : Nat,
      forLoop n
        (fun _ (t : (Int → α) × Int × Int) =>
          (setAt t.1 (to_dp + t.2.2) (t.1 (from_dp + t.2.1)), t.2.1 + fs, t.2.2 + ts))
        (heap, from_i, to_i)
      = (copySeq action
          ((List.range n).map (fun (i0 : Nat) =>
            (to_dp + to_i + (i0 : Int) * ts, from_dp + from_i + (i0 : Int) * fs))) heap,
          from_i + n * fs, to_i + n * ts) by
    rw [h]
  intro n
  induction n with
  | zero => simp [forLoop, copySeq]
  | succ k ih =>
    rw [forLoop_succ, ih, List.range_succ, List.map_append, copySeq_append]
    simp only [List.map_cons, List.map_nil, copySeq, List.foldl_cons, List.foldl_nil, if_neg ha,
      Nat.cast_add, Nat.cast_one]
    have e1 : to_dp + (to_i + (k : Int) * ts) = to_dp + to_i + (k : Int) * ts := by ring
    have e2 : from_dp + (from_i + (k : Int) * fs) = from_dp + from_i + (k : Int) * fs := by ring
    rw [e1, e2]
    congr 2 <;> ring

/-- The local copy of one pair of entries whose start pointers differ performs
the assignments of `localPairs`, in their order. -/
theorem exchangeLocalEntry_eq {α : Type} [Add α] (num_values action : Int)
    (send_data recv_data : Int) (fe te : hypre_CommEntryType) (heap : Int → α)
    (hne : recv_data + te.offset ≠ send_data + fe.offset) :
    exchangeLocalEntry num_values action send_data recv_data fe te heap
      = copySeq action (localPairs num_values send_data recv_data fe te) heap := by
  unfold exchangeLocalEntry localPairs
  simp only [if_pos hne]
  apply forLoop_copySeq
  intro i3 h
  by_cases ho : orderAt fe.order i3 > -1
  · simp only [if_pos ho]
    apply forLoop_copySeq
    intro i2 h
    apply forLoop_copySeq
    intro i1 h
    by_cases ha : action > 0
    · rw [if_pos ha, localRowAdd_eq action ha]
    · rw [if_neg ha, localRowCopy_eq action ha]
  · simp only [if_neg ho]
    rfl

theorem copySeq_outside {α : Type} [Add α] (action : Int) (pairs : List (Int × Int))
    (h : Int → α) (a : Int) (ha : a ∉ pairs.map Prod.fst) : copySeq action pairs h a = h a := by
  induction pairs generalizing h with
  | nil => rfl
  | cons p ps ih =>
    simp only [List.map_cons, List.mem_cons, not_or] at ha
    rw [copySeq_cons, ih _ ha.2, setAt_apply, if_neg ha.1]

theorem copySeq_at {α : Type} [Add α] (action : Int) (pairs : List (Int × Int))
    (h : Int → α) (hnd : (pairs.map Prod.fst).Nodup)
    (hsrc : ∀ p ∈ pairs, ∀ q ∈ pairs, p.2 ≠ q.1) (p : Int × Int) (hp : p ∈ pairs) :
    copySeq action pairs h p.1 = if action > 0 then h p.1 + h p.2 else h p.2 := by
  induction pairs generalizing h with
  | nil => simp at hp
  | cons x xs ih =>
    rw [List.map_cons, List.nodup_cons] at hnd
    rw [copySeq_cons]
    rcases List.mem_cons.1 hp with rfl | hmem
    · rw [copySeq_outside _ _ _ _ hnd.1, setAt_apply, if_pos rfl]
    · have h1 : p.1 ≠ x.1 := by
        intro e
        exact hnd.1 (e ▸ List.mem_map_of_mem Prod.fst hmem)
      have h2 : p.2 ≠ x.1 := hsrc p hp x (List.mem_cons_self _ _)
      rw [ih _ hnd.2 (fun a ha b hb => hsrc a (List.mem_cons_of_mem _ ha) b
        (List.mem_cons_of_mem _ hb)) hmem]
      simp only [setAt_apply, if_neg h1, if_neg h2]

theorem mem_localPairs (num_values : Int) (send_data recv_data : Int)
    (fe te : hypre_CommEntryType) (v i2 i1 i0 : Nat) (hv : (v : Int) < num_values)
    (ho : orderAt fe.order v > -1) (h2 : (i2 : Int) < fe.length_array 2)
    (h1 : (i1 : Int) < fe.length_array 1) (h0 : (i0 : Int) < fe.length_array 0) :
    (recv_data + te.offset + v * te.stride_array 3 + i2 * te.stride_array 2
        + i1 * te.stride_array 1 + i0 * te.stride_array 0,
      send_data + fe.offset + orderAt fe.order v * fe.stride_array 3 + i2 * fe.stride_array 2
        + i1 * fe.stride_array 1 + i0 * fe.stride_array 0)
      ∈ localPairs num_values send_data recv_data fe te := by
  unfold localPairs
  rw [List.mem_flatMap]
  refine ⟨v, List.mem_range.2 (by omega), ?_⟩
  rw [if_pos ho, List.mem_flatMap]
  refine ⟨i2, List.mem_range.2 (by omega), ?_⟩
  rw [List.mem_flatMap]
  refine ⟨i1, List.mem_range.2 (by omega), ?_⟩
  rw [List.mem_map]
  refine ⟨i0, List.mem_range.2 (by omega), ?_⟩
  ext <;> simp only <;> ring

/-- C20: the local-copy kernel of hypre_ExchangeLocalData for one pair of
entries whose start pointers differ. It performs the assignments
`recv[to.offset + v*to.stride[3] + i2*to.stride[2] + i1*to.stride[1] +
i0*to.stride[0]] = x` (`+= x` when `action > 0`) with
`x = send[from.offset + order[v]*from.stride[3] + i2*from.stride[2] +
i1*from.stride[1] + i0*from.stride[0]]`, for the `v` with `order[v] > -1`, in
loop order (`localPairs`, `copySeq`). When the destination cells are pairwise
distinct and no source cell is a destination cell, every destination cell
ends as `old + x` for `action > 0` and as `x` otherwise, and every other cell,
the cells of a component with negative `order[v]` among them, is unchanged. -/
theorem exchangeLocal_kernel {α : Type} [Add α] (num_values action : Int)
    (send_data recv_data : Int) (fe te : hypre_CommEntryType) (heap : Int → α)
    (hne : recv_data + te.offset ≠ send_data + fe.offset)
    (hdst : ((localPairs num_values send_data recv_data fe te).map Prod.fst).Nodup)
    (hsrc : ∀ p ∈ localPairs num_values send_data recv_data fe te,
      ∀ q ∈ localPairs num_values send_data recv_data fe te, p.2 ≠ q.1) :
    exchangeLocalEntry num_values action send_data recv_data fe te heap
        = copySeq action (localPairs num_values send_data recv_data fe te) heap
    ∧ (∀ v i2 i1 i0 : Nat, (v : Int) < num_values → orderAt fe.order v > -1 →
        (i2 : Int) < fe.length_array 2 → (i1 : Int) < fe.length_array 1 →
        (i0 : Int) < fe.length_array 0 →
        exchangeLocalEntry num_values action send_data recv_data fe te heap
            (recv_data + te.offset + v * te.stride_array 3 + i2 * te.stride_array 2
              + i1 * te.stride_array 1 + i0 * te.stride_array 0)
          = if action > 0 then
              heap (recv_data + te.offset + v * te.stride_array 3 + i2 * te.stride_array 2
                  + i1 * te.stride_array 1 + i0 * te.stride_array 0)
                + heap (send_data + fe.offset + orderAt fe.order v * fe.stride_array 3
                  + i2 * fe.stride_array 2 + i1 * fe.stride_array 1 + i0 * fe.stride_array 0)
            else
              heap (send_data + fe.offset + orderAt fe.order v * fe.stride_array 3
                + i2 * fe.stride_array 2 + i1 * fe.stride_array 1 + i0 * fe.stride_array 0))
    ∧ ∀ a : Int, a ∉ (localPairs num_values send_data recv_data fe te).map Prod.fst →
        exchangeLocalEntry num_values action send_data recv_data fe te heap a = heap a := by
  have heq := exchangeLocalEntry_eq num_values action send_data recv_data fe te heap hne
  refine ⟨heq, ?_, ?_⟩
  · intro v i2 i1 i0 hv ho h2 h1 h0
    rw [heq]
    exact copySeq_at action _ heap hdst hsrc _ (mem_localPairs num_values send_data recv_data
      fe te v i2 i1 i0 hv ho h2 h1 h0)
  · intro a ha
    rw [heq]
    exact copySeq_outside action _ heap a ha

/-- C20 at a concrete input: two value components with `order = [1, -1]`, a
row of two cells copied from the cells 110, 111 to the cells 20, 22;
component 1 of the destination (cells 40, 42) is not written. -/
theorem exchangeLocal_kernel_witness :
    exchangeLocalEntry 2 0 100 0
        ⟨0, 1, fun d => if d = 0 then 2 else 1, fun d => if d = 3 then 10 else 1, [1, -1]⟩
        ⟨20, 1, fun d => if d = 0 then 2 else 1, fun d => if d = 3 then 20 else 2, [0, 1]⟩
        (fun a => (1000 + a : Int)) 22 = 1111
    ∧ exchangeLocalEntry 2 0 100 0
        ⟨0, 1, fun d => if d = 0 then 2 else 1, fun d => if d = 3 then 10 else 1, [1, -1]⟩
        ⟨20, 1, fun d => if d = 0 then 2 else 1, fun d => if d = 3 then 20 else 2, [0, 1]⟩
        (fun a => (1000 + a : Int)) 42 = 1042 := by
  have h := exchangeLocal_kernel (2 : Int) 0 100 0
    ⟨0, 1, fun d => if d = 0 then 2 else 1, fun d => if d = 3 then 10 else 1, [1, -1]⟩
    ⟨20, 1, fun d => if d = 0 then 2 else 1, fun d => if d = 3 then 20 else 2, [0, 1]⟩
    (fun a => (1000 + a : Int)) (by decide) (by decide) (by decide)
  refine ⟨?_, ?_⟩
  · have h1 := h.2.1 0 0 0 1 (by decide) (by decide) (by decide) (by decide) (by decide)
    simpa [orderAt] using h1
  · exact h.2.2 42 (by decide)

/-! ## Reverse symmetry and the first-communication flag -/

/-- C12: reverse symmetry of hypre_CommPkgCreate. The package built with
`reverse > 0` from the CommInfo `I` and the data spaces `S`, `R` is the
package built with `reverse = 0` from `I` with its send and recv boxes,
strides, processes, rboxnums, rboxes and transforms swapped (`swapCommInfo`;
coords, dirs, num_transforms and boxes_match stay) and the data spaces `R`,
`S`. -/
theorem commPkgCreate_reverse (I : hypre_CommInfo) (S R : hypre_BoxArray) (num_values : Int)
    (orders : Option (Int → Int → Int)) (reverse comm my_proc : Int) (mem : CreateMemory)
    (hrev : reverse > 0) :
    hypre_CommPkgCreate I S R num_values orders reverse comm my_proc mem
      = hypre_CommPkgCreate (swapCommInfo I) R S num_values orders 0 comm my_proc mem := by
  unfold hypre_CommPkgCreate
  rw [if_pos hrev, if_neg (by decide)]
  rfl

/-- C12 at a concrete input: the sample CommInfo with `reverse = 1`. -/
theorem commPkgCreate_reverse_witness :
    hypre_CommPkgCreate sampleInfo sampleSpace sampleSpace 1 none 1 0 0 sampleMemory
      = hypre_CommPkgCreate (swapCommInfo sampleInfo) sampleSpace sampleSpace 1 none 0 0 0
          sampleMemory :=
  commPkgCreate_reverse sampleInfo sampleSpace sampleSpace 1 none 1 0 0 sampleMemory (by decide)

theorem forLoop_invariant {σ : Type} (P : σ → Prop) (body : Nat → σ → σ)
    (hbody : ∀ i s, P s → P (body i s)) (n : Nat) (s : σ) (hs : P s) : P (forLoop n body s) := by
  induction n with
  | zero => exact hs
  | succ k ih => exact hbody k _ ih

theorem initialize_first_comm {α : Type} [Zero α] [Add α] (comm_pkg : hypre_CommPkg)
    (send_data recv_data action tag : Int) (mem : InitializeMemory α) (heap : Int → α) :
    (hypre_InitializeCommunication comm_pkg send_data recv_data action tag mem
      heap).comm_handle.comm_pkg.first_comm = comm_pkg.first_comm := rfl

theorem finalize_first_comm {α : Type} [Add α] (comm_handle : hypre_CommHandle)
    (recv_buffer : Int → α) (recv_ints : Int → Int) (block : Int → hypre_CommEntryType)
    (heap : Int → α) :
    (hypre_FinalizeCommunication comm_handle recv_buffer recv_ints block heap).1.first_comm
      = 0 := rfl

theorem applyOp_first_comm {α : Type} [Zero α] [Add α] (op : CommOp α) (comm_pkg : hypre_CommPkg)
    (h : comm_pkg.first_comm = 0) : (applyOp op comm_pkg).first_comm = 0 := by
  cases op with
  | initComm send_data recv_data action tag mem heap => exact h
  | finalComm handle recv_buffer recv_ints block heap => rfl
  | localCopy send_data recv_data action heap => exact h

theorem runOps_append {α : Type} [Zero α] [Add α] (ops more : List (CommOp α))
    (comm_pkg : hypre_CommPkg) :
    runOps (ops ++ more) comm_pkg = runOps more (runOps ops comm_pkg) := by
  simp only [runOps, List.foldl_append]

theorem runOps_first_comm {α : Type} [Zero α] [Add α] (ops : List (CommOp α))
    (comm_pkg : hypre_CommPkg) (h : comm_pkg.first_comm = 0) :
    (runOps ops comm_pkg).first_comm = 0 := by
  induction ops generalizing comm_pkg with
  | nil => exact h
  | cons op ops ih => exact ih _ (applyOp_first_comm op comm_pkg h)

/-- C15: `first_comm` is a one-way latch. hypre_CommPkgCreate returns a
package with `first_comm` 1; hypre_InitializeCommunication leaves the flag as
it is, and so does hypre_ExchangeLocalData, which does not write the package;
hypre_FinalizeCommunication leaves it 0; hence once the flag is 0 after some
operations on a package, it is 0 after any further operations. -/
theorem first_comm_latch {α : Type} [Zero α] [Add α] :
    (∀ (I : hypre_CommInfo) (S R : hypre_BoxArray) (num_values : Int)
        (orders : Option (Int → Int → Int)) (reverse comm my_proc : Int) (mem : CreateMemory),
        (hypre_CommPkgCreate I S R num_values orders reverse comm my_proc mem).first_comm = 1)
    ∧ (∀ (comm_pkg : hypre_CommPkg) (send_data recv_data action tag : Int)
        (mem : InitializeMemory α) (heap : Int → α),
        (hypre_InitializeCommunication comm_pkg send_data recv_data action tag mem
          heap).comm_handle.comm_pkg.first_comm = comm_pkg.first_comm)
    ∧ (∀ (comm_pkg : hypre_CommPkg) (send_data recv_data action : Int) (heap : Int → α),
        applyOp (CommOp.localCopy send_data recv_data action heap) comm_pkg = comm_pkg)
    ∧ (∀ (comm_handle : hypre_CommHandle) (recv_buffer : Int → α) (recv_ints : Int → Int)
        (block : Int → hypre_CommEntryType) (heap : Int → α),
        (hypre_FinalizeCommunication comm_handle recv_buffer recv_ints block
          heap).1.first_comm = 0)
    ∧ ∀ (ops more : List (CommOp α)) (comm_pkg : hypre_CommPkg),
        (runOps ops comm_pkg).first_comm = 0 →
        (runOps (ops ++ more) comm_pkg).first_comm = 0 := by
  refine ⟨?_, fun _ _ _ _ _ _ _ => rfl, fun _ _ _ _ _ => rfl, fun _ _ _ _ _ => rfl, ?_⟩
  · intro I S R num_values orders reverse comm my_proc mem
    unfold hypre_CommPkgCreate
    split <;> rfl
  · intro ops more comm_pkg h
    rw [runOps_append]
    exact runOps_first_comm more _ h

/-! ## Boxes without points -/

theorem forLoop_congr {σ : Type} (n : Nat) (f g : Nat → σ → σ)
    (h : ∀ k, k < n → ∀ s, g k s = f k s) (s : σ) : forLoop n g s = forLoop n f s := by
  induction n with
  | zero => rfl
  | succ k ih =>
    rw [forLoop_succ, forLoop_succ, h k (by omega), ih (fun i hi => h i (by omega))]

/-- A loop with one more round that does nothing, at position `j`, the rounds
from `j` on being those of `f` moved up by one. -/
theorem forLoop_insert {σ : Type} (n j : Nat) (hj : j ≤ n) (f g : Nat → σ → σ)
    (hlow : ∀ k, k < j → ∀ s, g k s = f k s) (hat : ∀ s, g j s = s)
    (hhigh : ∀ k, j ≤ k → ∀ s, g (k + 1) s = f k s) (s : σ) :
    forLoop (n + 1) g s = forLoop n f s := by
  induction n with
  | zero =>
    have : j = 0 := by omega
    subst this
    rw [forLoop_succ, hat]
    rfl
  | succ k ih =>
    rcases Nat.lt_or_ge j (k + 1) with hlt | hge
    · rw [forLoop_succ, ih (by omega), hhigh k (by omega), forLoop_succ]
    · have : j = k + 1 := by omega
      subst this
      rw [forLoop_succ, hat]
      exact forLoop_congr _ f g (fun i hi s => hlow i hi s) s

theorem insertAt_below {β : Type} (f : Int → β) (j : Int) (v : β) (k : Int) (h : k < j) :
    insertAt f j v k = f k := by
  unfold insertAt
  rw [if_pos h]

theorem insertAt_at {β : Type} (f : Int → β) (j : Int) (v : β) : insertAt f j v j = v := by
  unfold insertAt
  rw [if_neg (lt_irrefl j), if_pos rfl]

theorem insertAt_above {β : Type} (f : Int → β) (j : Int) (v : β) (k : Int) (h : j ≤ k) :
    insertAt f j v (k + 1) = f k := by
  unfold insertAt
  rw [if_neg (by omega), if_neg (by omega)]
  congr 1
  omega

/-- The loop nest over the boxes with a box inserted at `(i, j)`, when the
body does nothing for the inserted box and is, for the other boxes, the body
`body` at their former positions. -/
theorem forBoxes_insert {σ : Type} (boxes : hypre_BoxArrayArray) (i j : Int) (b : hypre_Box)
    (hj0 : 0 ≤ j) (hj : j ≤ (boxes.box_arrays i).size) (body body2 : Int → Int → σ → σ)
    (hrow : ∀ i2 j2 s, i2 ≠ i → body2 i2 j2 s = body i2 j2 s)
    (hlow : ∀ j2 s, j2 < j → body2 i j2 s = body i j2 s)
    (hat : ∀ s, body2 i j s = s)
    (hhigh : ∀ j2 s, j ≤ j2 → body2 i (j2 + 1) s = body i j2 s) (s : σ) :
    forBoxes (insertBox boxes i j b) body2 s = forBoxes boxes body s := by
  unfold forBoxes
  show forLoop boxes.size.toNat _ s = _
  apply forLoop_congr
  intro k _ s
  by_cases hk : (k : Int) = i
  · subst hk
    have hsize : ((insertBox boxes (k : Int) j b).box_arrays k).size.toNat
        = (boxes.box_arrays k).size.toNat + 1 := by
      simp only [insertBox, setAt_apply, if_pos]
      omega
    rw [hsize]
    apply forLoop_insert _ j.toNat (by omega)
    · intro n hn s
      exact hlow n s (by omega)
    · intro s
      have : ((j.toNat : Nat) : Int) = j := Int.toNat_of_nonneg hj0
      rw [this]
      exact hat s
    · intro n hn s
      have h := hhigh n s (by omega)
      rw [← h]
      simp only [Nat.cast_add, Nat.cast_one]
  · have hsize : ((insertBox boxes i j b).box_arrays k).size = (boxes.box_arrays k).size := by
      simp only [insertBox, setAt_apply, if_neg hk]
    rw [hsize]
    apply forLoop_congr
    intro n _ s
    exact hrow k n s hk
theorem sendResolve_insert_row (coords dirs : Int → hypre_Index) (T : Option (Int → Int → Int))
    (cp : Option (Int → List Int)) (i j t i2 j2 : Int) (s : SendState) (h : i2 ≠ i) :
    sendResolve coords dirs (T.map (fun tr => setAt tr i (insertAt (tr i) j t))) cp i2 j2 s
      = sendResolve coords dirs T cp i2 j2 s := by
  cases T with
  | none => rfl
  | some tr => simp only [sendResolve, Option.map_some', setAt_apply, if_neg h]

theorem sendResolve_insert_below (coords dirs : Int → hypre_Index)
    (T : Option (Int → Int → Int)) (cp : Option (Int → List Int)) (i j t j2 : Int)
    (s : SendState) (h : j2 < j) :
    sendResolve coords dirs (T.map (fun tr => setAt tr i (insertAt (tr i) j t))) cp i j2 s
      = sendResolve coords dirs T cp i j2 s := by
  cases T with
  | none => rfl
  | some tr =>
    simp only [sendResolve, Option.map_some', setAt_apply, if_pos, insertAt_below _ _ _ _ h]

theorem sendResolve_insert_above (coords dirs : Int → hypre_Index)
    (T : Option (Int → Int → Int)) (cp : Option (Int → List Int)) (i j t j2 : Int)
    (s : SendState) (h : j ≤ j2) :
    sendResolve coords dirs (T.map (fun tr => setAt tr i (insertAt (tr i) j t))) cp i (j2 + 1) s
      = sendResolve coords dirs T cp i j2 s := by
  cases T with
  | none => rfl
  | some tr =>
    simp only [sendResolve, Option.map_some', setAt_apply, if_pos, insertAt_above _ _ _ _ h]

/-- The send side of hypre_CommPkgCreate does not see a box without points
inserted in the send arrays. -/
theorem sendSide_insert (B : hypre_BoxArrayArray) (stride : hypre_Index)
    (P N : Int → Int → Int) (RB : hypre_BoxArrayArray) (T : Option (Int → Int → Int))
    (coords dirs : Int → hypre_Index) (cp : Option (Int → List Int)) (ds : hypre_BoxArray)
    (num_values my_proc : Int) (mem : CreateMemory) (i j : Int) (b : hypre_Box) (p n : Int)
    (rb : hypre_Box) (t : Int) (hj0 : 0 ≤ j) (hj : j ≤ (B.box_arrays i).size)
    (hvol : hypre_BoxVolume b = 0) :
    sendSide (insertBox B i j b) stride (insertRow P i j p) (insertRow N i j n)
        (insertBox RB i j rb) (T.map (fun tr => insertRow tr i j t)) coords dirs cp ds num_values
        my_proc mem
      = sendSide B stride P N RB T coords dirs cp ds num_values my_proc mem := by
  have hcount : ∀ s0 : CountState,
      forBoxes (insertBox B i j b)
        (fun i2 j2 s => sendCountBody my_proc (((insertBox B i j b).box_arrays i2).boxes j2)
          (insertRow P i j p i2 j2) s) s0
      = forBoxes B
        (fun i2 j2 s => sendCountBody my_proc ((B.box_arrays i2).boxes j2) (P i2 j2) s) s0 := by
    intro s0
    apply forBoxes_insert B i j b hj0 hj
    · intro i2 j2 s h
      simp only [insertBox, insertRow, setAt_apply, if_neg h]
    · intro j2 s h
      simp only [insertBox, insertRow, setAt_apply, if_pos, insertAt_below _ _ _ _ h]
    · intro s
      simp only [insertBox, insertRow, setAt_apply, if_pos, insertAt_at, sendCountBody, hvol,
        ne_eq, not_true_eq_false, if_false]
    · intro j2 s h
      simp only [insertBox, insertRow, setAt_apply, if_pos, insertAt_above _ _ _ _ h]
  have hfill : ∀ (offs : Int → Int) (s0 : SendState),
      forBoxes (insertBox B i j b)
        (sendFillBody num_values stride (insertBox B i j b) (insertRow P i j p)
          (insertRow N i j n) (insertBox RB i j rb) coords dirs
          (T.map (fun tr => insertRow tr i j t)) cp ds offs) s0
      = forBoxes B (sendFillBody num_values stride B P N RB coords dirs T cp ds offs) s0 := by
    intro offs s0
    apply forBoxes_insert B i j b hj0 hj
    · intro i2 j2 s h
      simp only [sendFillBody, sendResolve_insert_row _ _ _ _ _ _ _ _ _ _ h, insertBox,
        insertRow, setAt_apply, if_neg h]
    · intro j2 s h
      simp only [sendFillBody, sendResolve_insert_below _ _ _ _ _ _ _ _ _ h, insertBox,
        insertRow, setAt_apply, if_pos, insertAt_below _ _ _ _ h]
    · intro s
      simp only [sendFillBody, insertBox, setAt_apply, if_pos, insertAt_at, hvol, ne_eq,
        not_true_eq_false, if_false]
    · intro j2 s h
      simp only [sendFillBody, sendResolve_insert_above _ _ _ _ _ _ _ _ _ h, insertBox,
        insertRow, setAt_apply, if_pos, insertAt_above _ _ _ _ h]
  unfold sendSide
  simp only [hcount, hfill]

/-- The recv side of hypre_CommPkgCreate does not see a box without points
inserted in the recv arrays. -/
theorem recvSide_insert (B : hypre_BoxArrayArray) (stride : hypre_Index)
    (P : Int → Int → Int) (num_values my_proc : Int) (pct : Int → Int) (num_entries : Int)
    (i j : Int) (b : hypre_Box) (p : Int) (hj0 : 0 ≤ j) (hj : j ≤ (B.box_arrays i).size)
    (hvol : hypre_BoxVolume b = 0) :
    recvSide (insertBox B i j b) stride (insertRow P i j p) num_values my_proc pct num_entries
      = recvSide B stride P num_values my_proc pct num_entries := by
  have hcount : ∀ s0 : CountState,
      forBoxes (insertBox B i j b)
        (fun i2 j2 s => recvCountBody my_proc (((insertBox B i j b).box_arrays i2).boxes j2)
          (insertRow P i j p i2 j2) s) s0
      = forBoxes B
        (fun i2 j2 s => recvCountBody my_proc ((B.box_arrays i2).boxes j2) (P i2 j2) s) s0 := by
    intro s0
    apply forBoxes_insert B i j b hj0 hj
    · intro i2 j2 s h
      simp only [insertBox, insertRow, setAt_apply, if_neg h]
    · intro j2 s h
      simp only [insertBox, insertRow, setAt_apply, if_pos, insertAt_below _ _ _ _ h]
    · intro s
      simp only [insertBox, insertRow, setAt_apply, if_pos, insertAt_at, recvCountBody, hvol,
        ne_eq, not_true_eq_false, if_false]
    · intro j2 s h
      simp only [insertBox, insertRow, setAt_apply, if_pos, insertAt_above _ _ _ _ h]
  have hfill : ∀ s0 : RecvState,
      forBoxes (insertBox B i j b)
        (recvFillBody num_values stride (insertBox B i j b) (insertRow P i j p)) s0
      = forBoxes B (recvFillBody num_values stride B P) s0 := by
    intro s0
    apply forBoxes_insert B i j b hj0 hj
    · intro i2 j2 s h
      simp only [recvFillBody, insertBox, insertRow, setAt_apply, if_neg h]
    · intro j2 s h
      simp only [recvFillBody, insertBox, insertRow, setAt_apply, if_pos,
        insertAt_below _ _ _ _ h]
    · intro s
      simp only [recvFillBody, insertBox, setAt_apply, if_pos, insertAt_at, hvol, ne_eq,
        not_true_eq_false, if_false]
    · intro j2 s h
      simp only [recvFillBody, insertBox, insertRow, setAt_apply, if_pos,
        insertAt_above _ _ _ _ h]
  unfold recvSide
  simp only [hcount, hfill]
theorem storedOrders_map (T : Option (Int → Int → Int)) (f : (Int → Int → Int) → Int → Int → Int)
    (orders : Option (Int → Int → Int)) (num_transforms num_values : Int) :
    storedOrders (T.map f) orders num_transforms num_values
      = storedOrders T orders num_transforms num_values := by
  cases T <;> cases orders <;> rfl

/-- C11: zero-volume prune. For every CommInfo, inserting a box of volume 0 at
a position `(i, j)` of `send_boxes` (`0 ≤ j ≤` the size of box array `i`),
with any values `p`, `rboxnum`, `rbox`, `t` at the same position of the send
processes, rboxnums, rboxes and transforms, leaves the package that
hypre_CommPkgCreate returns as it is without the box: all its fields, and so
`num_sends`, `num_recvs`, the proc, num_entries, entries, rem_boxnums,
rem_boxes and bufsize of every CommType, `send_bufsize` and `recv_bufsize`;
likewise for `recv_boxes` and the recv arrays; for every `reverse`. -/
theorem zero_volume_prune (I : hypre_CommInfo) (S R : hypre_BoxArray) (num_values : Int)
    (orders : Option (Int → Int → Int)) (reverse comm my_proc : Int) (mem : CreateMemory)
    (i j : Int) (b : hypre_Box) (p rboxnum : Int) (rbox : hypre_Box) (t : Int)
    (hvol : hypre_BoxVolume b = 0) (hj0 : 0 ≤ j) :
    (j ≤ (I.send_boxes.box_arrays i).size →
      hypre_CommPkgCreate (insertSend I i j b p rboxnum rbox t) S R num_values orders reverse
          comm my_proc mem
        = hypre_CommPkgCreate I S R num_values orders reverse comm my_proc mem)
    ∧ (j ≤ (I.recv_boxes.box_arrays i).size →
      hypre_CommPkgCreate (insertRecv I i j b p rboxnum rbox t) S R num_values orders reverse
          comm my_proc mem
        = hypre_CommPkgCreate I S R num_values orders reverse comm my_proc mem) := by
  refine ⟨?_, ?_⟩
  · intro hj
    unfold hypre_CommPkgCreate commPkgBuild
    by_cases hrev : reverse > 0
    · simp only [if_pos hrev, insertSend, recvSide_insert _ _ _ _ _ _ _ _ _ _ _ hj0 hj hvol]
    · simp only [if_neg hrev, insertSend, storedOrders_map,
        sendSide_insert _ _ _ _ _ _ _ _ _ _ _ _ _ _ _ _ _ _ _ _ hj0 hj hvol]
  · intro hj
    unfold hypre_CommPkgCreate commPkgBuild
    by_cases hrev : reverse > 0
    · simp only [if_pos hrev, insertRecv, storedOrders_map,
        sendSide_insert _ _ _ _ _ _ _ _ _ _ _ _ _ _ _ _ _ _ _ _ hj0 hj hvol]
    · simp only [if_neg hrev, insertRecv, recvSide_insert _ _ _ _ _ _ _ _ _ _ _ hj0 hj hvol]

/-- C11 at a concrete input: a box without points (x from 7 to 6) inserted at
position `(0, 2)` of the send boxes and of the recv boxes of the sample
CommInfo. -/
theorem zero_volume_prune_witness :
    hypre_CommPkgCreate (insertSend sampleInfo 0 2 (sampleBox 7 6) 3 5 (sampleBox 0 0) 0)
        sampleSpace sampleSpace 1 none 0 0 0 sampleMemory = samplePkg
    ∧ hypre_CommPkgCreate (insertRecv sampleInfo 0 2 (sampleBox 7 6) 3 5 (sampleBox 0 0) 0)
        sampleSpace sampleSpace 1 none 0 0 0 sampleMemory = samplePkg :=
  ⟨(zero_volume_prune sampleInfo sampleSpace sampleSpace 1 none 0 0 0 sampleMemory 0 2
      (sampleBox 7 6) 3 5 (sampleBox 0 0) 0 (by decide) (by decide)).1 (by decide),
    (zero_volume_prune sampleInfo sampleSpace sampleSpace 1 none 0 0 0 sampleMemory 0 2
      (sampleBox 7 6) 3 5 (sampleBox 0 0) 0 (by decide) (by decide)).2 (by decide)⟩

/-! ## The loop nests over the boxes as folds -/

theorem forBoxes_eq_foldl {σ : Type} (boxes : hypre_BoxArrayArray) (body : Int → Int → σ → σ)
    (s : σ) :
    forBoxes boxes body s = (boxIndices boxes).foldl (fun s e => body e.1 e.2 s) s := by
  unfold forBoxes boxIndices
  generalize boxes.size.toNat = n
  induction n with
  | zero => rfl
  | succ k ih =>
    rw [forLoop_succ, ih, List.range_succ, List.flatMap_append, List.foldl_append,
      forLoop_eq_foldl]
    simp only [List.flatMap_singleton, List.foldl_map]

theorem foldl_filter_skip {σ β : Type} (step : σ → β → σ) (keep : β → Bool)
    (hskip : ∀ e s, keep e = false → step s e = s) (l : List β) (s : σ) :
    l.foldl step s = (l.filter keep).foldl step s := by
  induction l generalizing s with
  | nil => rfl
  | cons x xs ih =>
    cases hk : keep x with
    | true => rw [List.filter_cons_of_pos hk, List.foldl_cons, List.foldl_cons, ih]
    | false =>
      rw [List.filter_cons_of_neg (by simp [hk]), List.foldl_cons, hskip x s hk, ih]

theorem foldl_invariant {σ β : Type} (step : σ → β → σ) (P : List β → σ → Prop) (s0 : σ)
    (h0 : P [] s0) (l : List β)
    (hstep : ∀ done e s, done ++ [e] <+: l → P done s → P (done ++ [e]) (step s e)) :
    P l (l.foldl step s0) := by
  suffices h : ∀ done, done <+: l → P done (done.foldl step s0) from h l (List.prefix_refl l)
  intro done
  induction done using List.reverseRecOn with
  | nil => intro _; exact h0
  | append_singleton xs x ih =>
    intro hp
    rw [List.foldl_append]
    exact hstep xs x _ hp (ih ((List.prefix_append xs [x]).trans hp))

theorem mem_nonemptyBoxes (boxes : hypre_BoxArrayArray) (e : Int × Int)
    (h : e ∈ nonemptyBoxes boxes) : hypre_BoxVolume ((boxes.box_arrays e.1).boxes e.2) ≠ 0 := by
  unfold nonemptyBoxes at h
  rw [List.mem_filter] at h
  exact of_decide_eq_true h.2

/-! ## Peers in the order of their first box -/

theorem peersOf_snoc (my_proc : Int) (procs : List Int) (p : Int) :
    peersOf my_proc (procs ++ [p]) = addPeer my_proc (peersOf my_proc procs) p := by
  simp only [peersOf, List.foldl_append, List.foldl_cons, List.foldl_nil]

theorem mem_peersOf (my_proc : Int) (procs : List Int) (q : Int) :
    q ∈ peersOf my_proc procs ↔ q ≠ my_proc ∧ q ∈ procs := by
  induction procs using List.reverseRecOn with
  | nil => simp [peersOf]
  | append_singleton xs x ih =>
    rw [peersOf_snoc]
    unfold addPeer
    by_cases hx : x = my_proc ∨ x ∈ peersOf my_proc xs
    · rw [if_pos hx, ih]
      simp only [List.mem_append, List.mem_singleton]
      constructor
      · rintro ⟨h1, h2⟩
        exact ⟨h1, Or.inl h2⟩
      · rintro ⟨h1, h2 | h2⟩
        · exact ⟨h1, h2⟩
        · subst h2
          rcases hx with hx | hx
          · exact absurd hx h1
          · exact ⟨h1, (ih.1 hx).2⟩
    · rw [if_neg hx]
      simp only [List.mem_append, List.mem_singleton, ih]
      push_neg at hx
      constructor
      · rintro (⟨h1, h2⟩ | h)
        · exact ⟨h1, Or.inl h2⟩
        · subst h
          exact ⟨hx.1, Or.inr rfl⟩
      · rintro ⟨h1, h2 | h2⟩
        · exact Or.inl ⟨h1, h2⟩
        · exact Or.inr h2

theorem nodup_peersOf (my_proc : Int) (procs : List Int) : (peersOf my_proc procs).Nodup := by
  induction procs using List.reverseRecOn with
  | nil => simp [peersOf]
  | append_singleton xs x ih =>
    rw [peersOf_snoc]
    unfold addPeer
    by_cases hx : x = my_proc ∨ x ∈ peersOf my_proc xs
    · rw [if_pos hx]
      exact ih
    · rw [if_neg hx]
      push_neg at hx
      rw [List.nodup_append]
      refine ⟨ih, List.nodup_singleton x, ?_⟩
      intro a ha hb
      rw [List.mem_singleton] at hb
      subst hb
      exact hx.2 ha

theorem cntOf_snoc (proc : Int × Int → Int) (done : List (Int × Int)) (e : Int × Int) (q : Int) :
    cntOf proc (done ++ [e]) q = cntOf proc done q + if proc e = q then 1 else 0 := by
  unfold cntOf
  rw [List.filter_append, List.length_append]
  by_cases h : proc e = q
  · simp [h]
  · simp [h]

theorem volOf_snoc (proc size : Int × Int → Int) (done : List (Int × Int)) (e : Int × Int)
    (q : Int) :
    volOf proc size (done ++ [e]) q
      = volOf proc size done q + if proc e = q then size e else 0 := by
  unfold volOf
  rw [List.filter_append, List.map_append, List.sum_append]
  by_cases h : proc e = q
  · simp [h]
  · simp [h]

theorem cntOf_zero (proc : Int × Int → Int) (done : List (Int × Int)) (q : Int)
    (h : q ∉ done.map proc) : cntOf proc done q = 0 ∧ ∀ size, volOf proc size done q = 0 := by
  have hf : done.filter (fun e => decide (proc e = q)) = [] := by
    rw [List.filter_eq_nil_iff]
    intro e he hq
    exact h (List.mem_map.2 ⟨e, he, of_decide_eq_true hq⟩)
  unfold cntOf volOf
  rw [hf]
  exact ⟨rfl, fun _ => rfl⟩

/-! ## Sums of buffer sizes -/

theorem sumBufsize_succ (ct : Int → CommTypeSlot) (n : Nat) :
    sumBufsize ct (n + 1) = sumBufsize ct n + (ct n).bufsize := by
  unfold sumBufsize
  rw [List.range_succ, List.map_append, List.sum_append]
  simp

theorem sumBufsize_setAt_ge (ct : Int → CommTypeSlot) (c : Int) (v : CommTypeSlot) (n : Nat)
    (h : (n : Int) ≤ c) : sumBufsize (setAt ct c v) n = sumBufsize ct n := by
  induction n with
  | zero => rfl
  | succ k ih =>
    rw [sumBufsize_succ, sumBufsize_succ, ih (by omega), setAt_apply, if_neg (by omega)]

theorem sumBufsize_setAt_lt (ct : Int → CommTypeSlot) (c : Int) (v : CommTypeSlot) (n : Nat)
    (h0 : 0 ≤ c) (h : c < n) :
    sumBufsize (setAt ct c v) n = sumBufsize ct n + (v.bufsize - (ct c).bufsize) := by
  induction n with
  | zero => omega
  | succ k ih =>
    rw [sumBufsize_succ, sumBufsize_succ]
    by_cases hk : c = k
    · rw [sumBufsize_setAt_ge ct c v k (by omega), setAt_apply, if_pos hk.symm, hk]
      ring
    · rw [ih (by omega), setAt_apply, if_neg (fun h2 => hk h2.symm)]
      ring
theorem getElem?_lt_of_some {β : Type} (l : List β) (n : Nat) (a : β) (h : l[n]? = some a) :
    n < l.length := (List.getElem?_eq_some.1 h).1

theorem nodup_index_unique {β : Type} (l : List β) (hnd : l.Nodup) (i j : Nat) (a : β)
    (hi : l[i]? = some a) (hj : l[j]? = some a) : i = j := by
  rw [List.nodup_iff_getElem?_ne_getElem?] at hnd
  have hil := getElem?_lt_of_some l i a hi
  have hjl := getElem?_lt_of_some l j a hj
  rcases Nat.lt_trichotomy i j with h | h | h
  · exact absurd (hi.trans hj.symm) (hnd i j h hjl)
  · exact h
  · exact absurd (hj.trans hi.symm) (hnd j i h hil)

/-! ## The first loop nest over the send boxes -/

/-- The first loop nest over the send boxes leaves `-p_comm_types[p]` as the
number of boxes with points of `p`, `num_comms` as the number of peers and
`num_entries` as the number of boxes with points. -/
theorem sendCount_spec (my_proc : Int) (boxes : hypre_BoxArrayArray)
    (processes : Int → Int → Int) :
    (∀ p, (forBoxes boxes
        (fun i j s => sendCountBody my_proc ((boxes.box_arrays i).boxes j) (processes i j) s)
        { p_comm_types := fun _ => 0, num_comms := 0, num_entries := 0 }).p_comm_types p
      = -(cntOf (fun e => processes e.1 e.2) (nonemptyBoxes boxes) p : Int))
    ∧ (forBoxes boxes
        (fun i j s => sendCountBody my_proc ((boxes.box_arrays i).boxes j) (processes i j) s)
        { p_comm_types := fun _ => 0, num_comms := 0, num_entries := 0 }).num_comms
      = (peerList my_proc boxes processes).length
    ∧ (forBoxes boxes
        (fun i j s => sendCountBody my_proc ((boxes.box_arrays i).boxes j) (processes i j) s)
        { p_comm_types := fun _ => 0, num_comms := 0, num_entries := 0 }).num_entries
      = (nonemptyBoxes boxes).length := by
  rw [forBoxes_eq_foldl,
    foldl_filter_skip _
      (fun e => decide (hypre_BoxVolume ((boxes.box_arrays e.1).boxes e.2) ≠ 0))
      (fun e s he => by
        have hv : ¬ hypre_BoxVolume ((boxes.box_arrays e.1).boxes e.2) ≠ 0 :=
          of_decide_eq_false he
        simp only [sendCountBody, if_neg hv])]
  have hne : (boxIndices boxes).filter
      (fun e => decide (hypre_BoxVolume ((boxes.box_arrays e.1).boxes e.2) ≠ 0))
      = nonemptyBoxes boxes := rfl
  rw [hne]
  unfold peerList
  refine foldl_invariant _
    (fun done (s : CountState) => (∀ p, s.p_comm_types p = -(cntOf (fun e => processes e.1 e.2) done p : Int))
      ∧ s.num_comms = (peersOf my_proc (done.map (fun e => processes e.1 e.2))).length
      ∧ s.num_entries = done.length) _ ⟨fun _ => rfl, rfl, rfl⟩ _ ?_
  rintro done e s hpre ⟨h1, h2, h3⟩
  have hv : hypre_BoxVolume ((boxes.box_arrays e.1).boxes e.2) ≠ 0 :=
    mem_nonemptyBoxes boxes e (hpre.subset (by simp))
  simp only [sendCountBody, if_pos hv]
  refine ⟨?_, ?_, ?_⟩
  · intro p
    rw [setAt_apply, cntOf_snoc]
    by_cases hp : p = processes e.1 e.2
    · subst hp
      rw [if_pos rfl, if_pos rfl, h1]
      push_cast
      ring
    · rw [if_neg hp, if_neg (fun h => hp h.symm), h1]
      simp
  · rw [List.map_append, List.map_cons, List.map_nil, peersOf_snoc]
    unfold addPeer
    have hiff : (processes e.1 e.2 = my_proc
          ∨ processes e.1 e.2 ∈ peersOf my_proc (done.map (fun e => processes e.1 e.2)))
        ↔ ¬ (s.p_comm_types (processes e.1 e.2) - 1 = -1 ∧ processes e.1 e.2 ≠ my_proc) := by
      rw [h1, mem_peersOf]
      by_cases hmy : processes e.1 e.2 = my_proc
      · simp [hmy]
      · by_cases hin : processes e.1 e.2 ∈ done.map (fun e => processes e.1 e.2)
        · have hpos : 0 < cntOf (fun e => processes e.1 e.2) done (processes e.1 e.2) := by
            unfold cntOf
            obtain ⟨x, hx, hxe⟩ := List.mem_map.1 hin
            exact List.length_pos_of_mem (List.mem_filter.2 ⟨hx, decide_eq_true hxe⟩)
          simp only [hmy, hin, and_self, or_true, ne_eq, not_false_eq_true, and_true, true_iff,
            not_true_eq_false, false_or]
          omega
        · have hz := (cntOf_zero (fun e => processes e.1 e.2) done _ hin).1
          simp only [hmy, hin, hz, and_false, or_self, ne_eq, not_false_eq_true, and_true,
            false_iff, not_not]
          rfl
    by_cases hc : s.p_comm_types (processes e.1 e.2) - 1 = -1 ∧ processes e.1 e.2 ≠ my_proc
    · rw [if_pos hc, if_neg (fun h => (hiff.1 h) hc), List.length_append, h2]
      simp
    · rw [if_neg hc, if_pos (hiff.2 hc), h2]
  · rw [List.length_append, h3]
    simp
/-! ## The second loop nest over the send boxes -/

theorem sendResolve_inv (my_proc : Int) (pct0 : Int → Int) (proc size : Int × Int → Int)
    (peers : List Int) (done : List (Int × Int)) (coords dirs : Int → hypre_Index)
    (T : Option (Int → Int → Int)) (cp : Option (Int → List Int)) (i j : Int) (s : SendState)
    (h : SendInv my_proc pct0 proc size peers done s) :
    SendInv my_proc pct0 proc size peers done (sendResolve coords dirs T cp i j s) := by
  cases T with
  | none => exact h
  | some tr => exact h

theorem sendInit_inv (my_proc : Int) (pct0 : Int → Int) (proc size : Int × Int → Int)
    (peers : List Int) (done : List (Int × Int)) (p : Int) (s : SendState)
    (h : SendInv my_proc pct0 proc size peers done s) (hmy : my_proc ∉ peers)
    (h0 : pct0 my_proc = 0)
    (hnew : p ≠ my_proc → p ∉ peers →
      pct0 p < 0 ∧ cntOf proc done p = 0 ∧ volOf proc size done p = 0) :
    SendInv my_proc pct0 proc size (addPeer my_proc peers p) done (sendInitType p s) := by
  obtain ⟨hm, h2, h3, h4, h5⟩ := h
  unfold addPeer sendInitType
  by_cases hold : p = my_proc ∨ p ∈ peers
  · have hpct : ¬ s.p_comm_types p < 0 := by
      rcases hold with hp | hp
      · rw [hp, h3 my_proc hmy, h0]
        omega
      · obtain ⟨n, hn⟩ := List.mem_iff_getElem?.1 hp
        rw [(h2 n p hn).1]
        omega
    rw [if_pos hold, if_neg hpct]
    exact ⟨hm, h2, h3, h4, h5⟩
  · push_neg at hold
    obtain ⟨hlt, hc, hv⟩ := hnew hold.1 hold.2
    have hpct : s.p_comm_types p < 0 := by
      rw [h3 p hold.2]
      exact hlt
    have hpe : s.p_comm_types p = pct0 p := h3 p hold.2
    rw [if_neg (by push_neg; exact hold), if_pos hpct]
    refine ⟨?_, ?_, ?_, ?_, ?_⟩
    · show s.m + 1 = _
      rw [hm, List.length_append]
      simp
      ring
    · intro n q hq
      show setAt s.p_comm_types p s.m q = _ ∧ (setAt s.comm_types s.m _ _).proc = q
        ∧ (setAt s.comm_types s.m _ _).bufsize = _ ∧ (setAt s.comm_types s.m _ _).num_entries = _
      rw [List.getElem?_append] at hq
      by_cases hn : n < peers.length
      · rw [if_pos hn] at hq
        obtain ⟨a1, a2, a3, a4⟩ := h2 n q hq
        have hqp : q ≠ p := by
          intro e
          rw [e] at hq
          exact hold.2 (List.mem_iff_getElem?.2 ⟨n, hq⟩)
        have hidx : ((n : Int) + 1 = s.m) = False := by
          rw [hm]
          simp only [eq_iff_iff, iff_false]
          omega
        simp only [setAt_apply, if_neg hqp, hidx, if_false]
        exact ⟨a1, a2, a3, a4⟩
      · rw [if_neg hn] at hq
        have hn0 : n - peers.length = 0 := by
          by_contra hne
          have : ([p] : List Int)[n - peers.length]? = none :=
            List.getElem?_eq_none (by simp; omega)
          rw [this] at hq
          exact absurd hq (by simp)
        rw [hn0] at hq
        simp only [List.getElem?_cons_zero, Option.some.injEq] at hq
        subst hq
        have hidx : (n : Int) + 1 = s.m := by
          rw [hm]
          omega
        simp only [setAt_apply, hidx, if_pos, hpe, hc, hv]
        simp
    · intro q hq
      show setAt s.p_comm_types p s.m q = _
      rw [List.mem_append, List.mem_singleton] at hq
      push_neg at hq
      rw [setAt_apply, if_neg hq.2]
      exact h3 q hq.1
    · show (setAt s.comm_types s.m _ 0).proc = my_proc ∧ (setAt s.comm_types s.m _ 0).bufsize = _
        ∧ (setAt s.comm_types s.m _ 0).num_entries = _
      have hidx : ((0 : Int) = s.m) = False := by
        rw [hm]
        simp only [eq_iff_iff, iff_false]
        omega
      simp only [setAt_apply, hidx, if_false]
      exact h4
    · show s.comm_bufsize + hypre_CommPrefixSize (-s.p_comm_types p)
        = sumBufsize (setAt s.comm_types s.m _) (1 + (peers ++ [p]).length)
      have hlen : 1 + (peers ++ [p]).length = (1 + peers.length) + 1 := by
        rw [List.length_append]
        rfl
      rw [hlen, sumBufsize_succ, sumBufsize_setAt_ge _ _ _ _ (by rw [hm]; push_cast; omega),
        setAt_apply, if_pos (by rw [hm]; push_cast; ring), h5]
theorem sendAdd_inv (my_proc : Int) (pct0 : Int → Int) (proc size : Int × Int → Int)
    (peers : List Int) (done : List (Int × Int)) (e : Int × Int) (s : SendState)
    (num_values : Int) (stride : hypre_Index) (box data_box : hypre_Box) (data_offset : Int)
    (rboxnum : Int) (rbox : hypre_Box)
    (h : SendInv my_proc pct0 proc size peers done s)
    (hmy : my_proc ∉ peers) (h0 : pct0 my_proc = 0)
    (hsize : size e = hypre_BoxGetStrideVolume box stride * num_values)
    (hp : proc e = my_proc ∨ proc e ∈ peers) :
    SendInv my_proc pct0 proc size peers (done ++ [e])
      (sendAddEntry num_values stride box data_box data_offset rboxnum rbox (proc e) s) := by
  obtain ⟨hm, h2, h3, h4, h5⟩ := h
  have hc : (proc e = my_proc ∧ s.p_comm_types (proc e) = 0)
      ∨ ∃ n0 : Nat, peers[n0]? = some (proc e) ∧ s.p_comm_types (proc e) = (n0 : Int) + 1 := by
    rcases hp with hp | hp
    · left
      refine ⟨hp, ?_⟩
      rw [hp, h3 my_proc hmy, h0]
    · right
      obtain ⟨n0, hn0⟩ := List.mem_iff_getElem?.1 hp
      exact ⟨n0, hn0, (h2 n0 _ hn0).1⟩
  have hnotmy : ∀ (n : Nat) (q : Int), peers[n]? = some q → q ≠ my_proc := by
    intro n q hq e
    rw [e] at hq
    exact hmy (List.mem_iff_getElem?.2 ⟨n, hq⟩)
  refine ⟨hm, ?_, h3, ?_, ?_⟩
  · intro n q hq
    obtain ⟨a1, a2, a3, a4⟩ := h2 n q hq
    show s.p_comm_types q = _
      ∧ (setAt s.comm_types (s.p_comm_types (proc e)) _ ((n : Int) + 1)).proc = q
      ∧ (setAt s.comm_types (s.p_comm_types (proc e)) _ ((n : Int) + 1)).bufsize = _
      ∧ (setAt s.comm_types (s.p_comm_types (proc e)) _ ((n : Int) + 1)).num_entries = _
    rw [volOf_snoc, cntOf_snoc]
    by_cases hqp : proc e = q
    · subst hqp
      rw [← a1]
      simp only [setAt_apply, if_pos, a1, a2, a3, a4, hsize]
      refine ⟨trivial, trivial, ?_, ?_⟩
      · ring
      · push_cast
        rfl
    · have hidx : ¬ ((n : Int) + 1 = s.p_comm_types (proc e)) := by
        intro hx
        rcases hc with ⟨_, hz⟩ | ⟨n0, hn0, hz⟩
        · omega
        · have : n = n0 := by omega
          subst this
          rw [hq] at hn0
          exact hqp (Option.some.inj hn0).symm
      simp only [setAt_apply, if_neg hidx, if_neg hqp, add_zero, Nat.cast_zero]
      exact ⟨a1, a2, a3, by simpa using a4⟩
  · show (setAt s.comm_types (s.p_comm_types (proc e)) _ 0).proc = my_proc
      ∧ (setAt s.comm_types (s.p_comm_types (proc e)) _ 0).bufsize = _
      ∧ (setAt s.comm_types (s.p_comm_types (proc e)) _ 0).num_entries = _
    rw [volOf_snoc, cntOf_snoc]
    obtain ⟨b1, b2, b3⟩ := h4
    by_cases hqp : proc e = my_proc
    · have hidx : s.p_comm_types (proc e) = 0 := by
        rw [hqp, h3 my_proc hmy, h0]
      rw [hidx]
      simp only [setAt_apply, if_pos, b1, b2, b3, hsize, hqp]
      refine ⟨trivial, trivial, ?_⟩
      push_cast
      rfl
    · have hidx : ¬ ((0 : Int) = s.p_comm_types (proc e)) := by
        intro hx
        rcases hc with ⟨hz, _⟩ | ⟨n0, _, hz⟩
        · exact hqp hz
        · omega
      simp only [setAt_apply, if_neg hidx, if_neg hqp, add_zero, Nat.cast_zero]
      exact ⟨b1, b2, by simpa using b3⟩
  · show s.comm_bufsize + hypre_BoxGetStrideVolume box stride * num_values
      = sumBufsize (setAt s.comm_types (s.p_comm_types (proc e)) _) (1 + peers.length)
    have hrange : 0 ≤ s.p_comm_types (proc e)
        ∧ s.p_comm_types (proc e) < ((1 + peers.length : Nat) : Int) := by
      rcases hc with ⟨_, hz⟩ | ⟨n0, hn0, hz⟩
      · rw [hz]
        refine ⟨le_refl _, ?_⟩
        push_cast
        omega
      · have := getElem?_lt_of_some peers n0 _ hn0
        rw [hz]
        refine ⟨by omega, ?_⟩
        push_cast
        omega
    rw [sumBufsize_setAt_lt _ _ _ _ hrange.1 hrange.2, h5]
    simp only []
    ring
/-- The second loop nest over the send boxes keeps `SendInv`: at its end the
peers are those of all boxes with points. -/
theorem sendFill_spec (num_values : Int) (stride : hypre_Index) (boxes : hypre_BoxArrayArray)
    (processes rboxnums : Int → Int → Int) (rboxes : hypre_BoxArrayArray)
    (coords dirs : Int → hypre_Index) (T : Option (Int → Int → Int))
    (cp : Option (Int → List Int)) (ds : hypre_BoxArray) (offs : Int → Int) (my_proc : Int)
    (s0 : SendState)
    (hs0 : SendInv my_proc s0.p_comm_types (fun e => processes e.1 e.2)
      (fun e => hypre_BoxGetStrideVolume ((boxes.box_arrays e.1).boxes e.2) stride * num_values)
      [] [] s0)
    (h0 : s0.p_comm_types my_proc = 0)
    (hneg : ∀ e ∈ nonemptyBoxes boxes, processes e.1 e.2 ≠ my_proc →
      s0.p_comm_types (processes e.1 e.2) < 0) :
    SendInv my_proc s0.p_comm_types (fun e => processes e.1 e.2)
      (fun e => hypre_BoxGetStrideVolume ((boxes.box_arrays e.1).boxes e.2) stride * num_values)
      (peerList my_proc boxes processes) (nonemptyBoxes boxes)
      (forBoxes boxes
        (sendFillBody num_values stride boxes processes rboxnums rboxes coords dirs T cp ds offs)
        s0) := by
  rw [forBoxes_eq_foldl,
    foldl_filter_skip _
      (fun e => decide (hypre_BoxVolume ((boxes.box_arrays e.1).boxes e.2) ≠ 0))
      (fun e s he => by
        have hv : ¬ hypre_BoxVolume ((boxes.box_arrays e.1).boxes e.2) ≠ 0 :=
          of_decide_eq_false he
        simp only [sendFillBody, if_neg hv])]
  have hne : (boxIndices boxes).filter
      (fun e => decide (hypre_BoxVolume ((boxes.box_arrays e.1).boxes e.2) ≠ 0))
      = nonemptyBoxes boxes := rfl
  rw [hne]
  unfold peerList
  refine foldl_invariant _
    (fun done (s : SendState) => SendInv my_proc s0.p_comm_types (fun e => processes e.1 e.2)
      (fun e => hypre_BoxGetStrideVolume ((boxes.box_arrays e.1).boxes e.2) stride * num_values)
      (peersOf my_proc (done.map (fun e => processes e.1 e.2))) done s) _ hs0 _ ?_
  intro done e s hpre hinv
  have hmem : e ∈ nonemptyBoxes boxes := hpre.subset (by simp)
  have hv : hypre_BoxVolume ((boxes.box_arrays e.1).boxes e.2) ≠ 0 :=
    mem_nonemptyBoxes boxes e hmem
  simp only [sendFillBody, if_pos hv]
  rw [List.map_append, List.map_cons, List.map_nil, peersOf_snoc]
  have hmy : ∀ l : List Int, my_proc ∉ peersOf my_proc l := by
    intro l hl
    exact ((mem_peersOf my_proc l my_proc).1 hl).1 rfl
  have h1 := sendInit_inv my_proc s0.p_comm_types _ _ _ done (processes e.1 e.2) s hinv
    (hmy _) h0
    (fun hp hnot => by
      have hnd : processes e.1 e.2 ∉ done.map (fun e => processes e.1 e.2) := by
        intro hin
        exact hnot ((mem_peersOf my_proc _ _).2 ⟨hp, hin⟩)
      have hz := cntOf_zero (fun e => processes e.1 e.2) done _ hnd
      exact ⟨hneg e hmem hp, hz.1, hz.2 _⟩)
  have h2 := sendResolve_inv my_proc s0.p_comm_types _ _ _ done coords dirs T cp e.1 e.2 _ h1
  have hmy2 : my_proc ∉ addPeer my_proc
      (peersOf my_proc (done.map (fun e => processes e.1 e.2))) (processes e.1 e.2) := by
    rw [← peersOf_snoc]
    exact hmy _
  have hp : processes e.1 e.2 = my_proc ∨ processes e.1 e.2 ∈ addPeer my_proc
      (peersOf my_proc (done.map (fun e => processes e.1 e.2))) (processes e.1 e.2) := by
    by_cases hp : processes e.1 e.2 = my_proc
    · exact Or.inl hp
    · right
      rw [← peersOf_snoc, mem_peersOf]
      exact ⟨hp, by simp⟩
  exact sendAdd_inv my_proc s0.p_comm_types (fun e => processes e.1 e.2) _ _ done e _ num_values
    stride _ (ds.boxes e.1) (offs e.1) (rboxnums e.1 e.2) ((rboxes.box_arrays e.1).boxes e.2) h2
    hmy2 h0 rfl hp

theorem sumBufsize_shift (ct : Int → CommTypeSlot) (n : Nat) :
    sumBufsize ct (1 + n)
      = (ct 0).bufsize
        + ((List.range n).map (fun (i : Nat) => (ct ((i : Int) + 1)).bufsize)).sum := by
  induction n with
  | zero => simp [sumBufsize, range_one_eq]
  | succ k ih =>
    rw [← Nat.add_assoc, sumBufsize_succ, ih, List.range_succ, List.map_append, List.sum_append]
    simp only [List.map_cons, List.map_nil, List.sum_cons, List.sum_nil, add_zero]
    have : ((1 + k : Nat) : Int) = (k : Int) + 1 := by push_cast; ring
    rw [this]
    ring

/-- The send side of hypre_CommPkgCreate: `num_comms` is the number of peers,
and at the end of the second loop nest CommType `n + 1` belongs to peer `n`,
with the prefix size of its boxes plus their payload as bufsize and their
number as num_entries; `comm_bufsize` is the sum of the bufsize of the local
CommType and of the CommTypes of the peers. -/
theorem sendSide_spec (boxes : hypre_BoxArrayArray) (stride : hypre_Index)
    (processes rboxnums : Int → Int → Int) (rboxes : hypre_BoxArrayArray)
    (T : Option (Int → Int → Int)) (coords dirs : Int → hypre_Index)
    (cp : Option (Int → List Int)) (ds : hypre_BoxArray) (num_values my_proc : Int)
    (mem : CreateMemory) :
    (sendSide boxes stride processes rboxnums rboxes T coords dirs cp ds num_values my_proc
        mem).1.num_comms = (peerList my_proc boxes processes).length
    ∧ (sendSide boxes stride processes rboxnums rboxes T coords dirs cp ds num_values my_proc
        mem).2.comm_bufsize
      = sumBufsize (sendSide boxes stride processes rboxnums rboxes T coords dirs cp ds
          num_values my_proc mem).2.comm_types (1 + (peerList my_proc boxes processes).length)
    ∧ ∀ (n : Nat) (p : Int), (peerList my_proc boxes processes)[n]? = some p →
        ((sendSide boxes stride processes rboxnums rboxes T coords dirs cp ds num_values my_proc
          mem).2.comm_types ((n : Int) + 1)).proc = p
        ∧ ((sendSide boxes stride processes rboxnums rboxes T coords dirs cp ds num_values
          my_proc mem).2.comm_types ((n : Int) + 1)).num_entries
            = cntOf (fun e => processes e.1 e.2) (nonemptyBoxes boxes) p
        ∧ ((sendSide boxes stride processes rboxnums rboxes T coords dirs cp ds num_values
          my_proc mem).2.comm_types ((n : Int) + 1)).bufsize
            = hypre_CommPrefixSize (cntOf (fun e => processes e.1 e.2) (nonemptyBoxes boxes) p)
              + volOf (fun e => processes e.1 e.2)
                  (fun e => hypre_BoxGetStrideVolume ((boxes.box_arrays e.1).boxes e.2) stride
                    * num_values) (nonemptyBoxes boxes) p := by
  have hc := sendCount_spec my_proc boxes processes
  unfold sendSide
  generalize forBoxes boxes
    (fun i j s => sendCountBody my_proc ((boxes.box_arrays i).boxes j) (processes i j) s)
    { p_comm_types := fun _ => 0, num_comms := 0, num_entries := 0 } = count at hc ⊢
  obtain ⟨c1, c2, _⟩ := hc
  have hstart : SendInv my_proc (sendStart count.p_comm_types num_values my_proc mem).p_comm_types
      (fun e => processes e.1 e.2)
      (fun e => hypre_BoxGetStrideVolume ((boxes.box_arrays e.1).boxes e.2) stride * num_values)
      [] [] (sendStart count.p_comm_types num_values my_proc mem) := by
    refine ⟨rfl, ?_, fun _ _ => rfl, ⟨rfl, rfl, rfl⟩, ?_⟩
    · intro n p hp
      simp at hp
    · simp [sendStart, sumBufsize, range_one_eq, setAt_apply, zeroSlot]
  have h0 : (sendStart count.p_comm_types num_values my_proc mem).p_comm_types my_proc = 0 := by
    simp [sendStart, setAt_apply]
  have hpct : ∀ p, p ≠ my_proc →
      (sendStart count.p_comm_types num_values my_proc mem).p_comm_types p
        = -(cntOf (fun e => processes e.1 e.2) (nonemptyBoxes boxes) p : Int) := by
    intro p hp
    simp only [sendStart, setAt_apply, if_neg hp, c1]
  obtain ⟨_, h2, _, _, h5⟩ := sendFill_spec num_values stride boxes processes rboxnums rboxes
    coords dirs T cp ds (setDataOffsets ds num_values mem.send_data_offsets) my_proc
    (sendStart count.p_comm_types num_values my_proc mem) hstart h0
    (fun e he hp => by
      rw [hpct _ hp]
      have hpos : 0 < cntOf (fun e => processes e.1 e.2) (nonemptyBoxes boxes)
          (processes e.1 e.2) := by
        unfold cntOf
        exact List.length_pos_of_mem (List.mem_filter.2 ⟨he, decide_eq_true rfl⟩)
      omega)
  refine ⟨c2, h5, ?_⟩
  intro n p hp
  obtain ⟨_, a2, a3, a4⟩ := h2 n p hp
  have hpm : p ≠ my_proc :=
    ((mem_peersOf my_proc _ p).1 (List.mem_iff_getElem?.2 ⟨n, hp⟩)).1
  refine ⟨a2, a4, ?_⟩
  rw [a3, hpct p hpm, neg_neg]

/-! ## The posting loops and the pack loop -/

/-- A posting loop of `n` rounds: CommType `i < n` loses its prefix size on
the first communication, the bufsize of the package loses their sum, and the
calls carry the bufsize of before, times `sizeof(double)`. -/
theorem postLoop_spec (is_send : Bool) (first_comm tag comm : Int) (buffers : Int → Int) (n : Nat)
    (s : PostState) :
    (∀ i : Int,
      (forLoop n (fun i s => postBody is_send first_comm tag comm buffers i s) s).types i
        = if first_comm ≠ 0 ∧ 0 ≤ i ∧ i < n then
            { s.types i with
              bufsize := (s.types i).bufsize - hypre_CommPrefixSize (s.types i).num_entries }
          else s.types i)
    ∧ (forLoop n (fun i s => postBody is_send first_comm tag comm buffers i s) s).bufsize
        = s.bufsize - (if first_comm ≠ 0 then
            ((List.range n).map
              (fun (i : Nat) => hypre_CommPrefixSize (s.types i).num_entries)).sum
          else 0)
    ∧ (forLoop n (fun i s => postBody is_send first_comm tag comm buffers i s) s).requests
        = s.requests ++ (List.range n).map
            (fun (i : Nat) =>
              (⟨is_send, buffers i, (s.types i).bufsize * sizeof_double, (s.types i).proc, tag,
                comm⟩ : MPI_Request)) := by
  induction n with
  | zero =>
    refine ⟨fun i => ?_, ?_, ?_⟩
    · rw [if_neg (by intro h; have := h.2.2; have := h.2.1; simp at *; omega)]
      rfl
    · simp [forLoop]
    · simp [forLoop]
  | succ k ih =>
    rw [forLoop_succ]
    generalize forLoop k (fun i s => postBody is_send first_comm tag comm buffers i s) s = r
      at ih ⊢
    obtain ⟨h1, h2, h3⟩ := ih
    have hk : r.types k = s.types k := by
      rw [h1, if_neg (by omega)]
    by_cases hfc : first_comm ≠ 0
    · simp only [postBody, if_pos hfc, hk, h2, h3]
      refine ⟨fun i => ?_, ?_, ?_⟩
      · rw [setAt_apply, h1]
        by_cases hik : i = k
        · subst hik
          rw [if_pos rfl, if_pos ⟨hfc, by omega, by push_cast; omega⟩]
        · rw [if_neg hik]
          by_cases hi : 0 ≤ i ∧ i < k
          · rw [if_pos ⟨hfc, hi⟩, if_pos ⟨hfc, hi.1, by push_cast; omega⟩]
          · rw [if_neg (fun h => hi h.2), if_neg (fun h => hi ⟨h.2.1, by
              have := h.2.2
              push_cast at this
              omega⟩)]
      · rw [List.range_succ, List.map_append, List.sum_append]
        simp
        ring
      · rw [List.range_succ, List.map_append, List.append_assoc]
        rfl
    · simp only [postBody, if_neg hfc, hk, h2, h3]
      refine ⟨fun i => ?_, ?_, ?_⟩
      · rw [h1, if_neg (fun h => hfc h.1), if_neg (fun h => hfc h.1)]
      · trivial
      · rw [List.range_succ, List.map_append, List.append_assoc]
        rfl

/-- The pack loop leaves proc, bufsize, num_entries and entries of every send
CommType as they are. -/
theorem packLoop_types {α : Type} [Zero α] (first_comm num_values : Int) (send_data : Int → α)
    (send_buffers : Int → Int) (n : Nat) (s : PackState α) (i : Int) :
    ((forLoop n (fun i s => packSendType first_comm num_values send_data send_buffers i s)
        s).send_types i).proc = (s.send_types i).proc
    ∧ ((forLoop n (fun i s => packSendType first_comm num_values send_data send_buffers i s)
        s).send_types i).bufsize = (s.send_types i).bufsize
    ∧ ((forLoop n (fun i s => packSendType first_comm num_values send_data send_buffers i s)
        s).send_types i).num_entries = (s.send_types i).num_entries
    ∧ ((forLoop n (fun i s => packSendType first_comm num_values send_data send_buffers i s)
        s).send_types i).entries = (s.send_types i).entries := by
  induction n with
  | zero => exact ⟨rfl, rfl, rfl, rfl⟩
  | succ k ih =>
    rw [forLoop_succ]
    generalize forLoop k
      (fun i s => packSendType first_comm num_values send_data send_buffers i s) s = r at ih ⊢
    unfold packSendType
    by_cases hfc : first_comm ≠ 0
    · simp only [if_pos hfc, setAt_apply]
      by_cases hik : i = k
      · subst hik
        simp only [if_pos]
        exact ih
      · simp only [if_neg hik]
        exact ih
    · simp only [if_neg hfc]
      exact ih

/-- When it is not the first communication the pack loop does not write
through the `int` view of the send buffers: no prefix is written. -/
theorem packLoop_ints {α : Type} [Zero α] (num_values : Int) (send_data : Int → α)
    (send_buffers : Int → Int) (n : Nat) (s : PackState α) :
    (forLoop n (fun i s => packSendType 0 num_values send_data send_buffers i s) s).send_ints
      = s.send_ints := by
  induction n with
  | zero => rfl
  | succ k ih =>
    rw [forLoop_succ]
    generalize forLoop k (fun i s => packSendType 0 num_values send_data send_buffers i s) s = r
      at ih ⊢
    unfold packSendType
    simp only [ne_eq, not_true_eq_false, if_false]
    exact ih
/-- The send side of the package after hypre_InitializeCommunication, and the
calls that post the sends: each send CommType keeps proc, num_entries and
entries; on the first communication its bufsize and the send bufsize of the
package lose the prefix sizes; the call for send CommType `i` comes after the
`num_recvs` calls for the receives and carries the bufsize of before. -/
theorem initialize_sends {α : Type} [Zero α] [Add α] (comm_pkg : hypre_CommPkg)
    (send_data recv_data action tag : Int) (mem : InitializeMemory α) (heap : Int → α) :
    (∀ i : Int,
      (((hypre_InitializeCommunication comm_pkg send_data recv_data action tag mem
          heap).comm_handle.comm_pkg.send_types i).proc = (comm_pkg.send_types i).proc
      ∧ ((hypre_InitializeCommunication comm_pkg send_data recv_data action tag mem
          heap).comm_handle.comm_pkg.send_types i).num_entries
          = (comm_pkg.send_types i).num_entries
      ∧ ((hypre_InitializeCommunication comm_pkg send_data recv_data action tag mem
          heap).comm_handle.comm_pkg.send_types i).entries = (comm_pkg.send_types i).entries
      ∧ ((hypre_InitializeCommunication comm_pkg send_data recv_data action tag mem
          heap).comm_handle.comm_pkg.send_types i).bufsize
          = if comm_pkg.first_comm ≠ 0 ∧ 0 ≤ i ∧ i < comm_pkg.num_sends.toNat then
              (comm_pkg.send_types i).bufsize
                - hypre_CommPrefixSize (comm_pkg.send_types i).num_entries
            else (comm_pkg.send_types i).bufsize))
    ∧ (hypre_InitializeCommunication comm_pkg send_data recv_data action tag mem
        heap).comm_handle.comm_pkg.send_bufsize
      = comm_pkg.send_bufsize - (if comm_pkg.first_comm ≠ 0 then
          ((List.range comm_pkg.num_sends.toNat).map
            (fun (i : Nat) => hypre_CommPrefixSize (comm_pkg.send_types i).num_entries)).sum
        else 0)
    ∧ ∀ i : Nat, i < comm_pkg.num_sends.toNat →
        (hypre_InitializeCommunication comm_pkg send_data recv_data action tag mem
          heap).comm_handle.requests[comm_pkg.num_recvs.toNat + i]?
        = some ⟨true,
            (hypre_InitializeCommunication comm_pkg send_data recv_data action tag mem
              heap).comm_handle.send_buffers i,
            (comm_pkg.send_types i).bufsize * sizeof_double, (comm_pkg.send_types i).proc, tag,
            comm_pkg.comm⟩ := by
  unfold hypre_InitializeCommunication
  simp only []
  generalize hpk : forLoop comm_pkg.num_sends.toNat
    (fun i s => packSendType comm_pkg.first_comm comm_pkg.num_values
      (fun a => heap (send_data + a)) (setBuffers comm_pkg.num_sends comm_pkg.send_types
        mem.send_buffers) i s)
    ({ send_types := comm_pkg.send_types, send_buffer := mem.send_buffer,
       send_ints := mem.send_ints } : PackState α) = packed
  have hpack : ∀ i : Int, (packed.send_types i).proc = (comm_pkg.send_types i).proc
      ∧ (packed.send_types i).bufsize = (comm_pkg.send_types i).bufsize
      ∧ (packed.send_types i).num_entries = (comm_pkg.send_types i).num_entries
      ∧ (packed.send_types i).entries = (comm_pkg.send_types i).entries := by
    intro i
    rw [← hpk]
    exact packLoop_types _ _ _ _ _ _ i
  obtain ⟨_, _, r3⟩ := postLoop_spec false comm_pkg.first_comm tag comm_pkg.comm
    (setBuffers comm_pkg.num_recvs comm_pkg.recv_types mem.recv_buffers)
    comm_pkg.num_recvs.toNat
    { types := comm_pkg.recv_types, bufsize := comm_pkg.recv_bufsize, requests := [] }
  generalize forLoop comm_pkg.num_recvs.toNat
    (fun i s => postBody false comm_pkg.first_comm tag comm_pkg.comm
      (setBuffers comm_pkg.num_recvs comm_pkg.recv_types mem.recv_buffers) i s)
    ({ types := comm_pkg.recv_types, bufsize := comm_pkg.recv_bufsize, requests := [] } :
      PostState) = recvs at r3 ⊢
  obtain ⟨s1, s2, s3⟩ := postLoop_spec true comm_pkg.first_comm tag comm_pkg.comm
    (setBuffers comm_pkg.num_sends comm_pkg.send_types mem.send_buffers)
    comm_pkg.num_sends.toNat
    { types := packed.send_types, bufsize := comm_pkg.send_bufsize, requests := recvs.requests }
  refine ⟨fun i => ?_, ?_, ?_⟩
  · obtain ⟨p1, p2, p3, p4⟩ := hpack i
    simp only [s1]
    by_cases hc : comm_pkg.first_comm ≠ 0 ∧ 0 ≤ i ∧ i < comm_pkg.num_sends.toNat
    · simp only [if_pos hc, p1, p2, p3, p4, and_self]
    · simp only [if_neg hc, p1, p2, p3, p4, and_self]
  · simp only [s2]
    by_cases hc : comm_pkg.first_comm ≠ 0
    · simp only [if_pos hc, (hpack _).2.2.1]
    · simp only [if_neg hc]
  · intro i hi
    rw [s3, r3, List.nil_append]
    rw [List.getElem?_append_right (by simp), List.length_map, List.length_range,
      Nat.add_sub_cancel_left, List.getElem?_map, List.getElem?_range hi]
    simp only [Option.map_some', (hpack _).1, (hpack _).2.1]
/-! ## The send buffer-size invariant -/

theorem sum_range_sub (f g : Nat → Int) (n : Nat) :
    ((List.range n).map (fun i => f i - g i)).sum
      = ((List.range n).map f).sum - ((List.range n).map g).sum := by
  induction n with
  | zero => rfl
  | succ k ih =>
    simp only [List.range_succ, List.map_append, List.sum_append, List.map_cons, List.map_nil,
      List.sum_cons, List.sum_nil, add_zero, ih]
    ring

theorem sum_range_congr (f g : Nat → Int) (n : Nat) (h : ∀ i, i < n → f i = g i) :
    ((List.range n).map f).sum = ((List.range n).map g).sum := by
  induction n with
  | zero => rfl
  | succ k ih =>
    simp only [List.range_succ, List.map_append, List.sum_append, List.map_cons, List.map_nil,
      List.sum_cons, List.sum_nil, add_zero, ih (fun i hi => h i (by omega)), h k (by omega)]

theorem commPkgBuild_send_bufsize (send_boxes recv_boxes : hypre_BoxArrayArray)
    (send_stride recv_stride : hypre_Index) (send_processes recv_processes : Int → Int → Int)
    (send_rboxnums : Int → Int → Int) (send_rboxes : hypre_BoxArrayArray)
    (send_transforms : Option (Int → Int → Int)) (num_transforms : Int)
    (coords dirs : Int → hypre_Index) (boxes_match : Int)
    (send_data_space recv_data_space : hypre_BoxArray) (num_values : Int)
    (orders : Option (Int → Int → Int)) (comm my_proc : Int) (mem : CreateMemory) :
    sendTypesBufsize (commPkgBuild send_boxes recv_boxes send_stride recv_stride send_processes
        recv_processes send_rboxnums send_rboxes send_transforms num_transforms coords dirs
        boxes_match send_data_space recv_data_space num_values orders comm my_proc mem)
      + (commPkgBuild send_boxes recv_boxes send_stride recv_stride send_processes
        recv_processes send_rboxnums send_rboxes send_transforms num_transforms coords dirs
        boxes_match send_data_space recv_data_space num_values orders comm my_proc
        mem).copy_from_type.bufsize
      = (commPkgBuild send_boxes recv_boxes send_stride recv_stride send_processes
        recv_processes send_rboxnums send_rboxes send_transforms num_transforms coords dirs
        boxes_match send_data_space recv_data_space num_values orders comm my_proc
        mem).send_bufsize := by
  obtain ⟨h1, h2, _⟩ := sendSide_spec send_boxes send_stride send_processes send_rboxnums
    send_rboxes send_transforms coords dirs
    (storedOrders send_transforms orders num_transforms num_values) send_data_space num_values
    my_proc mem
  unfold commPkgBuild sendTypesBufsize
  simp only [commTypeView, h1, h2, Int.toNat_ofNat, sumBufsize_shift]
  ring

/-- hypre_InitializeCommunication keeps the send buffer-size invariant of a
package. -/
theorem initialize_send_bufsize {α : Type} [Zero α] [Add α] (comm_pkg : hypre_CommPkg)
    (send_data recv_data action tag : Int) (mem : InitializeMemory α) (heap : Int → α)
    (h : sendTypesBufsize comm_pkg + comm_pkg.copy_from_type.bufsize = comm_pkg.send_bufsize) :
    sendTypesBufsize (hypre_InitializeCommunication comm_pkg send_data recv_data action tag mem
        heap).comm_handle.comm_pkg
      + (hypre_InitializeCommunication comm_pkg send_data recv_data action tag mem
        heap).comm_handle.comm_pkg.copy_from_type.bufsize
      = (hypre_InitializeCommunication comm_pkg send_data recv_data action tag mem
        heap).comm_handle.comm_pkg.send_bufsize := by
  obtain ⟨h1, h2, _⟩ := initialize_sends comm_pkg send_data recv_data action tag mem heap
  rw [h2, ← h]
  have hcopy : (hypre_InitializeCommunication comm_pkg send_data recv_data action tag mem
      heap).comm_handle.comm_pkg.copy_from_type = comm_pkg.copy_from_type := rfl
  have hns : (hypre_InitializeCommunication comm_pkg send_data recv_data action tag mem
      heap).comm_handle.comm_pkg.num_sends = comm_pkg.num_sends := rfl
  rw [hcopy]
  unfold sendTypesBufsize
  rw [hns]
  by_cases hfc : comm_pkg.first_comm ≠ 0
  · rw [if_pos hfc, sum_range_congr _
      (fun i => (comm_pkg.send_types i).bufsize
        - hypre_CommPrefixSize (comm_pkg.send_types i).num_entries) _
      (fun i hi => by
        rw [(h1 i).2.2.2, if_pos ⟨hfc, by omega, by omega⟩]),
      sum_range_sub (fun i => (comm_pkg.send_types i).bufsize)
        (fun i => hypre_CommPrefixSize (comm_pkg.send_types i).num_entries)]
    ring
  · rw [if_neg hfc, sum_range_congr _ (fun i => (comm_pkg.send_types i).bufsize) _
      (fun i hi => by
        rw [(h1 i).2.2.2, if_neg (fun hh => hfc hh.1)])]
    ring

/-- C16: send buffer-size invariant. For every input the package returned by
hypre_CommPkgCreate satisfies (sum over `i < num_sends` of
`send_types[i].bufsize`) + `copy_from_type.bufsize` = `send_bufsize`, and the
equality holds again for the package after a hypre_InitializeCommunication
on it, which on this first communication takes the prefix sizes off the
bufsize of the send CommTypes and off `send_bufsize`. -/
theorem send_bufsize_invariant {α : Type} [Zero α] [Add α] (I : hypre_CommInfo)
    (S R : hypre_BoxArray) (num_values : Int) (orders : Option (Int → Int → Int))
    (reverse comm my_proc : Int) (mem : CreateMemory) :
    sendTypesBufsize (hypre_CommPkgCreate I S R num_values orders reverse comm my_proc mem)
        + (hypre_CommPkgCreate I S R num_values orders reverse comm my_proc
          mem).copy_from_type.bufsize
      = (hypre_CommPkgCreate I S R num_values orders reverse comm my_proc mem).send_bufsize
    ∧ ∀ (send_data recv_data action tag : Int) (mem2 : InitializeMemory α) (heap : Int → α),
        sendTypesBufsize (hypre_InitializeCommunication
            (hypre_CommPkgCreate I S R num_values orders reverse comm my_proc mem) send_data
            recv_data action tag mem2 heap).comm_handle.comm_pkg
          + (hypre_InitializeCommunication
            (hypre_CommPkgCreate I S R num_values orders reverse comm my_proc mem) send_data
            recv_data action tag mem2 heap).comm_handle.comm_pkg.copy_from_type.bufsize
        = (hypre_InitializeCommunication
            (hypre_CommPkgCreate I S R num_values orders reverse comm my_proc mem) send_data
            recv_data action tag mem2 heap).comm_handle.comm_pkg.send_bufsize := by
  have hcreate : sendTypesBufsize
        (hypre_CommPkgCreate I S R num_values orders reverse comm my_proc mem)
        + (hypre_CommPkgCreate I S R num_values orders reverse comm my_proc
          mem).copy_from_type.bufsize
      = (hypre_CommPkgCreate I S R num_values orders reverse comm my_proc mem).send_bufsize := by
    unfold hypre_CommPkgCreate
    split
    · exact commPkgBuild_send_bufsize _ _ _ _ _ _ _ _ _ _ _ _ _ _ _ _ _ _ _ _
    · exact commPkgBuild_send_bufsize _ _ _ _ _ _ _ _ _ _ _ _ _ _ _ _ _ _ _ _
  exact ⟨hcreate, fun send_data recv_data action tag mem2 heap =>
    initialize_send_bufsize _ send_data recv_data action tag mem2 heap hcreate⟩

/-! ## Message sizes of the first and of later exchanges -/

theorem sum_map_mul_const (l : List (Int × Int)) (f : Int × Int → Int) (c : Int) :
    (l.map (fun e => f e * c)).sum = c * (l.map f).sum := by
  induction l with
  | nil => simp
  | cons x xs ih =>
    simp only [List.map_cons, List.sum_cons, ih]
    ring

theorem volOf_eq_payload (num_values : Int) (stride : hypre_Index) (boxes : hypre_BoxArrayArray)
    (processes : Int → Int → Int) (p : Int) :
    volOf (fun e => processes e.1 e.2)
        (fun e => hypre_BoxGetStrideVolume ((boxes.box_arrays e.1).boxes e.2) stride * num_values)
        (nonemptyBoxes boxes) p
      = peerPayload num_values stride boxes processes p := by
  unfold volOf peerPayload peerBoxes
  exact sum_map_mul_const _ _ _

/-- The send CommTypes of the package of hypre_CommPkgCreate: there is one for
each peer, in the order of the peers' first boxes; it holds the number of the
peer's boxes with points as num_entries and the prefix size for them plus the
peer's payload as bufsize. -/
theorem create_send_types (I : hypre_CommInfo) (S R : hypre_BoxArray) (num_values : Int)
    (orders : Option (Int → Int → Int)) (reverse comm my_proc : Int) (mem : CreateMemory) :
    (hypre_CommPkgCreate I S R num_values orders reverse comm my_proc mem).num_sends
      = (peerList my_proc (sendBoxesOf I reverse) (sendProcessesOf I reverse)).length
    ∧ ∀ (n : Nat) (p : Int),
        (peerList my_proc (sendBoxesOf I reverse) (sendProcessesOf I reverse))[n]? = some p →
        ((hypre_CommPkgCreate I S R num_values orders reverse comm my_proc mem).send_types
          n).proc = p
        ∧ ((hypre_CommPkgCreate I S R num_values orders reverse comm my_proc mem).send_types
          n).num_entries
            = (peerBoxes (sendBoxesOf I reverse) (sendProcessesOf I reverse) p).length
        ∧ ((hypre_CommPkgCreate I S R num_values orders reverse comm my_proc mem).send_types
          n).bufsize
            = hypre_CommPrefixSize
                (peerBoxes (sendBoxesOf I reverse) (sendProcessesOf I reverse) p).length
              + peerPayload num_values (sendStrideOf I reverse) (sendBoxesOf I reverse)
                  (sendProcessesOf I reverse) p := by
  unfold hypre_CommPkgCreate sendBoxesOf sendProcessesOf sendStrideOf
  by_cases hrev : reverse > 0
  · simp only [if_pos hrev]
    obtain ⟨h1, _, h3⟩ := sendSide_spec I.recv_boxes I.recv_stride I.recv_processes
      I.recv_rboxnums I.recv_rboxes I.recv_transforms I.coords I.dirs
      (storedOrders I.recv_transforms orders I.num_transforms num_values) R num_values
      my_proc mem
    refine ⟨h1, fun n p hp => ?_⟩
    obtain ⟨a1, a2, a3⟩ := h3 n p hp
    rw [volOf_eq_payload] at a3
    exact ⟨a1, a2, a3⟩
  · simp only [if_neg hrev]
    obtain ⟨h1, _, h3⟩ := sendSide_spec I.send_boxes I.send_stride I.send_processes
      I.send_rboxnums I.send_rboxes I.send_transforms I.coords I.dirs
      (storedOrders I.send_transforms orders I.num_transforms num_values) S num_values
      my_proc mem
    refine ⟨h1, fun n p hp => ?_⟩
    obtain ⟨a1, a2, a3⟩ := h3 n p hp
    rw [volOf_eq_payload] at a3
    exact ⟨a1, a2, a3⟩

/-- When it is not the first communication, an operation leaves the send side
of the package as it is. -/
theorem applyOp_sends {α : Type} [Zero α] [Add α] (op : CommOp α) (comm_pkg : hypre_CommPkg)
    (h : comm_pkg.first_comm = 0) :
    (applyOp op comm_pkg).first_comm = 0
    ∧ (applyOp op comm_pkg).num_sends = comm_pkg.num_sends
    ∧ (applyOp op comm_pkg).num_recvs = comm_pkg.num_recvs
    ∧ (applyOp op comm_pkg).comm = comm_pkg.comm
    ∧ ∀ i : Int, ((applyOp op comm_pkg).send_types i).proc = (comm_pkg.send_types i).proc
        ∧ ((applyOp op comm_pkg).send_types i).bufsize = (comm_pkg.send_types i).bufsize := by
  cases op with
  | initComm send_data recv_data action tag mem heap =>
    refine ⟨h, rfl, rfl, rfl, fun i => ?_⟩
    obtain ⟨h1, _, _⟩ := initialize_sends comm_pkg send_data recv_data action tag mem heap
    obtain ⟨a1, _, _, a4⟩ := h1 i
    refine ⟨a1, ?_⟩
    show ((hypre_InitializeCommunication comm_pkg send_data recv_data action tag mem
      heap).comm_handle.comm_pkg.send_types i).bufsize = _
    rw [a4, if_neg (fun hh => hh.1 h)]
  | finalComm handle recv_buffer recv_ints block heap =>
    exact ⟨rfl, rfl, rfl, rfl, fun _ => ⟨rfl, rfl⟩⟩
  | localCopy send_data recv_data action heap =>
    exact ⟨h, rfl, rfl, rfl, fun _ => ⟨rfl, rfl⟩⟩

theorem runOps_sends {α : Type} [Zero α] [Add α] (ops : List (CommOp α))
    (comm_pkg : hypre_CommPkg) (h : comm_pkg.first_comm = 0) :
    (runOps ops comm_pkg).first_comm = 0
    ∧ (runOps ops comm_pkg).num_sends = comm_pkg.num_sends
    ∧ (runOps ops comm_pkg).num_recvs = comm_pkg.num_recvs
    ∧ (runOps ops comm_pkg).comm = comm_pkg.comm
    ∧ ∀ i : Int, ((runOps ops comm_pkg).send_types i).proc = (comm_pkg.send_types i).proc
        ∧ ((runOps ops comm_pkg).send_types i).bufsize = (comm_pkg.send_types i).bufsize := by
  induction ops generalizing comm_pkg with
  | nil => exact ⟨h, rfl, rfl, rfl, fun _ => ⟨rfl, rfl⟩⟩
  | cons op ops ih =>
    obtain ⟨a1, a2, a3, a4, a5⟩ := applyOp_sends op comm_pkg h
    obtain ⟨b1, b2, b3, b4, b5⟩ := ih (applyOp op comm_pkg) a1
    refine ⟨b1, b2.trans a2, b3.trans a3, b4.trans a4, fun i => ?_⟩
    exact ⟨(b5 i).1.trans (a5 i).1, (b5 i).2.trans (a5 i).2⟩

theorem hypre_CommPrefixSize_pos (n : Int) (hn : 0 ≤ n) : 0 < hypre_CommPrefixSize n := by
  rw [hypre_CommPrefixSize_eq]
  omega
theorem initialize_ints {α : Type} [Zero α] [Add α] (comm_pkg : hypre_CommPkg)
    (send_data recv_data action tag : Int) (mem : InitializeMemory α) (heap : Int → α)
    (h : comm_pkg.first_comm = 0) :
    (hypre_InitializeCommunication comm_pkg send_data recv_data action tag mem heap).send_ints
      = mem.send_ints := by
  unfold hypre_InitializeCommunication
  simp only [h]
  exact packLoop_ints _ _ _ _ _

theorem create_comm (I : hypre_CommInfo) (S R : hypre_BoxArray) (num_values : Int)
    (orders : Option (Int → Int → Int)) (reverse comm my_proc : Int) (mem : CreateMemory) :
    (hypre_CommPkgCreate I S R num_values orders reverse comm my_proc mem).comm = comm
    ∧ (hypre_CommPkgCreate I S R num_values orders reverse comm my_proc mem).first_comm = 1 := by
  unfold hypre_CommPkgCreate
  split <;> exact ⟨rfl, rfl⟩

/-- C14: message sizes of the first and of later exchanges. For the package
`pkg0` of hypre_CommPkgCreate and its send CommType `i < num_sends`, of
process `p` with `k` entries: `k` is the number of the send boxes with points
of `p`; the first hypre_InitializeCommunication hands
`(hypre_CommPrefixSize(k) + payload) * sizeof(double)` bytes to the transport
for `p`, where `payload` is `num_values` times the sum of the stride volumes
of those boxes; every hypre_InitializeCommunication after the first
hypre_FinalizeCommunication (and any further operations) hands
`payload * sizeof(double)` bytes and leaves the `int` view of the send buffers
as it is (no prefix is written); and the later count is strictly smaller. -/
theorem message_sizes {α : Type} [Zero α] [Add α] (I : hypre_CommInfo) (S R : hypre_BoxArray)
    (num_values : Int) (orders : Option (Int → Int → Int)) (reverse comm my_proc : Int)
    (mem : CreateMemory) (pkg0 : hypre_CommPkg)
    (hpkg : pkg0 = hypre_CommPkgCreate I S R num_values orders reverse comm my_proc mem)
    (i : Nat) (hi : (i : Int) < pkg0.num_sends) (p k payload : Int)
    (hp : p = (pkg0.send_types i).proc) (hk : k = (pkg0.send_types i).num_entries)
    (hpay : payload = peerPayload num_values (sendStrideOf I reverse) (sendBoxesOf I reverse)
      (sendProcessesOf I reverse) p) :
    k = (peerBoxes (sendBoxesOf I reverse) (sendProcessesOf I reverse) p).length
    ∧ (∀ (send_data recv_data action tag : Int) (mem1 : InitializeMemory α) (heap : Int → α),
        (hypre_InitializeCommunication pkg0 send_data recv_data action tag mem1
          heap).comm_handle.requests[pkg0.num_recvs.toNat + i]?
        = some ⟨true,
            (hypre_InitializeCommunication pkg0 send_data recv_data action tag mem1
              heap).comm_handle.send_buffers i,
            (hypre_CommPrefixSize k + payload) * sizeof_double, p, tag, comm⟩)
    ∧ (∀ (send_data recv_data action tag : Int) (mem1 : InitializeMemory α) (heap : Int → α)
        (handle : hypre_CommHandle) (recv_buffer : Int → α) (recv_ints : Int → Int)
        (block : Int → hypre_CommEntryType) (heap1 : Int → α) (ops : List (CommOp α))
        (send_data2 recv_data2 action2 tag2 : Int) (mem2 : InitializeMemory α)
        (heap2 : Int → α),
        (hypre_InitializeCommunication
          (runOps ops (applyOp (CommOp.finalComm handle recv_buffer recv_ints block heap1)
            (hypre_InitializeCommunication pkg0 send_data recv_data action tag mem1
              heap).comm_handle.comm_pkg))
          send_data2 recv_data2 action2 tag2 mem2 heap2).comm_handle.requests[
            pkg0.num_recvs.toNat + i]?
        = some ⟨true,
            (hypre_InitializeCommunication
              (runOps ops (applyOp (CommOp.finalComm handle recv_buffer recv_ints block heap1)
                (hypre_InitializeCommunication pkg0 send_data recv_data action tag mem1
                  heap).comm_handle.comm_pkg))
              send_data2 recv_data2 action2 tag2 mem2 heap2).comm_handle.send_buffers i,
            payload * sizeof_double, p, tag2, comm⟩
        ∧ (hypre_InitializeCommunication
          (runOps ops (applyOp (CommOp.finalComm handle recv_buffer recv_ints block heap1)
            (hypre_InitializeCommunication pkg0 send_data recv_data action tag mem1
              heap).comm_handle.comm_pkg))
          send_data2 recv_data2 action2 tag2 mem2 heap2).send_ints = mem2.send_ints)
    ∧ payload * sizeof_double < (hypre_CommPrefixSize k + payload) * sizeof_double := by
  obtain ⟨hns, htypes⟩ := create_send_types I S R num_values orders reverse comm my_proc mem
  obtain ⟨hcomm, hfirst⟩ := create_comm I S R num_values orders reverse comm my_proc mem
  rw [← hpkg] at hns htypes hcomm hfirst
  have hilen : i < (peerList my_proc (sendBoxesOf I reverse) (sendProcessesOf I reverse)).length := by
    rw [hns] at hi
    exact_mod_cast hi
  have hit : i < pkg0.num_sends.toNat := by omega
  obtain ⟨t1, t2, t3⟩ := htypes i _ (List.getElem?_eq_getElem hilen)
  rw [← hp] at t1
  rw [← t1] at t2 t3
  rw [← hk] at t2
  rw [← t2, ← hpay] at t3
  have hkpos : 0 < hypre_CommPrefixSize k := hypre_CommPrefixSize_pos k (by rw [t2]; omega)
  refine ⟨t2, ?_, ?_, ?_⟩
  · intro send_data recv_data action tag mem1 heap
    obtain ⟨_, _, h3⟩ := initialize_sends pkg0 send_data recv_data action tag mem1 heap
    rw [h3 i hit, t3, ← hp, hcomm]
  · intro send_data recv_data action tag mem1 heap handle recv_buffer recv_ints block heap1 ops
      send_data2 recv_data2 action2 tag2 mem2 heap2
    obtain ⟨h1, _, _⟩ := initialize_sends pkg0 send_data recv_data action tag mem1 heap
    obtain ⟨a1, _, _, a4⟩ := h1 i
    rw [if_pos ⟨by rw [hfirst]; decide, by omega, by omega⟩, t3, ← hk] at a4
    obtain ⟨b1, b2, b3, b4, b5⟩ := runOps_sends ops
      (applyOp (CommOp.finalComm handle recv_buffer recv_ints block heap1)
        (hypre_InitializeCommunication pkg0 send_data recv_data action tag mem1
          heap).comm_handle.comm_pkg) rfl
    generalize runOps ops
      (applyOp (CommOp.finalComm handle recv_buffer recv_ints block heap1)
        (hypre_InitializeCommunication pkg0 send_data recv_data action tag mem1
          heap).comm_handle.comm_pkg) = pkg2 at b1 b2 b3 b4 b5 ⊢
    have c2 : pkg2.num_sends = pkg0.num_sends := b2
    have c3 : pkg2.num_recvs = pkg0.num_recvs := b3
    have c4 : pkg2.comm = comm := b4.trans hcomm
    have c5 : (pkg2.send_types i).proc = p := ((b5 i).1.trans a1).trans hp.symm
    have c6 : (pkg2.send_types i).bufsize = payload := by
      rw [(b5 i).2]
      show ((hypre_InitializeCommunication pkg0 send_data recv_data action tag mem1
        heap).comm_handle.comm_pkg.send_types i).bufsize = payload
      rw [a4]
      ring
    obtain ⟨_, _, h3⟩ := initialize_sends pkg2 send_data2 recv_data2 action2 tag2 mem2 heap2
    refine ⟨?_, initialize_ints pkg2 send_data2 recv_data2 action2 tag2 mem2 heap2 b1⟩
    rw [← c3, h3 i (by rw [c2]; exact hit), c6, c5, c4]
  · have h8 : (0 : Int) < sizeof_double := by decide
    nlinarith
/-- C14 at a concrete input: send CommType 0 of the sample package belongs to
process 1 and has one entry of two points; the first exchange hands
`(5 + 2) * 8` bytes to the transport, after the one receive, and an exchange
after the first finalize hands `2 * 8` bytes. -/
theorem message_sizes_witness :
    (hypre_InitializeCommunication samplePkg 0 100 0 5 sampleInitMemory
        (fun a => 1000 + a)).comm_handle.requests[samplePkg.num_recvs.toNat + 0]?
      = some ⟨true,
          (hypre_InitializeCommunication samplePkg 0 100 0 5 sampleInitMemory
            (fun a => 1000 + a)).comm_handle.send_buffers (0 : Nat),
          (hypre_CommPrefixSize 1 + 2) * sizeof_double, 1, 5, 0⟩
    ∧ (2 : Int) * sizeof_double < (hypre_CommPrefixSize 1 + 2) * sizeof_double := by
  have h := @message_sizes Int _ _ sampleInfo sampleSpace sampleSpace 1 none 0 0 0 sampleMemory
    samplePkg rfl 0 (by decide) 1 1 2 (by decide) (by decide) (by decide)
  exact ⟨h.2.1 0 100 0 5 sampleInitMemory (fun a => 1000 + a), h.2.2.2⟩

/-! ## The first and the later finalize -/

theorem scatter_congr {α : Type} [Add α] (action : Int) (buf1 buf2 : Int → α) (addrs : List Int)
    (d1 d2 : Int) (mem : Int → α)
    (h : ∀ n : Nat, n < addrs.length → buf1 (d1 + n) = buf2 (d2 + n)) :
    scatter action buf1 addrs d1 mem = scatter action buf2 addrs d2 mem := by
  induction addrs generalizing d1 d2 mem with
  | nil => rfl
  | cons x xs ih =>
    show scatter action buf1 xs (d1 + 1) (store action mem x (buf1 d1))
      = scatter action buf2 xs (d2 + 1) (store action mem x (buf2 d2))
    have h0 : buf1 d1 = buf2 d2 := by
      have := h 0 (by simp)
      simpa using this
    rw [h0]
    apply ih
    intro n hn
    have := h (n + 1) (by simp; omega)
    push_cast at this
    rw [add_assoc, add_assoc, add_comm 1 (n : Int)]
    exact this

theorem entriesPayload_succ (num_values : Int) (entries : Int → hypre_CommEntryType) (n : Nat) :
    entriesPayload num_values entries (n + 1)
      = entriesPayload num_values entries n
        + num_values.toNat * entrySize (entries n).length_array := by
  unfold entriesPayload
  rw [List.range_succ, List.map_append, List.sum_append]
  simp

/-- The entry loop of the unpack reads the buffer only in the payload of its
entries: two buffers that agree there, each from its own start, give the same
`recv_data`. -/
theorem unpackEntries_congr {α : Type} [Add α] (action num_values : Int) (buf1 buf2 : Int → α)
    (entries : Int → hypre_CommEntryType) (n : Nat)
    (hlen : ∀ j : Nat, j < n → 0 ≤ (entries j).length_array 0) (d1 d2 : Int) (rd : Int → α)
    (hbuf : ∀ t : Nat, t < entriesPayload num_values entries n →
      buf1 (d1 + t) = buf2 (d2 + t)) :
    (forLoop n (fun j t => unpackEntry action num_values buf1 (entries j) t) (rd, d1)).1
        = (forLoop n (fun j t => unpackEntry action num_values buf2 (entries j) t) (rd, d2)).1
    ∧ (forLoop n (fun j t => unpackEntry action num_values buf1 (entries j) t) (rd, d1)).2
        = d1 + (entriesPayload num_values entries n : Nat)
    ∧ (forLoop n (fun j t => unpackEntry action num_values buf2 (entries j) t) (rd, d2)).2
        = d2 + (entriesPayload num_values entries n : Nat) := by
  induction n with
  | zero => exact ⟨rfl, by simp [forLoop, entriesPayload], by simp [forLoop, entriesPayload]⟩
  | succ k ih =>
    obtain ⟨i1, i2, i3⟩ := ih (fun j hj => hlen j (by omega))
      (fun t ht => hbuf t (by rw [entriesPayload_succ]; omega))
    rw [forLoop_succ, forLoop_succ, unpackEntry_eq action num_values buf1 _ (hlen k (by omega)),
      unpackEntry_eq action num_values buf2 _ (hlen k (by omega)), i1, i2, i3,
      entriesPayload_succ]
    refine ⟨?_, ?_, ?_⟩
    · show scatter action buf1 _ _ _ = scatter action buf2 _ _ _
      apply scatter_congr
      intro m hm
      rw [length_entryAddrs] at hm
      have := hbuf (entriesPayload num_values entries k + m)
        (by rw [entriesPayload_succ]; omega)
      push_cast at this
      rw [add_assoc, add_assoc]
      exact this
    · show _ + _ = _
      push_cast
      ring
    · show _ + _ = _
      push_cast
      ring

/-- A loop that assigns cell `i` of an array in round `i` from the cell
itself. -/
theorem forLoop_pointwise {β : Type} (g : Nat → β → β) (n : Nat) (f0 : Int → β) (x : Int) :
    forLoop n (fun i f => setAt f i (g i (f i))) f0 x
      = if 0 ≤ x ∧ x < n then g x.toNat (f0 x) else f0 x := by
  induction n with
  | zero =>
    rw [if_neg (by intro h; have := h.2; simp at this; omega)]
    rfl
  | succ k ih =>
    rw [forLoop_succ, setAt_apply]
    by_cases hx : x = k
    · subst hx
      rw [if_pos rfl, ih, if_neg (by omega), if_pos ⟨by omega, by push_cast; omega⟩]
      simp
    · rw [if_neg hx, ih]
      by_cases hr : 0 ≤ x ∧ x < k
      · rw [if_pos hr, if_pos ⟨hr.1, by push_cast; omega⟩]
      · rw [if_neg hr, if_neg (by
          intro h
          have := h.2
          push_cast at this
          exact hr ⟨h.1, by omega⟩)]
/-- After the first-communication block of hypre_FinalizeCommunication, recv
CommType `i < num_recvs` has the `num_entries` read at the start of its
buffer. -/
theorem parsePrefixes_num_entries (comm_pkg : hypre_CommPkg) (recv_buffers : Int → Int)
    (recv_ints : Int → Int) (block : Int → hypre_CommEntryType) (i : Nat)
    (hi : i < comm_pkg.num_recvs.toNat) :
    (parsePrefixes comm_pkg recv_buffers recv_ints block i).num_entries
      = prefixNumEntries recv_ints (intIndex (recv_buffers i)) := by
  unfold parsePrefixes
  simp only []
  have h3 := fun (parsed : ParseState) (f0 : Int → hypre_CommType) =>
    forLoop_pointwise
      (fun (i : Nat) (t : hypre_CommType) =>
        { t with entries := fun k => parsed.entries (parsed.first i + k) })
      comm_pkg.num_recvs.toNat f0 i
  have h1 := forLoop_pointwise
      (fun (i : Nat) (t : hypre_CommType) =>
        { t with num_entries := prefixNumEntries recv_ints (intIndex (recv_buffers i)) })
      comm_pkg.num_recvs.toNat comm_pkg.recv_types i
  rw [h3, if_pos ⟨by omega, by omega⟩]
  show (forLoop comm_pkg.num_recvs.toNat _ comm_pkg.recv_types i).num_entries = _
  rw [h1, if_pos ⟨by omega, by omega⟩]
  simp

/-- C13: first-versus-subsequent equivalence. Let hypre_FinalizeCommunication
run on a package with `first_comm` set: the receive entries are built from
the prefixes (recv CommType `i` gets the `n` read at the start of its buffer)
and the payload of buffer `i` is read after `hypre_CommPrefixSize(n)`
doubles. Let it then run on the resulting package, `first_comm` now 0, with
the same `recv_data`, the same action and buffers that hold the same payload
without prefix. For entries with non-negative `length[0]` both runs produce
the same `recv_data`, and the second leaves the package as it is. -/
theorem finalize_first_vs_later {α : Type} [Add α] (handle handle2 : hypre_CommHandle)
    (recv_buffer recv_buffer2 : Int → α) (recv_ints recv_ints2 : Int → Int)
    (block block2 : Int → hypre_CommEntryType) (heap : Int → α) (pkg1 : hypre_CommPkg)
    (hfirst : handle.comm_pkg.first_comm ≠ 0)
    (hpkg1 : pkg1 = (hypre_FinalizeCommunication handle recv_buffer recv_ints block heap).1)
    (hpkg : handle2.comm_pkg = pkg1)
    (hdata : handle2.recv_data = handle.recv_data) (haction : handle2.action = handle.action)
    (hlen : ∀ i j : Nat, (i : Int) < pkg1.num_recvs → (j : Int) < (pkg1.recv_types i).num_entries →
      0 ≤ ((pkg1.recv_types i).entries j).length_array 0)
    (hpayload : ∀ i : Nat, (i : Int) < pkg1.num_recvs →
      ∀ t : Nat, t < typePayload pkg1.num_values (pkg1.recv_types i) →
        recv_buffer2 (handle2.recv_buffers i + t)
          = recv_buffer (handle.recv_buffers i
              + hypre_CommPrefixSize (pkg1.recv_types i).num_entries + t)) :
    (hypre_FinalizeCommunication handle2 recv_buffer2 recv_ints2 block2 heap).2
        = (hypre_FinalizeCommunication handle recv_buffer recv_ints block heap).2
    ∧ (hypre_FinalizeCommunication handle2 recv_buffer2 recv_ints2 block2 heap).1 = pkg1
    ∧ ∀ i : Nat, (i : Int) < pkg1.num_recvs →
        (pkg1.recv_types i).num_entries
          = prefixNumEntries recv_ints (intIndex (handle.recv_buffers i)) := by
  have hrt : pkg1.recv_types
      = parsePrefixes handle.comm_pkg handle.recv_buffers recv_ints block := by
    rw [hpkg1]
    unfold hypre_FinalizeCommunication
    simp only [if_pos hfirst]
  have hnr : pkg1.num_recvs = handle.comm_pkg.num_recvs := by rw [hpkg1]; rfl
  have hnv : pkg1.num_values = handle.comm_pkg.num_values := by rw [hpkg1]; rfl
  have hfc : pkg1.first_comm = 0 := by rw [hpkg1]; rfl
  refine ⟨?_, ?_, ?_⟩
  · have h2 : (hypre_FinalizeCommunication handle2 recv_buffer2 recv_ints2 block2 heap).2
        = fun x => unpackRecvTypes 0 handle.action pkg1.num_values pkg1.num_recvs
            pkg1.recv_types handle2.recv_buffers recv_buffer2
            (fun a => heap (handle.recv_data + a)) (x - handle.recv_data) := by
      unfold hypre_FinalizeCommunication
      simp only [hpkg, hfc, hdata, haction, ne_eq, not_true_eq_false, if_false]
    have h1 : (hypre_FinalizeCommunication handle recv_buffer recv_ints block heap).2
        = fun x => unpackRecvTypes handle.comm_pkg.first_comm handle.action pkg1.num_values
            pkg1.num_recvs pkg1.recv_types handle.recv_buffers recv_buffer
            (fun a => heap (handle.recv_data + a)) (x - handle.recv_data) := by
      rw [hrt, hnr, hnv]
      unfold hypre_FinalizeCommunication
      simp only [if_pos hfirst]
    have key : unpackRecvTypes 0 handle.action pkg1.num_values pkg1.num_recvs
          pkg1.recv_types handle2.recv_buffers recv_buffer2 (fun a => heap (handle.recv_data + a))
        = unpackRecvTypes handle.comm_pkg.first_comm handle.action pkg1.num_values
          pkg1.num_recvs pkg1.recv_types handle.recv_buffers recv_buffer
          (fun a => heap (handle.recv_data + a)) := by
      unfold unpackRecvTypes
      apply forLoop_congr
      intro i hi rd
      simp only [ne_eq, not_true_eq_false, if_false, if_pos hfirst]
      unfold unpackEntries
      have hi2 : (i : Int) < pkg1.num_recvs := by omega
      exact (unpackEntries_congr handle.action pkg1.num_values recv_buffer2 recv_buffer
        (pkg1.recv_types i).entries (pkg1.recv_types i).num_entries.toNat
        (fun j hj => hlen i j hi2 (by omega)) _ _ rd
        (fun t ht => hpayload i hi2 t ht)).1
    rw [h1, h2, key]
  · unfold hypre_FinalizeCommunication
    simp only [hpkg, hfc, ne_eq, not_true_eq_false, if_false]
    rw [← hfc]
  · intro i hi
    rw [hrt]
    exact parsePrefixes_num_entries _ _ _ _ i (by omega)
/-- C13 at a concrete input: the first finalize on the sample package reads a
prefix of one box (points 3 to 5) and its payload at the doubles 5 to 7; the
later finalize reads the same payload at the doubles 0 to 2. Both leave the
same `recv_data`, whose cell 4 holds the payload double 106. -/
theorem finalize_first_vs_later_witness :
    (hypre_FinalizeCommunication
        { sampleHandle with
          comm_pkg := (hypre_FinalizeCommunication sampleHandle sampleRecvBuffer sampleRecvInts
            (fun _ => zeroEntry) (fun _ => (0 : Int))).1 }
        (fun a => sampleRecvBuffer (a + 5)) (fun _ => 0) (fun _ => zeroEntry) (fun _ => 0)).2
      = (hypre_FinalizeCommunication sampleHandle sampleRecvBuffer sampleRecvInts
          (fun _ => zeroEntry) (fun _ => (0 : Int))).2
    ∧ (hypre_FinalizeCommunication sampleHandle sampleRecvBuffer sampleRecvInts
          (fun _ => zeroEntry) (fun _ => (0 : Int))).2 4 = 106 := by
  have hnr : (hypre_FinalizeCommunication sampleHandle sampleRecvBuffer sampleRecvInts
      (fun _ => zeroEntry) (fun _ => (0 : Int))).1.num_recvs = 1 := by decide
  have hne : ((hypre_FinalizeCommunication sampleHandle sampleRecvBuffer sampleRecvInts
      (fun _ => zeroEntry) (fun _ => (0 : Int))).1.recv_types (0 : Nat)).num_entries = 1 := by
    decide
  have h := finalize_first_vs_later sampleHandle
    { sampleHandle with
      comm_pkg := (hypre_FinalizeCommunication sampleHandle sampleRecvBuffer sampleRecvInts
        (fun _ => zeroEntry) (fun _ => (0 : Int))).1 }
    sampleRecvBuffer (fun a => sampleRecvBuffer (a + 5)) sampleRecvInts (fun _ => 0)
    (fun _ => zeroEntry) (fun _ => zeroEntry) (fun _ => (0 : Int)) _ (by decide) rfl rfl rfl rfl
    (fun i j hi hj => by
      rw [hnr] at hi
      have hi0 : i = 0 := by omega
      subst hi0
      rw [hne] at hj
      have hj0 : j = 0 := by omega
      subst hj0
      decide)
    (fun i hi t _ => by
      rw [hnr] at hi
      have hi0 : i = 0 := by omega
      subst hi0
      rw [hne]
      show sampleRecvBuffer (0 + t + 5) = sampleRecvBuffer (0 + hypre_CommPrefixSize 1 + t)
      congr 1
      have : hypre_CommPrefixSize 1 = 5 := by decide
      rw [this]
      ring)
  exact ⟨h.1, by decide⟩

/-! ## The local copy between equal pointers -/

theorem exchangeLocalEntry_same {α : Type} [Add α] (num_values action : Int)
    (send_data recv_data : Int) (fe te : hypre_CommEntryType) (heap : Int → α)
    (h : recv_data + te.offset = send_data + fe.offset) :
    exchangeLocalEntry num_values action send_data recv_data fe te heap = heap := by
  unfold exchangeLocalEntry
  simp only [ne_eq, h, not_true_eq_false, if_false]

/-- C21: pointer-equality short-circuit. When `send_data` and `recv_data` are
the same buffer `data` and the from-entry and the to-entry of a pair have the
same offset, hypre_ExchangeLocalData writes nothing for the pair, for every
action; when this holds for every pair `i < num_entries` of the local copy,
the data are unchanged. -/
theorem local_copy_short_circuit {α : Type} [Add α] (comm_pkg : hypre_CommPkg) (data : Int)
    (action : Int) (heap : Int → α) :
    (∀ fe te : hypre_CommEntryType, te.offset = fe.offset →
      exchangeLocalEntry comm_pkg.num_values action data data fe te heap = heap)
    ∧ ((∀ i : Nat, (i : Int) < comm_pkg.copy_from_type.num_entries →
        (comm_pkg.copy_to_type.entries i).offset = (comm_pkg.copy_from_type.entries i).offset) →
      hypre_ExchangeLocalData comm_pkg data data action heap = heap) := by
  refine ⟨fun fe te h => exchangeLocalEntry_same _ _ _ _ _ _ _ (by rw [h]), ?_⟩
  intro h
  unfold hypre_ExchangeLocalData
  have key : ∀ n : Nat, n ≤ comm_pkg.copy_from_type.num_entries.toNat →
      forLoop n
        (fun i heap =>
          exchangeLocalEntry comm_pkg.num_values action data data
            (comm_pkg.copy_from_type.entries i) (comm_pkg.copy_to_type.entries i) heap) heap
        = heap := by
    intro n hn
    induction n with
    | zero => rfl
    | succ k ih =>
      rw [forLoop_succ, ih (by omega)]
      exact exchangeLocalEntry_same _ _ _ _ _ _ _ (by rw [h k (by omega)])
  exact key _ (le_refl _)

/-- C21 at a concrete input: one pair of entries with offset 4 in the same
buffer and the adding action: no cell changes. -/
theorem local_copy_short_circuit_witness :
    hypre_ExchangeLocalData sampleLocalPkg 50 50 1 (fun a => (1000 + a : Int))
      = fun a => 1000 + a :=
  (local_copy_short_circuit sampleLocalPkg 50 1 (fun a => (1000 + a : Int))).2
    (fun i hi => by
      have h1 : sampleLocalPkg.copy_from_type.num_entries = 1 := rfl
      rw [h1] at hi
      rfl)

/-! ## What the exchange routines return -/

/-- C22, as the code has it: hypre_InitializeCommunication and
hypre_FinalizeCommunication return the value that `hypre_error_flag` had on
entry, whatever codes `MPI_Irecv`, `MPI_Isend` and `MPI_Waitall` return: the
codes are dropped. With the flag 0 on entry they return 0, whether a
transport call fails or not. -/
theorem transport_codes_dropped (num_recvs num_sends num_requests : Int)
    (irecv isend : Int → Int) (waitall hypre_error_flag : Int) :
    initializeReturn num_recvs num_sends irecv isend hypre_error_flag = hypre_error_flag
    ∧ finalizeReturn num_requests waitall hypre_error_flag = hypre_error_flag
    ∧ initializeReturn num_recvs num_sends irecv isend 0 = 0
    ∧ finalizeReturn num_requests waitall 0 = 0 := by
  have hloop : ∀ (n : Nat) (codes : Int → Int) (flag : Int),
      forLoop n (fun i flag => (fun (_code : Int) => flag) (codes i)) flag = flag := by
    intro n codes flag
    induction n with
    | zero => rfl
    | succ k ih => rw [forLoop_succ]; exact ih
  have h1 : ∀ flag, initializeReturn num_recvs num_sends irecv isend flag = flag := by
    intro flag
    unfold initializeReturn
    exact (hloop _ isend _).trans (hloop _ irecv _)
  have h2 : ∀ flag, finalizeReturn num_requests waitall flag = flag := by
    intro flag
    unfold finalizeReturn
    split <;> rfl
  exact ⟨h1 _, h2 _, h1 0, h2 0⟩

/-- C22 fails as stated: with the error flag 0 on entry, a receive posted with
code 5 or a wait that returns code 7 leaves the returned value 0. -/
theorem transport_codes_counterexample :
    (5 : Int) ≠ 0 ∧ initializeReturn 1 1 (fun _ => 5) (fun _ => 0) 0 = 0
    ∧ (7 : Int) ≠ 0 ∧ finalizeReturn 2 7 0 = 0 := by
  decide
/-! ## The address map of an entry -/

theorem flatMap_range_congr {β : Type} (n : Nat) (f g : Nat → List β)
    (h : ∀ i, i < n → f i = g i) : (List.range n).flatMap f = (List.range n).flatMap g := by
  induction n with
  | zero => rfl
  | succ k ih =>
    rw [List.range_succ, List.flatMap_append, List.flatMap_append,
      ih (fun i hi => h i (by omega))]
    simp [h k (by omega)]

/-- C23: address map of hypre_CommTypeSetEntry. For a non-empty region `R`
inside the data box `D`, a stride at least 1 in every component,
`coord = (0,1,2)` and `dir = (1,1,1)`: the addresses
`offset + kk*stride[2] + jj*stride[1] + ii*stride[0]` visited by the nested
walk over the resulting entry (`ii` fastest) are, in order, the addresses
`O + index_rank(D, p)` for `p` running over the strided points of `R` in
x-fastest order; `stride[3]` is the volume of `D`; and every such point lies
in `R`. -/
theorem setEntry_address_map (R D : hypre_Box) (stride : hypre_Index) (order : List Int)
    (O : Int) (e : hypre_CommEntryType) (hR : boxNonempty R) (_hin : boxInside R D)
    (hs : stridePositive stride) :
    boxAddrs (hypre_CommTypeSetEntry R stride ⟨0, 1, 2⟩ ⟨1, 1, 1⟩ order D O e).length_array
        (hypre_CommTypeSetEntry R stride ⟨0, 1, 2⟩ ⟨1, 1, 1⟩ order D O e).stride_array
        (hypre_CommTypeSetEntry R stride ⟨0, 1, 2⟩ ⟨1, 1, 1⟩ order D O e).offset
      = stridedAddrs D O R stride
    ∧ (hypre_CommTypeSetEntry R stride ⟨0, 1, 2⟩ ⟨1, 1, 1⟩ order D O e).stride_array 3
      = hypre_BoxVolume D
    ∧ (stridedAddrs D O R stride).length
      = ((hypre_BoxGetStrideSize R stride).z.toNat * ((hypre_BoxGetStrideSize R stride).y.toNat
          * (hypre_BoxGetStrideSize R stride).x.toNat))
    ∧ 0 < (stridedAddrs D O R stride).length
    ∧ ∀ i j k : Nat, (i : Int) < (hypre_BoxGetStrideSize R stride).x →
        (j : Int) < (hypre_BoxGetStrideSize R stride).y →
        (k : Int) < (hypre_BoxGetStrideSize R stride).z →
        R.imin.x ≤ (stridedPoint R stride i j k).x ∧ (stridedPoint R stride i j k).x ≤ R.imax.x
        ∧ R.imin.y ≤ (stridedPoint R stride i j k).y ∧ (stridedPoint R stride i j k).y ≤ R.imax.y
        ∧ R.imin.z ≤ (stridedPoint R stride i j k).z
        ∧ (stridedPoint R stride i j k).z ≤ R.imax.z := by
  obtain ⟨l0, l1, l2, s0, s1, s2, s3, ho⟩ :=
    setEntryAdjusted_identity R stride ⟨1, 1, 1⟩ D O e
  obtain ⟨-, -, -, -, hoff, hoth⟩ := setEntryCollapse_spec
    (setEntryAdjusted R stride ⟨0, 1, 2⟩ ⟨1, 1, 1⟩ D O e)
  have hlen : (stridedAddrs D O R stride).length
      = ((hypre_BoxGetStrideSize R stride).z.toNat * ((hypre_BoxGetStrideSize R stride).y.toNat
          * (hypre_BoxGetStrideSize R stride).x.toNat)) := by
    unfold stridedAddrs
    rw [length_flatMap_range _ ((hypre_BoxGetStrideSize R stride).y.toNat
      * (hypre_BoxGetStrideSize R stride).x.toNat)]
    intro k _
    rw [length_flatMap_range _ (hypre_BoxGetStrideSize R stride).x.toNat]
    intro j _
    simp
  obtain ⟨px, py, pz⟩ := strideSize_pos R stride hR hs
  refine ⟨?_, ?_, hlen, ?_, ?_⟩
  · show boxAddrs (setEntryCollapse _).length_array (setEntryCollapse _).stride_array
      (setEntryCollapse _).offset = _
    rw [boxAddrs_collapse, hoff, ho]
    unfold boxAddrs planeAddrs rowAddrs stridedAddrs
    rw [l0, l1, l2, s0, s1, s2]
    apply flatMap_range_congr
    intro k _
    apply flatMap_range_congr
    intro j _
    apply List.map_congr_left
    intro i _
    simp only [hypre_BoxIndexRank, stridedPoint]
    norm_num
    ring
  · show (setEntryCollapse _).stride_array 3 = _
    rw [(hoth 3 (by omega)).2, s3]
  · rw [hlen]
    have hx : 0 < (hypre_BoxGetStrideSize R stride).x.toNat := by omega
    have hy : 0 < (hypre_BoxGetStrideSize R stride).y.toNat := by omega
    have hz : 0 < (hypre_BoxGetStrideSize R stride).z.toNat := by omega
    exact Nat.mul_pos hz (Nat.mul_pos hy hx)
  · intro i j k hi hj hk
    obtain ⟨sx, sy, sz⟩ := hs
    simp only [hypre_BoxGetStrideSize, hypre_BoxSizeD, hypre_IndexD] at hi hj hk
    simp at hi hj hk
    have ax := ceilDiv_mul_le _ _ i sx hi
    have ay := ceilDiv_mul_le _ _ j sy hj
    have az := ceilDiv_mul_le _ _ k sz hk
    have bx : (0 : Int) ≤ i * stride.x := mul_nonneg (by omega) (by omega)
    have bj : (0 : Int) ≤ j * stride.y := mul_nonneg (by omega) (by omega)
    have bk : (0 : Int) ≤ k * stride.z := mul_nonneg (by omega) (by omega)
    simp only [stridedPoint]
    refine ⟨?_, ?_, ?_, ?_, ?_, ?_⟩ <;> omega

/-- C23 at a concrete input: the points 3 and 5 of the region from 3 to 5
walked with stride 2 in the data box from 0 to 9 stored at offset 10. -/
theorem setEntry_address_map_witness :
    boxAddrs
        (hypre_CommTypeSetEntry (sampleBox 3 5) ⟨2, 1, 1⟩ ⟨0, 1, 2⟩ ⟨1, 1, 1⟩ [0] (sampleBox 0 9)
          10 zeroEntry).length_array
        (hypre_CommTypeSetEntry (sampleBox 3 5) ⟨2, 1, 1⟩ ⟨0, 1, 2⟩ ⟨1, 1, 1⟩ [0] (sampleBox 0 9)
          10 zeroEntry).stride_array
        (hypre_CommTypeSetEntry (sampleBox 3 5) ⟨2, 1, 1⟩ ⟨0, 1, 2⟩ ⟨1, 1, 1⟩ [0] (sampleBox 0 9)
          10 zeroEntry).offset
      = [13, 15] :=
  (setEntry_address_map (sampleBox 3 5) (sampleBox 0 9) ⟨2, 1, 1⟩ [0] 10 zeroEntry (by decide)
    (by decide) (by decide)).1.trans (by decide)

/-! ## The list of the send CommTypes -/

theorem create_eq_build (I : hypre_CommInfo) (S R : hypre_BoxArray) (num_values : Int)
    (orders : Option (Int → Int → Int)) (reverse comm my_proc : Int) (mem : CreateMemory) :
    hypre_CommPkgCreate I S R num_values orders reverse comm my_proc mem
      = commPkgBuild (sendBoxesOf I reverse) (recvBoxesOf I reverse) (sendStrideOf I reverse)
          (recvStrideOf I reverse) (sendProcessesOf I reverse) (recvProcessesOf I reverse)
          (sendRBoxnumsOf I reverse) (sendRBoxesOf I reverse) (sendTransformsOf I reverse)
          I.num_transforms I.coords I.dirs I.boxes_match (sendSpaceOf S R reverse)
          (recvSpaceOf S R reverse) num_values orders comm my_proc mem := by
  unfold hypre_CommPkgCreate sendBoxesOf recvBoxesOf sendStrideOf recvStrideOf sendProcessesOf
    recvProcessesOf sendRBoxnumsOf sendRBoxesOf sendTransformsOf sendSpaceOf recvSpaceOf
  by_cases hrev : reverse > 0
  · simp only [if_pos hrev]
  · simp only [if_neg hrev]

theorem addPeer_extends (my_proc : Int) (peers : List Int) (p : Int) :
    peers <+: addPeer my_proc peers p := by
  unfold addPeer
  split
  · exact List.prefix_refl _
  · exact List.prefix_append _ _

/-- The peers of the first boxes of a traversal stay in front when the
traversal goes on. -/
theorem peersOf_extends (my_proc : Int) (l1 l2 : List Int) :
    peersOf my_proc l1 <+: peersOf my_proc (l1 ++ l2) := by
  induction l2 using List.reverseRecOn with
  | nil => simp
  | append_singleton xs x ih =>
    rw [← List.append_assoc, peersOf_snoc]
    exact ih.trans (addPeer_extends _ _ _)

theorem prefix_getElem? {β : Type} (l1 l2 : List β) (h : l1 <+: l2) (n : Nat) (a : β)
    (hn : l1[n]? = some a) : l2[n]? = some a := by
  obtain ⟨t, rfl⟩ := h
  rw [List.getElem?_append_left (getElem?_lt_of_some l1 n a hn)]
  exact hn

/-- The order of the peers is the order of their first boxes: a peer with a
box among the first boxes `l1` of the traversal comes before a peer with
none. -/
theorem peersOf_order (my_proc : Int) (l1 l2 : List Int) (a b : Nat) (p q : Int)
    (ha : (peersOf my_proc (l1 ++ l2))[a]? = some p)
    (hb : (peersOf my_proc (l1 ++ l2))[b]? = some q) (hp : p ∈ l1) (hq : q ∉ l1) : a < b := by
  have hnd := nodup_peersOf my_proc (l1 ++ l2)
  have hpm : p ≠ my_proc :=
    ((mem_peersOf my_proc _ p).1 (List.mem_iff_getElem?.2 ⟨a, ha⟩)).1
  obtain ⟨n, hn⟩ := List.mem_iff_getElem?.1 ((mem_peersOf my_proc l1 p).2 ⟨hpm, hp⟩)
  have hn2 := prefix_getElem? _ _ (peersOf_extends my_proc l1 l2) n p hn
  have han : a = n := nodup_index_unique _ hnd a n p ha hn2
  have hnl := getElem?_lt_of_some _ n p hn
  by_contra hlt
  have hbl : b < (peersOf my_proc l1).length := by omega
  have hb2 : (peersOf my_proc l1)[b]? = some q := by
    obtain ⟨t, ht⟩ := peersOf_extends my_proc l1 l2
    rw [← ht, List.getElem?_append_left hbl] at hb
    exact hb
  exact hq ((mem_peersOf my_proc l1 q).1 (List.mem_iff_getElem?.2 ⟨b, hb2⟩)).2
/-- The send side of hypre_CommPkgCreate, in full: the counts of the first
loop nest and the invariant of the second at its end. -/
theorem sendSide_inv (boxes : hypre_BoxArrayArray) (stride : hypre_Index)
    (processes rboxnums : Int → Int → Int) (rboxes : hypre_BoxArrayArray)
    (T : Option (Int → Int → Int)) (coords dirs : Int → hypre_Index)
    (cp : Option (Int → List Int)) (ds : hypre_BoxArray) (num_values my_proc : Int)
    (mem : CreateMemory) :
    (∀ p, (sendSide boxes stride processes rboxnums rboxes T coords dirs cp ds num_values
        my_proc mem).1.p_comm_types p
      = -(cntOf (fun e => processes e.1 e.2) (nonemptyBoxes boxes) p : Int))
    ∧ (sendSide boxes stride processes rboxnums rboxes T coords dirs cp ds num_values my_proc
        mem).1.num_comms = (peerList my_proc boxes processes).length
    ∧ (sendSide boxes stride processes rboxnums rboxes T coords dirs cp ds num_values my_proc
        mem).1.num_entries = (nonemptyBoxes boxes).length
    ∧ SendInv my_proc
        (sendStart (sendSide boxes stride processes rboxnums rboxes T coords dirs cp ds
          num_values my_proc mem).1.p_comm_types num_values my_proc mem).p_comm_types
        (fun e => processes e.1 e.2)
        (fun e => hypre_BoxGetStrideVolume ((boxes.box_arrays e.1).boxes e.2) stride
          * num_values)
        (peerList my_proc boxes processes) (nonemptyBoxes boxes)
        (sendSide boxes stride processes rboxnums rboxes T coords dirs cp ds num_values my_proc
          mem).2 := by
  have hc := sendCount_spec my_proc boxes processes
  unfold sendSide
  generalize forBoxes boxes
    (fun i j s => sendCountBody my_proc ((boxes.box_arrays i).boxes j) (processes i j) s)
    { p_comm_types := fun _ => 0, num_comms := 0, num_entries := 0 } = count at hc ⊢
  obtain ⟨c1, c2, c3⟩ := hc
  have hstart : SendInv my_proc (sendStart count.p_comm_types num_values my_proc mem).p_comm_types
      (fun e => processes e.1 e.2)
      (fun e => hypre_BoxGetStrideVolume ((boxes.box_arrays e.1).boxes e.2) stride * num_values)
      [] [] (sendStart count.p_comm_types num_values my_proc mem) := by
    refine ⟨rfl, ?_, fun _ _ => rfl, ⟨rfl, rfl, rfl⟩, ?_⟩
    · intro n p hp
      simp at hp
    · simp [sendStart, sumBufsize, range_one_eq, setAt_apply, zeroSlot]
  have h0 : (sendStart count.p_comm_types num_values my_proc mem).p_comm_types my_proc = 0 := by
    simp [sendStart, setAt_apply]
  have hpct : ∀ p, p ≠ my_proc →
      (sendStart count.p_comm_types num_values my_proc mem).p_comm_types p
        = -(cntOf (fun e => processes e.1 e.2) (nonemptyBoxes boxes) p : Int) := by
    intro p hp
    simp only [sendStart, setAt_apply, if_neg hp, c1]
  refine ⟨c1, c2, c3, ?_⟩
  exact sendFill_spec num_values stride boxes processes rboxnums rboxes
    coords dirs T cp ds (setDataOffsets ds num_values mem.send_data_offsets) my_proc
    (sendStart count.p_comm_types num_values my_proc mem) hstart h0
    (fun e he hp => by
      rw [hpct _ hp]
      have hpos : 0 < cntOf (fun e => processes e.1 e.2) (nonemptyBoxes boxes)
          (processes e.1 e.2) := by
        unfold cntOf
        exact List.length_pos_of_mem (List.mem_filter.2 ⟨he, decide_eq_true rfl⟩)
      omega)

/-- C25: the list of the send CommTypes of hypre_CommPkgCreate. With `peers`
the processes other than `my_proc` that own a send box with points:
`num_sends` is their number and `send_types[n]` belongs to `peers[n]`; each
such process occurs once in `peers`; their order is the order of their first
boxes in the traversal of the send boxes (`i` outer, `j` inner): a peer with a
box among the first boxes `l1` of the traversal comes before one with none;
and the local process has no send CommType but owns `copy_from_type`. -/
theorem send_type_list (I : hypre_CommInfo) (S R : hypre_BoxArray) (num_values : Int)
    (orders : Option (Int → Int → Int)) (reverse comm my_proc : Int) (mem : CreateMemory) :
    (hypre_CommPkgCreate I S R num_values orders reverse comm my_proc mem).num_sends
      = (peerList my_proc (sendBoxesOf I reverse) (sendProcessesOf I reverse)).length
    ∧ (∀ (n : Nat) (p : Int),
        (peerList my_proc (sendBoxesOf I reverse) (sendProcessesOf I reverse))[n]? = some p →
        ((hypre_CommPkgCreate I S R num_values orders reverse comm my_proc mem).send_types
          n).proc = p)
    ∧ (peerList my_proc (sendBoxesOf I reverse) (sendProcessesOf I reverse)).Nodup
    ∧ (∀ p : Int, p ∈ peerList my_proc (sendBoxesOf I reverse) (sendProcessesOf I reverse)
        ↔ p ≠ my_proc ∧ ∃ e ∈ nonemptyBoxes (sendBoxesOf I reverse),
            sendProcessesOf I reverse e.1 e.2 = p)
    ∧ (∀ (l1 l2 : List (Int × Int)) (a b : Nat) (p q : Int),
        nonemptyBoxes (sendBoxesOf I reverse) = l1 ++ l2 →
        (peerList my_proc (sendBoxesOf I reverse) (sendProcessesOf I reverse))[a]? = some p →
        (peerList my_proc (sendBoxesOf I reverse) (sendProcessesOf I reverse))[b]? = some q →
        (∃ e ∈ l1, sendProcessesOf I reverse e.1 e.2 = p) →
        (¬ ∃ e ∈ l1, sendProcessesOf I reverse e.1 e.2 = q) → a < b)
    ∧ (hypre_CommPkgCreate I S R num_values orders reverse comm my_proc
        mem).copy_from_type.proc = my_proc
    ∧ ∀ n : Nat,
        (n : Int) < (hypre_CommPkgCreate I S R num_values orders reverse comm my_proc
          mem).num_sends →
        ((hypre_CommPkgCreate I S R num_values orders reverse comm my_proc mem).send_types
          n).proc ≠ my_proc := by
  obtain ⟨-, h2, -, hinv⟩ := sendSide_inv (sendBoxesOf I reverse) (sendStrideOf I reverse)
    (sendProcessesOf I reverse) (sendRBoxnumsOf I reverse) (sendRBoxesOf I reverse)
    (sendTransformsOf I reverse) I.coords I.dirs
    (storedOrders (sendTransformsOf I reverse) orders I.num_transforms num_values)
    (sendSpaceOf S R reverse) num_values my_proc mem
  obtain ⟨-, i2, -, i4, -⟩ := hinv
  have hmem : ∀ p : Int,
      p ∈ peerList my_proc (sendBoxesOf I reverse) (sendProcessesOf I reverse)
        ↔ p ≠ my_proc ∧ ∃ e ∈ nonemptyBoxes (sendBoxesOf I reverse),
            sendProcessesOf I reverse e.1 e.2 = p := by
    intro p
    unfold peerList
    rw [mem_peersOf, List.mem_map]
  have hproc : ∀ (n : Nat) (p : Int),
      (peerList my_proc (sendBoxesOf I reverse) (sendProcessesOf I reverse))[n]? = some p →
      ((hypre_CommPkgCreate I S R num_values orders reverse comm my_proc mem).send_types
        n).proc = p := by
    intro n p hp
    rw [create_eq_build]
    exact (i2 n p hp).2.1
  have hns : (hypre_CommPkgCreate I S R num_values orders reverse comm my_proc mem).num_sends
      = (peerList my_proc (sendBoxesOf I reverse) (sendProcessesOf I reverse)).length := by
    rw [create_eq_build]
    exact h2
  refine ⟨hns, hproc, nodup_peersOf _ _, hmem, ?_, ?_, ?_⟩
  · intro l1 l2 a b p q hsplit ha hb hp hq
    unfold peerList at ha hb
    rw [hsplit, List.map_append] at ha hb
    refine peersOf_order my_proc _ _ a b p q ha hb ?_ ?_
    · obtain ⟨e, he, hep⟩ := hp
      exact List.mem_map.2 ⟨e, he, hep⟩
    · intro hin
      obtain ⟨e, he, hep⟩ := List.mem_map.1 hin
      exact hq ⟨e, he, hep⟩
  · rw [create_eq_build]
    exact i4.1
  · intro n hn
    rw [hns] at hn
    have hlt : n < (peerList my_proc (sendBoxesOf I reverse)
        (sendProcessesOf I reverse)).length := by exact_mod_cast hn
    rw [hproc n _ (List.getElem?_eq_getElem hlt)]
    exact ((hmem _).1 (List.getElem_mem _)).1

/-- C25 at a concrete input: the send boxes of the sample CommInfo go to the
processes 1, 0, 1 (no points), 2 on process 0; the send CommTypes are those
of the processes 1 and 2, in this order. -/
theorem send_type_list_witness :
    samplePkg.num_sends = 2 ∧ (samplePkg.send_types (0 : Nat)).proc = 1
    ∧ (samplePkg.send_types (1 : Nat)).proc = 2 ∧ samplePkg.copy_from_type.proc = 0 := by
  have h := send_type_list sampleInfo sampleSpace sampleSpace 1 none 0 0 0 sampleMemory
  exact ⟨h.1.trans (by decide), h.2.1 0 1 (by decide), h.2.1 1 2 (by decide), h.2.2.2.2.2.1⟩

/-! ## Slices of the flat blocks -/

theorem slotCount_of_proc (K : Int → Int) (my_proc : Int) (P : List Int) (c : Nat) (p : Int)
    (h : slotProc my_proc P c = some p) : slotCount K my_proc P c = K p := by
  unfold slotCount
  rw [h]

theorem slotCount_nonneg (K : Int → Int) (my_proc : Int) (P : List Int) (hK : ∀ p, 0 ≤ K p)
    (c : Nat) : 0 ≤ slotCount K my_proc P c := by
  unfold slotCount
  split
  · exact hK _
  · exact le_refl _

theorem slotStart_mono (K : Int → Int) (my_proc : Int) (P : List Int) (hK : ∀ p, 0 ≤ K p)
    (c c2 : Nat) (h : c < c2) :
    slotStart K my_proc P c + slotCount K my_proc P c ≤ slotStart K my_proc P c2 := by
  induction c2 with
  | zero => omega
  | succ n ih =>
    show _ ≤ slotStart K my_proc P n + slotCount K my_proc P n
    rcases Nat.lt_or_ge c n with hlt | hge
    · have := ih hlt
      have := slotCount_nonneg K my_proc P hK n
      omega
    · have : c = n := by omega
      subst this
      exact le_refl _

/-- The slices of two CommTypes do not meet. -/
theorem slot_disjoint (K : Int → Int) (my_proc : Int) (P : List Int) (hK : ∀ p, 0 ≤ K p)
    (c c2 : Nat) (k k2 : Int) (h0 : 0 ≤ k) (h1 : k < slotCount K my_proc P c) (g0 : 0 ≤ k2)
    (g1 : k2 < slotCount K my_proc P c2)
    (h : slotStart K my_proc P c + k = slotStart K my_proc P c2 + k2) : c = c2 ∧ k = k2 := by
  rcases Nat.lt_trichotomy c c2 with hlt | heq | hgt
  · have := slotStart_mono K my_proc P hK c c2 hlt
    omega
  · subst heq
    exact ⟨rfl, by omega⟩
  · have := slotStart_mono K my_proc P hK c2 c hgt
    omega

theorem slotProc_inj (my_proc : Int) (P : List Int) (hnd : P.Nodup) (hmy : my_proc ∉ P)
    (c c2 : Nat) (p : Int) (h : slotProc my_proc P c = some p)
    (h2 : slotProc my_proc P c2 = some p) : c = c2 := by
  cases c with
  | zero =>
    cases c2 with
    | zero => rfl
    | succ m =>
      simp only [slotProc, Option.some.injEq] at h h2
      subst h
      exact absurd (List.mem_iff_getElem?.2 ⟨m, h2⟩) hmy
  | succ n =>
    cases c2 with
    | zero =>
      simp only [slotProc, Option.some.injEq] at h h2
      subst h2
      exact absurd (List.mem_iff_getElem?.2 ⟨n, h⟩) hmy
    | succ m =>
      simp only [slotProc] at h h2
      rw [nodup_index_unique P hnd n m p h h2]

theorem cntOf_le_snoc (proc : Int × Int → Int) (done : List (Int × Int)) (e : Int × Int)
    (q : Int) : cntOf proc done q ≤ cntOf proc (done ++ [e]) q := by
  rw [cntOf_snoc]
  omega

/-- One more box handled: the value for the box is written in the next free
cell of the slice of its process. -/
theorem blockInv_step {β : Type} (K : Int → Int) (my_proc : Int) (P : List Int)
    (proc : Int × Int → Int) (val : Int × Int → β → β) (blk0 : Int → β)
    (done : List (Int × Int)) (blk : Int → β) (e : Int × Int) (c : Nat)
    (h : BlockInv K my_proc P proc val blk0 done blk) (hK : ∀ p, 0 ≤ K p)
    (hnd : P.Nodup) (hmy : my_proc ∉ P)
    (hcnt : ∀ p, (cntOf proc (done ++ [e]) p : Int) ≤ K p)
    (hc : slotProc my_proc P c = some (proc e)) :
    BlockInv K my_proc P proc val blk0 (done ++ [e])
      (setAt blk (slotStart K my_proc P c + (cntOf proc done (proc e) : Nat))
        (val e (blk (slotStart K my_proc P c + (cntOf proc done (proc e) : Nat))))) := by
  obtain ⟨ha, hb⟩ := h
  have hself : cntOf proc (done ++ [e]) (proc e) = cntOf proc done (proc e) + 1 := by
    rw [cntOf_snoc, if_pos rfl]
  have hfresh : ∀ (c2 : Nat) (p2 : Int) (k2 : Nat), slotProc my_proc P c2 = some p2 →
      k2 < cntOf proc done p2 →
      slotStart K my_proc P c + (cntOf proc done (proc e) : Nat)
        ≠ slotStart K my_proc P c2 + k2 := by
    intro c2 p2 k2 hc2 hk2 heq
    have b1 := hcnt (proc e)
    have b2 := hcnt p2
    have b3 := cntOf_le_snoc proc done e p2
    obtain ⟨e1, e2⟩ := slot_disjoint K my_proc P hK c c2 _ _ (by omega)
      (by rw [slotCount_of_proc K my_proc P c _ hc, ]; rw [hself] at b1; push_cast at b1; omega)
      (by omega) (by rw [slotCount_of_proc K my_proc P c2 _ hc2]; omega) heq
    subst e1
    rw [hc] at hc2
    have : proc e = p2 := Option.some.inj hc2
    subst this
    omega
  refine ⟨?_, ?_⟩
  · intro c2 p2 k2 e2 hc2 hget
    rw [List.filter_append, List.getElem?_append] at hget
    by_cases hk : k2 < (done.filter (fun e => decide (proc e = p2))).length
    · rw [if_pos hk] at hget
      rw [setAt_apply, if_neg (fun heq => hfresh c2 p2 k2 hc2 hk heq.symm)]
      exact ha c2 p2 k2 e2 hc2 hget
    · rw [if_neg hk] at hget
      by_cases hp : proc e = p2
      · have hfe : [e].filter (fun e => decide (proc e = p2)) = [e] := by simp [hp]
        rw [hfe] at hget
        have hk0 : k2 - (done.filter (fun e => decide (proc e = p2))).length = 0 := by
          by_contra hne
          rw [List.getElem?_eq_none (by simp; omega)] at hget
          exact absurd hget (by simp)
        rw [hk0] at hget
        simp only [List.getElem?_cons_zero, Option.some.injEq] at hget
        subst hget
        subst hp
        have hcc : c2 = c := slotProc_inj my_proc P hnd hmy c2 c _ hc2 hc
        subst hcc
        have hk2 : k2 = cntOf proc done (proc e) := by
          unfold cntOf
          omega
        subst hk2
        rw [setAt_apply, if_pos rfl, hb _ (fun c3 p3 k3 hc3 hk3 => hfresh c3 p3 k3 hc3 hk3)]
      · have hfe : [e].filter (fun e => decide (proc e = p2)) = [] := by simp [hp]
        rw [hfe] at hget
        simp at hget
  · intro x hx
    have hxw : x ≠ slotStart K my_proc P c + (cntOf proc done (proc e) : Nat) :=
      hx c (proc e) _ hc (by rw [hself]; omega)
    rw [setAt_apply, if_neg hxw]
    exact hb x (fun c2 p2 k2 hc2 hk2 =>
      hx c2 p2 k2 hc2 (Nat.lt_of_lt_of_le hk2 (cntOf_le_snoc proc done e p2)))

theorem sendXf_resolve (num_values : Int) (coords dirs : Int → hypre_Index)
    (T : Option (Int → Int → Int)) (cp : Option (Int → List Int)) (i j : Int) (s : SendState)
    (h : SendXfInv num_values T cp s) :
    (sendResolve coords dirs T cp i j s).send_coord = resolvedCoord coords T (i, j)
    ∧ (sendResolve coords dirs T cp i j s).send_dir = resolvedDir dirs T (i, j)
    ∧ (sendResolve coords dirs T cp i j s).send_order = resolvedOrder num_values T cp (i, j)
    ∧ SendXfInv num_values T cp (sendResolve coords dirs T cp i j s) := by
  obtain ⟨h1, h2⟩ := h
  cases T with
  | none =>
    obtain ⟨a, b⟩ := h1 rfl
    exact ⟨a, b, h2 (Or.inl rfl), ⟨fun _ => ⟨a, b⟩, h2⟩⟩
  | some tr =>
    cases cp with
    | none =>
      refine ⟨rfl, rfl, h2 (Or.inr rfl), ⟨fun hh => by simp at hh, fun _ => h2 (Or.inr rfl)⟩⟩
    | some c =>
      exact ⟨rfl, rfl, rfl, ⟨fun hh => by simp at hh, fun hh => by simp at hh⟩⟩

theorem sendPtr_init (K : Int → Int) (my_proc : Int) (pct0 : Int → Int)
    (proc size : Int × Int → Int) (P peers : List Int) (done : List (Int × Int)) (p : Int)
    (s : SendState) (hinv : SendInv my_proc pct0 proc size peers done s)
    (h : SendPtrInv K my_proc P peers s) (hmy : my_proc ∉ peers) (h0 : pct0 my_proc = 0)
    (hpre : addPeer my_proc peers p <+: P)
    (hnew : p ≠ my_proc → p ∉ peers → pct0 p < 0 ∧ pct0 p = -K p) :
    SendPtrInv K my_proc P (addPeer my_proc peers p) (sendInitType p s) := by
  obtain ⟨hm, h2, h3, -, -⟩ := hinv
  obtain ⟨q1, q2, q3, q4⟩ := h
  unfold sendInitType
  by_cases hold : p = my_proc ∨ p ∈ peers
  · have hpct : ¬ s.p_comm_types p < 0 := by
      rcases hold with hp | hp
      · rw [hp, h3 my_proc hmy, h0]
        omega
      · obtain ⟨n, hn⟩ := List.mem_iff_getElem?.1 hp
        rw [(h2 n p hn).1]
        omega
    have hadd : addPeer my_proc peers p = peers := by
      unfold addPeer
      rw [if_pos hold]
    rw [if_neg hpct, hadd]
    exact ⟨q1, q2, q3, q4⟩
  · push_neg at hold
    obtain ⟨hlt, hk⟩ := hnew hold.1 hold.2
    have hpe : s.p_comm_types p = pct0 p := h3 p hold.2
    have hpct : s.p_comm_types p < 0 := by rw [hpe]; exact hlt
    have hadd : addPeer my_proc peers p = peers ++ [p] := by
      unfold addPeer
      rw [if_neg (by push_neg; exact hold)]
    rw [hadd] at hpre ⊢
    rw [if_pos hpct]
    have hP : P[peers.length]? = some p :=
      prefix_getElem? _ _ hpre peers.length p (by simp)
    have hcount : slotCount K my_proc P (peers.length + 1) = K p := by
      apply slotCount_of_proc
      exact hP
    have hnext : slotStart K my_proc P ((peers ++ [p]).length + 1)
        = slotStart K my_proc P (peers.length + 1) + -s.p_comm_types p := by
      rw [List.length_append]
      show slotStart K my_proc P (peers.length + 1) + slotCount K my_proc P (peers.length + 1)
        = _
      rw [hcount, hpe, hk, neg_neg]
    refine ⟨?_, ?_, ?_, ?_⟩
    · show s.ct_entries + -s.p_comm_types p = _
      rw [hnext, q1]
    · show s.ct_rem_boxnums + -s.p_comm_types p = _
      rw [hnext, q2]
    · show s.ct_rem_boxes + -s.p_comm_types p = _
      rw [hnext, q3]
    · intro c hc
      show (setAt s.comm_types s.m _ (c : Int)).entries = _
        ∧ (setAt s.comm_types s.m _ (c : Int)).rem_boxnums = _
        ∧ (setAt s.comm_types s.m _ (c : Int)).rem_boxes = _
      rw [List.length_append] at hc
      simp only [List.length_cons, List.length_nil] at hc
      by_cases hcm : (c : Int) = s.m
      · have hcl : c = peers.length + 1 := by
          rw [hm] at hcm
          omega
        subst hcl
        simp only [setAt_apply, if_pos hcm, q1, q2, q3, and_self]
      · have hcl : c ≤ peers.length := by
          rw [hm] at hcm
          omega
        simp only [setAt_apply, if_neg hcm]
        exact q4 c hcl

theorem sendPtr_resolve (K : Int → Int) (my_proc : Int) (P peers : List Int)
    (coords dirs : Int → hypre_Index) (T : Option (Int → Int → Int))
    (cp : Option (Int → List Int)) (i j : Int) (s : SendState)
    (h : SendPtrInv K my_proc P peers s) :
    SendPtrInv K my_proc P peers (sendResolve coords dirs T cp i j s) := by
  cases T with
  | none => exact h
  | some tr => exact h

theorem sendPtr_add (K : Int → Int) (my_proc : Int) (P peers : List Int) (num_values : Int)
    (stride : hypre_Index) (box data_box : hypre_Box) (data_offset rboxnum : Int)
    (rbox : hypre_Box) (p : Int) (s : SendState) (h : SendPtrInv K my_proc P peers s) :
    SendPtrInv K my_proc P peers
      (sendAddEntry num_values stride box data_box data_offset rboxnum rbox p s) := by
  obtain ⟨q1, q2, q3, q4⟩ := h
  refine ⟨q1, q2, q3, fun c hc => ?_⟩
  show (setAt s.comm_types (s.p_comm_types p) _ (c : Int)).entries = _
    ∧ (setAt s.comm_types (s.p_comm_types p) _ (c : Int)).rem_boxnums = _
    ∧ (setAt s.comm_types (s.p_comm_types p) _ (c : Int)).rem_boxes = _
  rw [setAt_apply]
  by_cases hcp : (c : Int) = s.p_comm_types p
  · rw [if_pos hcp, ← hcp]
    exact q4 c hc
  · rw [if_neg hcp]
    exact q4 c hc

theorem cntOf_mono (proc : Int × Int → Int) (l1 l2 : List (Int × Int)) (h : l1 <+: l2)
    (q : Int) : cntOf proc l1 q ≤ cntOf proc l2 q := by
  obtain ⟨t, rfl⟩ := h
  unfold cntOf
  rw [List.filter_append, List.length_append]
  omega

/-- The CommType of a process that has one: its number is the number of the
slice of the process. -/
theorem sendLocate (my_proc : Int) (pct0 : Int → Int) (proc size : Int × Int → Int)
    (P peers : List Int) (done : List (Int × Int)) (p : Int) (s : SendState)
    (hinv : SendInv my_proc pct0 proc size peers done s) (hmy : my_proc ∉ peers)
    (h0 : pct0 my_proc = 0) (hpre : peers <+: P) (hp : p = my_proc ∨ p ∈ peers) :
    ∃ c : Nat, slotProc my_proc P c = some p ∧ s.p_comm_types p = (c : Int)
      ∧ c ≤ peers.length ∧ (s.comm_types (c : Int)).num_entries = cntOf proc done p := by
  obtain ⟨-, h2, h3, h4, -⟩ := hinv
  rcases hp with hp | hp
  · subst hp
    refine ⟨0, rfl, ?_, Nat.zero_le _, ?_⟩
    · rw [h3 p hmy, h0]
      rfl
    · exact h4.2.2
  · obtain ⟨n, hn⟩ := List.mem_iff_getElem?.1 hp
    obtain ⟨a, b, c, d⟩ := h2 n p hn
    refine ⟨n + 1, prefix_getElem? _ _ hpre n p hn, ?_, ?_, ?_⟩
    · rw [a]
      push_cast
      rfl
    · have := getElem?_lt_of_some _ n p hn
      omega
    · have hc : ((n + 1 : Nat) : Int) = (n : Int) + 1 := by push_cast; rfl
      rw [hc]
      exact d

theorem sendInit_blocks (p : Int) (s : SendState) :
    (sendInitType p s).entries = s.entries ∧ (sendInitType p s).rem_boxnums = s.rem_boxnums
    ∧ (sendInitType p s).rem_boxes = s.rem_boxes
    ∧ (sendInitType p s).send_coord = s.send_coord ∧ (sendInitType p s).send_dir = s.send_dir
    ∧ (sendInitType p s).send_order = s.send_order := by
  unfold sendInitType
  split
  · exact ⟨rfl, rfl, rfl, rfl, rfl, rfl⟩
  · exact ⟨rfl, rfl, rfl, rfl, rfl, rfl⟩

theorem sendResolve_blocks (coords dirs : Int → hypre_Index) (T : Option (Int → Int → Int))
    (cp : Option (Int → List Int)) (i j : Int) (s : SendState) :
    (sendResolve coords dirs T cp i j s).entries = s.entries
    ∧ (sendResolve coords dirs T cp i j s).rem_boxnums = s.rem_boxnums
    ∧ (sendResolve coords dirs T cp i j s).rem_boxes = s.rem_boxes := by
  cases T with
  | none => exact ⟨rfl, rfl, rfl⟩
  | some tr => exact ⟨rfl, rfl, rfl⟩

/-- The three writes of one round of the second send loop nest, when the
CommType of the process is CommType `c`, points at `q` and holds `k`
entries. -/
theorem sendAdd_blocks (num_values : Int) (stride : hypre_Index) (box data_box : hypre_Box)
    (data_offset rboxnum : Int) (rbox : hypre_Box) (p : Int) (s : SendState) (c q k : Int)
    (hc : s.p_comm_types p = c) (he : (s.comm_types c).entries = some q)
    (hn : (s.comm_types c).rem_boxnums = some q) (hb : (s.comm_types c).rem_boxes = some q)
    (hk : (s.comm_types c).num_entries = k) :
    (sendAddEntry num_values stride box data_box data_offset rboxnum rbox p s).entries
      = setAt s.entries (q + k)
          (hypre_CommTypeSetEntry box stride s.send_coord s.send_dir s.send_order data_box
            data_offset (s.entries (q + k)))
    ∧ (sendAddEntry num_values stride box data_box data_offset rboxnum rbox p s).rem_boxnums
      = setAt s.rem_boxnums (q + k) rboxnum
    ∧ (sendAddEntry num_values stride box data_box data_offset rboxnum rbox p s).rem_boxes
      = setAt s.rem_boxes (q + k) rbox := by
  unfold sendAddEntry
  simp only [hc, he, hn, hb, hk, Option.getD_some, and_self]

/-- The second loop nest over the send boxes, the flat blocks: at its end
every CommType points at the start of the slice of its process, and the cell
`k` of the slice of a process holds what the round of its `k`-th box with
points wrote; all other cells are as at the start. -/
theorem sendFill_blocks (num_values : Int) (stride : hypre_Index) (boxes : hypre_BoxArrayArray)
    (processes rboxnums : Int → Int → Int) (rboxes : hypre_BoxArrayArray)
    (coords dirs : Int → hypre_Index) (T : Option (Int → Int → Int))
    (cp : Option (Int → List Int)) (ds : hypre_BoxArray) (offs : Int → Int) (my_proc : Int)
    (s0 : SendState) (K : Int → Int) (P : List Int)
    (hK : K = fun p => ((cntOf (fun e => processes e.1 e.2) (nonemptyBoxes boxes) p : Nat) : Int))
    (hP : P = peerList my_proc boxes processes)
    (hs0 : SendInv my_proc s0.p_comm_types (fun e => processes e.1 e.2)
      (fun e => hypre_BoxGetStrideVolume ((boxes.box_arrays e.1).boxes e.2) stride * num_values)
      [] [] s0)
    (h0 : s0.p_comm_types my_proc = 0)
    (hneg : ∀ p, p ≠ my_proc → s0.p_comm_types p = -K p)
    (hptr : SendPtrInv K my_proc P [] s0) (hxf : SendXfInv num_values T cp s0) :
    SendPtrInv K my_proc P P
      (forBoxes boxes
        (sendFillBody num_values stride boxes processes rboxnums rboxes coords dirs T cp ds offs)
        s0)
    ∧ BlockInv K my_proc P (fun e => processes e.1 e.2)
        (sendEntryOf num_values stride boxes coords dirs T cp ds offs) s0.entries
        (nonemptyBoxes boxes)
        (forBoxes boxes
          (sendFillBody num_values stride boxes processes rboxnums rboxes coords dirs T cp ds
            offs) s0).entries
    ∧ BlockInv K my_proc P (fun e => processes e.1 e.2) (fun e _ => rboxnums e.1 e.2)
        s0.rem_boxnums (nonemptyBoxes boxes)
        (forBoxes boxes
          (sendFillBody num_values stride boxes processes rboxnums rboxes coords dirs T cp ds
            offs) s0).rem_boxnums
    ∧ BlockInv K my_proc P (fun e => processes e.1 e.2)
        (fun e _ => (rboxes.box_arrays e.1).boxes e.2) s0.rem_boxes (nonemptyBoxes boxes)
        (forBoxes boxes
          (sendFillBody num_values stride boxes processes rboxnums rboxes coords dirs T cp ds
            offs) s0).rem_boxes := by
  rw [forBoxes_eq_foldl,
    foldl_filter_skip _
      (fun e => decide (hypre_BoxVolume ((boxes.box_arrays e.1).boxes e.2) ≠ 0))
      (fun e s he => by
        have hv : ¬ hypre_BoxVolume ((boxes.box_arrays e.1).boxes e.2) ≠ 0 :=
          of_decide_eq_false he
        simp only [sendFillBody, if_neg hv])]
  have hne : (boxIndices boxes).filter
      (fun e => decide (hypre_BoxVolume ((boxes.box_arrays e.1).boxes e.2) ≠ 0))
      = nonemptyBoxes boxes := rfl
  rw [hne]
  have hmy : ∀ l : List Int, my_proc ∉ peersOf my_proc l := by
    intro l hl
    exact ((mem_peersOf my_proc l my_proc).1 hl).1 rfl
  have hKnn : ∀ p, 0 ≤ K p := by
    intro p
    rw [hK]
    exact Int.natCast_nonneg _
  have hPnd : P.Nodup := by
    rw [hP]
    exact nodup_peersOf _ _
  have hPmy : my_proc ∉ P := by
    rw [hP]
    exact hmy _
  have hnil : ∀ {β : Type} (val : Int × Int → β → β) (blk : Int → β),
      BlockInv K my_proc P (fun e => processes e.1 e.2) val blk [] blk := by
    intro β val blk
    refine ⟨?_, fun _ _ => rfl⟩
    intro c p k e _ hk
    simp at hk
  have key := foldl_invariant
    (fun s (e : Int × Int) =>
      sendFillBody num_values stride boxes processes rboxnums rboxes coords dirs T cp ds offs
        e.1 e.2 s)
    (fun done (s : SendState) =>
      SendInv my_proc s0.p_comm_types (fun e => processes e.1 e.2)
        (fun e => hypre_BoxGetStrideVolume ((boxes.box_arrays e.1).boxes e.2) stride
          * num_values)
        (peersOf my_proc (done.map (fun e => processes e.1 e.2))) done s
      ∧ SendPtrInv K my_proc P (peersOf my_proc (done.map (fun e => processes e.1 e.2))) s
      ∧ SendXfInv num_values T cp s
      ∧ BlockInv K my_proc P (fun e => processes e.1 e.2)
          (sendEntryOf num_values stride boxes coords dirs T cp ds offs) s0.entries done
          s.entries
      ∧ BlockInv K my_proc P (fun e => processes e.1 e.2) (fun e _ => rboxnums e.1 e.2)
          s0.rem_boxnums done s.rem_boxnums
      ∧ BlockInv K my_proc P (fun e => processes e.1 e.2)
          (fun e _ => (rboxes.box_arrays e.1).boxes e.2) s0.rem_boxes done s.rem_boxes)
    s0 ⟨hs0, hptr, hxf, hnil _ _, hnil _ _, hnil _ _⟩ (nonemptyBoxes boxes) ?_
  · obtain ⟨-, k2, -, k4, k5, k6⟩ := key
    refine ⟨?_, k4, k5, k6⟩
    rw [hP] at k2 ⊢
    exact k2
  intro done e s hpre ⟨hinv, hp0, hx0, hb1, hb2, hb3⟩
  have hmem : e ∈ nonemptyBoxes boxes := hpre.subset (by simp)
  have hv : hypre_BoxVolume ((boxes.box_arrays e.1).boxes e.2) ≠ 0 :=
    mem_nonemptyBoxes boxes e hmem
  simp only [sendFillBody, if_pos hv]
  rw [List.map_append, List.map_cons, List.map_nil, peersOf_snoc]
  have hposK : ∀ p, p ≠ my_proc → processes e.1 e.2 = p → s0.p_comm_types p < 0 := by
    intro p hp hep
    rw [hneg p hp, hK]
    have hpos : 0 < cntOf (fun e => processes e.1 e.2) (nonemptyBoxes boxes) p := by
      unfold cntOf
      exact List.length_pos_of_mem (List.mem_filter.2 ⟨hmem, decide_eq_true hep⟩)
    simp only
    omega
  have hpreP : addPeer my_proc (peersOf my_proc (done.map (fun e => processes e.1 e.2)))
      (processes e.1 e.2) <+: P := by
    obtain ⟨t, ht⟩ := hpre
    rw [← peersOf_snoc, hP]
    unfold peerList
    rw [← ht, List.map_append, List.map_append, List.map_cons, List.map_nil]
    exact peersOf_extends _ _ _
  have h1 := sendInit_inv my_proc s0.p_comm_types _ _ _ done (processes e.1 e.2) s hinv
    (hmy _) h0
    (fun hp hnot => by
      have hnd : processes e.1 e.2 ∉ done.map (fun e => processes e.1 e.2) := by
        intro hin
        exact hnot ((mem_peersOf my_proc _ _).2 ⟨hp, hin⟩)
      have hz := cntOf_zero (fun e => processes e.1 e.2) done _ hnd
      exact ⟨hposK _ hp rfl, hz.1, hz.2 _⟩)
  have p1 := sendPtr_init K my_proc s0.p_comm_types _ _ P _ done (processes e.1 e.2) s hinv hp0
    (hmy _) h0 hpreP (fun hp _ => ⟨hposK _ hp rfl, hneg _ hp⟩)
  have h2 := sendResolve_inv my_proc s0.p_comm_types _ _ _ done coords dirs T cp e.1 e.2 _ h1
  have p2 := sendPtr_resolve K my_proc P _ coords dirs T cp e.1 e.2 _ p1
  have x1 : SendXfInv num_values T cp (sendInitType (processes e.1 e.2) s) := by
    obtain ⟨-, -, -, a, b, c⟩ := sendInit_blocks (processes e.1 e.2) s
    unfold SendXfInv
    rw [a, b, c]
    exact hx0
  obtain ⟨xc, xd, xo, x2⟩ := sendXf_resolve num_values coords dirs T cp e.1 e.2 _ x1
  have hmy2 : my_proc ∉ addPeer my_proc
      (peersOf my_proc (done.map (fun e => processes e.1 e.2))) (processes e.1 e.2) := by
    rw [← peersOf_snoc]
    exact hmy _
  have hp : processes e.1 e.2 = my_proc ∨ processes e.1 e.2 ∈ addPeer my_proc
      (peersOf my_proc (done.map (fun e => processes e.1 e.2))) (processes e.1 e.2) := by
    by_cases hp : processes e.1 e.2 = my_proc
    · exact Or.inl hp
    · right
      rw [← peersOf_snoc, mem_peersOf]
      exact ⟨hp, by simp⟩
  have h3 := sendAdd_inv my_proc s0.p_comm_types (fun e => processes e.1 e.2) _ _ done e _
    num_values stride _ (ds.boxes e.1) (offs e.1) (rboxnums e.1 e.2)
    ((rboxes.box_arrays e.1).boxes e.2) h2 hmy2 h0 rfl hp
  have p3 := sendPtr_add K my_proc P _ num_values stride ((boxes.box_arrays e.1).boxes e.2)
    (ds.boxes e.1) (offs e.1) (rboxnums e.1 e.2) ((rboxes.box_arrays e.1).boxes e.2)
    (processes e.1 e.2) _ p2
  obtain ⟨c, hc1, hc2, hc3, hc4⟩ := sendLocate my_proc s0.p_comm_types _ _ P _ done
    (processes e.1 e.2) _ h2 hmy2 h0 hpreP hp
  obtain ⟨q1, q2, q3⟩ := p2.2.2.2 c hc3
  obtain ⟨w1, w2, w3⟩ := sendAdd_blocks num_values stride ((boxes.box_arrays e.1).boxes e.2)
    (ds.boxes e.1) (offs e.1) (rboxnums e.1 e.2) ((rboxes.box_arrays e.1).boxes e.2)
    (processes e.1 e.2) _ _ _ _ hc2 q1 q2 q3 hc4
  obtain ⟨r1, r2, r3⟩ := sendResolve_blocks coords dirs T cp e.1 e.2
    (sendInitType (processes e.1 e.2) s)
  obtain ⟨i1, i2, i3, -, -, -⟩ := sendInit_blocks (processes e.1 e.2) s
  have hcnt : ∀ p, ((cntOf (fun e => processes e.1 e.2) (done ++ [e]) p : Nat) : Int) ≤ K p := by
    intro p
    rw [hK]
    exact Int.ofNat_le.2 (cntOf_mono _ _ _ hpre p)
  refine ⟨h3, p3, x2, ?_, ?_, ?_⟩
  · rw [w1, xc, xd, xo, r1, i1]
    exact blockInv_step K my_proc P (fun e => processes e.1 e.2)
      (sendEntryOf num_values stride boxes coords dirs T cp ds offs) s0.entries done s.entries e
      c hb1 hKnn hPnd hPmy hcnt hc1
  · rw [w2, r2, i2]
    exact blockInv_step K my_proc P (fun e => processes e.1 e.2)
      (fun e _ => rboxnums e.1 e.2) s0.rem_boxnums done s.rem_boxnums e c hb2 hKnn hPnd hPmy
      hcnt hc1
  · rw [w3, r3, i3]
    exact blockInv_step K my_proc P (fun e => processes e.1 e.2)
      (fun e _ => (rboxes.box_arrays e.1).boxes e.2) s0.rem_boxes done s.rem_boxes e c hb3 hKnn
      hPnd hPmy hcnt hc1

/-- The send side of hypre_CommPkgCreate, the flat blocks: CommType `c` points
at the start of slice `c`, and the cells of the slices hold what the rounds
of the second loop nest wrote. -/
theorem sendSide_blocks (boxes : hypre_BoxArrayArray) (stride : hypre_Index)
    (processes rboxnums : Int → Int → Int) (rboxes : hypre_BoxArrayArray)
    (T : Option (Int → Int → Int)) (coords dirs : Int → hypre_Index)
    (cp : Option (Int → List Int)) (ds : hypre_BoxArray) (num_values my_proc : Int)
    (mem : CreateMemory) :
    SendPtrInv (boxCounts boxes processes) my_proc (peerList my_proc boxes processes)
      (peerList my_proc boxes processes)
      (sendSide boxes stride processes rboxnums rboxes T coords dirs cp ds num_values my_proc
        mem).2
    ∧ BlockInv (boxCounts boxes processes) my_proc (peerList my_proc boxes processes)
        (fun e => processes e.1 e.2)
        (sendEntryOf num_values stride boxes coords dirs T cp ds
          (setDataOffsets ds num_values mem.send_data_offsets)) mem.ct_entries
        (nonemptyBoxes boxes)
        (sendSide boxes stride processes rboxnums rboxes T coords dirs cp ds num_values my_proc
          mem).2.entries
    ∧ BlockInv (boxCounts boxes processes) my_proc (peerList my_proc boxes processes)
        (fun e => processes e.1 e.2) (fun e _ => rboxnums e.1 e.2) mem.ct_rem_boxnums
        (nonemptyBoxes boxes)
        (sendSide boxes stride processes rboxnums rboxes T coords dirs cp ds num_values my_proc
          mem).2.rem_boxnums
    ∧ BlockInv (boxCounts boxes processes) my_proc (peerList my_proc boxes processes)
        (fun e => processes e.1 e.2) (fun e _ => (rboxes.box_arrays e.1).boxes e.2)
        mem.ct_rem_boxes (nonemptyBoxes boxes)
        (sendSide boxes stride processes rboxnums rboxes T coords dirs cp ds num_values my_proc
          mem).2.rem_boxes := by
  have hc := sendCount_spec my_proc boxes processes
  unfold sendSide
  generalize forBoxes boxes
    (fun i j s => sendCountBody my_proc ((boxes.box_arrays i).boxes j) (processes i j) s)
    { p_comm_types := fun _ => 0, num_comms := 0, num_entries := 0 } = count at hc ⊢
  obtain ⟨c1, c2, c3⟩ := hc
  have hstart : SendInv my_proc (sendStart count.p_comm_types num_values my_proc mem).p_comm_types
      (fun e => processes e.1 e.2)
      (fun e => hypre_BoxGetStrideVolume ((boxes.box_arrays e.1).boxes e.2) stride * num_values)
      [] [] (sendStart count.p_comm_types num_values my_proc mem) := by
    refine ⟨rfl, ?_, fun _ _ => rfl, ⟨rfl, rfl, rfl⟩, ?_⟩
    · intro n p hp
      simp at hp
    · simp [sendStart, sumBufsize, range_one_eq, setAt_apply, zeroSlot]
  have h0 : (sendStart count.p_comm_types num_values my_proc mem).p_comm_types my_proc = 0 := by
    simp [sendStart, setAt_apply]
  have hpct : ∀ p, p ≠ my_proc →
      (sendStart count.p_comm_types num_values my_proc mem).p_comm_types p
        = -boxCounts boxes processes p := by
    intro p hp
    simp only [sendStart, setAt_apply, if_neg hp, c1, boxCounts]
  have hone : slotStart (boxCounts boxes processes) my_proc (peerList my_proc boxes processes) 1
      = 0 + -count.p_comm_types my_proc := by
    show 0 + slotCount (boxCounts boxes processes) my_proc (peerList my_proc boxes processes) 0
      = _
    rw [slotCount_of_proc _ _ _ 0 my_proc rfl, c1, neg_neg]
    rfl
  have hptr : SendPtrInv (boxCounts boxes processes) my_proc (peerList my_proc boxes processes)
      [] (sendStart count.p_comm_types num_values my_proc mem) := by
    refine ⟨hone.symm, hone.symm, hone.symm, ?_⟩
    intro c hc
    have hc0 : c = 0 := by
      simp only [List.length_nil] at hc
      omega
    subst hc0
    exact ⟨rfl, rfl, rfl⟩
  have hxf : SendXfInv num_values T cp (sendStart count.p_comm_types num_values my_proc mem) :=
    ⟨fun _ => ⟨rfl, rfl⟩, fun _ => rfl⟩
  exact sendFill_blocks num_values stride boxes processes rboxnums rboxes coords dirs T cp ds
    (setDataOffsets ds num_values mem.send_data_offsets) my_proc
    (sendStart count.p_comm_types num_values my_proc mem) (boxCounts boxes processes)
    (peerList my_proc boxes processes) rfl rfl hstart h0 hpct hptr hxf

theorem slotStart_eq_sum (K : Int → Int) (my_proc : Int) (P : List Int) (n : Nat)
    (hn : n ≤ P.length) :
    slotStart K my_proc P (n + 1) = K my_proc + ((P.take n).map K).sum := by
  induction n with
  | zero =>
    show 0 + slotCount K my_proc P 0 = _
    rw [slotCount_of_proc K my_proc P 0 my_proc rfl]
    simp
  | succ k ih =>
    have hk : k < P.length := hn
    show slotStart K my_proc P (k + 1) + slotCount K my_proc P (k + 1) = _
    rw [ih (Nat.le_of_lt hk),
      slotCount_of_proc K my_proc P (k + 1) P[k] (List.getElem?_eq_getElem hk), List.take_succ,
      List.getElem?_eq_getElem hk]
    simp only [Option.toList_some, List.map_append, List.map_cons, List.map_nil,
      List.sum_append, List.sum_cons, List.sum_nil, add_zero]
    ring

theorem indicator_sum_zero (P : List Int) (a : Int) (h : a ∉ P) :
    (P.map (fun p => if a = p then (1 : Int) else 0)).sum = 0 := by
  induction P with
  | nil => rfl
  | cons x xs ih =>
    rw [List.mem_cons, not_or] at h
    rw [List.map_cons, List.sum_cons, if_neg h.1, ih h.2]
    rfl

theorem indicator_sum_one (P : List Int) (hnd : P.Nodup) (a : Int) (h : a ∈ P) :
    (P.map (fun p => if a = p then (1 : Int) else 0)).sum = 1 := by
  induction P with
  | nil => simp at h
  | cons x xs ih =>
    rw [List.nodup_cons] at hnd
    rw [List.map_cons, List.sum_cons]
    by_cases hx : a = x
    · rw [if_pos hx, indicator_sum_zero xs a (by rw [hx]; exact hnd.1)]
      rfl
    · rw [if_neg hx, ih hnd.2 ((List.mem_cons.1 h).resolve_left hx)]
      rfl

/-- Each box belongs to one process: the numbers of the boxes of the
processes of a list without repetition add up to the number of the boxes. -/
theorem cntOf_partition (proc : Int × Int → Int) (P : List Int) (hnd : P.Nodup)
    (l : List (Int × Int)) (h : ∀ e ∈ l, proc e ∈ P) :
    (P.map (fun p => ((cntOf proc l p : Nat) : Int))).sum = l.length := by
  induction l using List.reverseRecOn with
  | nil =>
    have hz : (fun p => ((cntOf proc [] p : Nat) : Int)) = fun _ => (0 : Int) := rfl
    rw [hz]
    simp
  | append_singleton xs x ih =>
    have hfun : (fun p => ((cntOf proc (xs ++ [x]) p : Nat) : Int))
        = fun p => ((cntOf proc xs p : Nat) : Int) + (if proc x = p then (1 : Int) else 0) := by
      funext p
      rw [cntOf_snoc]
      push_cast
      rfl
    rw [hfun, List.sum_map_add, ih (fun e he => h e (List.mem_append_left _ he)),
      indicator_sum_one P hnd (proc x) (h x (by simp)), List.length_append]
    simp

/-- The slices together hold as many cells as there are boxes with points. -/
theorem slotStart_total (boxes : hypre_BoxArrayArray) (processes : Int → Int → Int)
    (my_proc : Int) :
    slotStart (boxCounts boxes processes) my_proc (peerList my_proc boxes processes)
      ((peerList my_proc boxes processes).length + 1) = (nonemptyBoxes boxes).length := by
  rw [slotStart_eq_sum _ _ _ _ (le_refl _), List.take_length]
  have hnd : (my_proc :: peerList my_proc boxes processes).Nodup := by
    rw [List.nodup_cons]
    refine ⟨fun hin => ((mem_peersOf my_proc _ my_proc).1 hin).1 rfl, nodup_peersOf _ _⟩
  have h := cntOf_partition (fun e => processes e.1 e.2) _ hnd (nonemptyBoxes boxes)
    (fun e he => by
      show processes e.1 e.2 ∈ my_proc :: peerList my_proc boxes processes
      by_cases hp : processes e.1 e.2 = my_proc
      · rw [hp]
        exact List.mem_cons_self _ _
      · exact List.mem_cons_of_mem _
          ((mem_peersOf my_proc _ _).2 ⟨hp, List.mem_map.2 ⟨e, he, rfl⟩⟩))
  rw [List.map_cons, List.sum_cons] at h
  exact h

/-- The slices `0 .. n` cover the cells below the start of slice `n + 1`. -/
theorem slot_cover (K : Int → Int) (my_proc : Int) (P : List Int) (n : Nat) (x : Int)
    (h0 : 0 ≤ x) (h1 : x < slotStart K my_proc P (n + 1)) :
    ∃ (c : Nat) (k : Int), c ≤ n ∧ 0 ≤ k ∧ k < slotCount K my_proc P c
      ∧ x = slotStart K my_proc P c + k := by
  induction n with
  | zero =>
    refine ⟨0, x, le_refl _, h0, ?_, ?_⟩
    · have : slotStart K my_proc P (0 + 1) = 0 + slotCount K my_proc P 0 := rfl
      omega
    · show x = 0 + x
      omega
  | succ m ih =>
    by_cases hx : x < slotStart K my_proc P (m + 1)
    · obtain ⟨c, k, a, b, d, e⟩ := ih hx
      exact ⟨c, k, Nat.le_succ_of_le a, b, d, e⟩
    · refine ⟨m + 1, x - slotStart K my_proc P (m + 1), le_refl _, by omega, ?_, by omega⟩
      have : slotStart K my_proc P (m + 1 + 1)
          = slotStart K my_proc P (m + 1) + slotCount K my_proc P (m + 1) := rfl
      omega

theorem slotProc_of_le (my_proc : Int) (P : List Int) (c : Nat) (hc : c ≤ P.length) :
    ∃ p, slotProc my_proc P c = some p := by
  cases c with
  | zero => exact ⟨my_proc, rfl⟩
  | succ n => exact ⟨P[n], List.getElem?_eq_getElem hc⟩

theorem slotProc_le (my_proc : Int) (P : List Int) (c : Nat) (p : Int)
    (h : slotProc my_proc P c = some p) : c ≤ P.length := by
  cases c with
  | zero => exact Nat.zero_le _
  | succ n => exact getElem?_lt_of_some P n p h

theorem slotStart_eq_counts (K : Int → Int) (my_proc : Int) (P : List Int) (n : Nat) :
    slotStart K my_proc P (n + 1)
      = slotCount K my_proc P 0
        + ((List.range n).map (fun (i : Nat) => slotCount K my_proc P (i + 1))).sum := by
  induction n with
  | zero =>
    show 0 + slotCount K my_proc P 0 = _
    simp
  | succ k ih =>
    show slotStart K my_proc P (k + 1) + slotCount K my_proc P (k + 1) = _
    rw [ih, List.range_succ, List.map_append, List.sum_append]
    simp only [List.map_cons, List.map_nil, List.sum_cons, List.sum_nil, add_zero]
    ring

/-- The package of hypre_CommPkgCreate shows CommType `c` of the send side
through its pointers into the flat blocks. -/
theorem create_view (I : hypre_CommInfo) (S R : hypre_BoxArray) (num_values : Int)
    (orders : Option (Int → Int → Int)) (reverse comm my_proc : Int) (mem : CreateMemory)
    (c : Nat) :
    sendTypeAt (hypre_CommPkgCreate I S R num_values orders reverse comm my_proc mem) c
      = commTypeView (createSendSide I S R num_values orders reverse my_proc mem).2.entries
          (createSendSide I S R num_values orders reverse my_proc mem).2.rem_boxnums
          (createSendSide I S R num_values orders reverse my_proc mem).2.rem_boxes
          ((createSendSide I S R num_values orders reverse my_proc mem).2.comm_types c) := by
  rw [create_eq_build]
  cases c with
  | zero => rfl
  | succ n => rfl

/-- The CommTypes of the send side of hypre_CommPkgCreate after the two loop
nests: CommType `c` of process `p` points at the start of slice `c` in the
three flat blocks and holds as many entries as `p` has boxes with points. -/
theorem createSendSide_slots (I : hypre_CommInfo) (S R : hypre_BoxArray) (num_values : Int)
    (orders : Option (Int → Int → Int)) (reverse my_proc : Int) (mem : CreateMemory) (c : Nat)
    (hc : c ≤ (peerList my_proc (sendBoxesOf I reverse) (sendProcessesOf I reverse)).length) :
    ((createSendSide I S R num_values orders reverse my_proc mem).2.comm_types c).entries
      = some (slotStart (boxCounts (sendBoxesOf I reverse) (sendProcessesOf I reverse)) my_proc
          (peerList my_proc (sendBoxesOf I reverse) (sendProcessesOf I reverse)) c)
    ∧ ((createSendSide I S R num_values orders reverse my_proc mem).2.comm_types c).rem_boxnums
      = some (slotStart (boxCounts (sendBoxesOf I reverse) (sendProcessesOf I reverse)) my_proc
          (peerList my_proc (sendBoxesOf I reverse) (sendProcessesOf I reverse)) c)
    ∧ ((createSendSide I S R num_values orders reverse my_proc mem).2.comm_types c).rem_boxes
      = some (slotStart (boxCounts (sendBoxesOf I reverse) (sendProcessesOf I reverse)) my_proc
          (peerList my_proc (sendBoxesOf I reverse) (sendProcessesOf I reverse)) c)
    ∧ ((createSendSide I S R num_values orders reverse my_proc mem).2.comm_types c).num_entries
      = slotCount (boxCounts (sendBoxesOf I reverse) (sendProcessesOf I reverse)) my_proc
          (peerList my_proc (sendBoxesOf I reverse) (sendProcessesOf I reverse)) c := by
  obtain ⟨hptr, -, -, -⟩ := sendSide_blocks (sendBoxesOf I reverse) (sendStrideOf I reverse)
    (sendProcessesOf I reverse) (sendRBoxnumsOf I reverse) (sendRBoxesOf I reverse)
    (sendTransformsOf I reverse) I.coords I.dirs
    (storedOrders (sendTransformsOf I reverse) orders I.num_transforms num_values)
    (sendSpaceOf S R reverse) num_values my_proc mem
  obtain ⟨-, -, -, hinv⟩ := sendSide_inv (sendBoxesOf I reverse) (sendStrideOf I reverse)
    (sendProcessesOf I reverse) (sendRBoxnumsOf I reverse) (sendRBoxesOf I reverse)
    (sendTransformsOf I reverse) I.coords I.dirs
    (storedOrders (sendTransformsOf I reverse) orders I.num_transforms num_values)
    (sendSpaceOf S R reverse) num_values my_proc mem
  obtain ⟨-, i2, -, i4, -⟩ := hinv
  obtain ⟨q1, q2, q3⟩ := hptr.2.2.2 c hc
  refine ⟨q1, q2, q3, ?_⟩
  cases c with
  | zero =>
    rw [slotCount_of_proc _ _ _ 0 my_proc rfl]
    exact i4.2.2
  | succ n =>
    have hn : n < (peerList my_proc (sendBoxesOf I reverse)
        (sendProcessesOf I reverse)).length := hc
    rw [slotCount_of_proc _ _ _ (n + 1) _ (List.getElem?_eq_getElem hn)]
    exact (i2 n _ (List.getElem?_eq_getElem hn)).2.2.2

/-- C27: the partition of the flat blocks in hypre_CommPkgCreate. The
package shows CommType `c` of the send side (`copy_from_type` for `c = 0`,
`send_types[c - 1]` otherwise) through the pointers of that CommType into the
flat blocks `entries`, `rem_boxnums`, `rem_boxes`. With `start c` the sum of
the num_entries of the CommTypes before `c`: for `c ≤ num_sends` the three
pointers of CommType `c` stand at cell `start c`, its slice is the cells
`start c .. start c + num_entries - 1` and the next slice starts right after
it; the slices start at cell 0 and end at `num_entries`, the count of the
first loop nest, which is the number of send boxes with points; two slices
share no cell, every cell `0 ≤ x < num_entries` lies in one slice, and the
num_entries of `copy_from_type` and of the send types add up to the number
of send boxes with points. -/
theorem flat_block_partition (I : hypre_CommInfo) (S R : hypre_BoxArray) (num_values : Int)
    (orders : Option (Int → Int → Int)) (reverse comm my_proc : Int) (mem : CreateMemory) :
    (∀ c : Nat, sendTypeAt (hypre_CommPkgCreate I S R num_values orders reverse comm my_proc mem) c
        = commTypeView (createSendSide I S R num_values orders reverse my_proc mem).2.entries
            (createSendSide I S R num_values orders reverse my_proc mem).2.rem_boxnums
            (createSendSide I S R num_values orders reverse my_proc mem).2.rem_boxes
            ((createSendSide I S R num_values orders reverse my_proc mem).2.comm_types c))
    ∧ (createSendSide I S R num_values orders reverse my_proc mem).1.num_entries
        = (nonemptyBoxes (sendBoxesOf I reverse)).length
    ∧ (∀ c : Nat, (c : Int) ≤ (hypre_CommPkgCreate I S R num_values orders reverse comm my_proc mem).num_sends →
        ((createSendSide I S R num_values orders reverse my_proc mem).2.comm_types c).entries
          = some (slotStart (boxCounts (sendBoxesOf I reverse) (sendProcessesOf I reverse)) my_proc
          (peerList my_proc (sendBoxesOf I reverse) (sendProcessesOf I reverse)) c)
        ∧ ((createSendSide I S R num_values orders reverse my_proc mem).2.comm_types c).rem_boxnums
          = some (slotStart (boxCounts (sendBoxesOf I reverse) (sendProcessesOf I reverse)) my_proc
          (peerList my_proc (sendBoxesOf I reverse) (sendProcessesOf I reverse)) c)
        ∧ ((createSendSide I S R num_values orders reverse my_proc mem).2.comm_types c).rem_boxes
          = some (slotStart (boxCounts (sendBoxesOf I reverse) (sendProcessesOf I reverse)) my_proc
          (peerList my_proc (sendBoxesOf I reverse) (sendProcessesOf I reverse)) c)
        ∧ 0 ≤ (sendTypeAt (hypre_CommPkgCreate I S R num_values orders reverse comm my_proc mem) c).num_entries
        ∧ slotStart (boxCounts (sendBoxesOf I reverse) (sendProcessesOf I reverse)) my_proc
          (peerList my_proc (sendBoxesOf I reverse) (sendProcessesOf I reverse)) (c + 1)
          = slotStart (boxCounts (sendBoxesOf I reverse) (sendProcessesOf I reverse)) my_proc
          (peerList my_proc (sendBoxesOf I reverse) (sendProcessesOf I reverse)) c
            + (sendTypeAt (hypre_CommPkgCreate I S R num_values orders reverse comm my_proc mem) c).num_entries)
    ∧ slotStart (boxCounts (sendBoxesOf I reverse) (sendProcessesOf I reverse)) my_proc
          (peerList my_proc (sendBoxesOf I reverse) (sendProcessesOf I reverse)) 0 = 0
    ∧ slotStart (boxCounts (sendBoxesOf I reverse) (sendProcessesOf I reverse)) my_proc
          (peerList my_proc (sendBoxesOf I reverse) (sendProcessesOf I reverse))
          ((hypre_CommPkgCreate I S R num_values orders reverse comm my_proc mem).num_sends.toNat + 1)
        = (createSendSide I S R num_values orders reverse my_proc mem).1.num_entries
    ∧ (∀ (c c2 : Nat) (k k2 : Int),
        (c : Int) ≤ (hypre_CommPkgCreate I S R num_values orders reverse comm my_proc mem).num_sends →
        (c2 : Int) ≤ (hypre_CommPkgCreate I S R num_values orders reverse comm my_proc mem).num_sends →
        0 ≤ k → k < (sendTypeAt (hypre_CommPkgCreate I S R num_values orders reverse comm my_proc mem) c).num_entries →
        0 ≤ k2 → k2 < (sendTypeAt (hypre_CommPkgCreate I S R num_values orders reverse comm my_proc mem) c2).num_entries →
        slotStart (boxCounts (sendBoxesOf I reverse) (sendProcessesOf I reverse)) my_proc
          (peerList my_proc (sendBoxesOf I reverse) (sendProcessesOf I reverse)) c + k
          = slotStart (boxCounts (sendBoxesOf I reverse) (sendProcessesOf I reverse)) my_proc
          (peerList my_proc (sendBoxesOf I reverse) (sendProcessesOf I reverse)) c2 + k2 →
        c = c2 ∧ k = k2)
    ∧ (∀ x : Int, 0 ≤ x → x < (createSendSide I S R num_values orders reverse my_proc mem).1.num_entries →
        ∃ (c : Nat) (k : Int),
          (c : Int) ≤ (hypre_CommPkgCreate I S R num_values orders reverse comm my_proc mem).num_sends
          ∧ 0 ≤ k ∧ k < (sendTypeAt (hypre_CommPkgCreate I S R num_values orders reverse comm my_proc mem) c).num_entries
          ∧ x = slotStart (boxCounts (sendBoxesOf I reverse) (sendProcessesOf I reverse)) my_proc
          (peerList my_proc (sendBoxesOf I reverse) (sendProcessesOf I reverse)) c + k)
    ∧ (hypre_CommPkgCreate I S R num_values orders reverse comm my_proc mem).copy_from_type.num_entries
        + ((List.range (hypre_CommPkgCreate I S R num_values orders reverse comm my_proc mem).num_sends.toNat).map
            (fun (i : Nat) => ((hypre_CommPkgCreate I S R num_values orders reverse comm my_proc mem).send_types i).num_entries)).sum
        = (nonemptyBoxes (sendBoxesOf I reverse)).length := by
  obtain ⟨-, c2, c3, -⟩ := sendSide_inv (sendBoxesOf I reverse) (sendStrideOf I reverse)
    (sendProcessesOf I reverse) (sendRBoxnumsOf I reverse) (sendRBoxesOf I reverse)
    (sendTransformsOf I reverse) I.coords I.dirs
    (storedOrders (sendTransformsOf I reverse) orders I.num_transforms num_values)
    (sendSpaceOf S R reverse) num_values my_proc mem
  have hns : (hypre_CommPkgCreate I S R num_values orders reverse comm my_proc mem).num_sends
      = ((peerList my_proc (sendBoxesOf I reverse) (sendProcessesOf I reverse)).length : Int) := by
    rw [create_eq_build]
    exact c2
  have hK : ∀ p, 0 ≤ (boxCounts (sendBoxesOf I reverse) (sendProcessesOf I reverse)) p :=
    fun p => Int.natCast_nonneg _
  have hslot := createSendSide_slots I S R num_values orders reverse my_proc mem
  have hview := create_view I S R num_values orders reverse comm my_proc mem
  have hne : ∀ c : Nat, c ≤ (peerList my_proc (sendBoxesOf I reverse) (sendProcessesOf I reverse)).length →
      (sendTypeAt (hypre_CommPkgCreate I S R num_values orders reverse comm my_proc mem) c).num_entries
        = slotCount (boxCounts (sendBoxesOf I reverse) (sendProcessesOf I reverse)) my_proc
            (peerList my_proc (sendBoxesOf I reverse) (sendProcessesOf I reverse)) c := by
    intro c hc
    rw [hview c]
    exact (hslot c hc).2.2.2
  have hle : ∀ c : Nat, (c : Int) ≤ (hypre_CommPkgCreate I S R num_values orders reverse comm my_proc mem).num_sends →
      c ≤ (peerList my_proc (sendBoxesOf I reverse) (sendProcessesOf I reverse)).length := by
    intro c hc
    rw [hns] at hc
    exact_mod_cast hc
  have htot := slotStart_total (sendBoxesOf I reverse) (sendProcessesOf I reverse) my_proc
  have hnat : (hypre_CommPkgCreate I S R num_values orders reverse comm my_proc mem).num_sends.toNat
      = (peerList my_proc (sendBoxesOf I reverse) (sendProcessesOf I reverse)).length := by
    rw [hns]
    exact Int.toNat_ofNat _
  refine ⟨hview, c3, ?_, rfl, ?_, ?_, ?_, ?_⟩
  · intro c hc
    obtain ⟨q1, q2, q3, -⟩ := hslot c (hle c hc)
    refine ⟨q1, q2, q3, ?_, ?_⟩
    · rw [hne c (hle c hc)]
      exact slotCount_nonneg _ _ _ hK c
    · rw [hne c (hle c hc)]
      rfl
  · rw [hnat, htot]
    exact c3.symm
  · intro c c2 k k2 hc hc2 h0 h1 g0 g1 heq
    rw [hne c (hle c hc)] at h1
    rw [hne c2 (hle c2 hc2)] at g1
    exact slot_disjoint _ _ _ hK c c2 k k2 h0 h1 g0 g1 heq
  · intro x h0 h1
    have hx : x < slotStart (boxCounts (sendBoxesOf I reverse) (sendProcessesOf I reverse)) my_proc
          (peerList my_proc (sendBoxesOf I reverse) (sendProcessesOf I reverse))
        ((peerList my_proc (sendBoxesOf I reverse) (sendProcessesOf I reverse)).length + 1) := by
      rw [htot]
      exact lt_of_lt_of_eq h1 c3
    obtain ⟨c, k, a, b, d, e⟩ := slot_cover _ _ _ _ x h0 hx
    refine ⟨c, k, ?_, b, ?_, e⟩
    · rw [hns]
      exact_mod_cast a
    · rw [hne c a]
      exact d
  · rw [hnat, ← htot, slotStart_eq_counts, ← hne 0 (Nat.zero_le _)]
    congr 1
    apply congrArg
    apply List.map_congr_left
    intro i hi
    rw [List.mem_range] at hi
    exact hne (i + 1) hi

/-- The loop that sets `data_offsets`: entry `i` of a data space of more than
`i` boxes is `num_values` times the sum of the volumes of the boxes before
box `i`. -/
theorem setDataOffsets_spec (data_space : hypre_BoxArray) (num_values : Int)
    (data_offsets : Int → Int) (i : Nat) (hi : (i : Int) < data_space.size) :
    setDataOffsets data_space num_values data_offsets i
      = num_values
        * ((List.range i).map (fun (k : Nat) => hypre_BoxVolume (data_space.boxes k))).sum := by
  unfold setDataOffsets
  have hlt : i < data_space.size.toNat := by omega
  generalize data_space.size.toNat = n at hlt
  have key : ∀ n : Nat,
      (forLoop n
        (fun i (t : (Int → Int) × Int) =>
          (setAt t.1 i t.2, t.2 + hypre_BoxVolume (data_space.boxes i) * num_values))
        (data_offsets, 0)).2
        = num_values
          * ((List.range n).map (fun (k : Nat) => hypre_BoxVolume (data_space.boxes k))).sum
      ∧ ∀ i : Nat, i < n →
        (forLoop n
          (fun i (t : (Int → Int) × Int) =>
            (setAt t.1 i t.2, t.2 + hypre_BoxVolume (data_space.boxes i) * num_values))
          (data_offsets, 0)).1 i
          = num_values
            * ((List.range i).map
                (fun (k : Nat) => hypre_BoxVolume (data_space.boxes k))).sum := by
    intro n
    induction n with
    | zero => exact ⟨by simp [forLoop_zero], fun i hi => absurd hi (Nat.not_lt_zero i)⟩
    | succ m ih =>
      rw [forLoop_succ]
      generalize forLoop m _ (data_offsets, (0 : Int)) = r at ih ⊢
      obtain ⟨a, b⟩ := ih
      refine ⟨?_, ?_⟩
      · show r.2 + hypre_BoxVolume (data_space.boxes m) * num_values = _
        rw [a, List.range_succ, List.map_append, List.sum_append]
        simp only [List.map_cons, List.map_nil, List.sum_cons, List.sum_nil, add_zero]
        ring
      · intro i hi
        show setAt r.1 m r.2 i = _
        rw [setAt_apply]
        by_cases him : (i : Int) = m
        · have : i = m := by exact_mod_cast him
          subst this
          rw [if_pos rfl, a]
        · rw [if_neg him]
          exact b i (by omega)
  exact (key n).2 i hlt

theorem mem_boxIndices (boxes : hypre_BoxArrayArray) (e : Int × Int) (h : e ∈ boxIndices boxes) :
    0 ≤ e.1 ∧ e.1 < boxes.size ∧ 0 ≤ e.2 ∧ e.2 < (boxes.box_arrays e.1).size := by
  unfold boxIndices at h
  rw [List.mem_flatMap] at h
  obtain ⟨i, hi, hj⟩ := h
  rw [List.mem_map] at hj
  obtain ⟨j, hj, rfl⟩ := hj
  rw [List.mem_range] at hi hj
  refine ⟨Int.natCast_nonneg _, by omega, Int.natCast_nonneg _, ?_⟩
  show (j : Int) < (boxes.box_arrays i).size
  omega

/-- The cells of the slices after hypre_CommPkgCreate: cell `k` of the
CommType of process `p` holds what the round of the `k`-th box with points of
`p` wrote. -/
theorem create_send_entries (I : hypre_CommInfo) (S R : hypre_BoxArray) (num_values : Int)
    (orders : Option (Int → Int → Int)) (reverse comm my_proc : Int) (mem : CreateMemory)
    (c : Nat) (p : Int) (k : Nat) (e : Int × Int)
    (hc : slotProc my_proc
      (peerList my_proc (sendBoxesOf I reverse) (sendProcessesOf I reverse)) c = some p)
    (hk : (peerBoxes (sendBoxesOf I reverse) (sendProcessesOf I reverse) p)[k]? = some e) :
    (sendTypeAt (hypre_CommPkgCreate I S R num_values orders reverse comm my_proc mem)
        c).entries k
      = sendEntryOf num_values (sendStrideOf I reverse) (sendBoxesOf I reverse) I.coords I.dirs
          (sendTransformsOf I reverse)
          (storedOrders (sendTransformsOf I reverse) orders I.num_transforms num_values)
          (sendSpaceOf S R reverse)
          (setDataOffsets (sendSpaceOf S R reverse) num_values mem.send_data_offsets) e
          (mem.ct_entries
            (slotStart (boxCounts (sendBoxesOf I reverse) (sendProcessesOf I reverse)) my_proc
              (peerList my_proc (sendBoxesOf I reverse) (sendProcessesOf I reverse)) c + k))
    ∧ (sendTypeAt (hypre_CommPkgCreate I S R num_values orders reverse comm my_proc mem)
        c).rem_boxnums k = sendRBoxnumsOf I reverse e.1 e.2
    ∧ (sendTypeAt (hypre_CommPkgCreate I S R num_values orders reverse comm my_proc mem)
        c).rem_boxes k = ((sendRBoxesOf I reverse).box_arrays e.1).boxes e.2
    ∧ (sendTypeAt (hypre_CommPkgCreate I S R num_values orders reverse comm my_proc mem)
        c).num_entries
      = (peerBoxes (sendBoxesOf I reverse) (sendProcessesOf I reverse) p).length := by
  obtain ⟨-, b1, b2, b3⟩ := sendSide_blocks (sendBoxesOf I reverse) (sendStrideOf I reverse)
    (sendProcessesOf I reverse) (sendRBoxnumsOf I reverse) (sendRBoxesOf I reverse)
    (sendTransformsOf I reverse) I.coords I.dirs
    (storedOrders (sendTransformsOf I reverse) orders I.num_transforms num_values)
    (sendSpaceOf S R reverse) num_values my_proc mem
  obtain ⟨q1, q2, q3, q4⟩ := createSendSide_slots I S R num_values orders reverse my_proc mem c
    (slotProc_le _ _ c p hc)
  rw [create_view]
  unfold commTypeView
  simp only [q1, q2, q3, q4, blockAt]
  refine ⟨b1.1 c p k e hc hk, b2.1 c p k e hc hk, b3.1 c p k e hc hk, ?_⟩
  rw [slotCount_of_proc _ _ _ c p hc]
  rfl

/-- C26: the entries of a send CommType after hypre_CommPkgCreate. Let
CommType `c` (`copy_from_type` for `c = 0`, `send_types[c - 1]` otherwise)
be the one of process `p`, and let `e = (i, j)` be the `k`-th send box with
points of `p` in the traversal of the send boxes (`i` outer, `j` inner), the
send data space having a box for each array of send boxes. Then the CommType
belongs to `p`, holds as many entries as `p` has send boxes with points, and
its entry `k` is the result of hypre_CommTypeSetEntry for box `(i, j)`,
built in data box `i` with the offset `data_offsets[i]`, which is
`num_values` times the sum of the volumes of the data boxes `0 .. i - 1`;
`rem_boxnums[k]` is `send_rboxnums[i][j]` and `rem_boxes[k]` is
`send_rboxes[i][j]`. -/
theorem send_entries_content (I : hypre_CommInfo) (S R : hypre_BoxArray) (num_values : Int)
    (orders : Option (Int → Int → Int)) (reverse comm my_proc : Int) (mem : CreateMemory)
    (c : Nat) (p : Int) (k : Nat) (e : Int × Int)
    (hc : slotProc my_proc (peerList my_proc (sendBoxesOf I reverse) (sendProcessesOf I reverse)) c = some p)
    (hk : (peerBoxes (sendBoxesOf I reverse) (sendProcessesOf I reverse) p)[k]? = some e)
    (hsz : (sendBoxesOf I reverse).size ≤ (sendSpaceOf S R reverse).size) :
    (sendTypeAt (hypre_CommPkgCreate I S R num_values orders reverse comm my_proc mem) c).proc = p
    ∧ (sendTypeAt (hypre_CommPkgCreate I S R num_values orders reverse comm my_proc mem) c).num_entries
      = (peerBoxes (sendBoxesOf I reverse) (sendProcessesOf I reverse) p).length
    ∧ (sendTypeAt (hypre_CommPkgCreate I S R num_values orders reverse comm my_proc mem) c).entries k
      = hypre_CommTypeSetEntry (((sendBoxesOf I reverse).box_arrays e.1).boxes e.2)
          (sendStrideOf I reverse) (resolvedCoord I.coords (sendTransformsOf I reverse) e)
          (resolvedDir I.dirs (sendTransformsOf I reverse) e)
          (resolvedOrder num_values (sendTransformsOf I reverse)
            (storedOrders (sendTransformsOf I reverse) orders I.num_transforms num_values) e)
          ((sendSpaceOf S R reverse).boxes e.1)
          (setDataOffsets (sendSpaceOf S R reverse) num_values mem.send_data_offsets e.1)
          (mem.ct_entries
            (slotStart (boxCounts (sendBoxesOf I reverse) (sendProcessesOf I reverse)) my_proc
              (peerList my_proc (sendBoxesOf I reverse) (sendProcessesOf I reverse)) c + k))
    ∧ setDataOffsets (sendSpaceOf S R reverse) num_values mem.send_data_offsets e.1
      = num_values
        * ((List.range e.1.toNat).map
            (fun (i : Nat) => hypre_BoxVolume ((sendSpaceOf S R reverse).boxes i))).sum
    ∧ (sendTypeAt (hypre_CommPkgCreate I S R num_values orders reverse comm my_proc mem) c).rem_boxnums k
      = sendRBoxnumsOf I reverse e.1 e.2
    ∧ (sendTypeAt (hypre_CommPkgCreate I S R num_values orders reverse comm my_proc mem) c).rem_boxes k
      = ((sendRBoxesOf I reverse).box_arrays e.1).boxes e.2 := by
  obtain ⟨h1, h2, h3, h4⟩ := create_send_entries I S R num_values orders reverse comm my_proc
    mem c p k e hc hk
  obtain ⟨-, -, -, hinv⟩ := sendSide_inv (sendBoxesOf I reverse) (sendStrideOf I reverse)
    (sendProcessesOf I reverse) (sendRBoxnumsOf I reverse) (sendRBoxesOf I reverse)
    (sendTransformsOf I reverse) I.coords I.dirs
    (storedOrders (sendTransformsOf I reverse) orders I.num_transforms num_values)
    (sendSpaceOf S R reverse) num_values my_proc mem
  obtain ⟨-, i2, -, i4, -⟩ := hinv
  have hproc : (sendTypeAt (hypre_CommPkgCreate I S R num_values orders reverse comm my_proc mem) c).proc = p := by
    rw [create_view]
    cases c with
    | zero =>
      have hp : my_proc = p := Option.some.inj hc
      rw [← hp]
      exact i4.1
    | succ n => exact (i2 n p hc).2.1
  have hmem : e ∈ boxIndices (sendBoxesOf I reverse) := by
    have h5 : e ∈ peerBoxes (sendBoxesOf I reverse) (sendProcessesOf I reverse) p :=
      List.mem_iff_getElem?.2 ⟨k, hk⟩
    unfold peerBoxes nonemptyBoxes at h5
    exact (List.mem_filter.1 (List.mem_filter.1 h5).1).1
  obtain ⟨m1, m2, -, -⟩ := mem_boxIndices _ e hmem
  have hoff := setDataOffsets_spec (sendSpaceOf S R reverse) num_values mem.send_data_offsets e.1.toNat
    (by rw [Int.toNat_of_nonneg m1]; omega)
  rw [Int.toNat_of_nonneg m1] at hoff
  exact ⟨hproc, h4, h1, hoff, h2, h3⟩

/-- C26 at a concrete input: on process 0 the first send box of the sample
CommInfo, of two points, is the only box with points of process 1; entry 0 of
`send_types[0]` is built for it in the data box of ten points at offset 0. -/
theorem send_entries_content_witness :
    (samplePkg.send_types 0).proc = 1 ∧ (samplePkg.send_types 0).num_entries = 1
    ∧ (samplePkg.send_types 0).entries 0
      = hypre_CommTypeSetEntry (sampleBox 0 1) ⟨1, 1, 1⟩ ⟨0, 1, 2⟩ ⟨1, 1, 1⟩ [0] (sampleBox 0 9) 0
          zeroEntry
    ∧ (samplePkg.send_types 0).rem_boxnums 0 = 0
    ∧ (samplePkg.send_types 0).rem_boxes 0 = sampleBox 0 1 := by
  have h := send_entries_content sampleInfo sampleSpace sampleSpace 1 none 0 0 0 sampleMemory
    1 1 0 (0, 0) (by decide) (by decide) (by decide)
  exact ⟨h.1, h.2.1.trans (by decide), h.2.2.1, h.2.2.2.2.1,
    h.2.2.2.2.2.trans (by decide)⟩

theorem copyOrders_spec (num_transforms num_values : Int) (orders : Int → Int → Int) (t : Int)
    (h0 : 0 ≤ t) (h1 : t < num_transforms) :
    copyOrders num_transforms num_values orders t
      = (List.range num_values.toNat).map (fun (j : Nat) => orders t j) := by
  unfold copyOrders
  have h := forLoop_pointwise
    (fun (i : Nat) (_ : List Int) =>
      (List.range num_values.toNat).map (fun (j : Nat) => orders i j))
    num_transforms.toNat (fun _ => []) t
  have hlt : t < (num_transforms.toNat : Int) := by omega
  rw [if_pos ⟨h0, hlt⟩] at h
  simp only [Int.toNat_of_nonneg h0] at h
  exact h

/-- C28: the transform of a send entry in hypre_CommPkgCreate. Let `e = (i, j)`
be the `k`-th send box with points of process `p`, whose CommType is
CommType `c`. When `send_transforms` (after the reverse swap) is NULL, entry
`k` is built with coord `(0, 1, 2)`, dir `(1, 1, 1)` and the order
`0, 1, ..., num_values - 1`. When it is not NULL, the entry is built with
`coords[t]` and `dirs[t]` for `t = send_transforms[i][j]`, and with the
identity order when `orders` is NULL, with the first `num_values` elements of
`orders[t]` when `orders` is not NULL and `0 ≤ t < num_transforms`. The
package stores `num_orders = num_transforms` and the rows
`orders[t][0 .. num_values - 1]` for `0 ≤ t < num_transforms` when both are
not NULL, and `num_orders = 0` with `orders = NULL` otherwise. -/
theorem transform_resolution (I : hypre_CommInfo) (S R : hypre_BoxArray) (num_values : Int)
    (orders : Option (Int → Int → Int)) (reverse comm my_proc : Int) (mem : CreateMemory)
    (c : Nat) (p : Int) (k : Nat) (e : Int × Int)
    (hc : slotProc my_proc (peerList my_proc (sendBoxesOf I reverse) (sendProcessesOf I reverse)) c = some p)
    (hk : (peerBoxes (sendBoxesOf I reverse) (sendProcessesOf I reverse) p)[k]? = some e) :
    ((sendTransformsOf I reverse) = none →
      (sendTypeAt (hypre_CommPkgCreate I S R num_values orders reverse comm my_proc mem) c).entries k
        = hypre_CommTypeSetEntry (((sendBoxesOf I reverse).box_arrays e.1).boxes e.2)
            (sendStrideOf I reverse) ⟨0, 1, 2⟩ ⟨1, 1, 1⟩
            (identityOrder num_values)
            ((sendSpaceOf S R reverse).boxes e.1)
            (setDataOffsets (sendSpaceOf S R reverse) num_values mem.send_data_offsets e.1)
            (mem.ct_entries
              (slotStart (boxCounts (sendBoxesOf I reverse) (sendProcessesOf I reverse)) my_proc
                (peerList my_proc (sendBoxesOf I reverse) (sendProcessesOf I reverse)) c + k)))
    ∧ (∀ tr : Int → Int → Int, (sendTransformsOf I reverse) = some tr → orders = none →
      (sendTypeAt (hypre_CommPkgCreate I S R num_values orders reverse comm my_proc mem) c).entries k
        = hypre_CommTypeSetEntry (((sendBoxesOf I reverse).box_arrays e.1).boxes e.2)
            (sendStrideOf I reverse) (I.coords (tr e.1 e.2)) (I.dirs (tr e.1 e.2))
            (identityOrder num_values)
            ((sendSpaceOf S R reverse).boxes e.1)
            (setDataOffsets (sendSpaceOf S R reverse) num_values mem.send_data_offsets e.1)
            (mem.ct_entries
              (slotStart (boxCounts (sendBoxesOf I reverse) (sendProcessesOf I reverse)) my_proc
                (peerList my_proc (sendBoxesOf I reverse) (sendProcessesOf I reverse)) c + k)))
    ∧ (∀ (tr o : Int → Int → Int), (sendTransformsOf I reverse) = some tr → orders = some o →
      0 ≤ tr e.1 e.2 → tr e.1 e.2 < I.num_transforms →
      (sendTypeAt (hypre_CommPkgCreate I S R num_values orders reverse comm my_proc mem) c).entries k
        = hypre_CommTypeSetEntry (((sendBoxesOf I reverse).box_arrays e.1).boxes e.2)
            (sendStrideOf I reverse) (I.coords (tr e.1 e.2)) (I.dirs (tr e.1 e.2))
            ((List.range num_values.toNat).map (fun (j : Nat) => o (tr e.1 e.2) j))
            ((sendSpaceOf S R reverse).boxes e.1)
            (setDataOffsets (sendSpaceOf S R reverse) num_values mem.send_data_offsets e.1)
            (mem.ct_entries
              (slotStart (boxCounts (sendBoxesOf I reverse) (sendProcessesOf I reverse)) my_proc
                (peerList my_proc (sendBoxesOf I reverse) (sendProcessesOf I reverse)) c + k)))
    ∧ (∀ (tr o : Int → Int → Int), (sendTransformsOf I reverse) = some tr → orders = some o →
      (hypre_CommPkgCreate I S R num_values orders reverse comm my_proc mem).num_orders = I.num_transforms
      ∧ ∃ cp : Int → List Int,
          (hypre_CommPkgCreate I S R num_values orders reverse comm my_proc mem).orders = some cp
          ∧ ∀ t : Int, 0 ≤ t → t < I.num_transforms →
              cp t = (List.range num_values.toNat).map (fun (j : Nat) => o t j))
    ∧ (((sendTransformsOf I reverse) = none ∨ orders = none) →
      (hypre_CommPkgCreate I S R num_values orders reverse comm my_proc mem).orders = none
      ∧ (hypre_CommPkgCreate I S R num_values orders reverse comm my_proc mem).num_orders = 0) := by
  obtain ⟨h1, -, -, -⟩ := create_send_entries I S R num_values orders reverse comm my_proc
    mem c p k e hc hk
  rw [create_eq_build]
  rw [create_eq_build] at h1
  generalize (sendTransformsOf I reverse) = T at h1 ⊢
  refine ⟨?_, ?_, ?_, ?_, ?_⟩
  · intro hT
    subst hT
    exact h1
  · intro tr hT ho
    subst hT
    subst ho
    exact h1
  · intro tr o hT ho t0 t1
    subst hT
    subst ho
    rw [h1]
    show hypre_CommTypeSetEntry _ _ _ _
      (copyOrders I.num_transforms num_values o (tr e.1 e.2)) _ _ _ = _
    rw [copyOrders_spec _ _ _ _ t0 t1]
    rfl
  · intro tr o hT ho
    subst hT
    subst ho
    exact ⟨rfl, copyOrders I.num_transforms num_values o, rfl,
      fun t t0 t1 => copyOrders_spec _ _ _ t t0 t1⟩
  · intro h
    rcases h with h | h
    · subst h
      exact ⟨rfl, rfl⟩
    · subst h
      cases T with
      | none => exact ⟨rfl, rfl⟩
      | some tr => exact ⟨rfl, rfl⟩


/-- C28 at a concrete input: with two transforms and orders for two values
per point, the first send box of the sample, sent with transform 1, gets the
coord, the dir and the copied order of transform 1, and the package stores
two orders. -/
theorem transform_resolution_witness :
    (sendTypeAt
        (hypre_CommPkgCreate sampleXfInfo sampleSpace sampleSpace 2 (some sampleOrders) 0 0 0
          sampleMemory) 1).entries 0
      = hypre_CommTypeSetEntry (sampleBox 0 1) ⟨1, 1, 1⟩ ⟨1, 0, 2⟩ ⟨-1, 1, 1⟩ [1, 0]
          (sampleBox 0 9) 0 zeroEntry
    ∧ (hypre_CommPkgCreate sampleXfInfo sampleSpace sampleSpace 2 (some sampleOrders) 0 0 0
        sampleMemory).num_orders = 2 := by
  have h := transform_resolution sampleXfInfo sampleSpace sampleSpace 2 (some sampleOrders) 0 0
    0 sampleMemory 1 1 0 (0, 0) (by decide) (by decide)
  have h3 := h.2.2.1 (fun _ j => if j = 0 then 1 else 0) sampleOrders rfl rfl (by decide)
    (by decide)
  have h4 := (h.2.2.2.1 (fun _ j => if j = 0 then 1 else 0) sampleOrders rfl rfl).1
  have a1 : ((sendBoxesOf sampleXfInfo 0).box_arrays ((0 : Int), (0 : Int)).1).boxes
      ((0 : Int), (0 : Int)).2 = sampleBox 0 1 := by decide
  have a2 : sendStrideOf sampleXfInfo 0 = ⟨1, 1, 1⟩ := by decide
  have a3 : (List.range (2 : Int).toNat).map (fun (j : Nat) => sampleOrders 1 j) = [1, 0] := by
    decide
  have a4 : setDataOffsets (sendSpaceOf sampleSpace sampleSpace 0) 2
      sampleMemory.send_data_offsets ((0 : Int), (0 : Int)).1 = 0 := by decide
  have a5 : sampleXfInfo.coords 1 = ⟨1, 0, 2⟩ := by decide
  have a6 : sampleXfInfo.dirs 1 = ⟨-1, 1, 1⟩ := by decide
  refine ⟨h3.trans ?_, h4⟩
  show hypre_CommTypeSetEntry
    (((sendBoxesOf sampleXfInfo 0).box_arrays ((0 : Int), (0 : Int)).1).boxes
      ((0 : Int), (0 : Int)).2) (sendStrideOf sampleXfInfo 0) (sampleXfInfo.coords 1)
    (sampleXfInfo.dirs 1)
    ((List.range (2 : Int).toNat).map (fun (j : Nat) => sampleOrders 1 j))
    (sampleSpace.boxes 0)
    (setDataOffsets (sendSpaceOf sampleSpace sampleSpace 0) 2 sampleMemory.send_data_offsets
      ((0 : Int), (0 : Int)).1) zeroEntry = _
  rw [a1, a2, a3, a4, a5, a6]
  rfl

/-! ## The recv side of hypre_CommPkgCreate -/

theorem toRecv_init (p : Int) (s : SendState) :
    recvInitType p (toRecv s) = toRecv (sendInitType p s) := by
  unfold recvInitType sendInitType
  by_cases h : s.p_comm_types p < 0
  · have h2 : (toRecv s).p_comm_types p < 0 := h
    rw [if_pos h, if_pos h2]
    unfold toRecv
    simp only [RecvState.mk.injEq, true_and, and_true]
    funext c
    simp only [setAt_apply]
    split <;> rfl
  · have h2 : ¬ (toRecv s).p_comm_types p < 0 := h
    rw [if_neg h, if_neg h2]

/-- The second recv loop nest does to the CommTypes what the second send loop
nest does, the pointers apart. -/
theorem toRecv_fill (num_values : Int) (stride : hypre_Index) (boxes : hypre_BoxArrayArray)
    (processes rboxnums : Int → Int → Int) (rboxes : hypre_BoxArrayArray)
    (coords dirs : Int → hypre_Index) (ds : hypre_BoxArray) (offs : Int → Int) (i j : Int)
    (s : SendState) :
    recvFillBody num_values stride boxes processes i j (toRecv s)
      = toRecv (sendFillBody num_values stride boxes processes rboxnums rboxes coords dirs none
          none ds offs i j s) := by
  unfold recvFillBody sendFillBody
  by_cases hv : hypre_BoxVolume ((boxes.box_arrays i).boxes j) ≠ 0
  · simp only [if_pos hv, toRecv_init, sendResolve, sendAddEntry]
    unfold toRecv
    simp only [RecvState.mk.injEq, true_and, and_true]
    funext c
    simp only [setAt_apply]
    split <;> rfl
  · simp only [if_neg hv]

theorem toRecv_forBoxes (num_values : Int) (stride : hypre_Index) (boxes : hypre_BoxArrayArray)
    (processes rboxnums : Int → Int → Int) (rboxes : hypre_BoxArrayArray)
    (coords dirs : Int → hypre_Index) (ds : hypre_BoxArray) (offs : Int → Int) (s : SendState) :
    forBoxes boxes (recvFillBody num_values stride boxes processes) (toRecv s)
      = toRecv (forBoxes boxes
          (sendFillBody num_values stride boxes processes rboxnums rboxes coords dirs none none
            ds offs) s) := by
  rw [forBoxes_eq_foldl, forBoxes_eq_foldl]
  generalize boxIndices boxes = l
  induction l generalizing s with
  | nil => rfl
  | cons e es ih =>
    rw [List.foldl_cons, List.foldl_cons,
      toRecv_fill num_values stride boxes processes rboxnums rboxes coords dirs ds offs, ih]

/-- The first recv loop nest counts as the first send loop nest does, without
the count of the entries. -/
theorem recvCount_eq (my_proc : Int) (boxes : hypre_BoxArrayArray)
    (processes : Int → Int → Int) (s t : CountState) (h1 : s.p_comm_types = t.p_comm_types)
    (h2 : s.num_comms = t.num_comms) :
    (forBoxes boxes
      (fun i j s => recvCountBody my_proc ((boxes.box_arrays i).boxes j) (processes i j) s)
      s).p_comm_types
      = (forBoxes boxes
          (fun i j s => sendCountBody my_proc ((boxes.box_arrays i).boxes j) (processes i j) s)
          t).p_comm_types
    ∧ (forBoxes boxes
      (fun i j s => recvCountBody my_proc ((boxes.box_arrays i).boxes j) (processes i j) s)
      s).num_comms
      = (forBoxes boxes
          (fun i j s => sendCountBody my_proc ((boxes.box_arrays i).boxes j) (processes i j) s)
          t).num_comms := by
  rw [forBoxes_eq_foldl, forBoxes_eq_foldl]
  generalize boxIndices boxes = l
  induction l generalizing s t with
  | nil => exact ⟨h1, h2⟩
  | cons e es ih =>
    rw [List.foldl_cons, List.foldl_cons]
    apply ih
    · unfold recvCountBody sendCountBody
      split
      · simp only [h1]
      · exact h1
    · unfold recvCountBody sendCountBody
      split
      · simp only [h1, h2]
      · exact h2

theorem resetLoop_apply (f : Nat → Int) (n : Nat) (pct : Int → Int) (p : Int) :
    forLoop n (fun m pct => setAt pct (f m) 0) pct p
      = if ∃ m, m < n ∧ f m = p then 0 else pct p := by
  induction n with
  | zero => simp [forLoop_zero]
  | succ k ih =>
    rw [forLoop_succ, setAt_apply]
    by_cases hp : p = f k
    · rw [if_pos hp, if_pos ⟨k, Nat.lt_succ_self k, hp.symm⟩]
    · rw [if_neg hp, ih]
      by_cases hex : ∃ m, m < k ∧ f m = p
      · obtain ⟨m, hm, hf⟩ := hex
        rw [if_pos ⟨m, hm, hf⟩, if_pos ⟨m, Nat.lt_succ_of_lt hm, hf⟩]
      · rw [if_neg hex, if_neg]
        rintro ⟨m, hm, hf⟩
        rcases Nat.lt_succ_iff_lt_or_eq.1 hm with h | h
        · exact hex ⟨m, h, hf⟩
        · subst h
          exact hp hf.symm

theorem recvStart_eq (p_comm_types : Int → Int) (num_values my_proc : Int) (mem : CreateMemory) :
    recvStart p_comm_types my_proc = toRecv (sendStart p_comm_types num_values my_proc mem) := by
  unfold recvStart sendStart toRecv
  simp only [RecvState.mk.injEq, true_and, and_true]
  funext c
  simp only [setAt_apply]
  split <;> rfl

/-- The loop that resets `p_comm_types` before the recv side leaves the array
zero: the peers and the local process are reset, and the other processes had
no send box with points. -/
theorem createReset_zero (I : hypre_CommInfo) (S R : hypre_BoxArray) (num_values : Int)
    (orders : Option (Int → Int → Int)) (reverse my_proc : Int) (mem : CreateMemory) (p : Int) :
    createReset I S R num_values orders reverse my_proc mem p = 0 := by
  obtain ⟨c1, c2, -, hinv⟩ := sendSide_inv (sendBoxesOf I reverse) (sendStrideOf I reverse)
    (sendProcessesOf I reverse) (sendRBoxnumsOf I reverse) (sendRBoxesOf I reverse)
    (sendTransformsOf I reverse) I.coords I.dirs
    (storedOrders (sendTransformsOf I reverse) orders I.num_transforms num_values)
    (sendSpaceOf S R reverse) num_values my_proc mem
  obtain ⟨-, i2, i3, i4, -⟩ := hinv
  unfold createReset
  rw [resetLoop_apply
    (fun m => ((createSendSide I S R num_values orders reverse my_proc mem).2.comm_types m).proc)]
  have hn : ((createSendSide I S R num_values orders reverse my_proc mem).1.num_comms
      + 1).toNat
      = (peerList my_proc (sendBoxesOf I reverse) (sendProcessesOf I reverse)).length + 1 := by
    have : (createSendSide I S R num_values orders reverse my_proc mem).1.num_comms
        = ((peerList my_proc (sendBoxesOf I reverse) (sendProcessesOf I reverse)).length
            : Int) := c2
    rw [this]
    omega
  rw [hn]
  split
  · rfl
  · rename_i hex
    have hmy : p ≠ my_proc := by
      intro hp
      exact hex ⟨0, Nat.succ_pos _, hp ▸ i4.1⟩
    have hP : p ∉ peerList my_proc (sendBoxesOf I reverse) (sendProcessesOf I reverse) := by
      intro hin
      obtain ⟨n, hn⟩ := List.mem_iff_getElem?.1 hin
      refine hex ⟨n + 1, Nat.succ_lt_succ (getElem?_lt_of_some _ n p hn), ?_⟩
      exact (i2 n p hn).2.1
    have h3 := i3 p hP
    have hstart : (sendStart
        (createSendSide I S R num_values orders reverse my_proc mem).1.p_comm_types num_values
        my_proc mem).p_comm_types p
        = (createSendSide I S R num_values orders reverse my_proc mem).1.p_comm_types p := by
      simp only [sendStart, setAt_apply, if_neg hmy]
    have hcnt : cntOf (fun e => sendProcessesOf I reverse e.1 e.2)
        (nonemptyBoxes (sendBoxesOf I reverse)) p = 0 := by
      apply (cntOf_zero _ _ _ _).1
      intro hin
      exact hP ((mem_peersOf my_proc _ p).2 ⟨hmy, hin⟩)
    have h4 : (createSendSide I S R num_values orders reverse my_proc mem).2.p_comm_types p
        = 0 := by
      have h5 := h3.trans (hstart.trans (c1 p))
      rw [hcnt] at h5
      exact h5
    exact h4

/-- The recv side of hypre_CommPkgCreate from a zero array `p_comm_types`:
its CommTypes are those that the send loop nests build for the recv boxes,
the pointers apart. -/
theorem recvSide_eq (boxes : hypre_BoxArrayArray) (stride : hypre_Index)
    (processes : Int → Int → Int) (num_values my_proc : Int) (pct : Int → Int)
    (num_entries : Int) (hpct : ∀ p, pct p = 0) (rboxnums : Int → Int → Int)
    (rboxes : hypre_BoxArrayArray) (coords dirs : Int → hypre_Index) (ds : hypre_BoxArray)
    (mem : CreateMemory) :
    (recvSide boxes stride processes num_values my_proc pct num_entries).1.num_comms
      = (sendSide boxes stride processes rboxnums rboxes none coords dirs none ds num_values
          my_proc mem).1.num_comms
    ∧ (recvSide boxes stride processes num_values my_proc pct num_entries).2
      = toRecv (sendSide boxes stride processes rboxnums rboxes none coords dirs none ds
          num_values my_proc mem).2 := by
  have hz : pct = fun _ => 0 := funext hpct
  subst hz
  obtain ⟨e1, e2⟩ := recvCount_eq my_proc boxes processes
    { p_comm_types := fun _ => 0, num_comms := 0, num_entries := num_entries }
    { p_comm_types := fun _ => 0, num_comms := 0, num_entries := 0 } rfl rfl
  unfold recvSide sendSide
  refine ⟨e2, ?_⟩
  simp only
  rw [e1, recvStart_eq _ num_values my_proc mem, toRecv_forBoxes]

/-- The loop over the recv CommTypes for boxes that do not match: CommType
`i + 1` for `i < n` gets its payload as num_entries and the payload plus the
prefix size of the payload as bufsize, the other CommTypes stay, and the
second component is the sum of the new bufsize. -/
theorem maxLoop_spec (ct : Int → CommTypeSlot) (n : Nat) :
    (∀ c : Int, (c ≤ 0 ∨ (n : Int) < c) →
      (forLoop n (fun i t => maxBufsizeBody i t) (ct, 0)).1 c = ct c)
    ∧ (∀ i : Nat, i < n →
      (forLoop n (fun i t => maxBufsizeBody i t) (ct, 0)).1 ((i : Int) + 1)
        = { ct ((i : Int) + 1) with
            bufsize := slotPayload (ct ((i : Int) + 1))
              + hypre_CommPrefixSize (slotPayload (ct ((i : Int) + 1)))
            num_entries := slotPayload (ct ((i : Int) + 1)) })
    ∧ (forLoop n (fun i t => maxBufsizeBody i t) (ct, 0)).2
      = ((List.range n).map (fun (i : Nat) => slotPayload (ct ((i : Int) + 1))
          + hypre_CommPrefixSize (slotPayload (ct ((i : Int) + 1))))).sum := by
  induction n with
  | zero =>
    refine ⟨fun _ _ => rfl, fun i hi => absurd hi (Nat.not_lt_zero i), ?_⟩
    simp [forLoop_zero]
  | succ k ih =>
    rw [forLoop_succ]
    generalize forLoop k (fun i t => maxBufsizeBody i t) (ct, (0 : Int)) = r at ih ⊢
    obtain ⟨a, b, d⟩ := ih
    have hk : r.1 ((k : Int) + 1) = ct ((k : Int) + 1) := a _ (Or.inr (by omega))
    refine ⟨?_, ?_, ?_⟩
    · intro c hc
      show setAt r.1 ((k : Int) + 1) _ c = _
      rw [setAt_apply, if_neg (by push_cast at hc; omega)]
      exact a c (by push_cast at hc; omega)
    · intro i hi
      show setAt r.1 ((k : Int) + 1) _ ((i : Int) + 1) = _
      rw [setAt_apply]
      by_cases hik : (i : Int) + 1 = (k : Int) + 1
      · have : i = k := by omega
        subst this
        rw [if_pos rfl, hk]
        rfl
      · rw [if_neg hik]
        exact b i (by omega)
    · show r.2 + _ = _
      rw [d, List.range_succ, List.map_append, List.sum_append, hk]
      simp only [List.map_cons, List.map_nil, List.sum_cons, List.sum_nil, add_zero]
      rfl

/-- The recv side of hypre_CommPkgCreate after its two loop nests: `num_comms`
is the number of the processes other than `my_proc` with a recv box with
points, CommType `n + 1` belongs to the `n`-th of them and holds the number
of its boxes, and the prefix size for them plus their payload; CommType 0 is
the local one and counts the local boxes; no CommType has arrays. -/
theorem createRecvSide_spec (I : hypre_CommInfo) (S R : hypre_BoxArray) (num_values : Int)
    (orders : Option (Int → Int → Int)) (reverse my_proc : Int) (mem : CreateMemory) :
    (createRecvSide I S R num_values orders reverse my_proc mem).1.num_comms
      = (peerList my_proc (recvBoxesOf I reverse) (recvProcessesOf I reverse)).length
    ∧ (∀ (n : Nat) (p : Int),
        (peerList my_proc (recvBoxesOf I reverse) (recvProcessesOf I reverse))[n]? = some p →
        ((createRecvSide I S R num_values orders reverse my_proc mem).2.comm_types
          ((n : Int) + 1)).proc = p
        ∧ ((createRecvSide I S R num_values orders reverse my_proc mem).2.comm_types
          ((n : Int) + 1)).num_entries
            = (peerBoxes (recvBoxesOf I reverse) (recvProcessesOf I reverse) p).length
        ∧ ((createRecvSide I S R num_values orders reverse my_proc mem).2.comm_types
          ((n : Int) + 1)).bufsize
            = hypre_CommPrefixSize
                (peerBoxes (recvBoxesOf I reverse) (recvProcessesOf I reverse) p).length
              + peerPayload num_values (recvStrideOf I reverse) (recvBoxesOf I reverse)
                  (recvProcessesOf I reverse) p)
    ∧ ((createRecvSide I S R num_values orders reverse my_proc mem).2.comm_types 0).proc
        = my_proc
    ∧ ((createRecvSide I S R num_values orders reverse my_proc mem).2.comm_types 0).num_entries
        = (peerBoxes (recvBoxesOf I reverse) (recvProcessesOf I reverse) my_proc).length
    ∧ (∀ c : Int,
        ((createRecvSide I S R num_values orders reverse my_proc mem).2.comm_types c).entries
          = none
        ∧ ((createRecvSide I S R num_values orders reverse my_proc mem).2.comm_types
            c).rem_boxnums = none
        ∧ ((createRecvSide I S R num_values orders reverse my_proc mem).2.comm_types
            c).rem_boxes = none)
    ∧ (createRecvSide I S R num_values orders reverse my_proc mem).2.comm_bufsize
      = sumBufsize (createRecvSide I S R num_values orders reverse my_proc mem).2.comm_types
          (1 + (peerList my_proc (recvBoxesOf I reverse) (recvProcessesOf I reverse)).length) := by
  obtain ⟨e1, e2⟩ := recvSide_eq (recvBoxesOf I reverse) (recvStrideOf I reverse)
    (recvProcessesOf I reverse) num_values my_proc
    (createReset I S R num_values orders reverse my_proc mem)
    (createSendSide I S R num_values orders reverse my_proc mem).1.num_entries
    (createReset_zero I S R num_values orders reverse my_proc mem) (fun _ _ => 0)
    (recvBoxesOf I reverse) I.coords I.dirs (recvSpaceOf S R reverse) mem
  obtain ⟨s1, s2, s3⟩ := sendSide_spec (recvBoxesOf I reverse) (recvStrideOf I reverse)
    (recvProcessesOf I reverse) (fun _ _ => 0) (recvBoxesOf I reverse) none I.coords I.dirs none
    (recvSpaceOf S R reverse) num_values my_proc mem
  obtain ⟨-, -, -, hinv⟩ := sendSide_inv (recvBoxesOf I reverse) (recvStrideOf I reverse)
    (recvProcessesOf I reverse) (fun _ _ => 0) (recvBoxesOf I reverse) none I.coords I.dirs none
    (recvSpaceOf S R reverse) num_values my_proc mem
  obtain ⟨-, -, -, i4, -⟩ := hinv
  unfold createRecvSide
  rw [e1, e2]
  refine ⟨s1, ?_, i4.1, i4.2.2, fun c => ⟨rfl, rfl, rfl⟩, s2⟩
  intro n p hp
  obtain ⟨a1, a2, a3⟩ := s3 n p hp
  rw [volOf_eq_payload] at a3
  exact ⟨a1, a2, a3⟩

/-- The recv fields of the package of hypre_CommPkgCreate are those of the
recv side after its loop nests, rewritten by the loop for boxes that do not
match when `boxes_match` is 0. -/
theorem create_recv_view (I : hypre_CommInfo) (S R : hypre_BoxArray) (num_values : Int)
    (orders : Option (Int → Int → Int)) (reverse comm my_proc : Int) (mem : CreateMemory) :
    (hypre_CommPkgCreate I S R num_values orders reverse comm my_proc mem).num_recvs
      = (createRecvSide I S R num_values orders reverse my_proc mem).1.num_comms
    ∧ (I.boxes_match ≠ 0 →
      (∀ i : Int, (hypre_CommPkgCreate I S R num_values orders reverse comm my_proc mem).recv_types i
        = commTypeView (fun _ => zeroEntry) (fun _ => 0) (fun _ => zeroBox)
            ((createRecvSide I S R num_values orders reverse my_proc mem).2.comm_types (i + 1)))
      ∧ (hypre_CommPkgCreate I S R num_values orders reverse comm my_proc mem).copy_to_type
        = commTypeView (fun _ => zeroEntry) (fun _ => 0) (fun _ => zeroBox)
            ((createRecvSide I S R num_values orders reverse my_proc mem).2.comm_types 0)
      ∧ (hypre_CommPkgCreate I S R num_values orders reverse comm my_proc mem).recv_bufsize
        = (createRecvSide I S R num_values orders reverse my_proc mem).2.comm_bufsize)
    ∧ (I.boxes_match = 0 →
      (∀ i : Int, (hypre_CommPkgCreate I S R num_values orders reverse comm my_proc mem).recv_types i
        = commTypeView (fun _ => zeroEntry) (fun _ => 0) (fun _ => zeroBox)
            ((forLoop (createRecvSide I S R num_values orders reverse my_proc mem).1.num_comms.toNat
            (fun i t => maxBufsizeBody i t)
            ((createRecvSide I S R num_values orders reverse my_proc mem).2.comm_types, 0)).1 (i + 1)))
      ∧ (hypre_CommPkgCreate I S R num_values orders reverse comm my_proc mem).copy_to_type
        = commTypeView (fun _ => zeroEntry) (fun _ => 0) (fun _ => zeroBox)
            ((forLoop (createRecvSide I S R num_values orders reverse my_proc mem).1.num_comms.toNat
            (fun i t => maxBufsizeBody i t)
            ((createRecvSide I S R num_values orders reverse my_proc mem).2.comm_types, 0)).1 0)
      ∧ (hypre_CommPkgCreate I S R num_values orders reverse comm my_proc mem).recv_bufsize
        = (forLoop (createRecvSide I S R num_values orders reverse my_proc mem).1.num_comms.toNat
            (fun i t => maxBufsizeBody i t)
            ((createRecvSide I S R num_values orders reverse my_proc mem).2.comm_types, 0)).2) := by
  rw [create_eq_build]
  refine ⟨rfl, fun h => ?_, fun h => ?_⟩
  · unfold commPkgBuild
    simp only [if_neg h]
    exact ⟨fun i => rfl, rfl, rfl⟩
  · unfold commPkgBuild
    simp only [if_pos h]
    exact ⟨fun i => rfl, rfl, rfl⟩

/-- C24: the buffer sizes per peer after hypre_CommPkgCreate. The send
CommTypes are those of the processes other than `my_proc` with a send box
with points; the one of process `p` has as num_entries the number `k` of the
send boxes with points of `p` and as bufsize `hypre_CommPrefixSize(k)` plus
`num_values` times the sum of the stride volumes of these boxes under
`send_stride`. When `boxes_match` is not 0 the same holds for the recv
CommTypes, with the recv boxes and `recv_stride`. -/
theorem peer_bufsizes (I : hypre_CommInfo) (S R : hypre_BoxArray) (num_values : Int)
    (orders : Option (Int → Int → Int)) (reverse comm my_proc : Int) (mem : CreateMemory) :
    (hypre_CommPkgCreate I S R num_values orders reverse comm my_proc mem).num_sends
      = (peerList my_proc (sendBoxesOf I reverse) (sendProcessesOf I reverse)).length
    ∧ (∀ (n : Nat) (p : Int),
        (peerList my_proc (sendBoxesOf I reverse) (sendProcessesOf I reverse))[n]? = some p →
        ((hypre_CommPkgCreate I S R num_values orders reverse comm my_proc mem).send_types n).proc = p
        ∧ ((hypre_CommPkgCreate I S R num_values orders reverse comm my_proc mem).send_types n).num_entries
          = (peerBoxes (sendBoxesOf I reverse) (sendProcessesOf I reverse) p).length
        ∧ ((hypre_CommPkgCreate I S R num_values orders reverse comm my_proc mem).send_types n).bufsize
          = hypre_CommPrefixSize
              ((hypre_CommPkgCreate I S R num_values orders reverse comm my_proc mem).send_types n).num_entries
            + peerPayload num_values (sendStrideOf I reverse) (sendBoxesOf I reverse)
              (sendProcessesOf I reverse) p)
    ∧ (hypre_CommPkgCreate I S R num_values orders reverse comm my_proc mem).num_recvs
      = (peerList my_proc (recvBoxesOf I reverse) (recvProcessesOf I reverse)).length
    ∧ (I.boxes_match ≠ 0 →
      ∀ (n : Nat) (p : Int),
        (peerList my_proc (recvBoxesOf I reverse) (recvProcessesOf I reverse))[n]? = some p →
        ((hypre_CommPkgCreate I S R num_values orders reverse comm my_proc mem).recv_types n).proc = p
        ∧ ((hypre_CommPkgCreate I S R num_values orders reverse comm my_proc mem).recv_types n).num_entries
          = (peerBoxes (recvBoxesOf I reverse) (recvProcessesOf I reverse) p).length
        ∧ ((hypre_CommPkgCreate I S R num_values orders reverse comm my_proc mem).recv_types n).bufsize
          = hypre_CommPrefixSize
              ((hypre_CommPkgCreate I S R num_values orders reverse comm my_proc mem).recv_types n).num_entries
            + peerPayload num_values (recvStrideOf I reverse) (recvBoxesOf I reverse)
              (recvProcessesOf I reverse) p) := by
  obtain ⟨s1, s2⟩ := create_send_types I S R num_values orders reverse comm my_proc mem
  obtain ⟨r1, r2, -⟩ := createRecvSide_spec I S R num_values orders reverse my_proc mem
  obtain ⟨v1, v2, -⟩ := create_recv_view I S R num_values orders reverse comm my_proc mem
  refine ⟨s1, ?_, v1.trans r1, ?_⟩
  · intro n p hp
    obtain ⟨a1, a2, a3⟩ := s2 n p hp
    refine ⟨a1, a2, ?_⟩
    rw [a2]
    exact a3
  · intro hm n p hp
    obtain ⟨a1, a2, a3⟩ := r2 n p hp
    rw [(v2 hm).1]
    refine ⟨a1, a2, ?_⟩
    show _ = hypre_CommPrefixSize
      ((createRecvSide I S R num_values orders reverse my_proc mem).2.comm_types
        ((n : Int) + 1)).num_entries + _
    rw [a2]
    exact a3

/-- C24 at a concrete input: on process 0 the sample CommInfo sends one box of
two points to process 1 and receives two boxes of two and three points from
it, one value per point. -/
theorem peer_bufsizes_witness :
    (samplePkg.send_types 0).num_entries = 1
    ∧ (samplePkg.send_types 0).bufsize = hypre_CommPrefixSize 1 + 2
    ∧ (samplePkg.recv_types 0).num_entries = 2
    ∧ (samplePkg.recv_types 0).bufsize = hypre_CommPrefixSize 2 + 5 := by
  have h := peer_bufsizes sampleInfo sampleSpace sampleSpace 1 none 0 0 0 sampleMemory
  obtain ⟨a1, a2, a3⟩ := h.2.1 0 1 (by decide)
  obtain ⟨b1, b2, b3⟩ := h.2.2.2 (by decide) 0 1 (by decide)
  exact ⟨a2.trans (by decide), a3.trans (by decide), b2.trans (by decide),
    b3.trans (by decide)⟩

/-- C29: the local recv CommType after hypre_CommPkgCreate. `copy_to_type`
has no entries (its pointer `entries` is NULL, and the package shows the
empty array), but its num_entries is the number of the recv boxes with
points whose process is the local process: the second recv loop nest counts
them as it does for the other processes. -/
theorem copy_to_type_count (I : hypre_CommInfo) (S R : hypre_BoxArray) (num_values : Int)
    (orders : Option (Int → Int → Int)) (reverse comm my_proc : Int) (mem : CreateMemory) :
    (hypre_CommPkgCreate I S R num_values orders reverse comm my_proc mem).copy_to_type.num_entries
      = (peerBoxes (recvBoxesOf I reverse) (recvProcessesOf I reverse) my_proc).length
    ∧ ((createRecvSide I S R num_values orders reverse my_proc mem).2.comm_types 0).entries = none
    ∧ (hypre_CommPkgCreate I S R num_values orders reverse comm my_proc mem).copy_to_type.entries = fun _ => zeroEntry := by
  obtain ⟨-, -, -, r4, r5, -⟩ := createRecvSide_spec I S R num_values orders reverse my_proc mem
  obtain ⟨-, v2, v3⟩ := create_recv_view I S R num_values orders reverse comm my_proc mem
  obtain ⟨m1, -, -⟩ := maxLoop_spec (createRecvSide I S R num_values orders reverse my_proc mem).2.comm_types
    (createRecvSide I S R num_values orders reverse my_proc mem).1.num_comms.toNat
  by_cases hm : I.boxes_match = 0
  · rw [(v3 hm).2.1, m1 0 (Or.inl (le_refl _))]
    refine ⟨r4, (r5 0).1, ?_⟩
    unfold commTypeView
    simp only [(r5 0).1, blockAt]
  · rw [(v2 hm).2.1]
    refine ⟨r4, (r5 0).1, ?_⟩
    unfold commTypeView
    simp only [(r5 0).1, blockAt]

/-- C29 fails on the sample CommInfo: its second recv box has one point and
comes from the local process 0, and `copy_to_type` has num_entries 1. -/
theorem copy_to_type_counterexample :
    hypre_BoxVolume ((sampleInfo.recv_boxes.box_arrays 0).boxes 1) ≠ 0
    ∧ sampleInfo.recv_processes 0 1 = 0
    ∧ samplePkg.copy_to_type.num_entries = 1
    ∧ samplePkg.copy_to_type.num_entries ≠ 0 := by
  decide

/-- C30: the rewrite of the recv CommTypes when `boxes_match` is 0. With
`P` the payload of a process `p` other than `my_proc`, that is `num_values`
times the sum of the stride volumes under `recv_stride` of the recv boxes
with points of `p`, the recv CommType of `p` has num_entries `P` and bufsize
`P + hypre_CommPrefixSize(P)`, and `recv_bufsize` is the sum of the bufsize
of the recv CommTypes. -/
theorem boxes_mismatch_rewrite (I : hypre_CommInfo) (S R : hypre_BoxArray) (num_values : Int)
    (orders : Option (Int → Int → Int)) (reverse comm my_proc : Int) (mem : CreateMemory)
    (hm : I.boxes_match = 0) :
    (hypre_CommPkgCreate I S R num_values orders reverse comm my_proc mem).num_recvs
      = (peerList my_proc (recvBoxesOf I reverse) (recvProcessesOf I reverse)).length
    ∧ (∀ (n : Nat) (p : Int),
        (peerList my_proc (recvBoxesOf I reverse) (recvProcessesOf I reverse))[n]? = some p →
        ((hypre_CommPkgCreate I S R num_values orders reverse comm my_proc mem).recv_types n).proc = p
        ∧ ((hypre_CommPkgCreate I S R num_values orders reverse comm my_proc mem).recv_types n).num_entries
          = peerPayload num_values (recvStrideOf I reverse) (recvBoxesOf I reverse)
              (recvProcessesOf I reverse) p
        ∧ ((hypre_CommPkgCreate I S R num_values orders reverse comm my_proc mem).recv_types n).bufsize
          = peerPayload num_values (recvStrideOf I reverse) (recvBoxesOf I reverse)
              (recvProcessesOf I reverse) p
            + hypre_CommPrefixSize
                (peerPayload num_values (recvStrideOf I reverse) (recvBoxesOf I reverse)
              (recvProcessesOf I reverse) p))
    ∧ (hypre_CommPkgCreate I S R num_values orders reverse comm my_proc mem).recv_bufsize
      = ((List.range (hypre_CommPkgCreate I S R num_values orders reverse comm my_proc mem).num_recvs.toNat).map
          (fun (i : Nat) => ((hypre_CommPkgCreate I S R num_values orders reverse comm my_proc mem).recv_types i).bufsize)).sum := by
  obtain ⟨r1, r2, -⟩ := createRecvSide_spec I S R num_values orders reverse my_proc mem
  obtain ⟨v1, -, v3⟩ := create_recv_view I S R num_values orders reverse comm my_proc mem
  obtain ⟨w1, w2, w3⟩ := v3 hm
  obtain ⟨-, m2, m3⟩ := maxLoop_spec (createRecvSide I S R num_values orders reverse my_proc mem).2.comm_types
    (createRecvSide I S R num_values orders reverse my_proc mem).1.num_comms.toNat
  have hnat : (createRecvSide I S R num_values orders reverse my_proc mem).1.num_comms.toNat
      = (peerList my_proc (recvBoxesOf I reverse) (recvProcessesOf I reverse)).length := by
    rw [r1]
    exact Int.toNat_ofNat _
  have hpay : ∀ (n : Nat) (p : Int),
      (peerList my_proc (recvBoxesOf I reverse) (recvProcessesOf I reverse))[n]? = some p →
      slotPayload ((createRecvSide I S R num_values orders reverse my_proc mem).2.comm_types ((n : Int) + 1))
        = peerPayload num_values (recvStrideOf I reverse) (recvBoxesOf I reverse)
              (recvProcessesOf I reverse) p := by
    intro n p hp
    obtain ⟨-, a2, a3⟩ := r2 n p hp
    unfold slotPayload
    rw [a3, a2]
    ring
  refine ⟨v1.trans r1, ?_, ?_⟩
  · intro n p hp
    obtain ⟨a1, -, -⟩ := r2 n p hp
    have hn : n < (createRecvSide I S R num_values orders reverse my_proc mem).1.num_comms.toNat := by
      rw [hnat]
      exact getElem?_lt_of_some _ n p hp
    rw [w1, m2 n hn, hpay n p hp]
    exact ⟨a1, rfl, rfl⟩
  · rw [w3, m3, v1]
    apply congrArg
    apply List.map_congr_left
    intro i hi
    rw [List.mem_range] at hi
    rw [w1, m2 i hi]
    rfl

/-- C30 at a concrete input: with boxes that do not match, the recv CommType
of process 1 on process 0, with boxes of two and three points and one value
per point, has num_entries 5 and bufsize `5 + hypre_CommPrefixSize(5)`, which
is the recv bufsize of the package. -/
theorem boxes_mismatch_rewrite_witness :
    ((hypre_CommPkgCreate sampleMismatchInfo sampleSpace sampleSpace 1 none 0 0 0
        sampleMemory).recv_types 0).num_entries = 5
    ∧ ((hypre_CommPkgCreate sampleMismatchInfo sampleSpace sampleSpace 1 none 0 0 0
        sampleMemory).recv_types 0).bufsize = 5 + hypre_CommPrefixSize 5
    ∧ (hypre_CommPkgCreate sampleMismatchInfo sampleSpace sampleSpace 1 none 0 0 0
        sampleMemory).recv_bufsize = 5 + hypre_CommPrefixSize 5 := by
  have h := boxes_mismatch_rewrite sampleMismatchInfo sampleSpace sampleSpace 1 none 0 0 0
    sampleMemory (by decide)
  obtain ⟨a1, a2, a3⟩ := h.2.1 0 1 (by decide)
  exact ⟨a2.trans (by decide), a3.trans (by decide), h.2.2.trans (by decide)⟩

/-! ## The collapse loop: termination and the walk -/

theorem collapseShift_keeps (n : Nat) (i0 : Int) (s : SetEntryState) :
    (forLoop n
      (fun c (t : SetEntryState) =>
        let j := i0 + c
        { t with
          length_array := setAt t.length_array j (t.length_array (j + 1))
          stride_array := setAt t.stride_array j (t.stride_array (j + 1)) })
      s).i = s.i
    ∧ (forLoop n
      (fun c (t : SetEntryState) =>
        let j := i0 + c
        { t with
          length_array := setAt t.length_array j (t.length_array (j + 1))
          stride_array := setAt t.stride_array j (t.stride_array (j + 1)) })
      s).dim = s.dim := by
  induction n with
  | zero => exact ⟨rfl, rfl⟩
  | succ k ih => exact ih

/-- One round of the collapse loop raises `i` by one or lowers `dim` by one. -/
theorem collapseBody_step (t : SetEntryState) :
    ((collapseBody t).i = t.i + 1 ∧ (collapseBody t).dim = t.dim)
    ∨ ((collapseBody t).i = t.i ∧ (collapseBody t).dim = t.dim - 1) := by
  unfold collapseBody
  split
  · right
    exact ⟨(collapseShift_keeps _ t.i t).1, rfl⟩
  · left
    exact ⟨rfl, rfl⟩

/-- C39: the collapse loop of hypre_CommTypeSetEntry terminates for every
content of the arrays. A round of the loop raises `i` by one and keeps `dim`,
or keeps `i` and lowers `dim` by one; from `i = 0`, `dim = 3` the test
`i < dim` fails after at most three rounds, so that the loop run with any
bound of at least three rounds gives the result of three; it ends with
`0 ≤ i = dim ≤ 3`. -/
theorem collapse_terminates (s : SetEntryState) :
    (∀ t : SetEntryState,
      ((collapseBody t).i = t.i + 1 ∧ (collapseBody t).dim = t.dim)
      ∨ ((collapseBody t).i = t.i ∧ (collapseBody t).dim = t.dim - 1))
    ∧ (∀ more : Nat,
        whileLoop (3 + more) (fun t => decide (t.i < t.dim)) collapseBody
          { s with dim := 3, i := 0 } = setEntryCollapse s)
    ∧ ¬ (setEntryCollapse s).i < (setEntryCollapse s).dim
    ∧ 0 ≤ (setEntryCollapse s).i
    ∧ (setEntryCollapse s).i = (setEntryCollapse s).dim
    ∧ (setEntryCollapse s).dim ≤ 3 := by
  obtain ⟨-, -, hd, hi, -, -⟩ := setEntryCollapse_spec s
  have h3 := keptAxes_length_le s.length_array
  have hexit : ¬ (setEntryCollapse s).i < (setEntryCollapse s).dim := by
    rw [hi]
    exact lt_irrefl _
  refine ⟨collapseBody_step, ?_, hexit, ?_, hi, ?_⟩
  · intro more
    exact whileLoop_stable (fun t => decide (t.i < t.dim)) collapseBody 3
      { s with dim := 3, i := 0 } (decide_eq_false hexit) more
  · rw [hi, hd]
    exact Int.natCast_nonneg _
  · rw [hd]
    exact_mod_cast h3

theorem collapse_product (s : SetEntryState) :
    (setEntryCollapse s).length_array 0 * (setEntryCollapse s).length_array 1
        * (setEntryCollapse s).length_array 2
      = s.length_array 0 * s.length_array 1 * s.length_array 2 := by
  obtain ⟨hk, h1, -, -, -, -⟩ := setEntryCollapse_spec s
  rw [keptAxes_cases] at hk h1
  by_cases e0 : s.length_array 0 = 1 <;> by_cases e1 : s.length_array 1 = 1 <;>
    by_cases e2 : s.length_array 2 = 1 <;>
  · simp only [e0, e1, e2, if_true, if_false, List.nil_append, List.append_nil,
      List.singleton_append, List.cons_append, List.length_cons, List.length_nil] at hk h1
    have a0 := hk 0
    have a1 := hk 1
    have a2 := hk 2
    have b0 := h1 0
    have b1 := h1 1
    have b2 := h1 2
    simp at a0 a1 a2 b0 b1 b2
    simp [a0, a1, a2, b0, b1, b2, e0, e1, e2]

/-- C37: the dimension collapse preserves the walk. For every input of
hypre_CommTypeSetEntry the nested walk `kk < length[2]`, `jj < length[1]`,
`ii < length[0]` (`ii` fastest) over the arrays of the entry visits, from
every start `p` and so from the offset of the entry, the same cells in the
same order as the walk over the arrays as they are after the adjustments for
`dir` and `coord`, before the collapse loop; the offset is the one before
the collapse, and the product `length[0]*length[1]*length[2]` is the same. -/
theorem collapse_preserves_walk (box : hypre_Box) (stride coord dir : hypre_Index)
    (order : List Int) (data_box : hypre_Box) (off : Int) (e : hypre_CommEntryType) :
    (∀ p : Int,
      boxAddrs (hypre_CommTypeSetEntry box stride coord dir order data_box off e).length_array
          (hypre_CommTypeSetEntry box stride coord dir order data_box off e).stride_array p
        = boxAddrs (setEntryAdjusted box stride coord dir data_box off e).length_array
            (setEntryAdjusted box stride coord dir data_box off e).stride_array p)
    ∧ (hypre_CommTypeSetEntry box stride coord dir order data_box off e).offset
        = (setEntryAdjusted box stride coord dir data_box off e).offset
    ∧ (hypre_CommTypeSetEntry box stride coord dir order data_box off e).length_array 0
          * (hypre_CommTypeSetEntry box stride coord dir order data_box off e).length_array 1
          * (hypre_CommTypeSetEntry box stride coord dir order data_box off e).length_array 2
        = (setEntryAdjusted box stride coord dir data_box off e).length_array 0
          * (setEntryAdjusted box stride coord dir data_box off e).length_array 1
          * (setEntryAdjusted box stride coord dir data_box off e).length_array 2 := by
  obtain ⟨-, -, -, -, ho, -⟩ := setEntryCollapse_spec
    (setEntryAdjusted box stride coord dir data_box off e)
  exact ⟨fun p => boxAddrs_collapse _ p, ho, collapse_product _⟩

/-! ## The size reserved when the boxes do not match -/

theorem hypre_CommPrefixSize_mono (m n : Int) (h : m ≤ n) :
    hypre_CommPrefixSize m ≤ hypre_CommPrefixSize n := by
  rw [hypre_CommPrefixSize_eq, hypre_CommPrefixSize_eq]
  have := Int.ediv_le_ediv (by norm_num : (0 : Int) < 8) (by omega : 4 + 28 * m ≤ 4 + 28 * n)
  omega

/-- The recv CommTypes of the package of hypre_CommPkgCreate: the one of the
`n`-th process `p` with a recv box with points holds the number of these
boxes and the prefix size for them plus the payload when `boxes_match` is not
0, the payload and the payload plus its prefix size when it is 0. -/
theorem create_recv_types (I : hypre_CommInfo) (S R : hypre_BoxArray) (num_values : Int)
    (orders : Option (Int → Int → Int)) (reverse comm my_proc : Int) (mem : CreateMemory)
    (n : Nat) (p : Int)
    (hp : (peerList my_proc (recvBoxesOf I reverse) (recvProcessesOf I reverse))[n]? = some p) :
    (hypre_CommPkgCreate I S R num_values orders reverse comm my_proc mem).num_recvs
      = (peerList my_proc (recvBoxesOf I reverse) (recvProcessesOf I reverse)).length
    ∧ ((hypre_CommPkgCreate I S R num_values orders reverse comm my_proc mem).recv_types n).proc = p
    ∧ (I.boxes_match ≠ 0 →
      ((hypre_CommPkgCreate I S R num_values orders reverse comm my_proc mem).recv_types n).num_entries
        = (peerBoxes (recvBoxesOf I reverse) (recvProcessesOf I reverse) p).length
      ∧ ((hypre_CommPkgCreate I S R num_values orders reverse comm my_proc mem).recv_types n).bufsize
        = hypre_CommPrefixSize (peerBoxes (recvBoxesOf I reverse) (recvProcessesOf I reverse) p).length
          + peerPayload num_values (recvStrideOf I reverse) (recvBoxesOf I reverse)
              (recvProcessesOf I reverse) p)
    ∧ (I.boxes_match = 0 →
      ((hypre_CommPkgCreate I S R num_values orders reverse comm my_proc mem).recv_types n).num_entries
        = peerPayload num_values (recvStrideOf I reverse) (recvBoxesOf I reverse)
              (recvProcessesOf I reverse) p
      ∧ ((hypre_CommPkgCreate I S R num_values orders reverse comm my_proc mem).recv_types n).bufsize
        = peerPayload num_values (recvStrideOf I reverse) (recvBoxesOf I reverse)
              (recvProcessesOf I reverse) p
          + hypre_CommPrefixSize
              (peerPayload num_values (recvStrideOf I reverse) (recvBoxesOf I reverse)
              (recvProcessesOf I reverse) p)) := by
  obtain ⟨r1, r2, -⟩ := createRecvSide_spec I S R num_values orders reverse my_proc mem
  obtain ⟨v1, v2, v3⟩ := create_recv_view I S R num_values orders reverse comm my_proc mem
  obtain ⟨-, m2, -⟩ := maxLoop_spec (createRecvSide I S R num_values orders reverse my_proc mem).2.comm_types
    (createRecvSide I S R num_values orders reverse my_proc mem).1.num_comms.toNat
  obtain ⟨a1, a2, a3⟩ := r2 n p hp
  have hn : n < (createRecvSide I S R num_values orders reverse my_proc mem).1.num_comms.toNat := by
    rw [r1]
    exact getElem?_lt_of_some _ n p hp
  have hpay : slotPayload ((createRecvSide I S R num_values orders reverse my_proc mem).2.comm_types ((n : Int) + 1))
      = peerPayload num_values (recvStrideOf I reverse) (recvBoxesOf I reverse)
              (recvProcessesOf I reverse) p := by
    unfold slotPayload
    rw [a3, a2]
    ring
  refine ⟨v1.trans r1, ?_, ?_, ?_⟩
  · by_cases hm : I.boxes_match = 0
    · rw [(v3 hm).1, m2 n hn]
      exact a1
    · rw [(v2 hm).1]
      exact a1
  · intro hm
    rw [(v2 hm).1]
    exact ⟨a2, a3⟩
  · intro hm
    rw [(v3 hm).1, m2 n hn, hpay]
    exact ⟨rfl, rfl⟩

theorem length_le_sum_of_one_le (l : List (Int × Int)) (f : Int × Int → Int)
    (h : ∀ e ∈ l, 1 ≤ f e) : (l.length : Int) ≤ (l.map f).sum := by
  induction l with
  | nil => simp
  | cons x xs ih =>
    have h1 := h x (List.mem_cons_self _ _)
    have h2 := ih (fun e he => h e (List.mem_cons_of_mem _ he))
    simp only [List.length_cons, List.map_cons, List.sum_cons, Nat.cast_add, Nat.cast_one]
    omega

/-- The payload of a process is at least the number of its boxes with points
when every value count and stride volume is at least 1. -/
theorem peerBoxes_le_payload (num_values : Int) (stride : hypre_Index)
    (boxes : hypre_BoxArrayArray) (processes : Int → Int → Int) (p : Int)
    (hnv : 1 ≤ num_values) (hs : stridePositive stride)
    (hb : ∀ e ∈ nonemptyBoxes boxes, boxNonempty ((boxes.box_arrays e.1).boxes e.2)) :
    ((peerBoxes boxes processes p).length : Int)
      ≤ peerPayload num_values stride boxes processes p := by
  have h1 := length_le_sum_of_one_le (peerBoxes boxes processes p)
    (fun e => hypre_BoxGetStrideVolume ((boxes.box_arrays e.1).boxes e.2) stride)
    (fun e he => by
      have hne : e ∈ nonemptyBoxes boxes := (List.mem_filter.1 he).1
      obtain ⟨px, py, pz⟩ := strideSize_pos _ stride (hb e hne) hs
      unfold hypre_BoxGetStrideVolume
      have := mul_le_mul px py (by norm_num) (by omega)
      have := mul_le_mul this pz (by norm_num) (by nlinarith)
      simpa using this)
  unfold peerPayload
  have h0 : (0 : Int) ≤ (peerBoxes boxes processes p).length := Int.natCast_nonneg _
  nlinarith

/-- C31: the size reserved when the boxes do not match is a safe
over-estimate. With `boxes_match = 0` the recv CommType of a process `p` with
payload `P` has bufsize `P + hypre_CommPrefixSize(P)`, and for every entry
count `m` of the sender with `0 ≤ m ≤ P` the message of `m` entries,
`hypre_CommPrefixSize(m) + P` doubles, fits in it. When `num_values ≥ 1`, the
stride is at least 1 along each axis and the recv boxes with points have
`imin ≤ imax`, the number of the boxes of `p` is at most `P`, and the bufsize
is at least the one that the same CommInfo gets with `boxes_match = 1`. -/
theorem mismatch_size_safe (I : hypre_CommInfo) (S R : hypre_BoxArray) (num_values : Int)
    (orders : Option (Int → Int → Int)) (reverse comm my_proc : Int) (mem : CreateMemory)
    (n : Nat) (p : Int) (hm : I.boxes_match = 0)
    (hp : (peerList my_proc (recvBoxesOf I reverse) (recvProcessesOf I reverse))[n]? = some p) :
    ((hypre_CommPkgCreate I S R num_values orders reverse comm my_proc mem).recv_types n).bufsize
      = peerPayload num_values (recvStrideOf I reverse) (recvBoxesOf I reverse)
              (recvProcessesOf I reverse) p
        + hypre_CommPrefixSize
            (peerPayload num_values (recvStrideOf I reverse) (recvBoxesOf I reverse)
              (recvProcessesOf I reverse) p)
    ∧ (∀ m : Int, 0 ≤ m →
        m ≤ peerPayload num_values (recvStrideOf I reverse) (recvBoxesOf I reverse)
              (recvProcessesOf I reverse) p →
        hypre_CommPrefixSize m
            + peerPayload num_values (recvStrideOf I reverse) (recvBoxesOf I reverse)
              (recvProcessesOf I reverse) p
          ≤ ((hypre_CommPkgCreate I S R num_values orders reverse comm my_proc mem).recv_types n).bufsize)
    ∧ (1 ≤ num_values → stridePositive (recvStrideOf I reverse) →
        (∀ e ∈ nonemptyBoxes (recvBoxesOf I reverse),
          boxNonempty (((recvBoxesOf I reverse).box_arrays e.1).boxes e.2)) →
        ((peerBoxes (recvBoxesOf I reverse) (recvProcessesOf I reverse) p).length : Int)
          ≤ peerPayload num_values (recvStrideOf I reverse) (recvBoxesOf I reverse)
              (recvProcessesOf I reverse) p
        ∧ ((hypre_CommPkgCreate { I with boxes_match := 1 } S R num_values orders reverse comm
            my_proc mem).recv_types n).bufsize
          ≤ ((hypre_CommPkgCreate I S R num_values orders reverse comm my_proc mem).recv_types n).bufsize) := by
  obtain ⟨-, -, -, h0⟩ := create_recv_types I S R num_values orders reverse comm my_proc mem
    n p hp
  obtain ⟨-, hb0⟩ := h0 hm
  refine ⟨hb0, ?_, ?_⟩
  · intro m _ hle
    rw [hb0]
    have := hypre_CommPrefixSize_mono m _ hle
    omega
  · intro hnv hs hb
    have hk := peerBoxes_le_payload num_values (recvStrideOf I reverse) (recvBoxesOf I reverse)
      (recvProcessesOf I reverse) p hnv hs hb
    refine ⟨hk, ?_⟩
    obtain ⟨-, -, h1, -⟩ := create_recv_types { I with boxes_match := 1 } S R num_values orders
      reverse comm my_proc mem n p hp
    obtain ⟨-, hb1⟩ := h1 (show (1 : Int) ≠ 0 by decide)
    rw [hb0, hb1]
    have := hypre_CommPrefixSize_mono _ _ hk
    have e1 : recvBoxesOf { I with boxes_match := 1 } reverse = recvBoxesOf I reverse := rfl
    have e2 : recvProcessesOf { I with boxes_match := 1 } reverse
        = recvProcessesOf I reverse := rfl
    have e3 : recvStrideOf { I with boxes_match := 1 } reverse = recvStrideOf I reverse := rfl
    rw [e1, e2, e3]
    omega

/-- C31 at a concrete input: with boxes that do not match, process 0 expects
from process 1 a payload of 5 doubles; the bufsize `5 + hypre_CommPrefixSize(5)`
holds the message of 2 entries that process 1 sends, and is at least the
bufsize `hypre_CommPrefixSize(2) + 5` of the matching case. -/
theorem mismatch_size_safe_witness :
    hypre_CommPrefixSize 2 + 5
      ≤ ((hypre_CommPkgCreate sampleMismatchInfo sampleSpace sampleSpace 1 none 0 0 0
          sampleMemory).recv_types 0).bufsize
    ∧ (samplePkg.recv_types 0).bufsize
      ≤ ((hypre_CommPkgCreate sampleMismatchInfo sampleSpace sampleSpace 1 none 0 0 0
          sampleMemory).recv_types 0).bufsize := by
  have h := mismatch_size_safe sampleMismatchInfo sampleSpace sampleSpace 1 none 0 0 0
    sampleMemory 0 1 (by decide) (by decide)
  exact ⟨h.2.1 2 (by decide) (by decide), (h.2.2 (by decide) (by decide) (by decide)).2⟩

/-! ## An exchange that is not the first -/

theorem postLoop_later (is_send : Bool) (tag comm : Int) (buffers : Int → Int) (n : Nat)
    (s : PostState) :
    (forLoop n (fun i s => postBody is_send 0 tag comm buffers i s) s).types = s.types
    ∧ (forLoop n (fun i s => postBody is_send 0 tag comm buffers i s) s).bufsize = s.bufsize := by
  induction n with
  | zero => exact ⟨rfl, rfl⟩
  | succ k ih =>
    rw [forLoop_succ]
    generalize forLoop k (fun i s => postBody is_send 0 tag comm buffers i s) s = r at ih ⊢
    unfold postBody
    simp only [ne_eq, not_true_eq_false, if_false]
    exact ih

theorem packLoop_later {α : Type} [Zero α] (num_values : Int) (send_data : Int → α)
    (send_buffers : Int → Int) (n : Nat) (s : PackState α) :
    (forLoop n (fun i s => packSendType 0 num_values send_data send_buffers i s) s).send_types
      = s.send_types := by
  induction n with
  | zero => rfl
  | succ k ih =>
    rw [forLoop_succ]
    generalize forLoop k (fun i s => packSendType 0 num_values send_data send_buffers i s) s
      = r at ih ⊢
    unfold packSendType
    simp only [ne_eq, not_true_eq_false, if_false]
    exact ih

/-- C34: an exchange that is not the first does not change the package. For
a package with `first_comm = 0` and every `send_data`, `recv_data`, `action`,
`tag`, content of the buffers and of the memory, the package of the handle
left by hypre_InitializeCommunication is the package given, and so is the
package left by hypre_FinalizeCommunication on that handle: every field is as
before, the CommTypes with their entries and bufsize, `send_bufsize`,
`recv_bufsize` and `first_comm` among them. -/
theorem later_exchange_keeps_package {α : Type} [Zero α] [Add α] (comm_pkg : hypre_CommPkg)
    (send_data recv_data action tag : Int) (mem : InitializeMemory α) (heap : Int → α)
    (recv_buffer : Int → α) (recv_ints : Int → Int) (block : Int → hypre_CommEntryType)
    (heap2 : Int → α) (h : comm_pkg.first_comm = 0) :
    (hypre_InitializeCommunication comm_pkg send_data recv_data action tag mem
        heap).comm_handle.comm_pkg = comm_pkg
    ∧ (hypre_FinalizeCommunication
        (hypre_InitializeCommunication comm_pkg send_data recv_data action tag mem
          heap).comm_handle recv_buffer recv_ints block heap2).1 = comm_pkg := by
  have h1 : (hypre_InitializeCommunication comm_pkg send_data recv_data action tag mem
      heap).comm_handle.comm_pkg = comm_pkg := by
    unfold hypre_InitializeCommunication
    simp only [h, ne_eq, not_true_eq_false, if_false, postLoop_later, packLoop_later]
    rw [← h]
  refine ⟨h1, ?_⟩
  unfold hypre_FinalizeCommunication
  simp only [h1, h, ne_eq, not_true_eq_false, if_false]
  rw [← h]

/-- C34 at a concrete input: the sample package with `first_comm = 0` is the
same after an exchange. -/
theorem later_exchange_keeps_package_witness :
    (hypre_FinalizeCommunication
        (hypre_InitializeCommunication sampleLaterPkg 0 100 0 7 sampleInitMemory
          (fun a => a)).comm_handle sampleRecvBuffer sampleRecvInts (fun _ => zeroEntry)
        (fun a => a)).1 = sampleLaterPkg :=
  (later_exchange_keeps_package sampleLaterPkg 0 100 0 7 sampleInitMemory (fun a => a)
    sampleRecvBuffer sampleRecvInts (fun _ => zeroEntry) (fun a => a) rfl).2

/-! ## Addresses inside the data box -/

theorem rank_bounds (DX DY DZ cx cy cz : Int) (hx0 : 0 ≤ cx) (hx1 : cx < DX) (hy0 : 0 ≤ cy)
    (hy1 : cy < DY) (hz0 : 0 ≤ cz) (hz1 : cz < DZ) :
    0 ≤ cz * DX * DY + cy * DX + cx ∧ cz * DX * DY + cy * DX + cx < DX * DY * DZ := by
  have hDX : 0 < DX := by omega
  have hDY : 0 < DY := by omega
  have h1 : 0 ≤ cy * DX := mul_nonneg hy0 (by omega)
  have h2 : 0 ≤ cz * DX * DY := mul_nonneg (mul_nonneg hz0 (by omega)) (by omega)
  have h3 : cy * DX ≤ (DY - 1) * DX := mul_le_mul_of_nonneg_right (by omega) (by omega)
  have h4 : cz * (DX * DY) ≤ (DZ - 1) * (DX * DY) :=
    mul_le_mul_of_nonneg_right (by omega) (by positivity)
  constructor
  · omega
  · nlinarith

/-- The cell of a value component `v` with `0 ≤ v < num_values` of a strided
point of a region inside its data box lies in the storage of the data box,
`[off, off + volume*num_values)`. -/
theorem cellOf_in_bounds (R D : hypre_Box) (stride : hypre_Index) (off v num_values : Int)
    (hin : boxInside R D) (hs : stridePositive stride) (hv0 : 0 ≤ v) (hv1 : v < num_values)
    (i j k : Int) (hi0 : 0 ≤ i) (hi : i < (hypre_BoxGetStrideSize R stride).x) (hj0 : 0 ≤ j)
    (hj : j < (hypre_BoxGetStrideSize R stride).y) (hk0 : 0 ≤ k)
    (hk : k < (hypre_BoxGetStrideSize R stride).z) :
    off ≤ cellOf D off v (stridedPoint R stride i j k)
    ∧ cellOf D off v (stridedPoint R stride i j k) < off + hypre_BoxVolume D * num_values := by
  obtain ⟨x1, x2, y1, y2, z1, z2⟩ := hin
  obtain ⟨sx, sy, sz⟩ := hs
  simp only [hypre_BoxGetStrideSize, hypre_BoxSizeD, hypre_IndexD] at hi hj hk
  simp at hi hj hk
  have ax := strided_coord_bounds R.imin.x R.imax.x D.imin.x D.imax.x stride.x i.toNat sx x1 x2
    (by rw [Int.toNat_of_nonneg hi0]; exact hi)
  have ay := strided_coord_bounds R.imin.y R.imax.y D.imin.y D.imax.y stride.y j.toNat sy y1 y2
    (by rw [Int.toNat_of_nonneg hj0]; exact hj)
  have az := strided_coord_bounds R.imin.z R.imax.z D.imin.z D.imax.z stride.z k.toNat sz z1 z2
    (by rw [Int.toNat_of_nonneg hk0]; exact hk)
  rw [Int.toNat_of_nonneg hi0] at ax
  rw [Int.toNat_of_nonneg hj0] at ay
  rw [Int.toNat_of_nonneg hk0] at az
  obtain ⟨r0, r1⟩ := rank_bounds (D.imax.x - D.imin.x + 1) (D.imax.y - D.imin.y + 1)
    (D.imax.z - D.imin.z + 1) (R.imin.x + i * stride.x - D.imin.x)
    (R.imin.y + j * stride.y - D.imin.y) (R.imin.z + k * stride.z - D.imin.z) ax.1 ax.2 ay.1 ay.2
    az.1 az.2
  have hvolD : hypre_BoxVolume D = (D.imax.x - D.imin.x + 1) * (D.imax.y - D.imin.y + 1)
      * (D.imax.z - D.imin.z + 1) := by
    simp [hypre_BoxVolume, hypre_BoxSizeD, hypre_IndexD]
  have hcell : cellOf D off v (stridedPoint R stride i j k)
      = off + v * ((D.imax.x - D.imin.x + 1) * (D.imax.y - D.imin.y + 1)
          * (D.imax.z - D.imin.z + 1))
        + ((R.imin.z + k * stride.z - D.imin.z) * (D.imax.x - D.imin.x + 1)
            * (D.imax.y - D.imin.y + 1)
          + (R.imin.y + j * stride.y - D.imin.y) * (D.imax.x - D.imin.x + 1)
          + (R.imin.x + i * stride.x - D.imin.x)) := by
    simp [cellOf, hypre_BoxVolume, hypre_BoxIndexRank, hypre_BoxSizeD, hypre_IndexD,
      stridedPoint]
  rw [hcell, hvolD]
  generalize (R.imin.z + k * stride.z - D.imin.z) * (D.imax.x - D.imin.x + 1)
      * (D.imax.y - D.imin.y + 1)
    + (R.imin.y + j * stride.y - D.imin.y) * (D.imax.x - D.imin.x + 1)
    + (R.imin.x + i * stride.x - D.imin.x) = rank at r0 r1 ⊢
  generalize (D.imax.x - D.imin.x + 1) * (D.imax.y - D.imin.y + 1)
    * (D.imax.z - D.imin.z + 1) = V at r1 ⊢
  have hV : 0 ≤ V := by omega
  have hv3 : 0 ≤ v * V := mul_nonneg hv0 hV
  have hv2 : v * V ≤ (num_values - 1) * V := mul_le_mul_of_nonneg_right (by omega) hV
  have hv4 : (num_values - 1) * V = V * num_values - V := by ring
  constructor
  · omega
  · omega

/-- A sum over the slots 0, 1, 2 is the sum over the slots `coord[0]`,
`coord[1]`, `coord[2]` of a permutation. -/
theorem perm_sum (coord : hypre_Index) (h : isPermutation coord) (f : Int → Int) :
    f 0 + f 1 + f 2 = f coord.x + f coord.y + f coord.z := by
  obtain ⟨hx, hy, hz, hxy, hxz, hyz⟩ := h
  rcases hx with hx | hx | hx <;> rcases hy with hy | hy | hy <;>
    rcases hz with hz | hz | hz <;>
    first
      | (exfalso; omega)
      | (rw [hx, hy, hz] <;> ring)

/-- The arrays before the collapse for a permutation `coord`: slot `coord[i]`
holds the stride size and the axis stride of axis `i`, the latter with the
sign of `dir[i]`; `stride_array[3]` is the volume of the data box and the
offset is advanced to the last point along each reversed axis. -/
theorem setEntryAdjusted_perm (box : hypre_Box) (stride coord dir : hypre_Index)
    (data_box : hypre_Box) (off : Int) (e : hypre_CommEntryType) (h : isPermutation coord) :
    (setEntryAdjusted box stride coord dir data_box off e).length_array coord.x
        = (hypre_BoxGetStrideSize box stride).x
    ∧ (setEntryAdjusted box stride coord dir data_box off e).length_array coord.y
        = (hypre_BoxGetStrideSize box stride).y
    ∧ (setEntryAdjusted box stride coord dir data_box off e).length_array coord.z
        = (hypre_BoxGetStrideSize box stride).z
    ∧ (setEntryAdjusted box stride coord dir data_box off e).stride_array coord.x
        = (if dir.x < 0 then -stride.x else stride.x)
    ∧ (setEntryAdjusted box stride coord dir data_box off e).stride_array coord.y
        = (if dir.y < 0 then -(stride.y * hypre_BoxSizeD data_box 0)
            else stride.y * hypre_BoxSizeD data_box 0)
    ∧ (setEntryAdjusted box stride coord dir data_box off e).stride_array coord.z
        = (if dir.z < 0 then -(stride.z * hypre_BoxSizeD data_box 0 * hypre_BoxSizeD data_box 1)
            else stride.z * hypre_BoxSizeD data_box 0 * hypre_BoxSizeD data_box 1)
    ∧ (setEntryAdjusted box stride coord dir data_box off e).stride_array 3
        = hypre_BoxVolume data_box
    ∧ (setEntryAdjusted box stride coord dir data_box off e).offset
        = off + hypre_BoxIndexRank data_box box.imin
          + (if dir.x < 0 then ((hypre_BoxGetStrideSize box stride).x - 1) * stride.x else 0)
          + (if dir.y < 0 then ((hypre_BoxGetStrideSize box stride).y - 1)
              * (stride.y * hypre_BoxSizeD data_box 0) else 0)
          + (if dir.z < 0 then ((hypre_BoxGetStrideSize box stride).z - 1)
              * (stride.z * hypre_BoxSizeD data_box 0 * hypre_BoxSizeD data_box 1) else 0) := by
  have c0 := setEntryCoord_perm coord
    (setEntryDir dir (setEntryInit box stride data_box off e)) h 0 (by omega) (by omega)
  have c1 := setEntryCoord_perm coord
    (setEntryDir dir (setEntryInit box stride data_box off e)) h 1 (by omega) (by omega)
  have c2 := setEntryCoord_perm coord
    (setEntryDir dir (setEntryInit box stride data_box off e)) h 2 (by omega) (by omega)
  have c3 := setEntryCoord_other coord
    (setEntryDir dir (setEntryInit box stride data_box off e)) h 3 (by omega)
  simp only [hypre_IndexD] at c0 c1 c2
  simp at c0 c1 c2
  unfold setEntryAdjusted
  rw [c0.1, c0.2, c1.1, c1.2, c2.1, c2.2, c3.2, setEntryCoord_offset, setEntryDir_offset,
    setEntryDir_length, setEntryInit_offset]
  simp only [setEntryDir_stride, setEntryInit_length, setEntryInit_stride]
  simp [hypre_IndexD, axisStride]

/-- The cell visited by the walk of the arrays before the collapse, for a
permutation `coord`: with `x c` the loop index of slot `c`, it is the cell of
the strided point whose index along axis `i` is `x coord[i]`, reflected where
`dir[i]` is negative. -/
theorem adjusted_perm_cell (box : hypre_Box) (stride coord dir : hypre_Index)
    (data_box : hypre_Box) (off : Int) (e : hypre_CommEntryType) (h : isPermutation coord)
    (v : Int) (x : Int → Int) :
    (setEntryAdjusted box stride coord dir data_box off e).offset
        + v * (setEntryAdjusted box stride coord dir data_box off e).stride_array 3
        + x 2 * (setEntryAdjusted box stride coord dir data_box off e).stride_array 2
        + x 1 * (setEntryAdjusted box stride coord dir data_box off e).stride_array 1
        + x 0 * (setEntryAdjusted box stride coord dir data_box off e).stride_array 0
      = cellOf data_box off v
          (stridedPoint box stride
            (reflectIndex dir.x (hypre_BoxGetStrideSize box stride).x (x coord.x))
            (reflectIndex dir.y (hypre_BoxGetStrideSize box stride).y (x coord.y))
            (reflectIndex dir.z (hypre_BoxGetStrideSize box stride).z (x coord.z))) := by
  obtain ⟨-, -, -, s0, s1, s2, s3, ho⟩ :=
    setEntryAdjusted_perm box stride coord dir data_box off e h
  have hsum := perm_sum coord h
    (fun c => x c * (setEntryAdjusted box stride coord dir data_box off e).stride_array c)
  simp only at hsum
  have hre : (setEntryAdjusted box stride coord dir data_box off e).offset
        + v * (setEntryAdjusted box stride coord dir data_box off e).stride_array 3
        + x 2 * (setEntryAdjusted box stride coord dir data_box off e).stride_array 2
        + x 1 * (setEntryAdjusted box stride coord dir data_box off e).stride_array 1
        + x 0 * (setEntryAdjusted box stride coord dir data_box off e).stride_array 0
      = (setEntryAdjusted box stride coord dir data_box off e).offset
        + v * (setEntryAdjusted box stride coord dir data_box off e).stride_array 3
        + (x coord.x * (setEntryAdjusted box stride coord dir data_box off e).stride_array coord.x
          + x coord.y
            * (setEntryAdjusted box stride coord dir data_box off e).stride_array coord.y
          + x coord.z
            * (setEntryAdjusted box stride coord dir data_box off e).stride_array coord.z) := by
    rw [← hsum]
    ring
  rw [hre, s0, s1, s2, s3, ho]
  simp only [cellOf, stridedPoint, reflectIndex, hypre_BoxIndexRank, hypre_BoxVolume]
  by_cases hx : dir.x < 0 <;> by_cases hy : dir.y < 0 <;> by_cases hz : dir.z < 0 <;>
    simp only [hx, hy, hz, if_true, if_false] <;> ring

theorem mem_boxAddrs_iff (la sa : Int → Int) (p a : Int) :
    a ∈ boxAddrs la sa p
      ↔ ∃ kk jj ii : Nat, (kk : Int) < la 2 ∧ (jj : Int) < la 1 ∧ (ii : Int) < la 0
          ∧ a = p + kk * sa 2 + jj * sa 1 + ii * sa 0 := by
  simp only [mem_boxAddrs, mem_planeAddrs, rowAddrs, List.mem_map, List.mem_range]
  constructor
  · rintro ⟨kk, hk, jj, hj, ii, hi, rfl⟩
    exact ⟨kk, jj, ii, by omega, by omega, by omega, rfl⟩
  · rintro ⟨kk, jj, ii, hk, hj, hi, rfl⟩
    exact ⟨kk, by omega, jj, by omega, ii, by omega, rfl⟩

theorem reflectIndex_bounds (d L i : Int) (h0 : 0 ≤ i) (h1 : i < L) :
    0 ≤ reflectIndex d L i ∧ reflectIndex d L i < L := by
  unfold reflectIndex
  split <;> constructor <;> omega

/-- C36: the pack reads inside the data box. For a region `R` inside the data
box `D`, a stride of at least 1 along each axis, a permutation `coord`, every
`dir`, and an order with `0 ≤ order[v] < num_values`, every address
`offset + order[ll]*stride[3] + kk*stride[2] + jj*stride[1] + ii*stride[0]`
with `ll < num_values`, `kk < length[2]`, `jj < length[1]`, `ii < length[0]`
of the entry built by hypre_CommTypeSetEntry for `R` in `D` with offset `O`
lies in `[O, O + volume(D)*num_values)`. -/
theorem pack_addresses_in_bounds (num_values : Int) (R D : hypre_Box)
    (stride coord dir : hypre_Index) (order : List Int) (O : Int) (e : hypre_CommEntryType)
    (hin : boxInside R D) (hs : stridePositive stride) (hc : isPermutation coord)
    (ho : ∀ v : Nat, (v : Int) < num_values →
      0 ≤ orderAt order v ∧ orderAt order v < num_values)
    (ll kk jj ii : Nat) (hll : (ll : Int) < num_values)
    (hkk : (kk : Int)
      < (hypre_CommTypeSetEntry R stride coord dir order D O e).length_array 2)
    (hjj : (jj : Int)
      < (hypre_CommTypeSetEntry R stride coord dir order D O e).length_array 1)
    (hii : (ii : Int)
      < (hypre_CommTypeSetEntry R stride coord dir order D O e).length_array 0) :
    O ≤ (hypre_CommTypeSetEntry R stride coord dir order D O e).offset
        + orderAt (hypre_CommTypeSetEntry R stride coord dir order D O e).order ll
          * (hypre_CommTypeSetEntry R stride coord dir order D O e).stride_array 3
        + kk * (hypre_CommTypeSetEntry R stride coord dir order D O e).stride_array 2
        + jj * (hypre_CommTypeSetEntry R stride coord dir order D O e).stride_array 1
        + ii * (hypre_CommTypeSetEntry R stride coord dir order D O e).stride_array 0
    ∧ (hypre_CommTypeSetEntry R stride coord dir order D O e).offset
        + orderAt (hypre_CommTypeSetEntry R stride coord dir order D O e).order ll
          * (hypre_CommTypeSetEntry R stride coord dir order D O e).stride_array 3
        + kk * (hypre_CommTypeSetEntry R stride coord dir order D O e).stride_array 2
        + jj * (hypre_CommTypeSetEntry R stride coord dir order D O e).stride_array 1
        + ii * (hypre_CommTypeSetEntry R stride coord dir order D O e).stride_array 0
      < O + hypre_BoxVolume D * num_values := by
  obtain ⟨-, -, -, -, hoff, hout⟩ := setEntryCollapse_spec
    (setEntryAdjusted R stride coord dir D O e)
  have h3 : (hypre_CommTypeSetEntry R stride coord dir order D O e).stride_array 3
      = (setEntryAdjusted R stride coord dir D O e).stride_array 3 := (hout 3 (by omega)).2
  have hoff2 : (hypre_CommTypeSetEntry R stride coord dir order D O e).offset
      = (setEntryAdjusted R stride coord dir D O e).offset := hoff
  have hord : (hypre_CommTypeSetEntry R stride coord dir order D O e).order = order := rfl
  have hmem : (hypre_CommTypeSetEntry R stride coord dir order D O e).offset
        + orderAt order ll
          * (hypre_CommTypeSetEntry R stride coord dir order D O e).stride_array 3
        + kk * (hypre_CommTypeSetEntry R stride coord dir order D O e).stride_array 2
        + jj * (hypre_CommTypeSetEntry R stride coord dir order D O e).stride_array 1
        + ii * (hypre_CommTypeSetEntry R stride coord dir order D O e).stride_array 0
      ∈ boxAddrs (hypre_CommTypeSetEntry R stride coord dir order D O e).length_array
          (hypre_CommTypeSetEntry R stride coord dir order D O e).stride_array
          ((hypre_CommTypeSetEntry R stride coord dir order D O e).offset
            + orderAt order ll
              * (hypre_CommTypeSetEntry R stride coord dir order D O e).stride_array 3) :=
    (mem_boxAddrs_iff _ _ _ _).2 ⟨kk, jj, ii, hkk, hjj, hii, rfl⟩
  have hwalk : boxAddrs (hypre_CommTypeSetEntry R stride coord dir order D O e).length_array
      (hypre_CommTypeSetEntry R stride coord dir order D O e).stride_array
      ((hypre_CommTypeSetEntry R stride coord dir order D O e).offset
        + orderAt order ll
          * (hypre_CommTypeSetEntry R stride coord dir order D O e).stride_array 3)
      = boxAddrs (setEntryAdjusted R stride coord dir D O e).length_array
        (setEntryAdjusted R stride coord dir D O e).stride_array
        ((hypre_CommTypeSetEntry R stride coord dir order D O e).offset
          + orderAt order ll
            * (hypre_CommTypeSetEntry R stride coord dir order D O e).stride_array 3) :=
    boxAddrs_collapse _ _
  rw [hord]
  rw [hwalk, mem_boxAddrs_iff] at hmem
  obtain ⟨k2, j2, i2, hk2, hj2, hi2, heq⟩ := hmem
  rw [heq, hoff2, h3]
  obtain ⟨l0, l1, l2, -⟩ := setEntryAdjusted_perm R stride coord dir D O e hc
  have hx : ∀ c : Int, (c = 0 ∨ c = 1 ∨ c = 2) →
      0 ≤ (if c = 0 then (i2 : Int) else if c = 1 then (j2 : Int) else (k2 : Int))
      ∧ (if c = 0 then (i2 : Int) else if c = 1 then (j2 : Int) else (k2 : Int))
        < (setEntryAdjusted R stride coord dir D O e).length_array c := by
    intro c hcase
    rcases hcase with rfl | rfl | rfl
    · exact ⟨Int.natCast_nonneg _, hi2⟩
    · exact ⟨Int.natCast_nonneg _, hj2⟩
    · exact ⟨Int.natCast_nonneg _, hk2⟩
  have hcell := adjusted_perm_cell R stride coord dir D O e hc (orderAt order ll)
    (fun c => if c = 0 then (i2 : Int) else if c = 1 then (j2 : Int) else (k2 : Int))
  simp only [if_true, one_ne_zero, if_false] at hcell
  have e2 : (if (2 : Int) = 0 then (i2 : Int) else if (2 : Int) = 1 then (j2 : Int)
      else (k2 : Int)) = k2 := by simp
  rw [e2] at hcell
  rw [hcell]
  obtain ⟨hcx, hcy, hcz, -, -, -⟩ := hc
  have bx := hx coord.x hcx
  have by' := hx coord.y hcy
  have bz := hx coord.z hcz
  rw [l0] at bx
  rw [l1] at by'
  rw [l2] at bz
  obtain ⟨o0, o1⟩ := ho ll hll
  obtain ⟨rx0, rx1⟩ := reflectIndex_bounds dir.x _ _ bx.1 bx.2
  obtain ⟨ry0, ry1⟩ := reflectIndex_bounds dir.y _ _ by'.1 by'.2
  obtain ⟨rz0, rz1⟩ := reflectIndex_bounds dir.z _ _ bz.1 bz.2
  exact cellOf_in_bounds R D stride O (orderAt order ll) num_values hin hs o0 o1 _ _ _ rx0 rx1
    ry0 ry1 rz0 rz1

/-- C36 at a concrete input: the region `[1..3]×[1..2]×[0..0]` of the data box
`[0..4]×[0..3]×[0..1]` of 40 cells from offset 100, walked with `coord =
(1, 0, 2)`, `dir = (-1, 1, 1)` and two values in the order `(1, 0)`: the
address of `ll = 0`, `jj = 2`, `ii = 1` lies in `[100, 180)`. -/
theorem pack_addresses_in_bounds_witness :
    (100 : Int)
      ≤ (hypre_CommTypeSetEntry ⟨⟨1, 1, 0⟩, ⟨3, 2, 0⟩⟩ ⟨1, 1, 1⟩ ⟨1, 0, 2⟩ ⟨-1, 1, 1⟩ [1, 0]
          ⟨⟨0, 0, 0⟩, ⟨4, 3, 1⟩⟩ 100 zeroEntry).offset
        + orderAt (hypre_CommTypeSetEntry ⟨⟨1, 1, 0⟩, ⟨3, 2, 0⟩⟩ ⟨1, 1, 1⟩ ⟨1, 0, 2⟩ ⟨-1, 1, 1⟩
            [1, 0] ⟨⟨0, 0, 0⟩, ⟨4, 3, 1⟩⟩ 100 zeroEntry).order 0
          * (hypre_CommTypeSetEntry ⟨⟨1, 1, 0⟩, ⟨3, 2, 0⟩⟩ ⟨1, 1, 1⟩ ⟨1, 0, 2⟩ ⟨-1, 1, 1⟩ [1, 0]
            ⟨⟨0, 0, 0⟩, ⟨4, 3, 1⟩⟩ 100 zeroEntry).stride_array 3
        + (0 : Nat) * (hypre_CommTypeSetEntry ⟨⟨1, 1, 0⟩, ⟨3, 2, 0⟩⟩ ⟨1, 1, 1⟩ ⟨1, 0, 2⟩
            ⟨-1, 1, 1⟩ [1, 0] ⟨⟨0, 0, 0⟩, ⟨4, 3, 1⟩⟩ 100 zeroEntry).stride_array 2
        + (2 : Nat) * (hypre_CommTypeSetEntry ⟨⟨1, 1, 0⟩, ⟨3, 2, 0⟩⟩ ⟨1, 1, 1⟩ ⟨1, 0, 2⟩
            ⟨-1, 1, 1⟩ [1, 0] ⟨⟨0, 0, 0⟩, ⟨4, 3, 1⟩⟩ 100 zeroEntry).stride_array 1
        + (1 : Nat) * (hypre_CommTypeSetEntry ⟨⟨1, 1, 0⟩, ⟨3, 2, 0⟩⟩ ⟨1, 1, 1⟩ ⟨1, 0, 2⟩
            ⟨-1, 1, 1⟩ [1, 0] ⟨⟨0, 0, 0⟩, ⟨4, 3, 1⟩⟩ 100 zeroEntry).stride_array 0 :=
  (pack_addresses_in_bounds 2 ⟨⟨1, 1, 0⟩, ⟨3, 2, 0⟩⟩ ⟨⟨0, 0, 0⟩, ⟨4, 3, 1⟩⟩ ⟨1, 1, 1⟩ ⟨1, 0, 2⟩
    ⟨-1, 1, 1⟩ [1, 0] 100 zeroEntry (by decide) (by decide) (by decide)
    (fun v hv => by
      have : v = 0 ∨ v = 1 := by omega
      rcases this with rfl | rfl <;> decide)
    0 0 2 1 (by decide) (by decide) (by decide) (by decide)).1

/-! ## The slices of the send and recv buffers -/

/-- The loop that sets the buffer pointers: buffer `i` starts after the
buffers before it. -/
theorem setBuffers_spec (num : Int) (types : Int → hypre_CommType) (buffers : Int → Int)
    (i : Nat) (hi : (i : Int) < num) :
    setBuffers num types buffers i
      = ((List.range i).map (fun (k : Nat) => (types k).bufsize)).sum := by
  unfold setBuffers
  rw [if_pos (by omega)]
  have hle : i ≤ (num - 1).toNat := by omega
  generalize (num - 1).toNat = n at hle
  have key : ∀ n : Nat, ∀ i : Nat, i ≤ n →
      forLoop n (fun n b => setAt b ((n : Int) + 1) (b n + (types n).bufsize))
        (setAt buffers 0 0) i
        = ((List.range i).map (fun (k : Nat) => (types k).bufsize)).sum := by
    intro n
    induction n with
    | zero =>
      intro i hi0
      have : i = 0 := by omega
      subst this
      simp [forLoop_zero, setAt_apply]
    | succ m ih =>
      intro i him
      rw [forLoop_succ, setAt_apply]
      by_cases hlast : (i : Int) = (m : Int) + 1
      · have : i = m + 1 := by omega
        subst this
        rw [if_pos hlast, ih m (le_refl _), List.range_succ, List.map_append, List.sum_append]
        simp
      · rw [if_neg hlast]
        exact ih i (by omega)
  exact key n i hle

theorem prefix_sum_le (f : Nat → Int) (n : Nat) (h : ∀ k, k < n → 0 ≤ f k) (i j : Nat)
    (hij : i < j) (hj : j ≤ n) :
    ((List.range i).map f).sum + f i ≤ ((List.range j).map f).sum := by
  induction j with
  | zero => omega
  | succ m ih =>
    rw [List.range_succ, List.map_append, List.sum_append]
    simp only [List.map_cons, List.map_nil, List.sum_cons, List.sum_nil, add_zero]
    by_cases him : i = m
    · subst him
      exact le_refl _
    · have := ih (by omega) (by omega)
      have := h m (by omega)
      omega

theorem peerPayload_nonneg (num_values : Int) (stride : hypre_Index)
    (boxes : hypre_BoxArrayArray) (processes : Int → Int → Int) (p : Int)
    (hnv : 0 ≤ num_values)
    (hsv : ∀ e ∈ nonemptyBoxes boxes,
      0 ≤ hypre_BoxGetStrideVolume ((boxes.box_arrays e.1).boxes e.2) stride) :
    0 ≤ peerPayload num_values stride boxes processes p := by
  unfold peerPayload
  apply mul_nonneg hnv
  apply List.sum_nonneg
  intro x hx
  obtain ⟨e, he, rfl⟩ := List.mem_map.1 hx
  exact hsv e (List.mem_filter.1 he).1

/-- The local CommTypes of the package hold the payload of the local boxes as
bufsize, without a prefix. -/
theorem create_local_bufsize (I : hypre_CommInfo) (S R : hypre_BoxArray) (num_values : Int)
    (orders : Option (Int → Int → Int)) (reverse comm my_proc : Int) (mem : CreateMemory) :
    (hypre_CommPkgCreate I S R num_values orders reverse comm my_proc mem).copy_from_type.bufsize
      = peerPayload num_values (sendStrideOf I reverse) (sendBoxesOf I reverse)
          (sendProcessesOf I reverse) my_proc
    ∧ (hypre_CommPkgCreate I S R num_values orders reverse comm my_proc mem).copy_to_type.bufsize
      = peerPayload num_values (recvStrideOf I reverse) (recvBoxesOf I reverse)
          (recvProcessesOf I reverse) my_proc := by
  obtain ⟨-, -, -, hinv⟩ := sendSide_inv (sendBoxesOf I reverse) (sendStrideOf I reverse)
    (sendProcessesOf I reverse) (sendRBoxnumsOf I reverse) (sendRBoxesOf I reverse)
    (sendTransformsOf I reverse) I.coords I.dirs
    (storedOrders (sendTransformsOf I reverse) orders I.num_transforms num_values)
    (sendSpaceOf S R reverse) num_values my_proc mem
  obtain ⟨-, -, -, i4, -⟩ := hinv
  obtain ⟨-, e2⟩ := recvSide_eq (recvBoxesOf I reverse) (recvStrideOf I reverse)
    (recvProcessesOf I reverse) num_values my_proc
    (createReset I S R num_values orders reverse my_proc mem)
    (createSendSide I S R num_values orders reverse my_proc mem).1.num_entries
    (createReset_zero I S R num_values orders reverse my_proc mem) (fun _ _ => 0)
    (recvBoxesOf I reverse) I.coords I.dirs (recvSpaceOf S R reverse) mem
  obtain ⟨-, -, -, rinv⟩ := sendSide_inv (recvBoxesOf I reverse) (recvStrideOf I reverse)
    (recvProcessesOf I reverse) (fun _ _ => 0) (recvBoxesOf I reverse) none I.coords I.dirs none
    (recvSpaceOf S R reverse) num_values my_proc mem
  obtain ⟨-, -, -, j4, -⟩ := rinv
  obtain ⟨-, v2, v3⟩ := create_recv_view I S R num_values orders reverse comm my_proc mem
  obtain ⟨m1, -, -⟩ := maxLoop_spec (createRecvSide I S R num_values orders reverse my_proc mem).2.comm_types
    (createRecvSide I S R num_values orders reverse my_proc mem).1.num_comms.toNat
  have hslot : ((createRecvSide I S R num_values orders reverse my_proc mem).2.comm_types 0).bufsize
      = peerPayload num_values (recvStrideOf I reverse) (recvBoxesOf I reverse)
          (recvProcessesOf I reverse) my_proc := by
    unfold createRecvSide
    rw [e2, ← volOf_eq_payload]
    exact j4.2.1
  constructor
  · rw [create_eq_build, ← volOf_eq_payload]
    exact i4.2.1
  · by_cases hm : I.boxes_match = 0
    · rw [(v3 hm).2.1, m1 0 (Or.inl (le_refl _))]
      exact hslot
    · rw [(v2 hm).2.1]
      exact hslot

/-- The recv bufsize of the package: the sum of the bufsize of the recv
CommTypes, with the payload of the local boxes added when `boxes_match` is
not 0. -/
theorem create_recv_bufsize (I : hypre_CommInfo) (S R : hypre_BoxArray) (num_values : Int)
    (orders : Option (Int → Int → Int)) (reverse comm my_proc : Int) (mem : CreateMemory) :
    (I.boxes_match = 0 →
      (hypre_CommPkgCreate I S R num_values orders reverse comm my_proc mem).recv_bufsize
        = ((List.range (hypre_CommPkgCreate I S R num_values orders reverse comm my_proc mem).num_recvs.toNat).map
            (fun (i : Nat) => ((hypre_CommPkgCreate I S R num_values orders reverse comm my_proc mem).recv_types i).bufsize)).sum)
    ∧ (I.boxes_match ≠ 0 →
      (hypre_CommPkgCreate I S R num_values orders reverse comm my_proc mem).recv_bufsize
        = (hypre_CommPkgCreate I S R num_values orders reverse comm my_proc mem).copy_to_type.bufsize
          + ((List.range (hypre_CommPkgCreate I S R num_values orders reverse comm my_proc mem).num_recvs.toNat).map
            (fun (i : Nat) => ((hypre_CommPkgCreate I S R num_values orders reverse comm my_proc mem).recv_types i).bufsize)).sum) := by
  obtain ⟨r1, -, -, -, -, r6⟩ := createRecvSide_spec I S R num_values orders reverse my_proc mem
  obtain ⟨v1, v2, v3⟩ := create_recv_view I S R num_values orders reverse comm my_proc mem
  obtain ⟨-, m2, m3⟩ := maxLoop_spec (createRecvSide I S R num_values orders reverse my_proc mem).2.comm_types
    (createRecvSide I S R num_values orders reverse my_proc mem).1.num_comms.toNat
  constructor
  · intro hm
    obtain ⟨w1, -, w3⟩ := v3 hm
    rw [w3, m3, v1]
    apply congrArg
    apply List.map_congr_left
    intro i hi
    rw [List.mem_range] at hi
    rw [w1, m2 i hi]
    rfl
  · intro hm
    obtain ⟨w1, w2, w3⟩ := v2 hm
    rw [w3, r6, sumBufsize_shift, w2, v1, r1, Int.toNat_ofNat]
    congr 1
    apply congrArg
    apply List.map_congr_left
    intro i _
    rw [w1]
    rfl

theorem slices_ordered (f : Nat → Int) (n : Nat) (total : Int) (hf : ∀ k, k < n → 0 ≤ f k)
    (htot : ((List.range n).map f).sum ≤ total) :
    (∀ i, i < n → 0 ≤ ((List.range i).map f).sum ∧ 0 ≤ f i
      ∧ ((List.range i).map f).sum + f i ≤ total)
    ∧ ∀ i j, i < j → j < n → ((List.range i).map f).sum + f i ≤ ((List.range j).map f).sum := by
  refine ⟨fun i hi => ⟨?_, hf i hi, ?_⟩, fun i j hij hj => ?_⟩
  · apply List.sum_nonneg
    intro x hx
    obtain ⟨k, hk, rfl⟩ := List.mem_map.1 hx
    exact hf k (by rw [List.mem_range] at hk; omega)
  · exact le_trans (prefix_sum_le f n hf i n hi (le_refl _)) htot
  · exact prefix_sum_le f n hf i j hij (le_of_lt hj)

/-- C33: the slices of the send and recv buffers. For the package of
hypre_CommPkgCreate, with `boxes_match` 0 or not, a value count of at least
0 and boxes whose stride volumes are at least 0, hypre_InitializeCommunication
lets send buffer `i` start at the sum of the bufsize of the send CommTypes
before `i`; every slice `[start, start + bufsize)` has a length of at least 0,
starts at 0 or later and ends at `send_bufsize` or before, and the slice of
`i` ends where the slice of a later `j` starts, or before: the slices are
disjoint and lie in the block of `send_bufsize` doubles. The same holds for
the recv buffers, the recv CommTypes and `recv_bufsize`. -/
theorem buffer_slices {α : Type} [Zero α] [Add α] (I : hypre_CommInfo) (S R : hypre_BoxArray)
    (num_values : Int) (orders : Option (Int → Int → Int)) (reverse comm my_proc : Int)
    (mem : CreateMemory) (send_data recv_data action tag : Int) (mem2 : InitializeMemory α)
    (heap : Int → α) (hnv : 0 ≤ num_values)
    (hsv : ∀ e ∈ nonemptyBoxes (sendBoxesOf I reverse),
      0 ≤ hypre_BoxGetStrideVolume (((sendBoxesOf I reverse).box_arrays e.1).boxes e.2)
        (sendStrideOf I reverse))
    (hrv : ∀ e ∈ nonemptyBoxes (recvBoxesOf I reverse),
      0 ≤ hypre_BoxGetStrideVolume (((recvBoxesOf I reverse).box_arrays e.1).boxes e.2)
        (recvStrideOf I reverse)) :
    (∀ i : Nat, (i : Int) < (hypre_CommPkgCreate I S R num_values orders reverse comm my_proc mem).num_sends →
      (hypre_InitializeCommunication
          (hypre_CommPkgCreate I S R num_values orders reverse comm my_proc mem)
          send_data recv_data action tag mem2 heap).comm_handle.send_buffers i
        = ((List.range i).map
            (fun (k : Nat) => ((hypre_CommPkgCreate I S R num_values orders reverse comm my_proc mem).send_types k).bufsize)).sum
      ∧ 0 ≤ (hypre_InitializeCommunication
          (hypre_CommPkgCreate I S R num_values orders reverse comm my_proc mem)
          send_data recv_data action tag mem2 heap).comm_handle.send_buffers i
      ∧ 0 ≤ ((hypre_CommPkgCreate I S R num_values orders reverse comm my_proc mem).send_types i).bufsize
      ∧ (hypre_InitializeCommunication
          (hypre_CommPkgCreate I S R num_values orders reverse comm my_proc mem)
          send_data recv_data action tag mem2 heap).comm_handle.send_buffers i
          + ((hypre_CommPkgCreate I S R num_values orders reverse comm my_proc mem).send_types i).bufsize
        ≤ (hypre_CommPkgCreate I S R num_values orders reverse comm my_proc mem).send_bufsize)
    ∧ (∀ i j : Nat, i < j → (j : Int) < (hypre_CommPkgCreate I S R num_values orders reverse comm my_proc mem).num_sends →
      (hypre_InitializeCommunication
          (hypre_CommPkgCreate I S R num_values orders reverse comm my_proc mem)
          send_data recv_data action tag mem2 heap).comm_handle.send_buffers i
          + ((hypre_CommPkgCreate I S R num_values orders reverse comm my_proc mem).send_types i).bufsize
        ≤ (hypre_InitializeCommunication
          (hypre_CommPkgCreate I S R num_values orders reverse comm my_proc mem)
          send_data recv_data action tag mem2 heap).comm_handle.send_buffers j)
    ∧ (∀ i : Nat, (i : Int) < (hypre_CommPkgCreate I S R num_values orders reverse comm my_proc mem).num_recvs →
      (hypre_InitializeCommunication
          (hypre_CommPkgCreate I S R num_values orders reverse comm my_proc mem)
          send_data recv_data action tag mem2 heap).comm_handle.recv_buffers i
        = ((List.range i).map
            (fun (k : Nat) => ((hypre_CommPkgCreate I S R num_values orders reverse comm my_proc mem).recv_types k).bufsize)).sum
      ∧ 0 ≤ (hypre_InitializeCommunication
          (hypre_CommPkgCreate I S R num_values orders reverse comm my_proc mem)
          send_data recv_data action tag mem2 heap).comm_handle.recv_buffers i
      ∧ 0 ≤ ((hypre_CommPkgCreate I S R num_values orders reverse comm my_proc mem).recv_types i).bufsize
      ∧ (hypre_InitializeCommunication
          (hypre_CommPkgCreate I S R num_values orders reverse comm my_proc mem)
          send_data recv_data action tag mem2 heap).comm_handle.recv_buffers i
          + ((hypre_CommPkgCreate I S R num_values orders reverse comm my_proc mem).recv_types i).bufsize
        ≤ (hypre_CommPkgCreate I S R num_values orders reverse comm my_proc mem).recv_bufsize)
    ∧ (∀ i j : Nat, i < j → (j : Int) < (hypre_CommPkgCreate I S R num_values orders reverse comm my_proc mem).num_recvs →
      (hypre_InitializeCommunication
          (hypre_CommPkgCreate I S R num_values orders reverse comm my_proc mem)
          send_data recv_data action tag mem2 heap).comm_handle.recv_buffers i
          + ((hypre_CommPkgCreate I S R num_values orders reverse comm my_proc mem).recv_types i).bufsize
        ≤ (hypre_InitializeCommunication
          (hypre_CommPkgCreate I S R num_values orders reverse comm my_proc mem)
          send_data recv_data action tag mem2 heap).comm_handle.recv_buffers j) := by
  obtain ⟨s1, s2⟩ := create_send_types I S R num_values orders reverse comm my_proc mem
  obtain ⟨l1, l2⟩ := create_local_bufsize I S R num_values orders reverse comm my_proc mem
  obtain ⟨t0, t1⟩ := create_recv_bufsize I S R num_values orders reverse comm my_proc mem
  have hpay_s := fun p => peerPayload_nonneg num_values (sendStrideOf I reverse)
    (sendBoxesOf I reverse) (sendProcessesOf I reverse) p hnv hsv
  have hpay_r := fun p => peerPayload_nonneg num_values (recvStrideOf I reverse)
    (recvBoxesOf I reverse) (recvProcessesOf I reverse) p hnv hrv
  have hfs : ∀ k, k < (hypre_CommPkgCreate I S R num_values orders reverse comm my_proc mem).num_sends.toNat →
      0 ≤ ((hypre_CommPkgCreate I S R num_values orders reverse comm my_proc mem).send_types k).bufsize := by
    intro k hk
    rw [s1, Int.toNat_ofNat] at hk
    obtain ⟨-, a2, a3⟩ := s2 k _ (List.getElem?_eq_getElem hk)
    rw [a3]
    have := hypre_CommPrefixSize_pos
      ((peerBoxes (sendBoxesOf I reverse) (sendProcessesOf I reverse)
        (peerList my_proc (sendBoxesOf I reverse) (sendProcessesOf I reverse))[k]).length : Int)
      (Int.natCast_nonneg _)
    have := hpay_s (peerList my_proc (sendBoxesOf I reverse) (sendProcessesOf I reverse))[k]
    omega
  have hnr : (hypre_CommPkgCreate I S R num_values orders reverse comm my_proc mem).num_recvs
      = ((peerList my_proc (recvBoxesOf I reverse) (recvProcessesOf I reverse)).length : Int) :=
    (create_recv_view I S R num_values orders reverse comm my_proc mem).1.trans
      (createRecvSide_spec I S R num_values orders reverse my_proc mem).1
  have hfr : ∀ k, k < (hypre_CommPkgCreate I S R num_values orders reverse comm my_proc mem).num_recvs.toNat →
      0 ≤ ((hypre_CommPkgCreate I S R num_values orders reverse comm my_proc mem).recv_types k).bufsize := by
    intro k hk
    rw [hnr, Int.toNat_ofNat] at hk
    obtain ⟨-, -, c1, c0⟩ := create_recv_types I S R num_values orders reverse comm my_proc mem
      k _ (List.getElem?_eq_getElem hk)
    have hp := hpay_r (peerList my_proc (recvBoxesOf I reverse) (recvProcessesOf I reverse))[k]
    by_cases hm : I.boxes_match = 0
    · rw [(c0 hm).2]
      have := hypre_CommPrefixSize_pos _ hp
      omega
    · rw [(c1 hm).2]
      have := hypre_CommPrefixSize_pos
        ((peerBoxes (recvBoxesOf I reverse) (recvProcessesOf I reverse)
          (peerList my_proc (recvBoxesOf I reverse) (recvProcessesOf I reverse))[k]).length : Int)
        (Int.natCast_nonneg _)
      omega
  have htots : ((List.range (hypre_CommPkgCreate I S R num_values orders reverse comm my_proc mem).num_sends.toNat).map
      (fun (k : Nat) => ((hypre_CommPkgCreate I S R num_values orders reverse comm my_proc mem).send_types k).bufsize)).sum
      ≤ (hypre_CommPkgCreate I S R num_values orders reverse comm my_proc mem).send_bufsize := by
    have hb := commPkgBuild_send_bufsize (sendBoxesOf I reverse) (recvBoxesOf I reverse)
      (sendStrideOf I reverse) (recvStrideOf I reverse) (sendProcessesOf I reverse)
      (recvProcessesOf I reverse) (sendRBoxnumsOf I reverse) (sendRBoxesOf I reverse)
      (sendTransformsOf I reverse) I.num_transforms I.coords I.dirs I.boxes_match
      (sendSpaceOf S R reverse) (recvSpaceOf S R reverse) num_values orders comm my_proc mem
    rw [← create_eq_build] at hb
    unfold sendTypesBufsize at hb
    have := hpay_s my_proc
    rw [← l1] at this
    omega
  have htotr : ((List.range (hypre_CommPkgCreate I S R num_values orders reverse comm my_proc mem).num_recvs.toNat).map
      (fun (k : Nat) => ((hypre_CommPkgCreate I S R num_values orders reverse comm my_proc mem).recv_types k).bufsize)).sum
      ≤ (hypre_CommPkgCreate I S R num_values orders reverse comm my_proc mem).recv_bufsize := by
    by_cases hm : I.boxes_match = 0
    · exact le_of_eq (t0 hm).symm
    · rw [t1 hm]
      have := hpay_r my_proc
      rw [← l2] at this
      omega
  obtain ⟨ps1, ps2⟩ := slices_ordered
    (fun k => ((hypre_CommPkgCreate I S R num_values orders reverse comm my_proc mem).send_types k).bufsize) _ _ hfs htots
  obtain ⟨pr1, pr2⟩ := slices_ordered
    (fun k => ((hypre_CommPkgCreate I S R num_values orders reverse comm my_proc mem).recv_types k).bufsize) _ _ hfr htotr
  have hbs : ∀ i : Nat, (i : Int) < (hypre_CommPkgCreate I S R num_values orders reverse comm my_proc mem).num_sends →
      (hypre_InitializeCommunication
          (hypre_CommPkgCreate I S R num_values orders reverse comm my_proc mem)
          send_data recv_data action tag mem2 heap).comm_handle.send_buffers i
        = ((List.range i).map
            (fun (k : Nat) => ((hypre_CommPkgCreate I S R num_values orders reverse comm my_proc mem).send_types k).bufsize)).sum :=
    fun i hi => setBuffers_spec _ _ _ i hi
  have hbr : ∀ i : Nat, (i : Int) < (hypre_CommPkgCreate I S R num_values orders reverse comm my_proc mem).num_recvs →
      (hypre_InitializeCommunication
          (hypre_CommPkgCreate I S R num_values orders reverse comm my_proc mem)
          send_data recv_data action tag mem2 heap).comm_handle.recv_buffers i
        = ((List.range i).map
            (fun (k : Nat) => ((hypre_CommPkgCreate I S R num_values orders reverse comm my_proc mem).recv_types k).bufsize)).sum :=
    fun i hi => setBuffers_spec _ _ _ i hi
  refine ⟨?_, ?_, ?_, ?_⟩
  · intro i hi
    obtain ⟨a, b, c⟩ := ps1 i (by omega)
    rw [hbs i hi]
    exact ⟨rfl, a, b, c⟩
  · intro i j hij hj
    rw [hbs i (by omega), hbs j hj]
    exact ps2 i j hij (by omega)
  · intro i hi
    obtain ⟨a, b, c⟩ := pr1 i (by omega)
    rw [hbr i hi]
    exact ⟨rfl, a, b, c⟩
  · intro i j hij hj
    rw [hbr i (by omega), hbr j hj]
    exact pr2 i j hij (by omega)

/-- C33 at a concrete input: on process 0 the sample package has two send
CommTypes; the second send buffer starts where the first ends, at the bufsize
of the first CommType, and ends inside the block of `send_bufsize` doubles. -/
theorem buffer_slices_witness :
    (hypre_InitializeCommunication samplePkg 0 100 0 7 sampleInitMemory
        (fun a => a)).comm_handle.send_buffers 1 = (samplePkg.send_types 0).bufsize
    ∧ (hypre_InitializeCommunication samplePkg 0 100 0 7 sampleInitMemory
        (fun a => a)).comm_handle.send_buffers 1 + (samplePkg.send_types 1).bufsize
      ≤ samplePkg.send_bufsize := by
  have h := buffer_slices sampleInfo sampleSpace sampleSpace 1 none 0 0 0 sampleMemory 0 100 0 7
    sampleInitMemory (fun a => a) (by decide)
    (fun e he => by
      have : e ∈ [((0 : Int), (0 : Int)), (0, 1), (0, 3)] := by
        have h2 : nonemptyBoxes (sendBoxesOf sampleInfo 0) = [(0, 0), (0, 1), (0, 3)] := by
          decide
        rw [h2] at he
        exact he
      simp only [List.mem_cons, List.mem_singleton, List.mem_nil_iff, or_false] at this
      rcases this with rfl | rfl | rfl <;> decide)
    (fun e he => by
      have : e ∈ [((0 : Int), (0 : Int)), (0, 1), (0, 3)] := by
        have h2 : nonemptyBoxes (recvBoxesOf sampleInfo 0) = [(0, 0), (0, 1), (0, 3)] := by
          decide
        rw [h2] at he
        exact he
      simp only [List.mem_cons, List.mem_singleton, List.mem_nil_iff, or_false] at this
      rcases this with rfl | rfl | rfl <;> decide)
  obtain ⟨a1, -, -, a4⟩ := h.1 1 (by decide)
  exact ⟨a1.trans (by decide), a4⟩

/-! ## The pack fills the slice of its peer -/

theorem perm_prod (coord : hypre_Index) (h : isPermutation coord) (f : Int → Int) :
    f 0 * f 1 * f 2 = f coord.x * f coord.y * f coord.z := by
  obtain ⟨hx, hy, hz, hxy, hxz, hyz⟩ := h
  rcases hx with hx | hx | hx <;> rcases hy with hy | hy | hy <;>
    rcases hz with hz | hz | hz <;>
    first
      | (exfalso; omega)
      | (rw [hx, hy, hz] <;> ring)

theorem perm_cover (coord : hypre_Index) (h : isPermutation coord) (c : Int)
    (hc : c = 0 ∨ c = 1 ∨ c = 2) : c = coord.x ∨ c = coord.y ∨ c = coord.z := by
  obtain ⟨hx, hy, hz, hxy, hxz, hyz⟩ := h
  omega

/-- The lengths of an entry built with a permutation `coord` for a box with
points and a stride of at least 1: they are at least 0 and their product is
the stride volume of the box. -/
theorem setEntry_perm_lengths (box : hypre_Box) (stride coord dir : hypre_Index)
    (order : List Int) (data_box : hypre_Box) (off : Int) (e : hypre_CommEntryType)
    (hc : isPermutation coord) (hb : boxNonempty box) (hs : stridePositive stride) :
    (hypre_CommTypeSetEntry box stride coord dir order data_box off e).length_array 0
        * (hypre_CommTypeSetEntry box stride coord dir order data_box off e).length_array 1
        * (hypre_CommTypeSetEntry box stride coord dir order data_box off e).length_array 2
      = hypre_BoxGetStrideVolume box stride
    ∧ 0 ≤ (hypre_CommTypeSetEntry box stride coord dir order data_box off e).length_array 0
    ∧ 0 ≤ (hypre_CommTypeSetEntry box stride coord dir order data_box off e).length_array 1
    ∧ 0 ≤ (hypre_CommTypeSetEntry box stride coord dir order data_box off e).length_array 2 := by
  obtain ⟨l0, l1, l2, -⟩ := setEntryAdjusted_perm box stride coord dir data_box off e hc
  obtain ⟨px, py, pz⟩ := strideSize_pos box stride hb hs
  have hprod := perm_prod coord hc
    (setEntryAdjusted box stride coord dir data_box off e).length_array
  rw [l0, l1, l2] at hprod
  have hnn : ∀ c : Int, (c = 0 ∨ c = 1 ∨ c = 2) →
      0 ≤ (setEntryAdjusted box stride coord dir data_box off e).length_array c := by
    intro c hcase
    rcases perm_cover coord hc c hcase with rfl | rfl | rfl
    · rw [l0]; omega
    · rw [l1]; omega
    · rw [l2]; omega
  refine ⟨?_, setEntryCollapse_nonneg _ (hnn 0 (Or.inl rfl)) (hnn 1 (Or.inr (Or.inl rfl)))
    (hnn 2 (Or.inr (Or.inr rfl)))⟩
  have hcp := collapse_product (setEntryAdjusted box stride coord dir data_box off e)
  unfold hypre_BoxGetStrideVolume
  rw [← hprod]
  exact hcp

theorem resolvedCoord_perm (coords : Int → hypre_Index) (T : Option (Int → Int → Int))
    (e : Int × Int) (h : ∀ t, isPermutation (coords t)) : isPermutation (resolvedCoord coords T e) := by
  cases T with
  | none => exact (by decide : isPermutation ⟨0, 1, 2⟩)
  | some tr => exact h _

theorem sum_range_getElem {β : Type} (l : List β) (g : Nat → Int) (f : β → Int)
    (h : ∀ (j : Nat) (e : β), l[j]? = some e → g j = f e) :
    ((List.range l.length).map g).sum = (l.map f).sum := by
  induction l generalizing g with
  | nil => rfl
  | cons x xs ih =>
    rw [List.length_cons, List.range_succ_eq_map, List.map_cons, List.sum_cons, List.map_map,
      List.map_cons, List.sum_cons, h 0 x (by simp)]
    congr 1
    exact ih (fun j => g (j + 1)) (fun j e he => h (j + 1) e (by simpa using he))

theorem payloadStart_eq_sum (num_values : Int) (entries : Int → hypre_CommEntryType)
    (dptr : Int) (n : Nat) :
    payloadStart num_values entries dptr n
      = dptr + ((List.range n).map (fun (j : Nat) => payloadSize num_values (entries j))).sum := by
  induction n with
  | zero => simp [payloadStart]
  | succ k ih =>
    rw [List.range_succ, List.map_append, List.sum_append]
    show payloadStart num_values entries dptr k + payloadSize num_values (entries k) = _
    rw [ih]
    simp only [List.map_cons, List.map_nil, List.sum_cons, List.sum_nil, add_zero]
    ring

/-- C35: the pack fills exactly the slice of its peer. Take the package of
hypre_CommPkgCreate for a CommInfo whose `coords` are permutations of
`(0, 1, 2)`, a value count of at least 0, a send stride of at least 1 along
each axis and send boxes with points that have `imin ≤ imax`, and let
`send_types[n]` be the CommType of process `p`, with `k` entries. Every entry
has lengths of at least 0 whose product is the stride volume of its box; the
bufsize is `hypre_CommPrefixSize(k)` plus the sum over the entries of
`num_values*length[0]*length[1]*length[2]`; and the entry loop of the pack,
started behind the prefix of a slice that starts at `start`, ends with `dptr`
at `start + bufsize` and leaves the buffer as it was before the payload and
from `start + bufsize` on. -/
theorem pack_fills_slice {α : Type} [Zero α] (I : hypre_CommInfo) (S R : hypre_BoxArray)
    (num_values : Int) (orders : Option (Int → Int → Int)) (reverse comm my_proc : Int)
    (mem : CreateMemory) (n : Nat) (p : Int)
    (hperm : ∀ t, isPermutation (I.coords t)) (hnv : 0 ≤ num_values)
    (hs : stridePositive (sendStrideOf I reverse))
    (hb : ∀ e ∈ nonemptyBoxes (sendBoxesOf I reverse),
      boxNonempty (((sendBoxesOf I reverse).box_arrays e.1).boxes e.2))
    (hp : (peerList my_proc (sendBoxesOf I reverse) (sendProcessesOf I reverse))[n]? = some p) :
    ((hypre_CommPkgCreate I S R num_values orders reverse comm my_proc mem).send_types n).num_entries
      = (peerBoxes (sendBoxesOf I reverse) (sendProcessesOf I reverse) p).length
    ∧ (∀ (k : Nat) (e : Int × Int),
        (peerBoxes (sendBoxesOf I reverse) (sendProcessesOf I reverse) p)[k]? = some e →
        (((hypre_CommPkgCreate I S R num_values orders reverse comm my_proc mem).send_types n).entries k).length_array 0
            * (((hypre_CommPkgCreate I S R num_values orders reverse comm my_proc mem).send_types n).entries k).length_array 1
            * (((hypre_CommPkgCreate I S R num_values orders reverse comm my_proc mem).send_types n).entries k).length_array 2
          = hypre_BoxGetStrideVolume (((sendBoxesOf I reverse).box_arrays e.1).boxes e.2)
              (sendStrideOf I reverse)
        ∧ 0 ≤ (((hypre_CommPkgCreate I S R num_values orders reverse comm my_proc mem).send_types n).entries k).length_array 0
        ∧ 0 ≤ (((hypre_CommPkgCreate I S R num_values orders reverse comm my_proc mem).send_types n).entries k).length_array 1
        ∧ 0 ≤ (((hypre_CommPkgCreate I S R num_values orders reverse comm my_proc mem).send_types n).entries k).length_array 2)
    ∧ ((hypre_CommPkgCreate I S R num_values orders reverse comm my_proc mem).send_types n).bufsize
      = hypre_CommPrefixSize ((hypre_CommPkgCreate I S R num_values orders reverse comm my_proc mem).send_types n).num_entries
        + ((List.range ((hypre_CommPkgCreate I S R num_values orders reverse comm my_proc mem).send_types n).num_entries.toNat).map
            (fun (j : Nat) =>
              num_values * (((hypre_CommPkgCreate I S R num_values orders reverse comm my_proc mem).send_types n).entries j).length_array 0
                * (((hypre_CommPkgCreate I S R num_values orders reverse comm my_proc mem).send_types n).entries j).length_array 1
                * (((hypre_CommPkgCreate I S R num_values orders reverse comm my_proc mem).send_types n).entries j).length_array 2)).sum
    ∧ ∀ (send_data buf : Int → α) (start : Int),
        (packEntries num_values send_data ((hypre_CommPkgCreate I S R num_values orders reverse comm my_proc mem).send_types n).num_entries
            ((hypre_CommPkgCreate I S R num_values orders reverse comm my_proc mem).send_types n).entries
            (buf, start + hypre_CommPrefixSize ((hypre_CommPkgCreate I S R num_values orders reverse comm my_proc mem).send_types n).num_entries)).2
          = start + ((hypre_CommPkgCreate I S R num_values orders reverse comm my_proc mem).send_types n).bufsize
        ∧ ∀ a : Int,
            (a < start + hypre_CommPrefixSize ((hypre_CommPkgCreate I S R num_values orders reverse comm my_proc mem).send_types n).num_entries
              ∨ start + ((hypre_CommPkgCreate I S R num_values orders reverse comm my_proc mem).send_types n).bufsize ≤ a) →
            (packEntries num_values send_data ((hypre_CommPkgCreate I S R num_values orders reverse comm my_proc mem).send_types n).num_entries
              ((hypre_CommPkgCreate I S R num_values orders reverse comm my_proc mem).send_types n).entries
              (buf, start + hypre_CommPrefixSize ((hypre_CommPkgCreate I S R num_values orders reverse comm my_proc mem).send_types n).num_entries)).1 a
            = buf a := by
  obtain ⟨-, s2⟩ := create_send_types I S R num_values orders reverse comm my_proc mem
  obtain ⟨-, a2, a3⟩ := s2 n p hp
  have hent : ∀ (k : Nat) (e : Int × Int),
      (peerBoxes (sendBoxesOf I reverse) (sendProcessesOf I reverse) p)[k]? = some e →
      (((hypre_CommPkgCreate I S R num_values orders reverse comm my_proc mem).send_types n).entries k).length_array 0
          * (((hypre_CommPkgCreate I S R num_values orders reverse comm my_proc mem).send_types n).entries k).length_array 1
          * (((hypre_CommPkgCreate I S R num_values orders reverse comm my_proc mem).send_types n).entries k).length_array 2
        = hypre_BoxGetStrideVolume (((sendBoxesOf I reverse).box_arrays e.1).boxes e.2)
            (sendStrideOf I reverse)
      ∧ 0 ≤ (((hypre_CommPkgCreate I S R num_values orders reverse comm my_proc mem).send_types n).entries k).length_array 0
      ∧ 0 ≤ (((hypre_CommPkgCreate I S R num_values orders reverse comm my_proc mem).send_types n).entries k).length_array 1
      ∧ 0 ≤ (((hypre_CommPkgCreate I S R num_values orders reverse comm my_proc mem).send_types n).entries k).length_array 2 := by
    intro k e hk
    obtain ⟨h1, -, -, -⟩ := create_send_entries I S R num_values orders reverse comm my_proc
      mem (n + 1) p k e hp hk
    have h1' : ((hypre_CommPkgCreate I S R num_values orders reverse comm my_proc mem).send_types n).entries k = _ := h1
    rw [h1']
    have hne : e ∈ nonemptyBoxes (sendBoxesOf I reverse) :=
      (List.mem_filter.1 (List.mem_iff_getElem?.2 ⟨k, hk⟩)).1
    exact setEntry_perm_lengths _ _ _ _ _ _ _ _
      (resolvedCoord_perm I.coords (sendTransformsOf I reverse) e hperm) (hb e hne) hs
  have hsize : ∀ (j : Nat) (e : Int × Int),
      (peerBoxes (sendBoxesOf I reverse) (sendProcessesOf I reverse) p)[j]? = some e →
      payloadSize num_values (((hypre_CommPkgCreate I S R num_values orders reverse comm my_proc mem).send_types n).entries j)
        = num_values * hypre_BoxGetStrideVolume
            (((sendBoxesOf I reverse).box_arrays e.1).boxes e.2) (sendStrideOf I reverse) := by
    intro j e hj
    obtain ⟨hprod, -⟩ := hent j e hj
    unfold payloadSize
    rw [← hprod]
    ring
  have hsum : ((List.range (peerBoxes (sendBoxesOf I reverse) (sendProcessesOf I reverse) p).length).map
      (fun (j : Nat) => payloadSize num_values (((hypre_CommPkgCreate I S R num_values orders reverse comm my_proc mem).send_types n).entries j))).sum
      = peerPayload num_values (sendStrideOf I reverse) (sendBoxesOf I reverse)
          (sendProcessesOf I reverse) p := by
    rw [sum_range_getElem (peerBoxes (sendBoxesOf I reverse) (sendProcessesOf I reverse) p)
      (fun j => payloadSize num_values (((hypre_CommPkgCreate I S R num_values orders reverse comm my_proc mem).send_types n).entries j))
      (fun e => num_values * hypre_BoxGetStrideVolume
        (((sendBoxesOf I reverse).box_arrays e.1).boxes e.2) (sendStrideOf I reverse)) hsize]
    unfold peerPayload
    rw [← List.sum_map_mul_left]
  have hnat : ((hypre_CommPkgCreate I S R num_values orders reverse comm my_proc mem).send_types n).num_entries.toNat
      = (peerBoxes (sendBoxesOf I reverse) (sendProcessesOf I reverse) p).length := by
    rw [a2]
    exact Int.toNat_ofNat _
  have hbuf : ((hypre_CommPkgCreate I S R num_values orders reverse comm my_proc mem).send_types n).bufsize
      = hypre_CommPrefixSize ((hypre_CommPkgCreate I S R num_values orders reverse comm my_proc mem).send_types n).num_entries
        + ((List.range ((hypre_CommPkgCreate I S R num_values orders reverse comm my_proc mem).send_types n).num_entries.toNat).map
            (fun (j : Nat) => payloadSize num_values (((hypre_CommPkgCreate I S R num_values orders reverse comm my_proc mem).send_types n).entries j))).sum := by
    rw [hnat, hsum, a2]
    exact a3
  refine ⟨a2, hent, hbuf, ?_⟩
  intro send_data buf start
  have hlen : ∀ j : Nat, j < ((hypre_CommPkgCreate I S R num_values orders reverse comm my_proc mem).send_types n).num_entries.toNat →
      0 ≤ (((hypre_CommPkgCreate I S R num_values orders reverse comm my_proc mem).send_types n).entries j).length_array 0
      ∧ 0 ≤ (((hypre_CommPkgCreate I S R num_values orders reverse comm my_proc mem).send_types n).entries j).length_array 1
      ∧ 0 ≤ (((hypre_CommPkgCreate I S R num_values orders reverse comm my_proc mem).send_types n).entries j).length_array 2 := by
    intro j hj
    rw [hnat] at hj
    exact (hent j _ (List.getElem?_eq_getElem hj)).2
  obtain ⟨q1, q2, -⟩ := packEntries_spec num_values send_data ((hypre_CommPkgCreate I S R num_values orders reverse comm my_proc mem).send_types n).entries buf
    (start + hypre_CommPrefixSize ((hypre_CommPkgCreate I S R num_values orders reverse comm my_proc mem).send_types n).num_entries) hnv
    ((hypre_CommPkgCreate I S R num_values orders reverse comm my_proc mem).send_types n).num_entries.toNat hlen
  have hend : payloadStart num_values ((hypre_CommPkgCreate I S R num_values orders reverse comm my_proc mem).send_types n).entries
      (start + hypre_CommPrefixSize ((hypre_CommPkgCreate I S R num_values orders reverse comm my_proc mem).send_types n).num_entries)
      ((hypre_CommPkgCreate I S R num_values orders reverse comm my_proc mem).send_types n).num_entries.toNat
      = start + ((hypre_CommPkgCreate I S R num_values orders reverse comm my_proc mem).send_types n).bufsize := by
    rw [payloadStart_eq_sum, hbuf]
    ring
  unfold packEntries
  refine ⟨q1.trans hend, fun a ha => q2 a ?_⟩
  rw [hend]
  exact ha

theorem pack_fills_slice_witness :
    (samplePkg.send_types 0).num_entries = 1
    ∧ (packEntries 1 (fun a => a) (samplePkg.send_types 0).num_entries
        (samplePkg.send_types 0).entries
        ((fun _ => (0 : Int)), 10 + hypre_CommPrefixSize (samplePkg.send_types 0).num_entries)).2
      = 10 + (samplePkg.send_types 0).bufsize := by
  have h := @pack_fills_slice Int _ sampleInfo sampleSpace sampleSpace 1 none 0 0 0 sampleMemory
    0 1 (fun _ => (show isPermutation ⟨0, 1, 2⟩ by decide)) (by decide) (by decide)
    (fun e he => by
      have : e ∈ [((0 : Int), (0 : Int)), (0, 1), (0, 3)] := by
        have h2 : nonemptyBoxes (sendBoxesOf sampleInfo 0) = [(0, 0), (0, 1), (0, 3)] := by
          decide
        rw [h2] at he
        exact he
      simp only [List.mem_cons, List.mem_singleton, List.mem_nil_iff, or_false] at this
      rcases this with rfl | rfl | rfl <;> decide)
    (by decide)
  exact ⟨h.1.trans (by decide), (h.2.2.2 (fun a => a) (fun _ => 0) 10).1⟩

/-! ## The local copy and the path through a buffer -/

/-- The destination cells of the local copy of a pair of entries with equal
lengths and no skipped value component are the cells of the unpack of the
to-entry, moved by `recv_data`, in the same order. -/
theorem localPairs_fst (num_values : Int) (send_data recv_data : Int)
    (fe te : hypre_CommEntryType)
    (hl0 : te.length_array 0 = fe.length_array 0) (hl1 : te.length_array 1 = fe.length_array 1)
    (hl2 : te.length_array 2 = fe.length_array 2)
    (ho : ∀ v : Nat, (v : Int) < num_values → orderAt fe.order v > -1) :
    (localPairs num_values send_data recv_data fe te).map Prod.fst
      = (entryAddrs num_values te).map (fun a => recv_data + a) := by
  unfold localPairs entryAddrs boxAddrs planeAddrs rowAddrs
  rw [hl0, hl1, hl2]
  simp only [List.map_flatMap]
  apply flatMap_range_congr
  intro i3 hi3
  rw [if_pos (ho i3 (by omega))]
  simp only [List.map_flatMap]
  apply flatMap_range_congr
  intro i2 _
  apply flatMap_range_congr
  intro i1 _
  simp only [List.map_map]
  apply List.map_congr_left
  intro i0 _
  simp only [Function.comp]
  ring

/-- The values read by the local copy of a pair of entries with no skipped
value component are the doubles of the pack of the from-entry, in the same
order. -/
theorem localPairs_snd {α : Type} [Zero α] (num_values : Int) (send_data recv_data : Int)
    (fe te : hypre_CommEntryType) (heap : Int → α)
    (ho : ∀ v : Nat, (v : Int) < num_values → orderAt fe.order v > -1) :
    (localPairs num_values send_data recv_data fe te).map (fun p => heap p.2)
      = entryPayload num_values (fun a => heap (send_data + a)) fe := by
  unfold localPairs entryPayload valuePayload boxAddrs planeAddrs rowAddrs
  simp only [List.map_flatMap]
  apply flatMap_range_congr
  intro i3 hi3
  rw [if_pos (ho i3 (by omega)), if_pos (ho i3 (by omega))]
  simp only [List.map_flatMap]
  apply flatMap_range_congr
  intro i2 _
  apply flatMap_range_congr
  intro i1 _
  simp only [List.map_map]
  apply List.map_congr_left
  intro i0 _
  simp only [Function.comp]
  congr 1
  ring

theorem scatter_shift {α : Type} [Add α] (action : Int) (buf : Int → α) (r : Int)
    (addrs : List Int) (d : Int) (heap : Int → α) :
    scatter action buf addrs d (fun a => heap (r + a))
      = fun a => scatter action buf (addrs.map (fun a => r + a)) d heap (r + a) := by
  induction addrs generalizing d heap with
  | nil => rfl
  | cons x xs ih =>
    show scatter action buf xs (d + 1) (store action (fun a => heap (r + a)) x (buf d)) = _
    have hst : store action (fun a => heap (r + a)) x (buf d)
        = fun a => store action heap (r + x) (buf d) (r + a) := by
      funext a
      unfold store setAt
      by_cases h : a = x
      · subst h
        simp
      · have h2 : ¬ r + a = r + x := by omega
        simp [h, h2]
    rw [hst, ih]
    rfl

/-- Assignments whose sources are never destinations are the stores of a
buffer that holds the source values. -/
theorem copySeq_eq_scatter {α : Type} [Add α] (action : Int) (buf : Int → α)
    (pairs : List (Int × Int)) (d : Int) (heap : Int → α)
    (hbuf : ∀ (k : Nat) (p : Int × Int), pairs[k]? = some p → buf (d + k) = heap p.2)
    (hsrc : ∀ p ∈ pairs, ∀ q ∈ pairs, p.2 ≠ q.1) :
    copySeq action pairs heap = scatter action buf (pairs.map Prod.fst) d heap := by
  induction pairs generalizing d heap with
  | nil => rfl
  | cons p ps ih =>
    rw [copySeq_cons]
    show _ = scatter action buf (ps.map Prod.fst) (d + 1) (store action heap p.1 (buf d))
    have hb0 : buf d = heap p.2 := by
      have := hbuf 0 p (by simp)
      simpa using this
    have hst : store action heap p.1 (buf d)
        = setAt heap p.1 (if action > 0 then heap p.1 + heap p.2 else heap p.2) := by
      unfold store
      rw [hb0]
    rw [hst]
    apply ih
    · intro k q hq
      have h1 := hbuf (k + 1) q (by simpa using hq)
      have h2 : q.2 ≠ p.1 :=
        hsrc q (List.mem_cons_of_mem _ (List.mem_iff_getElem?.2 ⟨k, hq⟩)) p
          (List.mem_cons_self _ _)
      unfold setAt
      rw [if_neg h2, ← h1]
      congr 1
      push_cast
      ring
    · intro a ha b hb
      exact hsrc a (List.mem_cons_of_mem _ ha) b (List.mem_cons_of_mem _ hb)

/-- C38: the local copy agrees with the path through a buffer when the start
pointers differ. For a pair of entries (from, to) with equal `length[0..2]`,
`order[v] > -1` for every `v < num_values`, no source cell that is a
destination cell, and `recv_data + to.offset ≠ send_data + from.offset`: the
memory after the local copy of hypre_ExchangeLocalData for the pair is the
memory after the from-entry is packed into a buffer (at any position `d`) by
the pack loop of hypre_InitializeCommunication and the buffer is unpacked
through the to-entry by the unpack loop of hypre_FinalizeCommunication with
the same action. `send_data` and `recv_data` are positions in one memory
`heap`. -/
theorem local_copy_agrees {α : Type} [Zero α] [Add α] (num_values action : Int)
    (send_data recv_data : Int) (fe te : hypre_CommEntryType) (heap buf0 : Int → α) (d : Int)
    (hl0 : te.length_array 0 = fe.length_array 0) (hl1 : te.length_array 1 = fe.length_array 1)
    (hl2 : te.length_array 2 = fe.length_array 2)
    (ho : ∀ v : Nat, (v : Int) < num_values → orderAt fe.order v > -1)
    (hsrc : ∀ p ∈ localPairs num_values send_data recv_data fe te,
      ∀ q ∈ localPairs num_values send_data recv_data fe te, p.2 ≠ q.1)
    (hne : recv_data + te.offset ≠ send_data + fe.offset) :
    exchangeLocalEntry num_values action send_data recv_data fe te heap
      = fun x =>
          (unpackEntry action num_values
            (packEntry num_values (fun a => heap (send_data + a)) fe (buf0, d)).1 te
            (fun a => heap (recv_data + a), d)).1 (x - recv_data) := by
  have hfst := localPairs_fst num_values send_data recv_data fe te hl0 hl1 hl2 ho
  have hsnd := localPairs_snd num_values send_data recv_data fe te heap ho
  rw [exchangeLocalEntry_eq num_values action send_data recv_data fe te heap hne]
  by_cases hn : 0 ≤ fe.length_array 0 ∧ 0 ≤ fe.length_array 1 ∧ 0 ≤ fe.length_array 2
  · obtain ⟨n0, n1, n2⟩ := hn
    rw [packEntry_eq num_values _ fe n0 n1 n2,
      unpackEntry_eq action num_values _ te (by rw [hl0]; exact n0)]
    show _ = fun x => scatter action _ (entryAddrs num_values te) d
      (fun a => heap (recv_data + a)) (x - recv_data)
    rw [scatter_shift, ← hfst]
    funext x
    show _ = scatter action _ _ d heap (recv_data + (x - recv_data))
    rw [show recv_data + (x - recv_data) = x by ring]
    refine congrFun (copySeq_eq_scatter action _ _ d heap ?_ hsrc) x
    intro k p hk
    apply emit_getElem?
    rw [← hsnd, List.getElem?_map, hk]
    rfl
  · have hnil : entryAddrs num_values te = [] := by
      apply List.eq_nil_of_length_eq_zero
      rw [length_entryAddrs]
      unfold entrySize
      rw [hl0, hl1, hl2]
      have h3 : (fe.length_array 0).toNat = 0 ∨ (fe.length_array 1).toNat = 0
          ∨ (fe.length_array 2).toNat = 0 := by omega
      rcases h3 with h3 | h3 | h3 <;> rw [h3] <;> simp
    funext x
    rw [unpackEntry_frame action num_values _ te _ (x - recv_data) (by rw [hnil]; simp)]
    show _ = heap (recv_data + (x - recv_data))
    rw [show recv_data + (x - recv_data) = x by ring]
    apply copySeq_outside
    rw [hfst, hnil]
    simp

theorem local_copy_agrees_witness :
    exchangeLocalEntry 2 0 100 0
        ⟨0, 1, fun d => if d = 0 then 2 else 1, fun d => if d = 3 then 10 else 1, [1, 0]⟩
        ⟨20, 1, fun d => if d = 0 then 2 else 1, fun d => if d = 3 then 20 else 2, [0, 1]⟩
        (fun a => (1000 + a : Int)) 22
      = (unpackEntry 0 2
          (packEntry 2 (fun a => (1000 + (100 + a) : Int))
            ⟨0, 1, fun d => if d = 0 then 2 else 1, fun d => if d = 3 then 10 else 1, [1, 0]⟩
            (fun _ => 0, 5)).1
          ⟨20, 1, fun d => if d = 0 then 2 else 1, fun d => if d = 3 then 20 else 2, [0, 1]⟩
          (fun a => (1000 + (0 + a) : Int), 5)).1 (22 - 0) :=
  congrFun (local_copy_agrees (2 : Int) 0 100 0
    ⟨0, 1, fun d => if d = 0 then 2 else 1, fun d => if d = 3 then 10 else 1, [1, 0]⟩
    ⟨20, 1, fun d => if d = 0 then 2 else 1, fun d => if d = 3 then 20 else 2, [0, 1]⟩
    (fun a => (1000 + a : Int)) (fun _ => 0) 5 (by decide) (by decide) (by decide)
    (fun v hv => by
      have h : v = 0 ∨ v = 1 := by omega
      rcases h with rfl | rfl <;> decide)
    (by decide) (by decide)) 22

/-- C38, the case left out: with equal start pointers the local copy does
nothing although no source cell is a destination cell. The from-entry reads
component 1 for both value components (cell 110), the to-entry writes the
cells 100 and 120; the local copy leaves cell 120 as it was, the path through
a buffer stores the value of cell 110 there. -/
theorem local_copy_counterexample :
    sampleToEntry.length_array 0 = sampleFromEntry.length_array 0
    ∧ sampleToEntry.length_array 1 = sampleFromEntry.length_array 1
    ∧ sampleToEntry.length_array 2 = sampleFromEntry.length_array 2
    ∧ (∀ v : Nat, (v : Int) < 2 → orderAt sampleFromEntry.order v > -1)
    ∧ (∀ p ∈ localPairs 2 100 100 sampleFromEntry sampleToEntry,
        ∀ q ∈ localPairs 2 100 100 sampleFromEntry sampleToEntry, p.2 ≠ q.1)
    ∧ exchangeLocalEntry 2 0 100 100 sampleFromEntry sampleToEntry
        (fun a => (1000 + a : Int)) 120 = 1120
    ∧ (unpackEntry 0 2
        (packEntry 2 (fun a => (1000 + (100 + a) : Int)) sampleFromEntry (fun _ => 0, 0)).1
        sampleToEntry (fun a => (1000 + (100 + a) : Int), 0)).1 (120 - 100) = 1110 := by
  refine ⟨rfl, rfl, rfl, ?_, by decide, by decide, by decide⟩
  intro v hv
  have h : v = 0 ∨ v = 1 := by omega
  rcases h with rfl | rfl <;> decide

/-! ## The entries of the receive side -/

/-- The block after hypre_CommTypeSetEntries: the cells `entries + j`,
`j < num_entries`, hold the entries of the boxes `boxes[j]`, the others are as
before. -/
theorem setEntries_spec (num_entries entries : Int) (boxnums : Int → Int)
    (boxes : Int → hypre_Box) (stride coord dir : hypre_Index) (order : List Int)
    (data_space : hypre_BoxArray) (data_offsets : Int → Int)
    (block : Int → hypre_CommEntryType) (a : Int) :
    hypre_CommTypeSetEntries num_entries entries boxnums boxes stride coord dir order data_space
        data_offsets block a
      = if entries ≤ a ∧ a < entries + num_entries.toNat then
          hypre_CommTypeSetEntry (boxes (a - entries)) stride coord dir order
            (data_space.boxes (boxnums (a - entries))) (data_offsets (boxnums (a - entries)))
            (block a)
        else block a := by
  unfold hypre_CommTypeSetEntries
  generalize num_entries.toNat = n
  induction n with
  | zero =>
    rw [if_neg (by intro h; have := h.2; simp at this; omega)]
    rfl
  | succ k ih =>
    rw [forLoop_succ]
    simp only [setAt_apply]
    by_cases hx : a = entries + k
    · subst hx
      rw [if_pos rfl, ih, if_neg (by omega), if_pos ⟨by omega, by push_cast; omega⟩]
      rw [show entries + (k : Int) - entries = k by ring]
    · rw [if_neg hx, ih]
      by_cases hr : entries ≤ a ∧ a < entries + (k : Int)
      · rw [if_pos hr, if_pos ⟨hr.1, by push_cast; omega⟩]
      · rw [if_neg hr, if_neg (by push_cast; omega)]

/-- The loop of hypre_FinalizeCommunication that builds the recv entries,
after `m` rounds, when CommType `i` has `N i ≥ 0` entries: `ct_entries` has
moved by the sum of the counts, CommType `i` starts at the sum of the counts
before it, its cells hold the entries of the boxes of its prefix, and the
block is as before outside the cells given out so far. -/
theorem parseLoop_spec (comm_pkg : hypre_CommPkg) (types : Int → hypre_CommType)
    (recv_buffers : Int → Int) (recv_ints : Int → Int) (block : Int → hypre_CommEntryType)
    (N : Nat → Int) (M : Nat) (hN : ∀ i : Nat, i < M → (types i).num_entries = N i)
    (hn : ∀ i : Nat, i < M → 0 ≤ N i) (m : Nat) (hm : m ≤ M) :
    (forLoop m (fun i s => parseBody comm_pkg types recv_buffers recv_ints i s)
        { entries := block, ct_entries := 0, first := fun _ => 0 }).ct_entries
      = ((List.range m).map N).sum
    ∧ (∀ i : Nat, i < m →
        (forLoop m (fun i s => parseBody comm_pkg types recv_buffers recv_ints i s)
          { entries := block, ct_entries := 0, first := fun _ => 0 }).first i
        = ((List.range i).map N).sum)
    ∧ (∀ i : Nat, i < m → ∀ j : Nat, (j : Int) < N i →
        (forLoop m (fun i s => parseBody comm_pkg types recv_buffers recv_ints i s)
          { entries := block, ct_entries := 0, first := fun _ => 0 }).entries
            (((List.range i).map N).sum + j)
        = hypre_CommTypeSetEntry (prefixBoxes recv_ints (intIndex (recv_buffers i)) j)
            comm_pkg.recv_stride comm_pkg.identity_coord comm_pkg.identity_dir
            comm_pkg.identity_order
            (comm_pkg.recv_data_space.boxes
              (prefixBoxnums recv_ints (intIndex (recv_buffers i)) j))
            (comm_pkg.recv_data_offsets
              (prefixBoxnums recv_ints (intIndex (recv_buffers i)) j))
            (block (((List.range i).map N).sum + j)))
    ∧ (∀ a : Int, (a < 0 ∨ ((List.range m).map N).sum ≤ a) →
        (forLoop m (fun i s => parseBody comm_pkg types recv_buffers recv_ints i s)
          { entries := block, ct_entries := 0, first := fun _ => 0 }).entries a = block a) := by
  induction m with
  | zero =>
    refine ⟨rfl, fun i hi => by omega, fun i hi => by omega, fun a _ => rfl⟩
  | succ k ih =>
    obtain ⟨i1, i2, i3, i4⟩ := ih (by omega)
    have hsum : ((List.range (k + 1)).map N).sum = ((List.range k).map N).sum + N k := by
      rw [List.range_succ, List.map_append, List.sum_append]
      simp
    have h0 : 0 ≤ ((List.range k).map N).sum := by
      apply List.sum_nonneg
      intro x hx
      obtain ⟨q, hq, rfl⟩ := List.mem_map.1 hx
      exact hn q (by rw [List.mem_range] at hq; omega)
    have hNk := hN k (by omega)
    have hnk := hn k (by omega)
    rw [forLoop_succ]
    generalize forLoop k (fun i s => parseBody comm_pkg types recv_buffers recv_ints i s)
      { entries := block, ct_entries := 0, first := fun _ => 0 } = s at i1 i2 i3 i4 ⊢
    unfold parseBody
    simp only []
    rw [hNk, i1]
    refine ⟨hsum.symm, ?_, ?_, ?_⟩
    · intro i hi
      rw [setAt_apply]
      by_cases hik : i = k
      · subst hik
        rw [if_pos rfl]
      · rw [if_neg (by omega)]
        exact i2 i (by omega)
    · intro i hi j hj
      rw [setEntries_spec]
      by_cases hik : i = k
      · subst hik
        rw [if_pos ⟨by omega, by omega⟩, i4 _ (Or.inr (by omega))]
        rw [show ((List.range i).map N).sum + (j : Int) - ((List.range i).map N).sum = j by ring]
      · have hle := prefix_sum_le N M hn i k (by omega) (by omega)
        rw [if_neg (by omega)]
        exact i3 i (by omega) j hj
    · intro a ha
      rw [setEntries_spec, if_neg (by omega)]
      exact i4 a (by omega)

/-- The recv CommTypes after the first-communication block of
hypre_FinalizeCommunication, for counts `n ≥ 0` in the prefixes: CommType `i`
reads its entries in one block, from the sum of the counts before it on; its
cells hold the entries of the boxes of its prefix; the block is as it was
before the block was filled outside the cells `0 .. sum of n - 1`. -/
theorem parsePrefixes_entries (comm_pkg : hypre_CommPkg) (recv_buffers : Int → Int)
    (recv_ints : Int → Int) (block : Int → hypre_CommEntryType)
    (hn : ∀ i : Nat, i < comm_pkg.num_recvs.toNat →
      0 ≤ prefixNumEntries recv_ints (intIndex (recv_buffers i))) :
    ∃ B : Int → hypre_CommEntryType,
      (∀ i : Nat, i < comm_pkg.num_recvs.toNat → ∀ k : Int,
        (parsePrefixes comm_pkg recv_buffers recv_ints block i).entries k
          = B (((List.range i).map (fun (k : Nat) => prefixNumEntries recv_ints (intIndex (recv_buffers k)))).sum + k))
      ∧ (∀ i : Nat, i < comm_pkg.num_recvs.toNat → ∀ j : Nat,
          (j : Int) < prefixNumEntries recv_ints (intIndex (recv_buffers i)) →
          B (((List.range i).map (fun (k : Nat) => prefixNumEntries recv_ints (intIndex (recv_buffers k)))).sum + j)
            = hypre_CommTypeSetEntry (prefixBoxes recv_ints (intIndex (recv_buffers i)) j)
                comm_pkg.recv_stride comm_pkg.identity_coord comm_pkg.identity_dir
                comm_pkg.identity_order
                (comm_pkg.recv_data_space.boxes
                  (prefixBoxnums recv_ints (intIndex (recv_buffers i)) j))
                (comm_pkg.recv_data_offsets
                  (prefixBoxnums recv_ints (intIndex (recv_buffers i)) j))
                (block (((List.range i).map (fun (k : Nat) => prefixNumEntries recv_ints (intIndex (recv_buffers k)))).sum + j)))
      ∧ ∀ a : Int, (a < 0 ∨ ((List.range comm_pkg.num_recvs.toNat).map (fun (k : Nat) => prefixNumEntries recv_ints (intIndex (recv_buffers k)))).sum ≤ a) → B a = block a := by
  have h1 := forLoop_pointwise
    (fun (i : Nat) (t : hypre_CommType) =>
      { t with num_entries := prefixNumEntries recv_ints (intIndex (recv_buffers i)) })
    comm_pkg.num_recvs.toNat comm_pkg.recv_types
  have hN : ∀ i : Nat, i < comm_pkg.num_recvs.toNat →
      ((forLoop comm_pkg.num_recvs.toNat
        (fun (i : Nat) (types : Int → hypre_CommType) =>
          setAt types i
            { types i with
              num_entries := prefixNumEntries recv_ints (intIndex (recv_buffers i)) })
        comm_pkg.recv_types) i).num_entries
        = prefixNumEntries recv_ints (intIndex (recv_buffers i)) := by
    intro i hi
    have h1i := h1 i
    rw [if_pos ⟨by omega, by omega⟩] at h1i
    rw [h1i]
    simp
  obtain ⟨-, p2, p3, p4⟩ := parseLoop_spec comm_pkg _ recv_buffers recv_ints block
    (fun (k : Nat) => prefixNumEntries recv_ints (intIndex (recv_buffers k))) comm_pkg.num_recvs.toNat hN hn
    comm_pkg.num_recvs.toNat (le_refl _)
  refine ⟨_, ?_, p3, p4⟩
  intro i hi k
  unfold parsePrefixes
  simp only []
  have h3 := fun (parsed : ParseState) (f0 : Int → hypre_CommType) =>
    forLoop_pointwise
      (fun (i : Nat) (t : hypre_CommType) =>
        { t with entries := fun k => parsed.entries (parsed.first i + k) })
      comm_pkg.num_recvs.toNat f0 i
  rw [h3, if_pos ⟨by omega, by omega⟩]
  simp only [Int.toNat_ofNat]
  rw [p2 i hi]

/-- C32: the receive entries are built with the identity transform. Take the
package of hypre_CommPkgCreate, its first hypre_InitializeCommunication and
the hypre_FinalizeCommunication on the handle, with counts `n ≥ 0` at the
start of the receive buffers. After the finalize recv CommType `i` has
`num_entries = n`, and entry `j < n` is
`hypre_CommTypeSetEntry(boxes[j], recv_stride, (0,1,2), (1,1,1), identity
order, recv_data_space[boxnums[j]], recv_data_offsets[boxnums[j]])` for the
boxnums and boxes of the prefix of buffer `i`, written over the cell of the
new block it lies in; the entries of the CommTypes are consecutive slices of
one block, CommType `i` starting at the sum of the counts before it, and the
block is written in the cells `0 .. sum of n - 1` only. After the
initialize `copy_to_type` has the `num_entries` of `copy_from_type` and its
entries are built in the same way from `rem_boxnums` and `rem_boxes` of
`copy_from_type`. -/
theorem recv_entries_identity {α : Type} [Zero α] [Add α] (I : hypre_CommInfo)
    (S R : hypre_BoxArray) (num_values : Int) (orders : Option (Int → Int → Int))
    (reverse comm my_proc : Int) (mem : CreateMemory) (send_data recv_data action tag : Int)
    (mem2 : InitializeMemory α) (heap : Int → α) (recv_buffer : Int → α)
    (recv_ints : Int → Int) (block : Int → hypre_CommEntryType) (heap2 : Int → α)
    (hn : ∀ i : Nat, (i : Int) < (hypre_CommPkgCreate I S R num_values orders reverse comm my_proc mem).num_recvs →
      0 ≤ prefixNumEntries recv_ints (intIndex ((hypre_InitializeCommunication (hypre_CommPkgCreate I S R num_values orders reverse comm my_proc mem) send_data recv_data action tag mem2 heap).comm_handle.recv_buffers i))) :
    (∀ i : Nat, (i : Int) < (hypre_CommPkgCreate I S R num_values orders reverse comm my_proc mem).num_recvs →
      ((hypre_FinalizeCommunication (hypre_InitializeCommunication (hypre_CommPkgCreate I S R num_values orders reverse comm my_proc mem) send_data recv_data action tag mem2 heap).comm_handle recv_buffer recv_ints block heap2).1.recv_types i).num_entries
        = prefixNumEntries recv_ints (intIndex ((hypre_InitializeCommunication (hypre_CommPkgCreate I S R num_values orders reverse comm my_proc mem) send_data recv_data action tag mem2 heap).comm_handle.recv_buffers i))
      ∧ ∀ j : Nat, (j : Int) < prefixNumEntries recv_ints (intIndex ((hypre_InitializeCommunication (hypre_CommPkgCreate I S R num_values orders reverse comm my_proc mem) send_data recv_data action tag mem2 heap).comm_handle.recv_buffers i)) →
          ((hypre_FinalizeCommunication (hypre_InitializeCommunication (hypre_CommPkgCreate I S R num_values orders reverse comm my_proc mem) send_data recv_data action tag mem2 heap).comm_handle recv_buffer recv_ints block heap2).1.recv_types i).entries j
            = hypre_CommTypeSetEntry (prefixBoxes recv_ints (intIndex ((hypre_InitializeCommunication (hypre_CommPkgCreate I S R num_values orders reverse comm my_proc mem) send_data recv_data action tag mem2 heap).comm_handle.recv_buffers i)) j)
                (hypre_CommPkgCreate I S R num_values orders reverse comm my_proc mem).recv_stride ⟨0, 1, 2⟩ ⟨1, 1, 1⟩ (identityOrder num_values)
                ((hypre_CommPkgCreate I S R num_values orders reverse comm my_proc mem).recv_data_space.boxes (prefixBoxnums recv_ints (intIndex ((hypre_InitializeCommunication (hypre_CommPkgCreate I S R num_values orders reverse comm my_proc mem) send_data recv_data action tag mem2 heap).comm_handle.recv_buffers i)) j))
                ((hypre_CommPkgCreate I S R num_values orders reverse comm my_proc mem).recv_data_offsets (prefixBoxnums recv_ints (intIndex ((hypre_InitializeCommunication (hypre_CommPkgCreate I S R num_values orders reverse comm my_proc mem) send_data recv_data action tag mem2 heap).comm_handle.recv_buffers i)) j))
                (block (((List.range i).map (fun (k : Nat) => prefixNumEntries recv_ints (intIndex ((hypre_InitializeCommunication (hypre_CommPkgCreate I S R num_values orders reverse comm my_proc mem) send_data recv_data action tag mem2 heap).comm_handle.recv_buffers k)))).sum + j)))
    ∧ (∃ B : Int → hypre_CommEntryType,
        (∀ i : Nat, (i : Int) < (hypre_CommPkgCreate I S R num_values orders reverse comm my_proc mem).num_recvs → ∀ k : Int,
          ((hypre_FinalizeCommunication (hypre_InitializeCommunication (hypre_CommPkgCreate I S R num_values orders reverse comm my_proc mem) send_data recv_data action tag mem2 heap).comm_handle recv_buffer recv_ints block heap2).1.recv_types i).entries k = B (((List.range i).map (fun (k : Nat) => prefixNumEntries recv_ints (intIndex ((hypre_InitializeCommunication (hypre_CommPkgCreate I S R num_values orders reverse comm my_proc mem) send_data recv_data action tag mem2 heap).comm_handle.recv_buffers k)))).sum + k))
        ∧ ∀ a : Int,
            (a < 0 ∨ ((List.range (hypre_CommPkgCreate I S R num_values orders reverse comm my_proc mem).num_recvs.toNat).map (fun (k : Nat) => prefixNumEntries recv_ints (intIndex ((hypre_InitializeCommunication (hypre_CommPkgCreate I S R num_values orders reverse comm my_proc mem) send_data recv_data action tag mem2 heap).comm_handle.recv_buffers k)))).sum ≤ a) → B a = block a)
    ∧ (hypre_InitializeCommunication (hypre_CommPkgCreate I S R num_values orders reverse comm my_proc mem) send_data recv_data action tag mem2 heap).comm_handle.comm_pkg.copy_to_type.num_entries
        = (hypre_CommPkgCreate I S R num_values orders reverse comm my_proc mem).copy_from_type.num_entries
    ∧ ∀ j : Nat, (j : Int) < (hypre_CommPkgCreate I S R num_values orders reverse comm my_proc mem).copy_from_type.num_entries →
        (hypre_InitializeCommunication (hypre_CommPkgCreate I S R num_values orders reverse comm my_proc mem) send_data recv_data action tag mem2 heap).comm_handle.comm_pkg.copy_to_type.entries j
          = hypre_CommTypeSetEntry ((hypre_CommPkgCreate I S R num_values orders reverse comm my_proc mem).copy_from_type.rem_boxes j)
              (hypre_CommPkgCreate I S R num_values orders reverse comm my_proc mem).recv_stride ⟨0, 1, 2⟩ ⟨1, 1, 1⟩ (identityOrder num_values)
              ((hypre_CommPkgCreate I S R num_values orders reverse comm my_proc mem).recv_data_space.boxes ((hypre_CommPkgCreate I S R num_values orders reverse comm my_proc mem).copy_from_type.rem_boxnums j))
              ((hypre_CommPkgCreate I S R num_values orders reverse comm my_proc mem).recv_data_offsets ((hypre_CommPkgCreate I S R num_values orders reverse comm my_proc mem).copy_from_type.rem_boxnums j))
              (mem2.to_entries j) := by
  have hfc : (hypre_CommPkgCreate I S R num_values orders reverse comm my_proc mem).first_comm = 1 := by rw [create_eq_build]; rfl
  have hic : (hypre_CommPkgCreate I S R num_values orders reverse comm my_proc mem).identity_coord = ⟨0, 1, 2⟩ := by rw [create_eq_build]; rfl
  have hid : (hypre_CommPkgCreate I S R num_values orders reverse comm my_proc mem).identity_dir = ⟨1, 1, 1⟩ := by rw [create_eq_build]; rfl
  have hio : (hypre_CommPkgCreate I S R num_values orders reverse comm my_proc mem).identity_order = identityOrder num_values := by rw [create_eq_build]; rfl
  generalize (hypre_CommPkgCreate I S R num_values orders reverse comm my_proc mem) = pkg at hn hfc hic hid hio ⊢
  have hfin : (hypre_FinalizeCommunication
      (hypre_InitializeCommunication pkg send_data recv_data action tag mem2 heap).comm_handle
      recv_buffer recv_ints block heap2).1.recv_types
      = parsePrefixes
          (hypre_InitializeCommunication pkg send_data recv_data action tag mem2
            heap).comm_handle.comm_pkg
          (hypre_InitializeCommunication pkg send_data recv_data action tag mem2
            heap).comm_handle.recv_buffers recv_ints block := by
    unfold hypre_FinalizeCommunication
    simp only []
    rw [if_pos (by
      show pkg.first_comm ≠ 0
      rw [hfc]
      decide)]
  have hnr : (hypre_InitializeCommunication pkg send_data recv_data action tag mem2
      heap).comm_handle.comm_pkg.num_recvs = pkg.num_recvs := rfl
  have hrs : (hypre_InitializeCommunication pkg send_data recv_data action tag mem2
      heap).comm_handle.comm_pkg.recv_stride = pkg.recv_stride := rfl
  have hc2 : (hypre_InitializeCommunication pkg send_data recv_data action tag mem2
      heap).comm_handle.comm_pkg.identity_coord = ⟨0, 1, 2⟩ := hic
  have hd2 : (hypre_InitializeCommunication pkg send_data recv_data action tag mem2
      heap).comm_handle.comm_pkg.identity_dir = ⟨1, 1, 1⟩ := hid
  have ho2 : (hypre_InitializeCommunication pkg send_data recv_data action tag mem2
      heap).comm_handle.comm_pkg.identity_order = identityOrder num_values := hio
  have hds : (hypre_InitializeCommunication pkg send_data recv_data action tag mem2
      heap).comm_handle.comm_pkg.recv_data_space = pkg.recv_data_space := rfl
  have hdo : (hypre_InitializeCommunication pkg send_data recv_data action tag mem2
      heap).comm_handle.comm_pkg.recv_data_offsets = pkg.recv_data_offsets := rfl
  obtain ⟨B, b1, b2, b3⟩ := parsePrefixes_entries
    (hypre_InitializeCommunication pkg send_data recv_data action tag mem2
      heap).comm_handle.comm_pkg
    (hypre_InitializeCommunication pkg send_data recv_data action tag mem2
      heap).comm_handle.recv_buffers recv_ints block
    (fun i hi => hn i (by rw [hnr] at hi; omega))
  rw [hnr] at b1 b2 b3
  rw [hrs, hc2, hd2, ho2, hds, hdo] at b2
  refine ⟨?_, ⟨B, ?_, b3⟩, ?_, ?_⟩
  · intro i hi
    rw [hfin]
    refine ⟨parsePrefixes_num_entries _ _ recv_ints block i (by rw [hnr]; omega), ?_⟩
    intro j hj
    rw [b1 i (by omega) j]
    exact b2 i (by omega) j hj
  · intro i hi k
    rw [hfin]
    exact b1 i (by omega) k
  · unfold hypre_InitializeCommunication
    simp only []
    rw [if_pos (by rw [hfc]; decide)]
  · intro j hj
    unfold hypre_InitializeCommunication
    simp only []
    rw [if_pos (by rw [hfc]; decide)]
    simp only []
    rw [setEntries_spec, if_pos ⟨by omega, by omega⟩, hic, hid, hio]
    simp

theorem recv_entries_identity_witness :
    (((hypre_FinalizeCommunication
        (hypre_InitializeCommunication samplePkg 0 100 0 7 sampleInitMemory
          (fun a => a)).comm_handle
        sampleRecvBuffer sampleRecvInts (fun _ => zeroEntry) (fun a => a)).1.recv_types
          (0 : Nat)).num_entries = 1)
    ∧ (hypre_InitializeCommunication samplePkg 0 100 0 7 sampleInitMemory
        (fun a => a)).comm_handle.comm_pkg.copy_to_type.num_entries
      = samplePkg.copy_from_type.num_entries := by
  have hnr : samplePkg.num_recvs = 1 := by decide
  have h := @recv_entries_identity Int _ _ sampleInfo sampleSpace sampleSpace 1 none 0 0 0
    sampleMemory 0 100 0 7 sampleInitMemory (fun a => a) sampleRecvBuffer sampleRecvInts
    (fun _ => zeroEntry) (fun a => a)
    (fun i hi => by
      have hi2 : (i : Int) < samplePkg.num_recvs := hi
      rw [hnr] at hi2
      have hi0 : i = 0 := by omega
      subst hi0
      decide)
  exact ⟨(h.1 0 (by decide)).1.trans (by decide), h.2.2.1⟩

end Hypre
